import Mathlib

/-!
# ipled: verification of the node firmware core

A shallow embedding of parts of the ipled firmware (`src/src/*.c`), of the
host side TPZ encoder (`src/nodes/frame.cpp`, `src/lichter/dialog.cpp`) and of
the task queue of the coordinator dialog (`src/nodes/dialog.cpp`), followed by
theorems about them.

Conventions of the embedding:

* machine integers are `Nat` (or `Int` for signed values); where the C type
  can wrap the reduction `% 2 ^ w` is written out;
* the shared working buffer `buffer[]` is a function `Nat → Nat` from byte
  offsets (relative to `&buffer[0]`) to byte values; an offset `≥ MAXBUFF` is
  memory behind the array, so an out-of-bounds write is visible as a change of
  the function at such an offset;
* the header `buffer.h` with the constants `MAXBUFF` and `MAXDMX` is not among
  the sources, therefore the two constants are parameters of the definitions;
* in the TPM2 decoder and the packet handler the millisecond timer is not
  modelled: the result of `tot_expired` is an input of the function that calls
  it; the timeout service itself is embedded with the counter as a value;
* the configuration parser and the scene engine share one state `World`. Its
  fields `calls`, `undefined` and `cut` are not variables of the program: they
  record the calls into other modules, that an operation with undefined
  behaviour was reached (a signed overflow, a division by zero), and that a
  loop of the model ran out of its recursion bound;
* the FatFs library (`ff/ff.h`) and `version.h` are not among the sources: the
  index file is a list of bytes with a read pointer, and the version numbers
  are inputs;
* the radio driver is embedded as the list of register writes a function
  makes; the coordinator dialog is embedded as a state with one step per
  timer or port event, without the widgets and the texts of the requests;
* what the parser leaves alone is stated with relations between the state
  before and after a function (`Closed`): a lemma proved once for every such
  relation gives each particular frame.
-/

namespace Ipled

/-! ## Shared helpers -/

/-- Writing one byte: `buf[i] = v`. -/
def store (buf : Nat → Nat) (i v : Nat) : Nat → Nat :=
  fun j => if j = i then v else buf j

/-- The byte `a[k]` of a byte string (`0` behind its end). -/
def nth (a : List Nat) (k : Nat) : Nat := a.getD k 0

/-! ## TPM2 decoder, `src/src/tpm2.c` -/

/-- The anonymous `enum` of decoder states. -/
inductive tp2_state
  | detect_state
  | start_state
  | type_state
  | length0_state
  | length1_state
  | data_state
  | repeat_state
  | skip_state
  | end_state
  deriving DecidableEq, Repr

open tp2_state

/-- The file-scope variables of `tpm2.c` together with the working buffer.
`repeat_flag` is the function-static `repeat` of `digest`. The two timeout
variables are left out (see the module comment). -/
structure Tpm2 where
  length : Nat
  index : Nat
  ch0 : Nat
  ch1 : Nat
  state : tp2_state
  trip : Bool
  trap : Bool
  shift : Nat
  repeat_flag : Bool
  buffer : Nat → Nat

def TPM2_SER_BLOCK_START_BYTE : Nat := 0xC9
def TPM2_BLOCK_TYPE_DATA : Nat := 0xDA
def TPM2_BLOCK_TYPE_ZDATA : Nat := 0xCA
def TPM2_BLOCK_END_BYTE : Nat := 0x36
def SHIFT_THRESHOLD : Nat := 16

/-- The macro `TPM2_MAGIC(type)`. -/
def TPM2_MAGIC (type : Nat) : Nat :=
  (TPM2_BLOCK_END_BYTE <<< 16) ||| (TPM2_SER_BLOCK_START_BYTE <<< 8) ||| (type <<< 0)

/-- Modelled from the spec: the value of the status register `USART1->SR` that
the interrupt handler passes to a receive hook. The vendor header with the
masks `USART_SR_FE`, `USART_SR_NE` and `USART_SR_RXNE` is not among the
sources, so the three flags the hooks test are fields: framing error ("framing
errors on the UART reset to `DETECT`"), noise error, receive register not
empty. -/
structure usart_sr where
  FE : Bool
  NE : Bool
  RXNE : Bool
  deriving DecidableEq, Repr

/-- Pre-decrement of a `uint16_t`. -/
def dec16 (x : Nat) : Nat := (x + 65535) % 65536

/-- The copy loop of `unroll`: `k` iterations of `*q++ = *p++`. -/
def unroll_loop : Nat → (Nat → Nat) → Nat → Nat → (Nat → Nat)
  | 0, buf, _, _ => buf
  | k + 1, buf, p, q => unroll_loop k (store buf q (buf p)) (p + 1) (q + 1)

/-- The function `unroll(n)`: `p = &buffer[index - 3]`, `q = &buffer[index]`,
`qd = &buffer[index = n]`, then `while (q < qd) *q++ = *p++`, which runs
`n - index` times (not at all when `n ≤ index`). -/
def unroll (s : Tpm2) (n : Nat) : Tpm2 :=
  { s with
    index := n
    buffer := unroll_loop (n - s.index) s.buffer (s.index - 3) s.index }

/-- The function `digest(ch)`; the second component is its return value. -/
def digest (MAXBUFF : Nat) (s : Tpm2) (ch : Nat) : Tpm2 × Bool :=
  let ch0 := ((s.ch0 <<< 8) ||| ch) % 2 ^ 32
  let ch1 := ((s.ch1 <<< 8) ||| (ch0 >>> (3 * 8))) % 2 ^ 32
  let s := { s with ch0 := ch0, ch1 := ch1 }
  match s.state with
  | detect_state | start_state =>
    if ch = TPM2_SER_BLOCK_START_BYTE then
      ({ s with state := type_state }, false)
    else
      (s, false)
  | type_state =>
    if ch = TPM2_BLOCK_TYPE_ZDATA then
      ({ s with state := length0_state, repeat_flag := true }, false)
    else if ch = TPM2_BLOCK_TYPE_DATA then
      ({ s with state := length0_state, repeat_flag := false }, false)
    else
      ({ s with state := start_state, repeat_flag := false }, false)
  | length0_state => ({ s with state := length1_state }, false)
  | length1_state =>
    let s := { s with index := 0, length := ch0 &&& 0xFFFF }
    if s.length = 0 then
      ({ s with state := end_state }, false)
    else if s.trip || decide (s.index ≥ MAXBUFF) then
      ({ s with state := skip_state }, false)
    else
      ({ s with state := data_state }, false)
  | skip_state =>
    let s := { s with length := dec16 s.length }
    if s.length = 0 then
      ({ s with state := end_state }, false)
    else
      (s, false)
  | data_state =>
    let s := { s with
      buffer := store s.buffer s.index (ch0 &&& 0xFF)
      index := (s.index + 1) % 65536
      length := dec16 s.length }
    if s.length = 0 then
      ({ s with state := end_state, trip := true }, false)
    else if s.index ≥ MAXBUFF then
      ({ s with state := skip_state, trip := true }, false)
    else if s.repeat_flag then
      if s.index ≥ 6 ∧ (ch0 &&& 0xFFFFFF) = (ch1 &&& 0xFFFFFF) then
        ({ s with state := repeat_state }, false)
      else
        (s, false)
    else
      (s, false)
  | repeat_state =>
    let n := (s.index + (ch0 &&& 0xFF) * 3) % 65536
    let st := if n ≥ MAXBUFF then skip_state else data_state
    let n := if n ≥ MAXBUFF then MAXBUFF else n
    let s := { s with state := st, ch0 := ch0 >>> 8, ch1 := ch0 >>> 8, length := dec16 s.length }
    let s := if s.length = 0 then { s with state := end_state } else s
    let s := unroll s n
    if s.state ≠ data_state then
      ({ s with trip := true }, false)
    else
      (s, false)
  | end_state =>
    let s := { s with state := start_state }
    if ch = TPM2_BLOCK_END_BYTE then
      ({ s with trap := true }, true)
    else
      (s, false)

/-- The function `digester(status, ch)`, the receive hook of the serial port.
`expired` is the value of `tot_expired(ftimeout)` at the call. -/
def digester (MAXBUFF : Nat) (s : Tpm2) (status : usart_sr) (ch : Nat) (expired : Bool) :
    Tpm2 :=
  if status.FE || status.NE then
    { s with
      length := 0
      state := detect_state
      shift := if s.shift < SHIFT_THRESHOLD then s.shift + 1 else s.shift }
  else if s.state = detect_state then
    let ch0 := ((s.ch0 <<< 8) ||| ch) % 2 ^ 32
    let s := { s with ch0 := ch0 }
    let magic := ch0 &&& 0xFFFFFF
    if magic = TPM2_MAGIC TPM2_BLOCK_TYPE_DATA ∨ magic = TPM2_MAGIC TPM2_BLOCK_TYPE_ZDATA then
      let s := { s with length := (s.length + 1) % 65536 }
      if s.length = 5 then
        { s with state := length0_state, trip := false, trap := false }
      else
        s
    else
      s
  else
    let s := if expired then { s with state := start_state } else s
    if status.RXNE then
      (digest MAXBUFF s ch).1
    else
      s

/-- The function `tp2_trip()`. -/
def tp2_trip (s : Tpm2) : Bool := s.trip

/-- The function `tp2_clear()`. -/
def tp2_clear (s : Tpm2) : Tpm2 := { s with trip := false }

/-- The function `tp2_reset()`. -/
def tp2_reset (s : Tpm2) : Tpm2 :=
  { s with ch0 := 0, ch1 := 0, trip := false, trap := false, shift := 0, state := detect_state }

/-- The function `tp2_digest(data, n)`: the state afterwards and the returned
number of consumed bytes `p - data`. -/
def tp2_digest (MAXBUFF : Nat) : Tpm2 → List Nat → Tpm2 × Nat
  | s, [] => (s, 0)
  | s, ch :: rest =>
    if (digest MAXBUFF s ch).2 then
      ((digest MAXBUFF s ch).1, 1)
    else
      ((tp2_digest MAXBUFF (digest MAXBUFF s ch).1 rest).1,
        (tp2_digest MAXBUFF (digest MAXBUFF s ch).1 rest).2 + 1)

/-- What the serial side of the decoder can receive: a byte handed to
`digest` (through `tp2_digest`), or an interrupt delivered to `digester`. -/
inductive tp2_event
  | byte (ch : Nat)
  | serial (status : usart_sr) (ch : Nat) (expired : Bool)

/-- One event applied to the decoder. -/
def tp2_step (MAXBUFF : Nat) (s : Tpm2) : tp2_event → Tpm2
  | .byte ch => (digest MAXBUFF s ch).1
  | .serial status ch expired => digester MAXBUFF s status ch expired

/-- A sequence of events applied in order. -/
def tp2_run (MAXBUFF : Nat) (s : Tpm2) (evs : List tp2_event) : Tpm2 :=
  evs.foldl (tp2_step MAXBUFF) s

/-- The decoder state after `digest` has consumed the bytes `w`. -/
def feed (MAXBUFF : Nat) (s : Tpm2) (w : List Nat) : Tpm2 :=
  w.foldl (fun t ch => (digest MAXBUFF t ch).1) s

/-- A decoder that waits for a block start: `digest` treats `detect_state`
(the state after `tp2_reset`) like `start_state`. -/
def waiting (s : Tpm2) : Prop := s.state = start_state ∨ s.state = detect_state

/-- Some decoder state right after `tp2_reset()` with a zeroed buffer. -/
def tp2_init : Tpm2 :=
  { length := 0, index := 0, ch0 := 0, ch1 := 0, state := detect_state,
    trip := false, trap := false, shift := 0, repeat_flag := false,
    buffer := fun _ => 0 }

/-! ## TPZ encoder, `src/nodes/frame.cpp` (`compress`) and `src/lichter/dialog.cpp` (`compr`)

The two functions are the same text, so one embedding serves both. -/

/-- The call `a.mid(pos, len)` of `QByteArray`: at most `len` bytes from
position `pos` on. -/
def mid (a : List Nat) (pos len : Nat) : List Nat := (a.drop pos).take len

/-- The inner loop of `compress`,
`while (j < a.length()) { if (a.mid(i - 3, 3) != a.mid(j - 3, 3)) break;
j += 3; n++; if (n == 250) break; }`, returning the final `(j, n)`. The loop
body runs at most 250 times, which is the fuel the caller passes. -/
def compress_run (a : List Nat) (i : Nat) : Nat → Nat → Nat → Nat × Nat
  | 0, j, n => (j, n)
  | fuel + 1, j, n =>
    if j < a.length then
      if mid a (i - 3) 3 ≠ mid a (j - 3) 3 then
        (j, n)
      else if n + 1 = 250 then
        (j + 3, n + 1)
      else
        compress_run a i fuel (j + 3) (n + 1)
    else
      (j, n)

/-- The outer loop of `compress`, `while (i < a.count()) { ... }`, with the
bytes written to the stream so far in `out`. Every pass advances `i`, so
`a.length - i` passes are enough. -/
def compress_loop (a : List Nat) : Nat → Nat → List Nat → List Nat
  | 0, _, out => out
  | fuel + 1, i, out =>
    if i < a.length then
      let out := out ++ [nth a i]
      let i := i + 1
      if i < 6 then
        compress_loop a fuel i out
      else if mid a (i - 6) 3 = mid a (i - 3) 3 then
        let jn := compress_run a i 250 (i + 3) 0
        compress_loop a fuel (jn.1 - 3) (out ++ [jn.2])
      else
        compress_loop a fuel i out
    else
      out

/-- The function `compress(a)` (and `compr(a)`). -/
def compress (a : List Nat) : List Nat := compress_loop a a.length 0 []

/-- The function `envelope(tag, raw)` of `frame.cpp`. -/
def envelope (tag : Nat) (raw : List Nat) : List Nat :=
  [0xC9, tag, ((raw.length % 65536) >>> 8) % 256, ((raw.length % 65536) >>> 0) % 256]
    ++ raw ++ [0x36]

/-! ## Run-length expansion as the specification words it

"After writing each byte, if the last six bytes satisfy `B[-6..-3] == B[-3..0]`,
the next byte `n` is the repeat count: copy the last three bytes `n` more
times, then resume." -/

/-- The last three bytes written. -/
def last3 (out : List Nat) : List Nat := out.drop (out.length - 3)

/-- The three bytes before the last three. -/
def prev3 (out : List Nat) : List Nat := (out.drop (out.length - 6)).take 3

/-- The list `t` repeated `n` times. -/
def rep3 : Nat → List Nat → List Nat
  | 0, _ => []
  | n + 1, t => t ++ rep3 n t

/-- State of the specification level expander: the bytes written and whether the
next payload byte is a repeat count. -/
structure Rle where
  out : List Nat
  count : Bool

/-- One payload byte of a block; `z` tells whether the block is run-length
coded (type `CA`) or raw (type `DA`). -/
def rle_step (z : Bool) (r : Rle) (b : Nat) : Rle :=
  if r.count then
    { out := r.out ++ rep3 b (last3 r.out), count := false }
  else
    { out := r.out ++ [b],
      count := z && decide (6 ≤ (r.out ++ [b]).length)
        && decide (last3 (r.out ++ [b]) = prev3 (r.out ++ [b])) }

/-- The whole payload expanded. -/
def rle_run (z : Bool) (r : Rle) (p : List Nat) : Rle := p.foldl (rle_step z) r

/-- The expansion of a block payload. -/
def tpz_expand (z : Bool) (p : List Nat) : List Nat := (rle_run z ⟨[], false⟩ p).out

/-! ## DMX receiver, `src/src/dmx.c` -/

namespace dmx

/-- The file-scope variables of `dmx.c` together with the working buffer (the
timeout variable is left out). -/
structure Dmx where
  index : Nat
  trip : Bool
  trap : Bool
  buffer : Nat → Nat

def DMX_START : Nat := 0x00

/-- The call `memcpy(&buf[dst], &buf[src], n)` for regions that do not overlap. -/
def memcpy (buf : Nat → Nat) (dst src n : Nat) : Nat → Nat :=
  fun j => if dst ≤ j ∧ j < dst + n then buf (src + (j - dst)) else buf j

/-- The function `digester(status, ch)` of `dmx.c`. -/
def digester (MAXDMX : Nat) (s : Dmx) (status : usart_sr) (ch : Nat) : Dmx :=
  if status.FE || status.NE then
    { s with index := 0 }
  else if s.index = 0 then
    if ch = DMX_START then
      let s := { s with trap := true }
      if !s.trip then
        { s with buffer := memcpy s.buffer 0 MAXDMX MAXDMX, trip := true }
      else
        s
    else
      { s with index := MAXDMX }
  else if s.index < MAXDMX then
    { s with buffer := store s.buffer (MAXDMX + s.index) ch }
  else
    s

/-- The function `dmx_trip()`. -/
def dmx_trip (s : Dmx) : Bool := s.trip

/-- The function `dmx_clear()`. -/
def dmx_clear (s : Dmx) : Dmx := { s with trip := false }

/-- The function `dmx_enable(enable)` as far as the variables go. -/
def dmx_enable (MAXDMX : Nat) (s : Dmx) : Dmx :=
  { s with trip := false, trap := false, index := MAXDMX }

/-- A sequence of interrupts `(status, ch)` delivered to the hook. -/
def run (MAXDMX : Nat) (s : Dmx) (evs : List (usart_sr × Nat)) : Dmx :=
  evs.foldl (fun t e => digester MAXDMX t e.1 e.2) s

end dmx

/-! ## Pixel engine, `src/src/leds.c` -/

/-- Maximum number of LEDs per string (`leds.h`, release build). -/
def MAXLEDS : Nat := 500

def MAP_STATIC_RED : Nat := 0x01
def MAP_STATIC_GREEN : Nat := 0x02
def MAP_STATIC_BLUE : Nat := 0x04
def MAP_CMY : Nat := 0x80

/-- One colour channel of `struct led_map_t` (the anonymous inner `struct`);
`end_` is the member `end`. -/
structure led_chan_t where
  begin : Nat
  end_ : Nat
  step : Int
  value : Nat

/-- The type `struct led_map_t`; `end_` is the member `end`. -/
structure led_map_t where
  string : Nat
  begin : Nat
  end_ : Nat
  step : Int
  red : led_chan_t
  green : led_chan_t
  blue : led_chan_t
  flags : Nat

/-- The macro `TRANSPOSE(x, srcbit, dstbyte)`. -/
def TRANSPOSE (x srcbit dstbyte : Nat) : Nat :=
  ((x >>> srcbit) &&& 1) <<< (dstbyte * 8)

/-- Four bytes of `bits` read through the `uint32_t` alias (little endian). -/
def rd32 (bits : Nat → Nat) (a : Nat) : Nat :=
  bits a ||| (bits (a + 1) <<< 8) ||| (bits (a + 2) <<< 16) ||| (bits (a + 3) <<< 24)

/-- Four bytes of `bits` written through the `uint32_t` alias. -/
def wr32 (bits : Nat → Nat) (a v : Nat) : Nat → Nat :=
  fun j =>
    if j = a then v % 256
    else if j = a + 1 then (v >>> 8) % 256
    else if j = a + 2 then (v >>> 16) % 256
    else if j = a + 3 then (v >>> 24) % 256
    else bits j

/-- One step of `transpose`: `*alias &= ~mask; *alias++ |= (TRANSPOSE(triplet,
hi, 0) | TRANSPOSE(triplet, hi - 1, 1) | TRANSPOSE(triplet, hi - 2, 2) |
TRANSPOSE(triplet, hi - 3, 3)) << port;` with `alias` at byte offset `a`. -/
def transpose_word (bits : Nat → Nat) (a mask port triplet hi : Nat) : Nat → Nat :=
  let v := rd32 bits a &&& (0xFFFFFFFF ^^^ mask)
  let v := v ||| ((TRANSPOSE triplet hi 0 ||| TRANSPOSE triplet (hi - 1) 1 |||
    TRANSPOSE triplet (hi - 2) 2 ||| TRANSPOSE triplet (hi - 3) 3) <<< port) % 2 ^ 32
  wr32 bits a v

/-- The function `transpose(offset, string, triplet)`. -/
def transpose (bits : Nat → Nat) (offset string triplet : Nat) : Nat → Nat :=
  let port := (2 + string) % 256
  let mask := (0x01010101 <<< port) % 2 ^ 32
  let a := offset * 3 * 8
  let bits := transpose_word bits a mask port triplet 23
  let bits := transpose_word bits (a + 4) mask port triplet 19
  let bits := transpose_word bits (a + 8) mask port triplet 15
  let bits := transpose_word bits (a + 12) mask port triplet 11
  let bits := transpose_word bits (a + 16) mask port triplet 7
  transpose_word bits (a + 20) mask port triplet 3

/-- The expression `(((uint16_t) c + (c > 0)) * s) >> 8` that `scale` applies to
each channel. -/
def scale_channel (c s : Nat) : Nat := ((c + (if c > 0 then 1 else 0)) * s) >>> 8

/-- The function `scale(red, green, blue)` with the dim triplet
`(sred, sgreen, sblue)` it reads. -/
def scale (sred sgreen sblue red green blue : Nat) : Nat :=
  let r := scale_channel red sred
  let g := scale_channel green sgreen
  let b := scale_channel blue sblue
  0xFFFFFFFF ^^^ ((g <<< (2 * 8)) ||| (r <<< (1 * 8)) ||| (b <<< (0 * 8)))

/-- The variables of `leds.c` that the pixel writers use. -/
structure Leds where
  bits : Nat → Nat
  sred : Nat
  sgreen : Nat
  sblue : Nat

/-- The function `led_rgb(offset, string, red, green, blue)`. -/
def led_rgb (l : Leds) (offset string red green blue : Nat) : Leds :=
  let string := if string > 5 then 5 else string
  let offset := if offset ≥ MAXLEDS then MAXLEDS - 1 else offset
  let triplet := scale l.sred l.sgreen l.sblue red green blue
  { l with bits := transpose l.bits offset string triplet }

/-- The function `led_cmy(offset, string, cyan, magenta, yellow)`; `~x` of a
byte, passed as a byte, is `255 - x`. -/
def led_cmy (l : Leds) (offset string cyan magenta yellow : Nat) : Leds :=
  let string := if string > 5 then 5 else string
  let offset := if offset ≥ MAXLEDS then MAXLEDS - 1 else offset
  let triplet := scale l.sred l.sgreen l.sblue (255 - cyan) (255 - magenta) (255 - yellow)
  { l with bits := transpose l.bits offset string triplet }

/-- The function `led_dim(red, green, blue)`. -/
def led_dim (l : Leds) (red green blue : Nat) : Leds :=
  { l with sred := red, sgreen := green, sblue := blue }

/-- The bit-time sample number `k` of the output line of `string` within the
24 samples of LED `offset`: bit `2 + string` of `bits[24 * offset + k]`. -/
def sample (bits : Nat → Nat) (offset string k : Nat) : Bool :=
  (bits (offset * 3 * 8 + k)).testBit (2 + string)

/-- A source pointer of `map2`: the null pointer, a pointer `off` bytes from
the local copy of a literal, or a pointer `off` bytes from `&buf[0]`. -/
inductive srcptr
  | null
  | lit (off : Int)
  | buf (off : Int)
  deriving DecidableEq, Repr

/-- Pointer arithmetic `p += step`. -/
def srcptr.add : srcptr → Int → srcptr
  | .null, _ => .null
  | .lit off, d => .lit (off + d)
  | .buf off, d => .buf (off + d)

/-- The value `*p`, where `value` is the literal; `none` when the pointer is
outside the object it was derived from. -/
def srcptr.deref (MAXBUFF : Nat) (value : Nat) (buf : Nat → Nat) : srcptr → Option Nat
  | .null => none
  | .lit off => if off = 0 then some value else none
  | .buf off => if 0 ≤ off ∧ off < MAXBUFF then some (buf off.toNat) else none

/-- A memory access of `map2`, for the record of what it touched. -/
inductive access
  | read (p : srcptr)
  | write (led string : Nat)
  deriving DecidableEq, Repr

/-- How a run of `map2` ended: the loop was left, a source pointer outside
its object was dereferenced, or the fuel of the model ran out. -/
inductive map2_status
  | done
  | fault
  | fuel
  deriving DecidableEq, Repr

/-- The outcome of `map2`: the bit buffer, the accesses in order, the status. -/
structure map2_result where
  bits : Nat → Nat
  log : List access
  status : map2_status

/-- The begin pointer of a channel: `&r` when the channel is static, else
`&buf[begin]`. -/
def chan_begin (flags flag : Nat) (c : led_chan_t) : srcptr :=
  if flags &&& flag ≠ 0 then .lit 0 else .buf c.begin

/-- The end pointer of a channel: `0` when the channel is static, else
`&buf[end]`. -/
def chan_end (flags flag : Nat) (c : led_chan_t) : srcptr :=
  if flags &&& flag ≠ 0 then .null else .buf c.end_

/-- The step `if (p == e) p = b; else p += step;`. -/
def chan_next (p b e : srcptr) (step : Int) : srcptr :=
  if p = e then b else p.add step

/-- The `for` loop of `map2`, entered at the test `i < MAXLEDS`. -/
def map2_loop (MAXBUFF : Nat) (l : Leds) (map : led_map_t) (buf : Nat → Nat) :
    Nat → Nat → srcptr → srcptr → srcptr → (Nat → Nat) → List access → map2_result
  | 0, _, _, _, _, bits, log => ⟨bits, log, .fuel⟩
  | fuel + 1, i, pr, pg, pb, bits, log =>
    if i < MAXLEDS then
      let log := log ++ [.read pr, .read pg, .read pb]
      match pr.deref MAXBUFF map.red.value buf, pg.deref MAXBUFF map.green.value buf,
        pb.deref MAXBUFF map.blue.value buf with
      | some r, some g, some b =>
        let triplet :=
          if map.flags &&& MAP_CMY ≠ 0 then
            scale l.sred l.sgreen l.sblue (255 - r) (255 - g) (255 - b)
          else
            scale l.sred l.sgreen l.sblue r g b
        let bits := transpose bits i map.string triplet
        let log := log ++ [.write i map.string]
        if i = map.end_ then
          ⟨bits, log, .done⟩
        else
          map2_loop MAXBUFF l map buf fuel (((i : Int) + map.step) % 65536).toNat
            (chan_next pr (chan_begin map.flags MAP_STATIC_RED map.red)
              (chan_end map.flags MAP_STATIC_RED map.red) map.red.step)
            (chan_next pg (chan_begin map.flags MAP_STATIC_GREEN map.green)
              (chan_end map.flags MAP_STATIC_GREEN map.green) map.green.step)
            (chan_next pb (chan_begin map.flags MAP_STATIC_BLUE map.blue)
              (chan_end map.flags MAP_STATIC_BLUE map.blue) map.blue.step)
            bits log
      | _, _, _ => ⟨bits, log, .fault⟩
    else
      ⟨bits, log, .done⟩

/-- The function `map2(map, buf)`, run for at most `fuel` passes of its loop. -/
def map2 (MAXBUFF : Nat) (l : Leds) (map : led_map_t) (buf : Nat → Nat) (fuel : Nat) :
    map2_result :=
  let map := if map.string > 5 then { map with string := 5 } else map
  let map := if map.begin ≥ MAXLEDS then { map with begin := MAXLEDS - 1 } else map
  map2_loop MAXBUFF l map buf fuel map.begin
    (chan_begin map.flags MAP_STATIC_RED map.red)
    (chan_begin map.flags MAP_STATIC_GREEN map.green)
    (chan_begin map.flags MAP_STATIC_BLUE map.blue)
    l.bits []

/-- The function `led_map(map)`: `map2(map, buffer)`. -/
def led_map (MAXBUFF : Nat) (l : Leds) (map : led_map_t) (buffer : Nat → Nat) (fuel : Nat) :
    map2_result :=
  map2 MAXBUFF l map buffer fuel

/-! ## Proof vocabulary for the TPM2 decoder -/

/-- The shift register `ch0` of `digest` after the byte `ch`. -/
def sh0 (s : Tpm2) (ch : Nat) : Nat := (s.ch0 * 256 + ch) % 4294967296

/-- The shift register `ch1` of `digest` after the byte `ch`. -/
def sh1 (s : Tpm2) (ch : Nat) : Nat := (s.ch1 * 256 + sh0 s ch / 16777216) % 4294967296

/-- The shift registers agree with the last bytes stored: the three low bytes
of `ch0` are `f (n - 1)`, `f (n - 2)`, `f (n - 3)` and the three low bytes of
`ch1` are `f (n - 4)`, `f (n - 5)`, `f (n - 6)`, as far as `n` bytes are stored. -/
def Coh (ch0 ch1 : Nat) (f : Nat → Nat) (n : Nat) : Prop :=
  (1 ≤ n → ch0 % 256 = f (n - 1)) ∧ (2 ≤ n → ch0 / 256 % 256 = f (n - 2)) ∧
  (3 ≤ n → ch0 / 65536 % 256 = f (n - 3)) ∧ (4 ≤ n → ch1 % 256 = f (n - 4)) ∧
  (5 ≤ n → ch1 / 256 % 256 = f (n - 5)) ∧ (6 ≤ n → ch1 / 65536 % 256 = f (n - 6))

/-- At least six bytes are stored and the last three equal the three before. -/
def Per (f : Nat → Nat) (n : Nat) : Prop :=
  6 ≤ n ∧ f (n - 1) = f (n - 4) ∧ f (n - 2) = f (n - 5) ∧ f (n - 3) = f (n - 6)

/-- Invariant of the decoder while it stores a payload. -/
def Inv (M : Nat) (s : Tpm2) : Prop :=
  (s.state = data_state →
    s.index < M ∧ 1 ≤ s.length ∧ s.length < 65536 ∧ Coh s.ch0 s.ch1 s.buffer s.index) ∧
  (s.state = repeat_state →
    s.index < M ∧ 1 ≤ s.length ∧ s.length < 65536 ∧ Coh s.ch0 s.ch1 s.buffer s.index ∧
      Per s.buffer s.index ∧ s.repeat_flag = true)

/-- The decoder never returns `true` while it consumes `w`: it is not in
`end_state` before any of these bytes. -/
def quiet (M : Nat) : Tpm2 → List Nat → Prop
  | _, [] => True
  | s, ch :: w => s.state ≠ end_state ∧ quiet M (digest M s ch).1 w

/-- The decoder stores the payload of a block and agrees with the expander
`r`; `rem` payload bytes are still to come. -/
def Active (M : Nat) (z : Bool) (s : Tpm2) (r : Rle) (rem : Nat) : Prop :=
  s.repeat_flag = z ∧ s.trip = false ∧ s.length = rem ∧ 1 ≤ rem ∧ rem < 65536 ∧
  s.index = r.out.length ∧ r.out.length < M ∧
  (∀ k, k < r.out.length → s.buffer k = nth r.out k) ∧
  s.state = (if r.count then repeat_state else data_state) ∧
  Coh s.ch0 s.ch1 s.buffer s.index ∧
  (r.count = true → z = true ∧ Per s.buffer s.index)

/-- The decoder has raised `trip` for this block: it skips what is left of the
block (or stands at its end) and the buffer holds a prefix of the expansion. -/
def Frozen (M : Nat) (s : Tpm2) (r : Rle) (rem : Nat) : Prop :=
  s.trip = true ∧ s.length = rem ∧ rem < 65536 ∧
  s.state = (if rem = 0 then end_state else skip_state) ∧
  s.index = min M r.out.length ∧
  (∀ k, k < M → k < r.out.length → s.buffer k = nth r.out k) ∧
  (rem ≠ 0 → M ≤ r.out.length)

/-- The simulation between the decoder inside a block and the expander. -/
def Sim (M : Nat) (z : Bool) (s : Tpm2) (r : Rle) (rem : Nat) : Prop :=
  Active M z s r rem ∨ Frozen M s r rem


/-- The write index is inside the buffer whenever the decoder is about to
store: `digest` writes `buffer[index]` in `data_state` and unrolls from
`buffer[index]` on in `repeat_state`. -/
def InB (M : Nat) (s : Tpm2) : Prop :=
  (s.state = data_state ∨ s.state = repeat_state) → s.index < M

/-- With `trip` set the decoder is in none of the two storing states. -/
def TripInv (s : Tpm2) : Prop :=
  s.trip = true → s.state ≠ data_state ∧ s.state ≠ repeat_state

/-- The decoder states reached from `tp2_reset()` (which `tp2_enable`,
`tp2_prepare` and the callers of `tp2_digest` call first) by received input and
calls of `tp2_clear()` in any order. -/
inductive Reachable (M : Nat) : Tpm2 → Prop
  | reset (s : Tpm2) : Reachable M (tp2_reset s)
  | step (s : Tpm2) (e : tp2_event) : Reachable M s → Reachable M (tp2_step M s e)
  | clear (s : Tpm2) : Reachable M s → Reachable M (tp2_clear s)

/-- The serial input used against C4: lock on five block starts, a block
`00 01 55 36`, then a framing error, five block starts again and the start of a
block `00 01 77`. -/
def relock_input : List tp2_event × List tp2_event :=
  let rx := fun ch => tp2_event.serial ⟨false, false, true⟩ ch false
  let sync := [rx 0x36, rx 0xC9, rx 0xDA]
  (sync ++ sync ++ sync ++ sync ++ sync ++ [rx 0x00, rx 0x01, rx 0x55, rx 0x36],
   [tp2_event.serial ⟨true, false, false⟩ 0 false] ++ sync ++ sync ++ sync ++ sync ++ sync
     ++ [rx 0x00, rx 0x01, rx 0x77])



/-- Invariant of the inner loop of `compress`: `n` further copies of the
triplet have been found behind position `i`. -/
def RunInv (a : List Nat) (i j n : Nat) : Prop :=
  j = i + 3 + 3 * n ∧ n ≤ 250 ∧ i + 3 * n ≤ a.length ∧
    a.take (i + 3 * n) = a.take i ++ rep3 n (mid a (i - 3) 3)


/-! ## Map evaluation as the specification words it -/

/-- The value `(end - begin) / step` of a range, the number of steps from its
begin to its end (`0` when the step is `0`). -/
def range_count (b e : Nat) (step : Int) : Nat := (((e : Int) - b) / step).toNat

/-- A well formed range below `max`: begin and end are below `max` and the end
is reached from the begin in whole steps. -/
def range_ok (max b e : Nat) (step : Int) : Prop :=
  b < max ∧ e < max ∧ (e : Int) = b + range_count b e step * step

/-- A well formed channel: a static channel has step `0` (so the parser sets
it), a channel that is not static has a well formed range in the buffer. -/
def chan_ok (MAXBUFF flags flag : Nat) (c : led_chan_t) : Prop :=
  if flags &&& flag ≠ 0 then c.step = 0 else range_ok MAXBUFF c.begin c.end_ c.step

/-- The `j`-th destination LED, `begin + j * step`. -/
def map_led (map : led_map_t) (j : Nat) : Nat := ((map.begin : Int) + j * map.step).toNat

/-- The offset of the source byte of a channel for the `j`-th LED: the source
wraps modulo its own length `k = (end - begin) / step + 1`. -/
def chan_offset (c : led_chan_t) (j : Nat) : Int :=
  (c.begin : Int) + ((j % (range_count c.begin c.end_ c.step + 1) : Nat) : Int) * c.step

/-- The value of a channel for the `j`-th LED: the literal when the channel is
static, else the buffer byte at `chan_offset`. -/
def map_value (buf : Nat → Nat) (flags flag : Nat) (c : led_chan_t) (j : Nat) : Nat :=
  if flags &&& flag ≠ 0 then c.value else buf (chan_offset c j).toNat

/-- The dim-scaled pixel of the `j`-th LED as `scale` packs it, each channel
inverted first when the CMY flag is set. -/
def map_pixel (l : Leds) (map : led_map_t) (buf : Nat → Nat) (j : Nat) : Nat :=
  let r := map_value buf map.flags MAP_STATIC_RED map.red j
  let g := map_value buf map.flags MAP_STATIC_GREEN map.green j
  let b := map_value buf map.flags MAP_STATIC_BLUE map.blue j
  if map.flags &&& MAP_CMY ≠ 0 then
    scale l.sred l.sgreen l.sblue (255 - r) (255 - g) (255 - b)
  else
    scale l.sred l.sgreen l.sblue r g b

/-- The source pointer of a channel in the pass for the `j`-th LED. -/
def chan_ptr (flags flag : Nat) (c : led_chan_t) (j : Nat) : srcptr :=
  if flags &&& flag ≠ 0 then .lit 0 else .buf (chan_offset c j)

/-- The bit buffer after the pixels of the LEDs `j0, …, j0 + m - 1` have been
written in this order. -/
def paint (l : Leds) (map : led_map_t) (buf : Nat → Nat) : Nat → Nat → (Nat → Nat) → (Nat → Nat)
  | 0, _, bits => bits
  | m + 1, j0, bits =>
    paint l map buf m (j0 + 1) (transpose bits (map_led map j0) map.string (map_pixel l map buf j0))

/-- A map against C7: every channel is static, and the red channel has step
`1`; destination LEDs `0` and `1` of string `0`. -/
def static_step_map : led_map_t :=
  { string := 0, begin := 0, end_ := 1, step := 1,
    red := { begin := 0, end_ := 0, step := 1, value := 10 },
    green := { begin := 0, end_ := 0, step := 0, value := 20 },
    blue := { begin := 0, end_ := 0, step := 0, value := 30 },
    flags := MAP_STATIC_RED ||| MAP_STATIC_GREEN ||| MAP_STATIC_BLUE }

/-- A map against C10: the red channel is taken from buffer offset `1500`. -/
def outside_map : led_map_t :=
  { string := 0, begin := 0, end_ := 0, step := 1,
    red := { begin := 1500, end_ := 1500, step := 1, value := 0 },
    green := { begin := 0, end_ := 0, step := 0, value := 0 },
    blue := { begin := 0, end_ := 0, step := 0, value := 0 },
    flags := MAP_STATIC_GREEN ||| MAP_STATIC_BLUE }

/-- Pixel engine state with all outputs off and full brightness. -/
def leds_init : Leds := { bits := fun _ => 0xFF, sred := 255, sgreen := 255, sblue := 255 }

/-- A well formed map: LEDs `0 … 3` of string `0` from the RGB triplets at the
buffer offsets `0, 3, 6, 9`. -/
def ramp_map : led_map_t :=
  { string := 0, begin := 0, end_ := 3, step := 1,
    red := { begin := 0, end_ := 9, step := 3, value := 0 },
    green := { begin := 1, end_ := 10, step := 3, value := 0 },
    blue := { begin := 2, end_ := 11, step := 3, value := 0 },
    flags := 0 }

/-- A pointer `map2` may dereference without leaving its object. -/
def inside (MAXBUFF : Nat) (p : srcptr) : Prop :=
  p = .lit 0 ∨ ∃ k : Nat, k < MAXBUFF ∧ p = .buf k



/-! ## Timeout service, `src/src/timeout.c` -/

/-- The constant `UINT32_MAX`. -/
def UINT32_MAX : Nat := 4294967295

/-- The interrupt handler `SysTick_Handler`, `timeout++` on a `uint32_t`; the
argument is the counter `timeout`. -/
def SysTick_Handler (timeout : Nat) : Nat := (timeout + 1) % 2 ^ 32

/-- The function `tot_set(msecs)`, with the counter `timeout` as first
argument. -/
def tot_set (timeout msecs : Nat) : Nat :=
  let msecs := if msecs ≥ UINT32_MAX / 2 then UINT32_MAX / 2 else msecs
  (timeout + msecs) % 2 ^ 32

/-- The function `tot_expired(t)`, with the counter `timeout` as first
argument; `t - timeout` is a subtraction of `uint32_t`. -/
def tot_expired (timeout t : Nat) : Bool :=
  decide ((t + 2 ^ 32 - timeout) % 2 ^ 32 > UINT32_MAX / 2)

/-- The function `tot_remaining(t)`, with the counter `timeout` as first
argument. -/
def tot_remaining (timeout t : Nat) : Nat :=
  let dt := (t + 2 ^ 32 - timeout) % 2 ^ 32
  if dt > UINT32_MAX / 2 then 0 else dt

/-- The counter after `e` milliseconds, that is `e` runs of
`SysTick_Handler`. -/
def elapse (e : Nat) (timeout : Nat) : Nat := SysTick_Handler^[e] timeout


/-! ## Configuration and scene state, `src/src/config.h`, `src/src/scene.c`

The parser of `config.c` reads the index file byte by byte and calls the scene
engine of `scene.c` while it plays a scene, and the scene engine calls the
parser to fetch its next command. Both modules therefore work on one state,
`World`. -/

/-- The type `struct config_rf_t` (`config.h`): `frequency`, `afcbw`, `rxbw`
and `fdev` are `uint32_t`, `bitrate` and `mesh` are `uint16_t`, `node` is
`uint8_t`, `power` is `int8_t` and `sensitivity` is `int16_t`. -/
structure config_rf_t where
  frequency : Nat
  bitrate : Nat
  afcbw : Nat
  rxbw : Nat
  fdev : Nat
  power : Int
  sensitivity : Int
  mesh : Nat
  node : Nat

/-- The type `struct config_leds_t`: `length` and `framerate` are `uint16_t`,
the colours `uint8_t`, `map` has 16 entries and `default_` is a file offset. -/
structure config_leds_t where
  length : Nat
  framerate : Nat
  red : Nat
  green : Nat
  blue : Nat
  map : List led_map_t
  default_ : Nat

/-- The values of the anonymous `enum` in `struct config_mode_t`. -/
def no_mode : Nat := 0
def beacon_mode : Nat := 1
def dmx_mode : Nat := 2
def rx_mode : Nat := 3
def scene_mode : Nat := 4
def standalone_mode : Nat := 5
def tpm2_mode : Nat := 6
def tx_mode : Nat := 7

/-- The type `struct config_mode_t`: `scenes_` has 10 entries of file
offsets. -/
structure config_mode_t where
  mode : Nat
  listen : Nat
  scenes_ : List Nat
  mode_ : Nat

/-- The type `struct config_t`. -/
structure config_t where
  rf : config_rf_t
  leds : config_leds_t
  mode : config_mode_t

/-- A `struct led_map_t` with all members zero. -/
def led_map_zero : led_map_t :=
  { string := 0, begin := 0, end_ := 0, step := 0,
    red := ⟨0, 0, 0, 0⟩, green := ⟨0, 0, 0, 0⟩, blue := ⟨0, 0, 0, 0⟩, flags := 0 }

/-- The initialiser of the global `config` (`config.c`). -/
def config_init : config_t :=
  { rf := { frequency := 868000000, bitrate := 4800, afcbw := 15600, rxbw := 10400,
            fdev := 5000, power := 13, sensitivity := -90, mesh := 0xAAAA, node := 1 },
    leds := { length := MAXLEDS, framerate := 1, red := 0xFF, green := 0xFF, blue := 0xFF,
              map := { led_map_zero with string := 0xFF } :: List.replicate 15 led_map_zero,
              default_ := 0 },
    mode := { mode := no_mode, listen := 1000, scenes_ := List.replicate 10 0, mode_ := 0 } }

/-- The values of `enum command_t` (`scene.c`). -/
def stop_command : Int := 0
def tpm2_command : Int := 1
def pause_command : Int := 2
def map_command : Int := 3
def framerate_command : Int := 4
def dim_command : Int := 5

/-- The members of the `union arg` of `scene.c` that the commands set. A
command reads only the member its own `sc_do_` function has written, so the
model keeps the members side by side. Of the member `tpm2` the read count `br`
and the name of the opened file are kept. -/
structure scene_arg_t where
  tpm2_file : List Nat
  tpm2_br : Nat
  pause_timeout : Nat
  pause_expired : Bool
  map_ : Nat
  fps : Nat
  red : Nat
  green : Nat
  blue : Nat

deriving instance DecidableEq for led_chan_t

deriving instance DecidableEq for led_map_t

/-- A call into another module, or a line of the diagnostic that `fail` writes,
as recorded in `World.calls`. -/
inductive call_t
  | diagnostic (line : Nat) (msg : String)
  | panic
  | rf_configure
  | led_configure
  | led_clear
  | led_map (map : led_map_t)
  | led_enable (enable : Bool)
  | f_close_tpm2
  | tp2_reset
  | sc_do_stop
  | sc_do_tpm2 (file : List Nat)
  | sc_do_pause (t : Nat)
  | sc_do_map (map_ : Nat)
  | sc_do_framerate (fps : Nat)
  | sc_do_dim (red green blue : Nat)
  | led_release
  | led_framerate (fps : Nat)
  | led_dim (red green blue : Nat)
  deriving DecidableEq

/-- The state the configuration parser and the scene engine work on.

* `config` is the global `config`;
* `file` is the content of `index.txt`, `fptr` the read pointer of the file
  object `index` (what `f_tell` returns) and `opened` tells whether `index` is
  open for reading;
* `ch0`, `line` and `tok` are the static variables of `config.c`;
* `scene`, `pos`, `command` and `arg` are the static variables of `scene.c`;
* `timeout` is the millisecond counter of `timeout.c`;
* `files` lists the names of the files `f_open` can open for reading;
* `calls` records, in order, the calls into other modules and the scene
  commands issued;
* `undefined` is set by an operation whose behaviour C leaves undefined (signed
  overflow, division by zero);
* `cut` is set when a loop of the model ends because its recursion bound is
  used up and not by its own condition. -/
structure World where
  config : config_t
  file : List Nat
  fptr : Nat
  opened : Bool
  ch0 : Int
  line : Nat
  tok : Nat
  scene : Nat
  pos : Nat
  command : Int
  arg : scene_arg_t
  timeout : Nat
  files : List (List Nat)
  calls : List call_t
  undefined : Bool
  cut : Bool

/-- The recursion bound the loops of the parser get: every pass of such a loop
reads a byte, and there are `file.length` bytes and one pushed back. -/
def bound (w : World) : Nat := w.file.length + 2

/-- Recording a call. -/
def call (c : call_t) (w : World) : World := { w with calls := w.calls ++ [c] }

/-! ### Scene commands, `src/src/scene.c` -/

/-- The function `stop_tpm2`. -/
def stop_tpm2 (w : World) : World := call .f_close_tpm2 (call (.led_enable false) w)

/-- The function `stop_map`. -/
def stop_map (w : World) : World := call (.led_enable false) w

/-- The function `sc_skip`; of the table `commands` only the entries for
`tpm2_command` and `map_command` have a `stop_proc`. -/
def sc_skip (w : World) : World :=
  if w.command ≠ 0 then
    let w := { w with command := (w.command.natAbs : Int) }
    let w := if w.command = tpm2_command then stop_tpm2 w
      else if w.command = map_command then stop_map w
      else w
    { w with command := 0 }
  else w

/-- The function `sc_do_stop`. -/
def sc_do_stop (w : World) : World :=
  let w := call .sc_do_stop w
  let w := sc_skip w
  let w := call (.led_enable false) w
  { w with command := stop_command }

/-- The function `sc_do_tpm2(file)`; `f_open` succeeds for the names in
`files`. -/
def sc_do_tpm2 (file : List Nat) (w : World) : World :=
  let w := call (.sc_do_tpm2 file) w
  let w := sc_skip w
  let w := call (.led_enable true) w
  if file ∈ w.files then
    let w := call .tp2_reset w
    { w with arg := { w.arg with tpm2_file := file, tpm2_br := 0 }, command := tpm2_command }
  else w

/-- The function `sc_do_pause(t)`. -/
def sc_do_pause (t : Nat) (w : World) : World :=
  let w := call (.sc_do_pause t) w
  let w := sc_skip w
  { w with arg := { w.arg with pause_expired := false, pause_timeout := tot_set w.timeout t },
           command := pause_command }

/-- The function `sc_do_map(map_)`. -/
def sc_do_map (map_ : Nat) (w : World) : World :=
  let w := call (.sc_do_map map_) w
  let w := sc_skip w
  let w := call (.led_enable true) w
  { w with arg := { w.arg with map_ := map_ }, command := map_command }

/-- The function `sc_do_framerate(fps)`. -/
def sc_do_framerate (fps : Nat) (w : World) : World :=
  let w := call (.sc_do_framerate fps) w
  let w := sc_skip w
  { w with arg := { w.arg with fps := fps }, command := framerate_command }

/-- The function `sc_do_dim(red, green, blue)`. -/
def sc_do_dim (red green blue : Nat) (w : World) : World :=
  let w := call (.sc_do_dim red green blue) w
  let w := sc_skip w
  { w with arg := { w.arg with red := red, green := green, blue := blue },
           command := dim_command }


/-! ### Reading the index file, `src/src/config.c`

Modelled from the spec: the index file is a sequence of bytes with a read
pointer, the "byte offset" that the structural pass records and that "scene
playback seeks to". `f_read` of one byte returns the byte at the read pointer
and advances it, or reads nothing at the end of the file or on a file object
that is not open; `f_tell` returns the read pointer; `f_lseek` sets it, clipped
to the size of the file; `f_close` invalidates the file object. -/

/-- The function `ungetch(ch)`. -/
def ungetch (ch : Int) (w : World) : World :=
  if ch ≥ 0 then { w with ch0 := ch } else w

/-- The function `getch()`. -/
def getch (w : World) : Int × World :=
  if w.ch0 ≥ 0 then
    (w.ch0, { w with ch0 := -1 })
  else if w.opened then
    match w.file[w.fptr]? with
    | some ch =>
      ((ch : Int), { w with fptr := w.fptr + 1, line := if ch = 10 then w.line + 1 else w.line })
    | none => (-1, w)
  else
    (-1, w)

/-- The function `tell()`. -/
def tell (w : World) : Nat := w.fptr

/-- The function `seek(p)`. -/
def seek (p : Nat) (w : World) : World :=
  let w := { w with ch0 := -1 }
  if w.opened then { w with fptr := min p w.file.length } else w

/-- The function `fail(s)`, which returns `false`: it closes `index`, reopens
it for appending and writes the diagnostic with the line number, which the
conversion to decimal digits leaves at 0. The model records the diagnostic in
`calls` and leaves the content of the file as it is; the guard against an index
file above 4 MiB and a failing `f_open` are left out. -/
def fail (s : String) (w : World) : World :=
  call (.diagnostic w.line s) { w with opened := false, line := 0 }

/-- The functions `isspace`, `isdigit`, `isalpha`, `isxdigit`, `tolower` and
`toupper` of the C library in the "C" locale, on the values of `getch()`. -/
def isspace (ch : Int) : Bool := ch = 32 || (9 ≤ ch && ch ≤ 13)

def isdigit (ch : Int) : Bool := 48 ≤ ch && ch ≤ 57

def isalpha (ch : Int) : Bool := (65 ≤ ch && ch ≤ 90) || (97 ≤ ch && ch ≤ 122)

def isxdigit (ch : Int) : Bool :=
  isdigit ch || (65 ≤ ch && ch ≤ 70) || (97 ≤ ch && ch ≤ 102)

def tolower (ch : Int) : Int := if 65 ≤ ch ∧ ch ≤ 90 then ch + 32 else ch

def toupper (ch : Int) : Int := if 97 ≤ ch ∧ ch ≤ 122 then ch - 32 else ch

/-- The bytes of a string literal of the source. -/
def bytes (s : String) : List Nat := s.toList.map Char.toNat

/-- The array `keywords`; it is in alphabetic order, so `bsearch` finds every
entry. -/
def keywords : List (List Nat) :=
  [bytes "afcbw", bytes "bitrate", bytes "cmy", bytes "default", bytes "dim", bytes "fdev",
   bytes "framerate", bytes "frequency", bytes "leds", bytes "length", bytes "listen",
   bytes "map", bytes "mesh", bytes "mode", bytes "node", bytes "pause", bytes "power",
   bytes "rf", bytes "rgb", bytes "rxbw", bytes "scene", bytes "sensitivity"]

/-- The values of `enum token_t`. -/
def tok_eof : Nat := 0
def tok_semicolon : Nat := 1
def tok_colon : Nat := 2
def tok_comma : Nat := 3
def tok_lbrace : Nat := 4
def tok_rbrace : Nat := 5
def tok_lparen : Nat := 6
def tok_rparen : Nat := 7
def tok_assign : Nat := 8
def tok_string : Nat := 9
def tok_color : Nat := 10
def tok_range : Nat := 11
def tok_int : Nat := 12
def tok_keyword : Nat := 13
def tok_keyword_afcbw : Nat := 14
def tok_keyword_bitrate : Nat := 15
def tok_keyword_cmy : Nat := 16
def tok_keyword_default : Nat := 17
def tok_keyword_dim : Nat := 18
def tok_keyword_fdev : Nat := 19
def tok_keyword_framerate : Nat := 20
def tok_keyword_frequency : Nat := 21
def tok_keyword_leds : Nat := 22
def tok_keyword_length : Nat := 23
def tok_keyword_listen : Nat := 24
def tok_keyword_map : Nat := 25
def tok_keyword_mesh : Nat := 26
def tok_keyword_mode : Nat := 27
def tok_keyword_node : Nat := 28
def tok_keyword_pause : Nat := 29
def tok_keyword_power : Nat := 30
def tok_keyword_rf : Nat := 31
def tok_keyword_rgb : Nat := 32
def tok_keyword_rxbw : Nat := 33
def tok_keyword_scene : Nat := 34
def tok_keyword_sensitivity : Nat := 35

/-- The loop `do { ch = getch(); } while (ch >= 0 && ch != '\n');` that skips
a single line comment. -/
def skip_line : Nat → World → World
  | 0, w => { w with cut := true }
  | fuel + 1, w =>
    let r := getch w
    if r.1 ≥ 0 ∧ r.1 ≠ 10 then skip_line fuel r.2 else r.2

/-- The loop `do { ch = getch(); } while (ch >= 0 && ch != '*');` inside a
block comment. -/
def skip_star : Nat → World → World
  | 0, w => { w with cut := true }
  | fuel + 1, w =>
    let r := getch w
    if r.1 ≥ 0 ∧ r.1 ≠ 42 then skip_star fuel r.2 else r.2

/-- The loop `do { do ... while (ch >= 0 && ch != '*'); ch = getch(); }
while (ch >= 0 && ch != '/');` that skips a block comment. -/
def skip_block : Nat → World → World
  | 0, w => { w with cut := true }
  | fuel + 1, w =>
    let w := skip_star (bound w) w
    let r := getch w
    if r.1 ≥ 0 ∧ r.1 ≠ 47 then skip_block fuel r.2 else r.2

/-- The loop `do { if (p < &keyword[17]) *p++ = ch; } while (isalpha(ch =
getch()));` followed by `ungetch(ch)`: the letters of a keyword, of which the
array `keyword` takes the first 17. -/
def read_word : Nat → List Nat → Int → World → List Nat × World
  | 0, kw, _, w => (kw, { w with cut := true })
  | fuel + 1, kw, ch, w =>
    let kw := if kw.length < 17 then kw ++ [ch.toNat] else kw
    let r := getch w
    if isalpha r.1 then read_word fuel kw r.1 r.2 else (kw, ungetch r.1 r.2)

/-- The part of the loop body of `token()` behind the comments: literals,
single character tokens and keywords. `FAIL` returns `false`, which as an
`enum token_t` is `tok_eof`. -/
def token_char (ch : Int) (w : World) : Nat × World :=
  if ch = 34 then (tok_string, ungetch ch w)  -- '"'
  else if isdigit ch || ch = 45 || ch = 43 then (tok_int, ungetch ch w)  -- '-', '+'
  else if ch = 91 then (tok_range, ungetch ch w)  -- '['
  else if ch = 38 then (tok_color, ungetch ch w)  -- '&'
  else if ch = 123 then (tok_lbrace, w)
  else if ch = 125 then (tok_rbrace, w)
  else if ch = 40 then (tok_lparen, w)
  else if ch = 41 then (tok_rparen, w)
  else if ch = 59 then (tok_semicolon, w)
  else if ch = 61 then (tok_assign, w)
  else if ch = 58 then (tok_colon, w)
  else if ch = 44 then (tok_comma, w)
  else if isalpha ch then
    let r := read_word (bound w) [] ch w
    let i := keywords.indexOf r.1
    if i < keywords.length then (tok_keyword + i + 1, r.2)
    else (tok_eof, fail "Unknown keyword" r.2)
  else (tok_eof, fail "Stray character" w)

/-- The loop `while ( (ch = getch()) != EOF ) { ... }` of `token()`. -/
def token_loop : Nat → World → Nat × World
  | 0, w => (tok_eof, { w with cut := true })
  | fuel + 1, w =>
    let r := getch w
    if r.1 = -1 then (tok_eof, r.2)
    else if isspace r.1 then token_loop fuel r.2
    else if r.1 = 47 then  -- '/'
      let r2 := getch r.2
      if r2.1 = 47 then token_loop fuel (skip_line (bound r2.2) r2.2)
      else if r2.1 = 42 then token_loop fuel (skip_block (bound r2.2) r2.2)  -- '*'
      else token_char 47 (ungetch r2.1 r2.2)
    else token_char r.1 r.2

/-- The function `token()`. -/
def token (w : World) : Nat × World := token_loop (bound w) w

/-- The macro `EXPECT(x)`: `if (token() != (x)) return FAIL("Expected " #x);`.
The result is `false` when the enclosing function returns. -/
def EXPECT (x : Nat) (name : String) (w : World) : Bool × World :=
  let t := token w
  if t.1 ≠ x then (false, fail ("Expected " ++ name) t.2) else (true, t.2)

/-- Sequencing of two steps of a function that returns `false` as soon as a
step has failed. -/
def andThen (r : Bool × World) (k : World → Bool × World) : Bool × World :=
  if r.1 then k r.2 else (false, r.2)


/-! ### Literals -/

/-- The loop of `read_string`, with the characters stored so far in `out` and
the room left in `buflen`; `buf` tells whether the buffer pointer is not
null. -/
def read_string_loop (buf : Bool) : Nat → List Nat → Nat → World → Bool × List Nat × World
  | 0, out, _, w => (true, out, { w with cut := true })
  | fuel + 1, out, buflen, w =>
    let r := getch w
    if r.1 < 0 then (true, out, r.2)
    else if r.1 = 34 then (true, out, r.2)  -- '"'
    else
      let e : Option (Int × World) :=
        if r.1 = 92 then  -- '\\'
          let r2 := getch r.2
          if r2.1 < 0 then none
          else if r2.1 = 116 then some (9, r2.2)  -- 't'
          else if r2.1 = 114 then some (13, r2.2)  -- 'r'
          else if r2.1 = 110 then some (10, r2.2)  -- 'n'
          else if r2.1 = 34 ∨ r2.1 = 92 then some (r2.1, r2.2)
          else some (92, ungetch r2.1 r2.2)
        else some (r.1, r.2)
      match e with
      | none => (true, out, (getch r.2).2)
      | some (ch, w) =>
        if buf then
          if buflen = 0 then (false, out, fail "String too long" w)
          else read_string_loop buf fuel (out ++ [ch.toNat]) (buflen - 1) w
        else read_string_loop buf fuel out buflen w

/-- The function `read_string(buf, buflen)`; the second component is the
string stored in `buf`. -/
def read_string (buflen : Nat) (w : World) : Bool × List Nat × World :=
  let r := getch w
  if r.1 ≠ 34 then (false, [], fail "Expected '\"'" r.2)
  else read_string_loop (decide (buflen ≠ 0)) (bound r.2) [] (buflen - 1) r.2

/-- The constants `INT32_MAX` and `INT32_MIN`. -/
def INT32_MAX : Int := 2147483647

def INT32_MIN : Int := -2147483648

/-- The value of an `int32_t` expression whose exact value is `x`; an overflow
is undefined behaviour and sets `undefined`. -/
def int32 (x : Int) (w : World) : Int × World :=
  ((x + 2147483648) % 4294967296 - 2147483648,
   if INT32_MIN ≤ x ∧ x ≤ INT32_MAX then w else { w with undefined := true })

/-- The loop `while (isspace(ch)) ch = getch();`. -/
def skip_space : Nat → Int → World → Int × World
  | 0, ch, w => (ch, { w with cut := true })
  | fuel + 1, ch, w =>
    if isspace ch then skip_space fuel (getch w).1 (getch w).2 else (ch, w)

/-- The loop `while (isspace(ch = getch()));`, returning `ch`. -/
def next_char (w : World) : Int × World :=
  skip_space (bound w) (getch w).1 (getch w).2

/-- The value of a digit in `read_int`: `ch - '0'` for a decimal digit, else
`10 + toupper(ch) - 'A'`. -/
def digit (ch : Int) : Int := if isdigit ch then ch - 48 else 10 + toupper ch - 65

/-- The result of a loop of `read_int`. -/
structure digits_t where
  ok : Bool
  value : Int
  ch : Int
  w : World

/-- The loop `while (isxdigit(ch)) { ... }` of `read_int`; the division
`INT32_MIN / base` of C truncates. -/
def read_digits (base : Int) (sign : Bool) : Nat → Int → Int → World → digits_t
  | 0, value, ch, w => ⟨false, value, ch, { w with cut := true }⟩
  | fuel + 1, value, ch, w =>
    if isxdigit ch then
      if digit ch ≥ base then ⟨false, value, ch, fail "Invalid digit for base" w⟩
      else if sign then
        if value < Int.tdiv INT32_MIN base then ⟨false, value, ch, fail "Integer underflown" w⟩
        else
          let m := int32 (value * base) w
          if m.1 < INT32_MIN + digit ch then ⟨false, m.1, ch, fail "Integer underflown" m.2⟩
          else
            let v := int32 (m.1 - digit ch) m.2
            read_digits base sign fuel v.1 (getch v.2).1 (getch v.2).2
      else
        if value > Int.tdiv INT32_MAX base then ⟨false, value, ch, fail "Integer overflown" w⟩
        else
          let m := int32 (value * base) w
          if m.1 > INT32_MAX - digit ch then ⟨false, m.1, ch, fail "Integer overflown" m.2⟩
          else
            let v := int32 (m.1 + digit ch) m.2
            read_digits base sign fuel v.1 (getch v.2).1 (getch v.2).2
    else ⟨true, value, ch, w⟩

/-- The end of `read_int` from the label `clip` on. -/
def read_int_clip (min max value ch : Int) (w : World) : Bool × Int × World :=
  let w := ungetch ch w
  if value > max then (false, value, fail "Integer out of range" w)
  else if value < min then (false, value, fail "Integer out of range" w)
  else (true, value, w)

/-- The part of `read_int` from `if (!isxdigit(ch))` on, for the base found. -/
def read_int_digits (min max base : Int) (sign : Bool) (ch : Int) (w : World) :
    Bool × Int × World :=
  if !isxdigit ch then (false, 0, fail "Expected integer digit" w)
  else
    let d := read_digits base sign (bound w) 0 ch w
    if d.ok then read_int_clip min max d.value d.ch d.w else (false, d.value, d.w)

/-- The part of `read_int` behind the sign, from `while (isspace(ch))` on, with
the character `ch` read last and the sign found. -/
def read_int_base (min max : Int) (sign : Bool) (ch : Int) (w : World) : Bool × Int × World :=
  let r := skip_space (bound w) ch w
  if r.1 = 48 then  -- '0'
    let r2 := getch r.2
    if tolower r2.1 = 120 then  -- 'x'
      read_int_digits min max 16 sign (getch r2.2).1 (getch r2.2).2
    else if !isxdigit r2.1 then read_int_clip min max 0 r2.1 r2.2
    else read_int_digits min max 8 sign r2.1 r2.2
  else read_int_digits min max 10 sign r.1 r.2

/-- The function `read_int(i, min, max)`; the second component is the value
stored in `*i` when the result is `true`. -/
def read_int (min max : Int) (w : World) : Bool × Int × World :=
  let r := getch w
  if r.1 = 45 ∨ r.1 = 43 then  -- '-', '+'
    read_int_base min max (decide (r.1 = 45)) (getch r.2).1 (getch r.2).2
  else read_int_base min max false r.1 r.2

/-- The function `read_color_comp(c)`; the second component is `*c`. -/
def read_color_comp (w : World) : Bool × Nat × World :=
  let r := read_int 0 255 w
  if !r.1 then (false, 0, r.2.2)
  else
    let n := next_char r.2.2
    if n.1 = 37 then  -- '%'
      if r.2.1 > 100 then (false, 0, fail "Percentage out of range" n.2)
      else (true, (Int.tdiv (r.2.1 * 255) 100 % 256).toNat, n.2)
    else (true, (r.2.1 % 256).toNat, ungetch n.1 n.2)

/-- One pass of the loop `for (int i = 0; i < 3; i++)` of `read_color`:
`if (i) EXPECT(tok_comma); EXPECT(tok_int); if (!read_color_comp(&comp[i]))
return FAIL(...);`. -/
def read_color_arg (i : Nat) (w : World) : Bool × Nat × World :=
  let c := if i ≠ 0 then EXPECT tok_comma "tok_comma" w else (true, w)
  if !c.1 then (false, 0, c.2)
  else
    let e := EXPECT tok_int "tok_int" c.2
    if !e.1 then (false, 0, e.2)
    else
      let r := read_color_comp e.2
      if !r.1 then (false, 0, fail "Invalid color component" r.2.2) else r

/-- The function `read_color(r, g, b)`; the second component holds `*r`, `*g`
and `*b`. -/
def read_color (w : World) : Bool × (Nat × Nat × Nat) × World :=
  let r := getch w
  if r.1 ≠ 38 then (false, (0, 0, 0), fail "Expected '&'" r.2)  -- '&'
  else
    let t := token r.2
    let w := { t.2 with tok := t.1 }
    if t.1 = tok_keyword_rgb ∨ t.1 = tok_keyword_cmy then
      let p := EXPECT tok_lparen "tok_lparen" w
      if !p.1 then (false, (0, 0, 0), p.2)
      else
        let c0 := read_color_arg 0 p.2
        if !c0.1 then (false, (0, 0, 0), c0.2.2)
        else
          let c1 := read_color_arg 1 c0.2.2
          if !c1.1 then (false, (0, 0, 0), c1.2.2)
          else
            let c2 := read_color_arg 2 c1.2.2
            if !c2.1 then (false, (0, 0, 0), c2.2.2)
            else
              let q := EXPECT tok_rparen "tok_rparen" c2.2.2
              if !q.1 then (false, (0, 0, 0), q.2)
              else if t.1 = tok_keyword_cmy then
                (true, (255 - c0.2.1, 255 - c1.2.1, 255 - c2.2.1), q.2)
              else (true, (c0.2.1, c1.2.1, c2.2.1), q.2)
    else if t.1 = tok_int then
      let c := read_color_comp w
      if !c.1 then (false, (0, 0, 0), fail "Invalid integer in gray color spec" c.2.2)
      else (true, (c.2.1, c.2.1, c.2.1), c.2.2)
    else (false, (0, 0, 0), fail "Unknown color spec" w)

/-- The result of `read_range`: `b`, `e` and `s` are the values stored in
`*begin`, `*end` and `*step` when `ok` holds. -/
structure range_t where
  ok : Bool
  b : Nat
  e : Nat
  s : Int
  w : World

/-- The first bound of a range: `^` or an integer. -/
def read_range_begin (max : Nat) (w : World) : Bool × Nat × World :=
  let c := next_char w
  if c.1 = 94 then (true, 0, c.2)  -- '^'
  else
    let e := EXPECT tok_int "tok_int" (ungetch c.1 c.2)
    if !e.1 then (false, 0, e.2)
    else
      let r := read_int 0 max e.2
      if !r.1 then (false, 0, fail "Invalid integer for range offset" r.2.2)
      else (true, (r.2.1 % 65536).toNat, r.2.2)

/-- The second bound of a range: `$` or an integer. -/
def read_range_end (max : Nat) (w : World) : Bool × Nat × World :=
  let c := next_char w
  if c.1 = 36 then (true, max, c.2)  -- '$'
  else
    let e := EXPECT tok_int "tok_int" (ungetch c.1 c.2)
    if !e.1 then (false, 0, e.2)
    else
      let r := read_int 0 max e.2
      if !r.1 then (false, 0, fail "Invalid integer for range end" r.2.2)
      else (true, (r.2.1 % 65536).toNat, r.2.2)

/-- The step of a range: the written step `i` (1 if there is none) and the
character that follows. -/
def read_range_step (w : World) : Bool × Int × Int × World :=
  let c := next_char w
  if c.1 = 37 then  -- '%'
    let e := EXPECT tok_int "tok_int" c.2
    if !e.1 then (false, 0, 0, e.2)
    else
      let r := read_int 0 100 e.2
      if !r.1 then (false, 0, 0, fail "Invalid integer for range step" r.2.2)
      else
        let n := next_char r.2.2
        (true, r.2.1, n.1, n.2)
  else (true, 1, c.1, c.2)

/-- The value of an `int8_t` that is assigned `x`. -/
def int8 (x : Int) : Int := (x + 128) % 256 - 128

/-- The statements `if (e > b) s = +i; else if (e < b) s = -i; else s = 1;
uint16_t steps = (e - b) / s; e = b + steps * s;` of `read_range`, returning `s`
and the new `e`. The operands of the division are `int` and the division
truncates; a division by zero has the quotient 0 here. -/
def range_fit (b e : Nat) (i : Int) : Int × Nat :=
  let s : Int := if e > b then int8 i else if e < b then int8 (-i) else 1
  let steps := (Int.tdiv ((e : Int) - b) s % 65536).toNat
  (s, (((b : Int) + steps * s) % 65536).toNat)

/-- The function `read_range(begin, end, step, max)`. The division by a step
of zero is undefined behaviour: the model sets `undefined` and goes on with the
quotient 0. -/
def read_range (max : Nat) (w : World) : range_t :=
  let r := getch w
  if r.1 ≠ 91 then ⟨false, 0, 0, 0, fail "Expected '['" r.2⟩  -- '['
  else
    let b := read_range_begin max r.2
    if !b.1 then ⟨false, 0, 0, 0, b.2.2⟩
    else
      let c := next_char b.2.2
      if c.1 = 46 then  -- '.'
        let c2 := getch c.2
        if c2.1 ≠ 46 then ⟨false, 0, 0, 0, fail "Expected range" c2.2⟩
        else
          let e := read_range_end max c2.2
          if !e.1 then ⟨false, 0, 0, 0, e.2.2⟩
          else
            let i := read_range_step e.2.2
            if !i.1 then ⟨false, 0, 0, 0, i.2.2.2⟩
            else
              let f := range_fit b.2.1 e.2.1 i.2.1
              let w := if f.1 = 0 then { i.2.2.2 with undefined := true } else i.2.2.2
              if i.2.2.1 ≠ 93 then ⟨false, 0, 0, 0, fail "Expected ']'" w⟩  -- ']'
              else ⟨true, b.2.1, f.2, f.1, w⟩
      else if c.1 ≠ 93 then ⟨false, 0, 0, 0, fail "Expected ']'" c.2⟩
      else ⟨true, b.2.1, b.2.1, 1, c.2⟩


/-! ### Blocks and statements -/

/-- The loop `while ( (tok = token()) != tok_eof ) { if (tok == tok_rbrace)
break; if (! (*proc)(p) ) return false; }` of `read_block`. The object `*p`
that `proc` works on is threaded through as a value of type `α`. -/
def read_block_loop {α : Type} (proc : α → World → Bool × α × World) :
    Nat → α → World → Bool × α × World
  | 0, p, w => (false, p, { w with cut := true })
  | fuel + 1, p, w =>
    let t := token w
    let w := { t.2 with tok := t.1 }
    if t.1 = tok_eof then (true, p, w)
    else if t.1 = tok_rbrace then (true, p, w)
    else
      let r := proc p w
      if r.1 then read_block_loop proc fuel r.2.1 r.2.2 else (false, r.2.1, r.2.2)

/-- The function `read_block(proc, p)`. -/
def read_block {α : Type} (proc : α → World → Bool × α × World) (p : α) (w : World) :
    Bool × α × World :=
  let t := token w
  let w := { t.2 with tok := t.1 }
  if t.1 = tok_lbrace then read_block_loop proc (bound w) p w
  else proc p w

/-- One colour channel of an `rgb(...)` or `cmy(...)` map in `map_statement`:
a range, or a fixed component, which sets the static flag and the step 0. The
three channels differ in the flag and in the texts of the diagnostics. -/
def map_channel (MAXBUFF flag : Nat) (name : String) (c : led_chan_t) (flags : Nat)
    (w : World) : Bool × (led_chan_t × Nat) × World :=
  let t := token w
  let w := { t.2 with tok := t.1 }
  if t.1 = tok_range then
    let r := read_range (MAXBUFF - 1) w
    if !r.ok then (false, (c, flags), fail ("Invalid " ++ name ++ " range for map") r.w)
    else (true, ({ c with begin := r.b, end_ := r.e, step := r.s }, flags), r.w)
  else if t.1 = tok_int then
    let r := read_color_comp w
    if !r.1 then
      (false, ({ c with step := 0 }, flags ||| flag),
        fail ("Invalid fixed " ++ name ++ " color component") r.2.2)
    else (true, ({ c with step := 0, value := r.2.1 }, flags ||| flag), r.2.2)
  else (false, (c, flags), fail ("Invalid " ++ name ++ " color spec") w)

/-- The `switch (tok)` of `map_statement` that reads the source of a map into
`map`. -/
def map_source (MAXBUFF : Nat) (map : led_map_t) (w : World) : Bool × led_map_t × World :=
  let t := token w
  let w := { t.2 with tok := t.1 }
  if t.1 = tok_color then
    let map := { map with flags := MAP_STATIC_RED ||| MAP_STATIC_GREEN ||| MAP_STATIC_BLUE,
                          red := { map.red with step := 0 },
                          green := { map.green with step := 0 },
                          blue := { map.blue with step := 0 } }
    let r := read_color w
    if !r.1 then (false, map, fail "Invalid color spec for static map" r.2.2)
    else
      (true, { map with red := { map.red with value := r.2.1.1 },
                        green := { map.green with value := r.2.1.2.1 },
                        blue := { map.blue with value := r.2.1.2.2 } }, r.2.2)
  else if t.1 = tok_keyword_rgb ∨ t.1 = tok_keyword_cmy then
    let map := { map with flags := if t.1 = tok_keyword_cmy then MAP_CMY else 0 }
    let p := EXPECT tok_lparen "tok_lparen" w
    if !p.1 then (false, map, p.2)
    else
      let r := map_channel MAXBUFF MAP_STATIC_RED "red" map.red map.flags p.2
      let map := { map with red := r.2.1.1, flags := r.2.1.2 }
      if !r.1 then (false, map, r.2.2)
      else
        let c1 := EXPECT tok_comma "tok_comma" r.2.2
        if !c1.1 then (false, map, c1.2)
        else
          let g := map_channel MAXBUFF MAP_STATIC_GREEN "green" map.green map.flags c1.2
          let map := { map with green := g.2.1.1, flags := g.2.1.2 }
          if !g.1 then (false, map, g.2.2)
          else
            let c2 := EXPECT tok_comma "tok_comma" g.2.2
            if !c2.1 then (false, map, c2.2)
            else
              let b := map_channel MAXBUFF MAP_STATIC_BLUE "blue" map.blue map.flags c2.2
              let map := { map with blue := b.2.1.1, flags := b.2.1.2 }
              if !b.1 then (false, map, b.2.2)
              else
                let q := EXPECT tok_rparen "tok_rparen" b.2.2
                (q.1, map, q.2)
  else (false, map, fail "Expected map spec" w)

/-- The function `map_statement(p)`. The pointer `p` is `none` when it is null
(the map is applied with `led_map`) and `some n` when it points to the counter
`n` of maps stored so far. The members of the local `map` that the statement
does not set are 0 in the model. -/
def map_statement (MAXBUFF : Nat) (p : Option Nat) (w : World) : Bool × Option Nat × World :=
  if w.tok ≠ tok_int then (false, p, fail "Expected map" w)
  else
    let i := read_int 0 5 w
    if !i.1 then (false, p, fail "Invalid integer for string index" i.2.2)
    else
      let map := { led_map_zero with string := (i.2.1 % 256).toNat }
      let c := andThen (EXPECT tok_colon "tok_colon" i.2.2) (EXPECT tok_range "tok_range")
      if !c.1 then (false, p, c.2)
      else
        let r := read_range (MAXLEDS - 1) c.2
        if !r.ok then (false, p, fail "Invalid string range" r.w)
        else
          let map := { map with begin := r.b, end_ := r.e, step := r.s }
          let a := EXPECT tok_assign "tok_assign" r.w
          if !a.1 then (false, p, a.2)
          else
            let m := map_source MAXBUFF map a.2
            if !m.1 then (false, p, m.2.2)
            else
              match p with
              | some n =>
                if n < 0xFF then
                  if n = 16 then (false, p, fail "Map count exceeded" m.2.2)
                  else
                    let w := { m.2.2 with config := { m.2.2.config with leds :=
                      { m.2.2.config.leds with map := m.2.2.config.leds.map.set n m.2.1 } } }
                    let s := EXPECT tok_semicolon "tok_semicolon" w
                    (s.1, some (n + 1), s.2)
                else
                  let s := EXPECT tok_semicolon "tok_semicolon" m.2.2
                  (s.1, p, s.2)
              | none =>
                let s := EXPECT tok_semicolon "tok_semicolon" (call (.led_map m.2.1) m.2.2)
                (s.1, p, s.2)

/-- The pattern `EXPECT(tok_colon); EXPECT(tok_int); if (!read_int(&i, min,
max)) return FAIL(msg);` of the integer statements; the second component is
`i`. -/
def int_value (min max : Int) (msg : String) (w : World) : Bool × Int × World :=
  let c := andThen (EXPECT tok_colon "tok_colon" w) (EXPECT tok_int "tok_int")
  if !c.1 then (false, 0, c.2)
  else
    let r := read_int min max c.2
    if !r.1 then (false, 0, fail msg r.2.2) else r

/-- The pattern `EXPECT(tok_colon); EXPECT(tok_color); if (!read_color(&r, &g,
&b)) return FAIL(msg);` of the `dim` statements. -/
def color_value (msg : String) (w : World) : Bool × (Nat × Nat × Nat) × World :=
  let c := andThen (EXPECT tok_colon "tok_colon" w) (EXPECT tok_color "tok_color")
  if !c.1 then (false, (0, 0, 0), c.2)
  else
    let r := read_color c.2
    if !r.1 then (false, (0, 0, 0), fail msg r.2.2) else r

/-- Assignments to the members of `config.rf`, `config.leds` and
`config.mode`. -/
def set_rf (f : config_rf_t → config_rf_t) (w : World) : World :=
  { w with config := { w.config with rf := f w.config.rf } }

def set_leds (f : config_leds_t → config_leds_t) (w : World) : World :=
  { w with config := { w.config with leds := f w.config.leds } }

def set_mode (f : config_mode_t → config_mode_t) (w : World) : World :=
  { w with config := { w.config with mode := f w.config.mode } }

/-- The function `leds_statement(p)`. -/
def leds_statement (MAXBUFF : Nat) (p : Unit) (w : World) : Bool × Unit × World :=
  if w.tok = tok_keyword_default then
    let w := set_leds (fun l => { l with default_ := tell w }) w
    let r := read_block (map_statement MAXBUFF) (some 0xFF) w
    (r.1, p, r.2.2)
  else if w.tok = tok_keyword_map then
    let r := read_block (map_statement MAXBUFF) (some 0) w
    if !r.1 then (false, p, r.2.2)
    else
      let n := r.2.1.getD 0
      if n < 16 then
        (true, p, set_leds (fun l =>
          { l with map := l.map.set n { l.map.getD n led_map_zero with string := 0xFF } }) r.2.2)
      else (true, p, r.2.2)
  else if w.tok = tok_keyword_length then
    let r := int_value 1 MAXLEDS "Invalid integer for string length" w
    if !r.1 then (false, p, r.2.2)
    else
      let s := EXPECT tok_semicolon "tok_semicolon"
        (set_leds (fun l => { l with length := (r.2.1 % 65536).toNat }) r.2.2)
      (s.1, p, s.2)
  else if w.tok = tok_keyword_framerate then
    let r := int_value 0 30 "Invalid framerate" w
    if !r.1 then (false, p, r.2.2)
    else
      let s := EXPECT tok_semicolon "tok_semicolon"
        (set_leds (fun l => { l with framerate := (r.2.1 % 65536).toNat }) r.2.2)
      (s.1, p, s.2)
  else if w.tok = tok_keyword_dim then
    let r := color_value "Invalid color spec for global dim" w
    if !r.1 then (false, p, r.2.2)
    else
      let s := EXPECT tok_semicolon "tok_semicolon"
        (set_leds (fun l => { l with red := r.2.1.1, green := r.2.1.2.1, blue := r.2.1.2.2 })
          r.2.2)
      (s.1, p, s.2)
  else (false, p, fail "Unknown statement in leds block" w)

/-- The common shape of the cases of `rf_statement`: read the integer, assign
it to the member, `break` to `EXPECT(tok_semicolon)`. -/
def rf_value (min max : Int) (msg : String) (set : Int → config_rf_t → config_rf_t)
    (w : World) : Bool × Unit × World :=
  let r := int_value min max msg w
  if !r.1 then (false, (), r.2.2)
  else
    let s := EXPECT tok_semicolon "tok_semicolon" (set_rf (set r.2.1) r.2.2)
    (s.1, (), s.2)

/-- The function `rf_statement(p)`; the assignments convert the `int32_t` to
the type of the member. -/
def rf_statement (_p : Unit) (w : World) : Bool × Unit × World :=
  if w.tok = tok_keyword_frequency then
    rf_value 290000000 1020000000 "Invalid RF frequency"
      (fun i c => { c with frequency := (i % 4294967296).toNat }) w
  else if w.tok = tok_keyword_bitrate then
    rf_value 1200 300000 "Invalid RF bitrate"
      (fun i c => { c with bitrate := (i % 65536).toNat }) w
  else if w.tok = tok_keyword_fdev then
    rf_value 600 300000 "Invalid RF frequency deviation"
      (fun i c => { c with fdev := (i % 4294967296).toNat }) w
  else if w.tok = tok_keyword_afcbw then
    rf_value 2600 500000 "Invalid RF AFC bandwidth"
      (fun i c => { c with afcbw := (i % 4294967296).toNat }) w
  else if w.tok = tok_keyword_rxbw then
    rf_value 2600 500000 "Invalid RF receiver bandwidth"
      (fun i c => { c with rxbw := (i % 4294967296).toNat }) w
  else if w.tok = tok_keyword_power then
    rf_value (-18) 13 "Invalid RF transmitter power"
      (fun i c => { c with power := int8 i }) w
  else if w.tok = tok_keyword_sensitivity then
    rf_value (-127) 0 "Invalid RF sensitivity"
      (fun i c => { c with sensitivity := (i + 32768) % 65536 - 32768 }) w
  else if w.tok = tok_keyword_mesh then
    rf_value 1 0xFFFE "Invalid RF mesh"
      (fun i c => { c with mesh := (i % 65536).toNat }) w
  else if w.tok = tok_keyword_node then
    rf_value 1 0xFE "Invalid RF node"
      (fun i c => { c with node := (i % 256).toNat }) w
  else (false, (), fail "Unknown statement in rf block" w)

/-- The function `scene_statement(p)` with `run = *(bool *) p`. The result of
`read_string` is not looked at. -/
def scene_statement (MAXBUFF : Nat) (run : Bool) (w : World) : Bool × Bool × World :=
  if w.tok = tok_string then
    let r := read_string 256 w
    let w := if run then sc_do_tpm2 r.2.1 r.2.2 else r.2.2
    let s := EXPECT tok_semicolon "tok_semicolon" w
    (s.1, run, s.2)
  else if w.tok = tok_keyword_pause then
    let r := int_value 0 (60 * 60 * 1000) "Invalid pause" w
    if !r.1 then (false, run, r.2.2)
    else
      let w := if run then sc_do_pause (r.2.1 % 4294967296).toNat r.2.2 else r.2.2
      let s := EXPECT tok_semicolon "tok_semicolon" w
      (s.1, run, s.2)
  else if w.tok = tok_keyword_map then
    let w := if run then sc_do_map (tell w) w else w
    let r := read_block (map_statement MAXBUFF) (some 0xFF) w
    (r.1, run, r.2.2)
  else if w.tok = tok_keyword_framerate then
    let r := int_value 0 30 "Invalid framerate" w
    if !r.1 then (false, run, r.2.2)
    else
      let w := if run then sc_do_framerate (r.2.1 % 65536).toNat r.2.2 else r.2.2
      let s := EXPECT tok_semicolon "tok_semicolon" w
      (s.1, run, s.2)
  else if w.tok = tok_keyword_dim then
    let r := color_value "Invalid color spec for global dim" w
    if !r.1 then (false, run, r.2.2)
    else
      let w := if run then sc_do_dim r.2.1.1 r.2.1.2.1 r.2.1.2.2 r.2.2 else r.2.2
      let s := EXPECT tok_semicolon "tok_semicolon" w
      (s.1, run, s.2)
  else (false, run, fail "Unknown statement in scene block" w)

/-- The constant `UINT16_MAX`. -/
def UINT16_MAX : Int := 65535

/-- The function `mode_statement(p)`. The pointer `p` is `none` when it is null
(parsing through) and `some scene` when it points to the scene looked for. -/
def mode_statement (MAXBUFF : Nat) (p : Option Nat) (w : World) : Bool × Option Nat × World :=
  if w.tok = tok_keyword_scene then
    let e := EXPECT tok_int "tok_int" w
    if !e.1 then (false, p, e.2)
    else
      let i := read_int 0 UINT16_MAX e.2
      if !i.1 then (false, p, fail "Invalid scene index" i.2.2)
      else
        let w := if i.2.1.toNat < 10 then
            set_mode (fun m => { m with scenes_ := m.scenes_.set i.2.1.toNat (tell i.2.2) }) i.2.2
          else i.2.2
        match p with
        | some scene =>
          if (scene : Int) = i.2.1 then (false, p, w)
          else
            let r := read_block (scene_statement MAXBUFF) false w
            (r.1, p, r.2.2)
        | none =>
          let r := read_block (scene_statement MAXBUFF) false w
          (r.1, p, r.2.2)
  else if w.tok = tok_keyword_listen then
    let r := int_value 1 20000 "Invalid listen period" w
    if !r.1 then (false, p, r.2.2)
    else
      let s := EXPECT tok_semicolon "tok_semicolon"
        (set_mode (fun m => { m with listen := (r.2.1 % 4294967296).toNat }) r.2.2)
      (s.1, p, s.2)
  else (false, p, fail "Unknown statement in mode block" w)

/-- The array `modes` of `read_mode`; it is in alphabetic order, so `bsearch`
finds every entry. -/
def modes : List (List Nat) :=
  [bytes "beacon", bytes "dmx", bytes "rx", bytes "scene", bytes "standalone", bytes "tpm2",
   bytes "tx"]

/-- The function `read_mode()`; `strcmp` compares the string up to its first
zero byte. -/
def read_mode (w : World) : Bool × World :=
  let e := EXPECT tok_string "tok_string" w
  if !e.1 then (false, e.2)
  else
    let r := read_string 16 e.2
    if !r.1 then (false, r.2.2)
    else
      let i := modes.indexOf (r.2.1.takeWhile (fun c => c ≠ 0))
      if i < modes.length then (true, set_mode (fun m => { m with mode := i + 1 }) r.2.2)
      else (false, fail "Unknown mode" r.2.2)

/-- The loop `while ( (tok = token()) != tok_eof ) { switch (tok) ... }` of
`parse()`. -/
def parse_loop (MAXBUFF : Nat) : Nat → World → Bool × World
  | 0, w => (false, { w with cut := true })
  | fuel + 1, w =>
    let t := token w
    let w := { t.2 with tok := t.1 }
    if t.1 = tok_eof then (true, w)
    else if t.1 = tok_keyword_rf then
      let r := read_block rf_statement () w
      if !r.1 then (false, r.2.2) else parse_loop MAXBUFF fuel (call .rf_configure r.2.2)
    else if t.1 = tok_keyword_leds then
      let r := read_block (leds_statement MAXBUFF) () w
      if !r.1 then (false, r.2.2) else parse_loop MAXBUFF fuel (call .led_configure r.2.2)
    else if t.1 = tok_keyword_mode then
      if w.config.mode.mode_ ≠ 0 then (false, fail "Mode already set" w)
      else
        let m := read_mode w
        if !m.1 then (false, m.2)
        else
          let w := set_mode (fun c => { c with mode_ := tell m.2 }) m.2
          let r := read_block (mode_statement MAXBUFF) none w
          if !r.1 then (false, r.2.2) else parse_loop MAXBUFF fuel r.2.2
    else (false, fail "Unknown top level block" w)

/-- The function `parse()`. -/
def parse (MAXBUFF : Nat) (w : World) : Bool × World :=
  let w := { w with ch0 := -1, line := 1 }
  parse_loop MAXBUFF (bound w) w

/-- The function `cfg_map(map_)`. -/
def cfg_map (MAXBUFF : Nat) (map_ : Nat) (w : World) : World :=
  (read_block (map_statement MAXBUFF) none (seek map_ (call .led_clear w))).2.2

/-- The function `cfg_default()`. -/
def cfg_default (MAXBUFF : Nat) (w : World) : World :=
  if w.config.leds.default_ ≠ 0 then cfg_map MAXBUFF w.config.leds.default_ w else w

/-- The function `cfg_scene(scene)`. -/
def cfg_scene (MAXBUFF : Nat) (scene : Nat) (w : World) : Nat × World :=
  let found : Bool × World :=
    if scene < 10 then
      if w.config.mode.scenes_.getD scene 0 = 0 then (false, w)
      else (true, seek (w.config.mode.scenes_.getD scene 0) w)
    else
      if w.config.mode.mode_ = 0 then (false, w)
      else
        let r := read_block (mode_statement MAXBUFF) (some scene) (seek w.config.mode.mode_ w)
        if r.1 then (false, r.2.2) else (true, r.2.2)
  if !found.1 then (0, found.2)
  else
    let t := token found.2
    let w := { t.2 with tok := t.1 }
    (if t.1 = tok_lbrace then tell w else 0, w)

/-- The function `cfg_command(s)`. -/
def cfg_command (MAXBUFF : Nat) (s : Nat) (w : World) : Nat × World :=
  if s = 0 then (0, w)
  else
    let t := token (seek s w)
    let w := { t.2 with tok := t.1 }
    if t.1 = tok_rbrace then (0, w)
    else
      let r := scene_statement MAXBUFF true w
      (tell r.2.2, r.2.2)

/-- The branch "Start scene" of `sc_start(s)`. -/
def sc_start_scene (MAXBUFF : Nat) (s : Nat) (w : World) : World :=
  let r := cfg_scene MAXBUFF s { sc_skip w with scene := s }
  if r.1 ≠ 0 then
    let c := cfg_command MAXBUFF r.1 { r.2 with pos := r.1 }
    { c.2 with pos := c.1 }
  else { r.2 with pos := r.1 }

/-- The branch "Continue scene" of `sc_start(s)`. -/
def sc_continue (w : World) : World :=
  if (w.command.natAbs : Int) = pause_command then
    { w with command := (w.command.natAbs : Int), arg := { w.arg with pause_expired := true } }
  else { w with command := (w.command.natAbs : Int) }

/-- The function `sc_start(s)`; the result is `pos` as a `bool`. -/
def sc_start (MAXBUFF : Nat) (s : Nat) (w : World) : Bool × World :=
  if w.scene ≠ s then
    (decide ((sc_start_scene MAXBUFF s { w with pos := 0 }).pos ≠ 0),
      sc_start_scene MAXBUFF s { w with pos := 0 })
  else if w.pos = 0 then
    (decide ((sc_start_scene MAXBUFF s w).pos ≠ 0), sc_start_scene MAXBUFF s w)
  else (decide ((sc_continue w).pos ≠ 0), sc_continue w)

/-- The function `sc_pause()`. -/
def sc_pause (w : World) : World :=
  if w.command > 0 then { w with command := -w.command } else w

/-- The function `sc_stop()`. -/
def sc_stop (w : World) : World :=
  sc_do_stop { sc_skip w with pos := 0 }

/-- The function `sc_prepare()`. -/
def sc_prepare (w : World) : World :=
  { w with scene := 0, pos := 0, command := stop_command }


/-! ## Proof vocabulary for the configuration parser -/

/-- The characters `getch()` is going to return: the one pushed back, then the
bytes of the file from the read pointer on. -/
def stream (w : World) : List Int :=
  (if w.ch0 ≥ 0 then [w.ch0] else []) ++
    (if w.opened then (w.file.drop w.fptr).map Int.ofNat else [])

/-- The character `ch` that `getch()` has returned last and the state `w` stand
for the input `l`: either `ch` is the first character of `l` and the rest is
still to be read, or `ch` is `EOF` and `l` is empty. Nothing is pushed back. -/
def Ahead (ch : Int) (w : World) (l : List Int) : Prop :=
  w.ch0 < 0 ∧ ((0 ≤ ch ∧ l = ch :: stream w) ∨ (ch = -1 ∧ l = [] ∧ stream w = []))

/-! ### Integer literals as the specification words them

"integer: optional sign, optional `0` (octal) or `0x` (hex) prefix". -/

/-- The three forms of an integer literal. -/
inductive radix
  | dec
  | oct
  | hex
  deriving DecidableEq

/-- The base of a form. -/
def radix.base : radix → Int
  | .dec => 10
  | .oct => 8
  | .hex => 16

/-- An integer literal: the sign (`none`, or `some true` for `-` and `some
false` for `+`), the form, whether a hexadecimal literal is written with `X`
and not `x`, and the digit characters behind the sign and the `0` or `0x`. -/
structure literal where
  sign : Option Bool
  form : radix
  upper : Bool
  digits : List Int

/-- The characters of a literal. -/
def literal.chars (l : literal) : List Int :=
  (match l.sign with
    | none => []
    | some true => [45]
    | some false => [43]) ++
  (match l.form with
    | .dec => []
    | .oct => [48]
    | .hex => [48, if l.upper then 88 else 120]) ++
  l.digits

/-- The value of a string of digit characters in a base: the first digit is
the most significant. -/
def digits_value (base : Int) (ds : List Int) : Int :=
  ds.foldl (fun v c => v * base + digit c) 0

/-- The value a literal denotes. -/
def literal.value (l : literal) : Int :=
  if l.sign = some true then -digits_value l.form.base l.digits
  else digits_value l.form.base l.digits

/-- A literal is well formed when its digits are digits of its base, a decimal
literal has a first digit other than `0` (with a leading `0` it is octal) and
a hexadecimal literal has a digit. -/
def literal.wf (l : literal) : Prop :=
  (∀ c ∈ l.digits, isxdigit c = true ∧ 0 ≤ digit c ∧ digit c < l.form.base) ∧
  (l.form = .dec → ∃ c t, l.digits = c :: t ∧ c ≠ 48) ∧
  (l.form = .hex → l.digits ≠ [])

/-- The input `rest` behind a literal ends the literal: it does not go on with
a hexadecimal digit, nor with an `x` right behind a lone `0`. -/
def literal.ends (l : literal) (rest : List Int) : Prop :=
  ∀ c t, rest = c :: t →
    isxdigit c = false ∧ (l.form = .oct → l.digits = [] → tolower c ≠ 120)

/-! ### The scene engine seen from the parser -/

/-- What the parser keeps of the scene engine: the scene, and that the command
is not a paused one. -/
def Keep (w w2 : World) : Prop := w2.scene = w.scene ∧ (0 ≤ w.command → 0 ≤ w2.command)


/-! ### Initial state and example configurations -/

/-- The state after reset, with the index file `file` opened for reading at
offset 0: `config` has its initialiser, the static variables are zero. -/
def world_init (file : List Nat) : World :=
  { config := config_init, file := file, fptr := 0, opened := true, ch0 := 0, line := 0,
    tok := 0, scene := 0, pos := 0, command := 0,
    arg := ⟨[], 0, 0, false, 0, 0, 0, 0, 0⟩,
    timeout := 0, files := [], calls := [], undefined := false, cut := false }

/-- The configuration text of the example in the specification. -/
def example_text : List Nat :=
  bytes ("rf \x7b node: 7; mesh: 0xABCD; \x7d leds \x7b length: 16; framerate: 20; \x7d " ++
    "mode \"scene\" \x7b scene 3 \x7b pause: 500; dim: & rgb(255,0,0); \x7d \x7d")

/-- A configuration whose scenes 3 and 12 have the opening brace right behind
the scene index. -/
def tight_text : List Nat :=
  bytes ("mode \"scene\" \x7b scene 3\x7b pause: 500; \x7d scene 12\x7b pause: 7; \x7d \x7d")

/-- The configuration `tight_text` with a blank before the brace of scene 3. -/
def spaced_text : List Nat :=
  bytes ("mode \"scene\" \x7b scene 3 \x7b pause: 500; \x7d scene 12\x7b pause: 7; \x7d \x7d")

/-- A configuration with two scenes. -/
def two_scenes_text : List Nat :=
  bytes ("mode \"scene\" \x7b scene 3 \x7b pause: 500; dim: & 10; \x7d " ++
    "scene 4 \x7b framerate: 25; pause: 100; \x7d \x7d")

/-- The state in which `read_range` is called on the text `s`: the file is read
from its start, nothing is pushed back. -/
def range_world (s : String) : World := { world_init (bytes s) with ch0 := -1 }

/-- The literal `-0x7f`. -/
def example_literal : literal := ⟨some true, .hex, false, [55, 102]⟩


/-! ### Relations that the parser respects, and inputs of a given form -/

/-- A relation between the state before and the state after that the
primitive operations of the parser respect: reading a character and pushing
one back, writing a diagnostic, recording a call, and setting `tok`, `cut` or
`undefined`. -/
structure Closed (R : World → World → Prop) : Prop where
  refl : ∀ w, R w w
  trans : ∀ {a b c}, R a b → R b c → R a c
  getch : ∀ w, R w (getch w).2
  ungetch : ∀ ch w, R w (ungetch ch w)
  fail : ∀ s w, R w (fail s w)
  call : ∀ c w, R w (call c w)
  tok : ∀ t w, R w { w with tok := t }
  cut : ∀ w, R w { w with cut := true }
  undefined : ∀ w, R w { w with undefined := true }

/-- The relation holds across an assignment to `config.leds`. -/
@[reducible]
def WritesLeds (R : World → World → Prop) : Prop :=
  ∀ (w : World) (l : config_leds_t), R w { w with config := { w.config with leds := l } }

/-- The relation holds across an assignment to `config.mode`. -/
@[reducible]
def WritesMode (R : World → World → Prop) : Prop :=
  ∀ (w : World) (m : config_mode_t), R w { w with config := { w.config with mode := m } }

/-- The relation holds across an assignment to `config.rf`. -/
@[reducible]
def WritesRf (R : World → World → Prop) : Prop :=
  ∀ (w : World) (r : config_rf_t), R w { w with config := { w.config with rf := r } }

/-- The relation holds across an assignment to the command and its argument
in the scene engine. -/
@[reducible]
def WritesScene (R : World → World → Prop) : Prop :=
  ∀ (w : World) (c : Int) (a : scene_arg_t), R w { w with command := c, arg := a }

/-- The file is not changed, the read pointer does not go back and stays
within the file if it was there, and the calls recorded are kept. -/
def Forward (w w2 : World) : Prop :=
  w2.file = w.file ∧ w.fptr ≤ w2.fptr ∧ (w.fptr ≤ w.file.length → w2.fptr ≤ w2.file.length) ∧
  w.calls <+: w2.calls

/-- The variables of the scene engine are kept. -/
def KeepScene (w w2 : World) : Prop :=
  w2.scene = w.scene ∧ w2.pos = w.pos ∧ w2.command = w.command ∧ w2.arg = w.arg

/-- The characters that are tokens on their own. -/
def single_tokens : List (Int × Nat) :=
  [(123, tok_lbrace), (125, tok_rbrace), (40, tok_lparen), (41, tok_rparen),
   (59, tok_semicolon), (61, tok_assign), (58, tok_colon), (44, tok_comma)]

/-- The literal `500`. -/
def literal_500 : literal := ⟨none, .dec, false, [53, 48, 48]⟩

/-! ## Packet handler, `src/src/handler.c` -/

/-- The constant `MAXPACK` (`rfio.h`). -/
def MAXPACK : Nat := 60

def HND_PING : Nat := 0x01
def HND_START : Nat := 0x33
def HND_SKIP : Nat := 0x34
def HND_STOP : Nat := 0x35
def HND_PAUSE : Nat := 0x37
def HND_FRAME : Nat := 0x99
def HND_DIM : Nat := 0xD1
def HND_TPM2 : Nat := 0xDA
def HND_FINGER : Nat := 0xF1

/-- The magic packets `wup` and `slp`. -/
def wup : List Nat := [0xCA, 0xFE, 0xBA, 0xBE]

def slp : List Nat := [0xDE, 0xAD, 0xBE, 0xEF]

/-- The function `memcpy(&msg[p], src, n)` for the bytes `src`: the array `msg`
is a function from byte offsets to bytes, an offset of `MAXPACK` or more is
memory behind the array. -/
def poke (msg : Nat → Nat) (p : Nat) (src : List Nat) : Nat → Nat :=
  fun j => if p ≤ j ∧ j < p + src.length then src.getD (j - p) 0 else msg j

/-- The bytes `msg[p]` to `msg[p + n - 1]`. -/
def peek (msg : Nat → Nat) (p n : Nat) : List Nat := (List.range n).map fun k => msg (p + k)

/-- The object representation of an integer of `n` bytes with the value `v`
(modulo `2 ^ (8 * n)`) on the little-endian Cortex-M3: the least significant
byte first. -/
def le_bytes (n : Nat) (v : Int) : List Nat :=
  (List.range n).map fun k => ((v / 256 ^ k) % 256).toNat

/-- The unsigned integer with the object representation `bs`. -/
def le_value (bs : List Nat) : Int :=
  bs.foldr (fun b v => (b : Int) + 256 * v) 0

/-- The signed (two's complement) integer of `n` bytes with the object
representation `bs`. -/
def le_signed (n : Nat) (bs : List Nat) : Int :=
  if le_value bs ≥ 2 ^ (8 * n - 1) then le_value bs - 2 ^ (8 * n) else le_value bs

/-- An argument in the variable argument list of `pack`: an integer, or for `@`
a pointer to bytes. -/
inductive pack_arg
  | int (v : Int)
  | ptr (bytes : List Nat)

/-- The loop `while (*fmt) { switch (*fmt++) ... }` of `pack`, with the write
position `p` as an offset into `msg`. The result is `none` when `va_arg` does
not find an argument of the kind the format asks for, which is undefined. -/
def pack_loop : List Char → List pack_arg → (Nat → Nat) → Nat → Option ((Nat → Nat) × Nat)
  | [], _, msg, p => some (msg, p)
  | c :: fmt, args, msg, p =>
    if c = 'b' then
      match args with
      | .int v :: args => pack_loop fmt args (poke msg p [if v ≠ 0 then 1 else 0]) (p + 1)
      | _ => none
    else if c = 'c' ∨ c = '!' ∨ c = 'C' then
      match args with
      | .int v :: args => pack_loop fmt args (poke msg p (le_bytes 1 v)) (p + 1)
      | _ => none
    else if c = 'w' ∨ c = 'W' then
      match args with
      | .int v :: args => pack_loop fmt args (poke msg p (le_bytes 2 v)) (p + 2)
      | _ => none
    else if c = 'l' ∨ c = 'L' then
      match args with
      | .int v :: args => pack_loop fmt args (poke msg p (le_bytes 4 v)) (p + 4)
      | _ => none
    else if c = '@' then
      match args with
      | .ptr bytes :: args => pack_loop fmt args (poke msg p (bytes.take 4)) (p + 4)
      | _ => none
    else pack_loop fmt args msg p

/-- The function `pack(fmt, ...)`: the new content of `msg` and the result
`p - msg` as a `uint8_t`. -/
def pack (fmt : List Char) (args : List pack_arg) (msg : Nat → Nat) :
    Option ((Nat → Nat) × Nat) :=
  (pack_loop fmt args msg 0).map fun r => (r.1, r.2 % 256)

/-- The loop of `unpack`, with the read position `p` and the values stored
through the pointer arguments so far in `out`. -/
def unpack_loop : List Char → (Nat → Nat) → Nat → List Int → List Int × Nat
  | [], _, p, out => (out, p)
  | c :: fmt, msg, p, out =>
    if c = 'b' then unpack_loop fmt msg (p + 1) (out ++ [if msg p ≠ 0 then 1 else 0])
    else if c = 'c' then unpack_loop fmt msg (p + 1) (out ++ [le_signed 1 (peek msg p 1)])
    else if c = 'C' then unpack_loop fmt msg (p + 1) (out ++ [le_value (peek msg p 1)])
    else if c = '!' then unpack_loop fmt msg (p + 1) out
    else if c = 'w' then unpack_loop fmt msg (p + 2) (out ++ [le_signed 2 (peek msg p 2)])
    else if c = 'W' then unpack_loop fmt msg (p + 2) (out ++ [le_value (peek msg p 2)])
    else if c = 'l' then unpack_loop fmt msg (p + 4) (out ++ [le_signed 4 (peek msg p 4)])
    else if c = 'L' then unpack_loop fmt msg (p + 4) (out ++ [le_value (peek msg p 4)])
    else if c = '@' then unpack_loop fmt msg (p + 4) out
    else unpack_loop fmt msg p out

/-- The function `unpack(length, fmt, ...)`: the result `(p - msg) == length`
and the values stored through the pointer arguments, in order. -/
def unpack (length : Nat) (fmt : List Char) (msg : Nat → Nat) : Bool × List Int :=
  (decide ((unpack_loop fmt msg 0 []).2 = length), (unpack_loop fmt msg 0 []).1)


/-- A call of the handler into another module, as recorded in `Hnd.calls`;
`rf_sendto` is recorded with the bytes of `msg` it is given. -/
inductive hnd_call
  | sc_play
  | sc_start (scene : Nat)
  | sc_pause
  | sc_skip
  | sc_stop
  | rf_sendto (dest : Nat) (payload : List Nat)
  | rf_listen (idle rx : Nat)
  | rf_enable (enable : Bool)
  | sys_hsi
  | sys_hse
  | ui_led (enable : Bool)
  | tot_delay (msecs : Nat)
  | led_enable (enable : Bool)
  | led_universe
  | led_dim (red green blue : Nat)
  | led_capture
  | led_maps
  | led_release
  | tp2_reset
  | tp2_digest (bytes : List Nat)
  | tp2_clear
  deriving DecidableEq

/-- The state of the handler: the array `msg` and the calls made so far. -/
structure Hnd where
  msg : Nat → Nat
  calls : List hnd_call

/-- What the other modules give the handler during one call: `node` and
`listen` are `config.rf.node` and `config.mode.listen`; `received` is the
result of `rf_received()`; `rcpt` and `packet` are the destination byte and the
payload of the packet in the FIFO; `vbat`, `rssi`, `temp` and `uid` are the
results of `ad_vbat()`, `rf_rssi()`, `ad_temp()` and `sys_uid()`; `hv` and `sv`
are `HARDWARE_VERSION` and `SOFTWARE_VERSION`; `started` and `tripped` are the
results of `sc_start()` and `tp2_trip()`; `wake` lists the packets (destination
byte and payload) that arrive while the node sleeps. -/
structure hnd_env where
  node : Nat
  listen : Nat
  received : Bool
  rcpt : Nat
  packet : List Nat
  vbat : Int
  rssi : Int
  temp : Int
  uid : Int
  hv : Int
  sv : Int
  started : Bool
  tripped : Bool
  wake : List (Nat × List Nat)

/-- Recording a call. -/
def Hnd.call (s : Hnd) (c : hnd_call) : Hnd := { s with calls := s.calls ++ [c] }

/-- The function `rf_sendto(to, msg, length)` (`dest` is `to`) of `rfio.c`, which sends at most
`MAXPACK` bytes. -/
def rf_sendto (dest : Nat) (length : Nat) (s : Hnd) : Hnd :=
  s.call (.rf_sendto dest (peek s.msg 0 (min length MAXPACK)))

/-- The function `rf_receive(msg, &length)` of `rfio.c` called with
`length = MAXPACK`, for a packet with the payload `packet`: the new length and
the state. -/
def rf_receive (packet : List Nat) (s : Hnd) : Nat × Hnd :=
  (min packet.length MAXPACK,
   { s with msg := poke s.msg 0 (packet.take (min packet.length MAXPACK)) })

/-- The function `sndack(length)`; the calls of `sc_play()` while the packet is
sent are not recorded. -/
def sndack (env : hnd_env) (length : Nat) (s : Hnd) : Hnd :=
  rf_sendto env.node length s

/-- A call `pack(fmt, ...)` with arguments that match the format. -/
def pack_msg (fmt : String) (args : List pack_arg) (s : Hnd) : Nat × Hnd :=
  match pack fmt.toList args s.msg with
  | some r => (r.2, { s with msg := r.1 })
  | none => (0, s)

/-- The loop `do { ... } while (length < 4 || memcmp(msg, wup, 4) != 0)` of
`sleep_listen` over the packets that arrive; the result is `none` when no wake
packet is among them, so that the loop does not end. -/
def sleep_loop (env : hnd_env) : List (Nat × List Nat) → Hnd → Option (Nat × Nat × Hnd)
  | [], _ => none
  | (rcpt, packet) :: rest, s =>
    let s := s.call (.rf_listen env.listen 100)
    let r := rf_receive packet s
    if r.1 < 4 ∨ peek r.2.msg 0 4 ≠ wup then sleep_loop env rest r.2
    else some (rcpt, r.1, r.2)

/-- The loop `while (remaining--) { tot_delay(50); led_enable(remaining & 1);
}` of `sleep_listen`. -/
def blink : Nat → Hnd → Hnd
  | 0, s => s
  | remaining + 1, s =>
    blink remaining ((s.call (.tot_delay 50)).call (.led_enable (decide (remaining % 2 = 1))))

/-- The function `sleep_listen()`; the result is `none` when it does not
return. -/
def sleep_listen (env : hnd_env) (s : Hnd) : Option (Bool × Hnd) :=
  let s := ((((s.call .sc_stop).call (.tot_delay 100)).call (.led_enable false)).call
    (.ui_led false)).call .sys_hsi
  match sleep_loop env env.wake s with
  | none => none
  | some (rcpt, length, s) =>
    let s := (((s.call .sys_hse).call (.led_enable true)).call (.rf_enable true)).call .sc_skip
    if rcpt ≠ 0xFF then
      let u := unpack length "@L".toList s.msg
      if u.1 then
        let remaining := (u.2.getD 0 0).toNat
        let remaining := if remaining > env.listen then env.listen else remaining
        some (true, sndack env 0 (blink (remaining / 50) s))
      else some (true, s)
    else some (true, s)

/-- The common shape of the cases of `hnd_handle` for a command without
arguments: `if (!unpack(length, "!")) return false;`, the action, `sndack(0)`. -/
def hnd_simple (env : hnd_env) (length : Nat) (action : List hnd_call) (s : Hnd) :
    Option (Bool × Hnd) :=
  if !(unpack length "!".toList s.msg).1 then some (false, s)
  else some (true, sndack env 0 { s with calls := s.calls ++ action })

/-- The function `hnd_handle()`; the result is `none` when it does not return
(the node sleeps and no wake packet arrives). -/
def hnd_handle (env : hnd_env) (s : Hnd) : Option (Bool × Hnd) :=
  let s := s.call .sc_play
  if !env.received then some (false, s)
  else
    let r := rf_receive env.packet s
    let length := r.1
    let s := r.2
    if length = 4 ∧ peek s.msg 0 4 = slp then
      sleep_listen env (if env.rcpt ≠ 0xFF then sndack env 0 s else s)
    else if length = 0 then some (false, s)
    else if s.msg 0 = HND_PING then
      if !(unpack length "!".toList s.msg).1 then some (false, s)
      else
        let p := pack_msg "Www" [.int env.vbat, .int env.rssi, .int env.temp] s
        some (true, sndack env p.1 p.2)
    else if s.msg 0 = HND_START then
      let u := unpack length "!W".toList s.msg
      if !u.1 then some (false, s)
      else
        let s := s.call (.sc_start (u.2.getD 0 0).toNat)
        if env.started then some (true, sndack env 0 s) else some (true, s)
    else if s.msg 0 = HND_PAUSE then hnd_simple env length [.sc_pause] s
    else if s.msg 0 = HND_SKIP then hnd_simple env length [.sc_skip] s
    else if s.msg 0 = HND_STOP then hnd_simple env length [.sc_stop] s
    else if s.msg 0 = HND_FRAME then hnd_simple env length [.led_universe] s
    else if s.msg 0 = HND_FINGER then
      if !(unpack length "!".toList s.msg).1 then some (false, s)
      else
        let p := pack_msg "LWW" [.int env.uid, .int env.hv, .int env.sv] s
        some (true, sndack env p.1 p.2)
    else if s.msg 0 = HND_DIM then
      let u := unpack length "!CCC".toList s.msg
      if !u.1 then some (false, s)
      else
        let s := { s with calls := s.calls ++
          [.led_dim (u.2.getD 0 0).toNat (u.2.getD 1 0).toNat (u.2.getD 2 0).toNat,
           .led_capture, .led_maps, .led_release] }
        some (true, sndack env 0 s)
    else if s.msg 0 = HND_TPM2 then
      if (unpack length "!".toList s.msg).1 then
        some (true, sndack env 0 { s with calls := s.calls ++ [.sc_stop, .tp2_reset] })
      else
        let s := s.call (.tp2_digest (peek s.msg 1 (length - 1)))
        let s := if env.tripped then
            { s with calls := s.calls ++
              [.led_enable true, .led_capture, .led_maps, .led_release, .tp2_clear] }
          else s
        some (true, sndack env 0 s)
    else some (false, s)

/-- The reply the handler waits for in `rcvack(id, &l)`: `none` when none comes
from `id` before the timeout, else the payload of the reply, which `rf_receive`
puts into `msg` (up to `MAXPACK` bytes). -/
def rcvack (reply : Option (List Nat)) (s : Hnd) : Bool × Nat × Hnd :=
  match reply with
  | none => (false, 0, s)
  | some payload => (true, (rf_receive payload s).1, (rf_receive payload s).2)

/-- The loop `do { ... } while (length);` of `hnd_tpm2(id, buf, length)`: `buf`
is the memory the pointer `buf` points into, `bp` the offset of the pointer and
`replies` what the calls of `rcvack` are going to find. The first component of
the result is `none` when the recursion bound is used up. -/
def hnd_tpm2_loop (id : Nat) (buf : Nat → Nat) :
    Nat → Nat → Nat → List (Option (List Nat)) → Hnd → Option Bool × Hnd
  | 0, _, _, _, s => (none, s)
  | fuel + 1, bp, length, replies, s =>
    let p := pack_msg "!" [.int HND_TPM2] s
    let l := p.1
    let chunk := (MAXPACK - l) % 256
    let chunk := if chunk > length then length else chunk
    let s := { p.2 with msg := poke p.2.msg l (peek buf bp chunk) }
    let l := (l + chunk) % 256
    let bp := bp + chunk
    let length := length - chunk
    let s := rf_sendto id l s
    let a := rcvack (replies.headD none) s
    if !a.1 || !(unpack a.2.1 [] a.2.2.msg).1 then (some false, a.2.2)
    else if length ≠ 0 then hnd_tpm2_loop id buf fuel bp length replies.tail a.2.2
    else (some true, a.2.2)

/-- The function `hnd_tpm2(id, buf, length)`; every pass of the loop but the
last takes at least one byte, so `length + 1` passes are enough. -/
def hnd_tpm2 (id : Nat) (buf : Nat → Nat) (length : Nat) (replies : List (Option (List Nat)))
    (s : Hnd) : Option Bool × Hnd :=
  hnd_tpm2_loop id buf (length + 1) 0 length replies s


/-! ## Proof vocabulary for the packet handler -/

/-- The packets handed to `rf_sendto` among the calls: destination byte and
payload. -/
def sent (calls : List hnd_call) : List (Nat × List Nat) :=
  calls.filterMap fun c =>
    match c with
    | .rf_sendto dest payload => some (dest, payload)
    | _ => none

/-! ### The wire format as the specification words it

"All integers are little-endian by design; encoding is `b u8 | c i8 | C u8 |
w i16 | W u16 | l i32 | L u32`". -/

/-- The kinds of fields of a packet. -/
inductive field
  | b
  | c
  | C
  | w
  | W
  | l
  | L
  deriving DecidableEq

/-- The format character of a kind. -/
def field.char : field → Char
  | .b => 'b'
  | .c => 'c'
  | .C => 'C'
  | .w => 'w'
  | .W => 'W'
  | .l => 'l'
  | .L => 'L'

/-- The width of a kind on the wire, in bytes. -/
def field.width : field → Nat
  | .b => 1
  | .c => 1
  | .C => 1
  | .w => 2
  | .W => 2
  | .l => 4
  | .L => 4

/-- A value matches a kind when it is a value of the type of the kind; for `b`
that is any `int`. -/
def field.fits : field → Int → Prop
  | .b => fun v => -2147483648 ≤ v ∧ v ≤ 2147483647
  | .c => fun v => -128 ≤ v ∧ v ≤ 127
  | .C => fun v => 0 ≤ v ∧ v ≤ 255
  | .w => fun v => -32768 ≤ v ∧ v ≤ 32767
  | .W => fun v => 0 ≤ v ∧ v ≤ 65535
  | .l => fun v => -2147483648 ≤ v ∧ v ≤ 2147483647
  | .L => fun v => 0 ≤ v ∧ v ≤ 4294967295

instance (f : field) (v : Int) : Decidable (f.fits v) := by
  cases f <;> unfold field.fits <;> infer_instance

/-- The value a receiver gets for a field: a `b` is normalised to 0 or 1. -/
def field.norm : field → Int → Int
  | .b => fun v => if v ≠ 0 then 1 else 0
  | _ => fun v => v

/-- The bytes of a field on the wire, the least significant byte first. -/
def field.wire (f : field) (v : Int) : List Nat :=
  le_bytes f.width (f.norm v)

/-- The bytes of a list of fields on the wire. -/
def wire : List (field × Int) → List Nat
  | [] => []
  | x :: fs => x.1.wire x.2 ++ wire fs

/-- The handler before its first call, with `msg` zeroed. -/
def hnd_init : Hnd := ⟨fun _ => 0, []⟩

/-- A `PAUSE` command sent to the broadcast address, received by node 7. -/
def broadcast_pause : hnd_env :=
  { node := 7, listen := 1000, received := true, rcpt := 0xFF, packet := [HND_PAUSE],
    vbat := 0, rssi := 0, temp := 0, uid := 0, hv := 0, sv := 0,
    started := false, tripped := false, wake := [] }

/-- The number of packets for `length` bytes of TPM2 data: the bytes in chunks
of `MAXPACK - 1 = 59`, and one packet for no data. -/
def tpm2_packets (length : Nat) : Nat := if length = 0 then 1 else (length + 58) / 59


/-! ## Radio driver, `src/src/rfio.c`, `src/src/sx1231.h`

The SPI transfers of `write`, `chmode` and `afcreset` are not modelled: a
function of the driver yields the list of these calls in order. -/

/-- The constant `RF_XTAL` (`rfio.h`). -/
def RF_XTAL : Nat := 32000000

/-- Register addresses and bit masks of `sx1231.h`. -/
def RegOpMode : Nat := 0x01
def OpMode_ListenOn : Nat := 0x40
def OpMode_Mode_Stdby : Nat := 0x04
def RegBitrateMsb : Nat := 0x03
def RegBitrateLsb : Nat := 0x04
def RegListen1 : Nat := 0x0D
def Listen1_ListenResolIdle_64us : Nat := 0x40
def Listen1_ListenResolIdle_4ms : Nat := 0x80
def Listen1_ListenResolIdle_262ms : Nat := 0xC0
def Listen1_ListenResolRx_64us : Nat := 0x10
def Listen1_ListenResolRx_4ms : Nat := 0x20
def Listen1_ListenResolRx_262ms : Nat := 0x30
def Listen1_ListenCriteria_Sync : Nat := 0x08
def Listen1_ListenEnd_Resume : Nat := 0x04
def RegListen2 : Nat := 0x0E
def RegListen3 : Nat := 0x0F
def RegRxBw : Nat := 0x19
def RxBw_DccFreq_4 : Nat := 0x40
def RxBw_RxBwMant : Nat := 0x18
def RxBw_RxBwMant_16 : Nat := 0x00
def RxBw_RxBwMant_20 : Nat := 0x08
def RxBw_RxBwMant_24 : Nat := 0x10
def RxBw_RxBwExp : Nat := 0x07
def RegAfcBw : Nat := 0x1A

/-- The macro `RxBw_RxBwExp_X(x)`. -/
def RxBw_RxBwExp_X (x : Nat) : Nat := x &&& RxBw_RxBwExp

/-- What a function of the driver does to the radio chip: `chmode(mode)`,
`write(address, value)` with the `uint8_t` value, `afcreset()`, and the three
assignments to the `EXTI` registers in `rf_listen`. -/
inductive rf_call
  | chmode (mode : Nat)
  | write (address value : Nat)
  | afcreset
  | exti_enable
  deriving DecidableEq

/-- The loop `for (exp = 0; div >= 16; exp++) div >>= 1;` of `bwflags`,
returning `div` and `exp`. -/
def bwflags_loop : Nat → Nat → Nat → Nat × Nat
  | 0, div, exp => (div, exp)
  | fuel + 1, div, exp =>
    if div ≥ 16 then bwflags_loop fuel (div >>> 1) ((exp + 1) % 256) else (div, exp)

/-- The function `bwflags(bandwidth)`. In `(div & ~0x08) << 1` the operands are
`int`, so `~0x08` is the word with all bits but bit 3 set; the result is
converted to `uint8_t`. -/
def bwflags (bandwidth : Nat) : Nat :=
  let bandwidth := if bandwidth < 2600 then 2600 else if bandwidth > 500000 then 500000
    else bandwidth
  let div := (RF_XTAL / 4 / bandwidth) % 65536
  let r := bwflags_loop 16 div 0
  let exp := (r.2 + 255) % 256
  let div := (r.1 <<< 1) % 65536
  let mant := ((div &&& 0xFFFFFFF7) <<< 1) % 256
  (mant &&& RxBw_RxBwMant) ||| RxBw_RxBwExp_X exp

/-- The function `rf_rxbw(bandwidth)`. -/
def rf_rxbw (bandwidth : Nat) : List rf_call :=
  [.write RegRxBw (RxBw_DccFreq_4 ||| bwflags bandwidth)]

/-- The function `rf_afcbw(bandwidth)`. -/
def rf_afcbw (bandwidth : Nat) : List rf_call :=
  [.write RegAfcBw (RxBw_DccFreq_4 ||| bwflags bandwidth)]

/-- The function `rf_bitrate(rate)` with the `uint16_t` argument `rate`; the
result is `none` when `RF_XTAL / rate` divides by zero. -/
def rf_bitrate (rate : Nat) : Option (List rf_call) :=
  if rate = 0 then none
  else
    let reg := (RF_XTAL / rate) % 65536
    some [.write RegBitrateMsb ((reg >>> 8) % 256), .write RegBitrateLsb (reg % 256)]

/-- The first `if` chain of `rf_listen`: the resolution flag for `listen1` and
the `uint8_t` value `idlecoef`, for a period `idle` that is not 0. -/
def listen_idle (idle : Nat) : Nat × Nat :=
  if idle ≤ 16 then
    let idle := if idle = 0 then 1 else idle
    (Listen1_ListenResolIdle_64us, (idle * 16) % 256)
  else if idle < 1050 then (Listen1_ListenResolIdle_4ms, (idle / 4) % 256)
  else (Listen1_ListenResolIdle_262ms, (idle / 262) % 256)

/-- The second `if` chain of `rf_listen`, for `rx`. -/
def listen_rx (rx : Nat) : Nat × Nat :=
  if rx ≤ 16 then
    let rx := if rx = 0 then 1 else rx
    (Listen1_ListenResolRx_64us, (rx * 16) % 256)
  else if rx < 1050 then (Listen1_ListenResolRx_4ms, (rx / 4) % 256)
  else (Listen1_ListenResolRx_262ms, (rx / 262) % 256)

/-- The function `rf_listen(idle, rx)` with its `uint16_t` arguments. -/
def rf_listen (idle rx : Nat) : List rf_call :=
  if idle = 0 ∨ rx = 0 then [.chmode OpMode_Mode_Stdby]
  else
    let listen1 := Listen1_ListenCriteria_Sync ||| Listen1_ListenEnd_Resume
    let listen1 := listen1 ||| (listen_idle idle).1
    let listen1 := listen1 ||| (listen_rx rx).1
    [.chmode OpMode_Mode_Stdby, .write RegListen1 listen1,
     .write RegListen2 (listen_idle idle).2, .write RegListen3 (listen_rx rx).2,
     .exti_enable, .afcreset, .write RegOpMode (OpMode_Mode_Stdby ||| OpMode_ListenOn)]

/-! ## Unique identifier, `src/src/system.c` -/

/-- The array `data` of `sys_uid`: the bytes of the unique device identifier,
whose registers `U_ID0`, `U_ID1` (16 bit) and `U_ID23`, `U_ID45` (32 bit) are
inputs; each initialiser is converted to `uint8_t`. -/
def uid_data (U_ID0 U_ID1 U_ID23 U_ID45 : Nat) : List Nat :=
  [(U_ID0 >>> 0) % 256, (U_ID0 >>> 8) % 256, (U_ID1 >>> 0) % 256, (U_ID1 >>> 8) % 256,
   (U_ID23 >>> 0) % 256, (U_ID23 >>> 8) % 256, (U_ID23 >>> 16) % 256, (U_ID23 >>> 24) % 256,
   (U_ID45 >>> 0) % 256, (U_ID45 >>> 8) % 256, (U_ID45 >>> 16) % 256, (U_ID45 >>> 24) % 256]

/-- The loop `for (size_t i = 0; i < sizeof(data)/sizeof(*data); i++) { uid +=
data[i++]; uid += uid << 10; uid ^= uid >> 6; }` of `sys_uid`, from the index
`i` on. -/
def sys_uid_loop (data : List Nat) : Nat → Nat → Nat → Nat
  | 0, _, uid => uid
  | fuel + 1, i, uid =>
    if i < data.length then
      let uid := (uid + data.getD i 0) % 2 ^ 32
      let i := i + 1
      let uid := (uid + (uid <<< 10)) % 2 ^ 32
      let uid := uid ^^^ (uid >>> 6)
      sys_uid_loop data fuel (i + 1) uid
    else uid

/-- The function `sys_uid()`. -/
def sys_uid (U_ID0 U_ID1 U_ID23 U_ID45 : Nat) : Nat :=
  let data := uid_data U_ID0 U_ID1 U_ID23 U_ID45
  let uid := sys_uid_loop data data.length 0 0
  let uid := (uid + (uid <<< 3)) % 2 ^ 32
  let uid := uid ^^^ (uid >>> 11)
  (uid + (uid <<< 15)) % 2 ^ 32

/-! ### The hash as the specification words it

"Jenkins-hashed MCU serial": the one-at-a-time hash of Bob Jenkins over a
sequence of bytes, in 32 bit arithmetic. -/

/-- The step of the one-at-a-time hash for one byte. -/
def jenkins_step (h byte : Nat) : Nat :=
  let h := (h + byte) % 2 ^ 32
  let h := (h + (h <<< 10)) % 2 ^ 32
  h ^^^ (h >>> 6)

/-- The one-at-a-time hash of a byte sequence. -/
def jenkins (bytes : List Nat) : Nat :=
  let h := bytes.foldl jenkins_step 0
  let h := (h + (h <<< 3)) % 2 ^ 32
  let h := h ^^^ (h >>> 11)
  (h + (h <<< 15)) % 2 ^ 32

/-- An index file that sets the bit rate 65536, and one that sets 100000. -/
def bitrate_text : List Nat := bytes "rf \x7b bitrate: 65536; \x7d"

def bitrate_text2 : List Nat := bytes "rf \x7b bitrate: 100000; \x7d"


/-! ### Playing a scene, `src/src/scene.c` -/

/-- What `sc_play` takes from outside the scene engine: the result of
`led_capture()`, and the play procedure of the TPM2 command, which feeds the
opened file to the decoder of `tpm2.c` and whose state is not part of
`World`. -/
structure play_env where
  capture : Bool
  play_tpm2 : World → Bool × World

/-- The function `play_stop`. -/
def play_stop (w : World) : Bool × World := (true, w)

/-- The function `play_pause`. -/
def play_pause (w : World) : Bool × World :=
  if !w.arg.pause_expired && !tot_expired w.timeout w.arg.pause_timeout then (true, w)
  else (false, { w with arg := { w.arg with pause_expired := true } })

/-- The function `play_map`. -/
def play_map (MAXBUFF : Nat) (env : play_env) (w : World) : Bool × World :=
  if !env.capture then (true, w)
  else (false, call .led_release (cfg_map MAXBUFF w.arg.map_ w))

/-- The function `play_framerate`. -/
def play_framerate (env : play_env) (w : World) : Bool × World :=
  if !env.capture then (true, w)
  else (false, call .led_release (call (.led_framerate w.arg.fps) w))

/-- The function `play_dim`. -/
def play_dim (env : play_env) (w : World) : Bool × World :=
  if !env.capture then (true, w)
  else (false, call .led_release (call (.led_dim w.arg.red w.arg.green w.arg.blue) w))

/-- The call `(*commands[command].play_proc)()` for a command that is not
negative; every entry of the table `commands` has a `play_proc`. An index
behind the table is undefined behaviour. -/
def play_proc (MAXBUFF : Nat) (env : play_env) (w : World) : Bool × World :=
  if w.command = stop_command then play_stop w
  else if w.command = tpm2_command then env.play_tpm2 w
  else if w.command = pause_command then play_pause w
  else if w.command = map_command then play_map MAXBUFF env w
  else if w.command = framerate_command then play_framerate env w
  else if w.command = dim_command then play_dim env w
  else (true, { w with undefined := true })

/-- The function `sc_play()`. -/
def sc_play (MAXBUFF : Nat) (env : play_env) (w : World) : Bool × World :=
  if w.command < 0 then (false, w)
  else
    let r := play_proc MAXBUFF env w
    if r.1 then (true, r.2)
    else
      let w := sc_skip r.2
      if w.pos ≠ 0 then
        let c := cfg_command MAXBUFF w.pos w
        (true, { c.2 with pos := c.1 })
      else (false, w)

/-- An environment in which `led_capture()` succeeds. -/
def play_env_free : play_env := { capture := true, play_tpm2 := fun w => (false, w) }

/-- The example configuration with scene 3 started and the millisecond counter
at 501, behind the end of the pause of 500 ms. -/
def example_started : World :=
  { (sc_start 1500 3 (parse 1500 (world_init example_text)).2).2 with timeout := 501 }


/-! ## TPM2 decoder: baud rate detection, `src/src/tpm2.c` -/

/-- The array `baudrates`. -/
def baudrates : List Nat := [9600, 19200, 38400, 57600, 115200, 230400, 460800, 500000]

/-- The function `tp2_detect()`: its result, the baud rate handed to
`tty_baud` if there is such a call, and the state afterwards. `expired` is the
value of `tot_expired(timeout)` at the call. The variable `index` that the
function counts up is the file-scope `index` that `digest` uses as the write
index of the buffer. -/
def tp2_detect (s : Tpm2) (expired : Bool) : Bool × Option Nat × Tpm2 :=
  if s.trap then (true, none, { s with trap := false })
  else if !expired && decide (s.shift < SHIFT_THRESHOLD) then (true, none, s)
  else
    let index := (s.index + 1) % 65536
    let index := if index ≥ baudrates.length then 0 else index
    (false, some (baudrates.getD index 0), { s with index := index, shift := 0 })

/-- The offset in `buffer` of the first byte that `unroll` reads: `p =
&buffer[index - 3]`, where `index` is promoted to `int`. -/
def unroll_source (s : Tpm2) : Int := (s.index : Int) - 3

/-- A byte received without an error and within the frame timeout. -/
def rx (ch : Nat) : tp2_event := .serial ⟨false, false, true⟩ ch false

/-- The serial stream of `blocks` empty blocks of the type `type` followed by
the header of one more: the end byte of each block and the header behind it
make the magic `36 C9 type`, `blocks` times. -/
def lock_stream (blocks type : Nat) : List tp2_event :=
  ((List.replicate blocks [0xC9, type, 0x00, 0x00, 0x36]).flatten ++ [0xC9, type]).map rx

/-- A block body behind the header: the length, high byte first, the payload
and the end byte. -/
def block_body (payload : List Nat) : List tp2_event :=
  ([payload.length / 256, payload.length % 256] ++ payload ++ [0x36]).map rx

/-- A whole block of the type `type`. -/
def block_stream (type : Nat) (payload : List Nat) : List tp2_event :=
  [rx 0xC9, rx type] ++ block_body payload

/-- The first `n` bytes of the buffer. -/
def buffer_take (s : Tpm2) (n : Nat) : List Nat := (List.range n).map s.buffer

/-- The decoder after sixteen framing errors since `tp2_reset()`: `shift` has
reached `SHIFT_THRESHOLD`, so `tp2_detect()` fails whenever no block has been
completed since the call before. -/
def noisy_init : Tpm2 :=
  tp2_run 1500 tp2_init (List.replicate 16 (.serial ⟨true, false, false⟩ 0 false))

/-- The decoder `noisy_init` after the lock on data blocks and the first two
of the four payload bytes `a b c d` of the block that follows. -/
def detect_data_example : Tpm2 :=
  tp2_run 1500 noisy_init (lock_stream 5 0xDA ++ [rx 0, rx 4, rx 97, rx 98])

/-- The decoder `noisy_init` after the lock on TPZ blocks, an empty block, a
call of `tp2_detect()`, and the first seven of nine payload bytes of the next
block, `7 1 2 3 1 2 3`, behind which the repeat count is due. -/
def detect_repeat_example : Tpm2 :=
  tp2_run 1500
    (tp2_detect (tp2_run 1500 noisy_init (lock_stream 5 0xCA ++ block_body [])) false).2.2
    ([rx 0xC9, rx 0xCA, rx 0, rx 9] ++ [7, 1, 2, 3, 1, 2, 3].map rx)

/-- The decoder after reset, the lock on TPZ blocks and the block with the
payload `1 2 3 1 2 3 2`, whose header has completed the lock. -/
def lock_tpz_example : Tpm2 :=
  tp2_run 1500 tp2_init (lock_stream 5 0xCA ++ block_body [1, 2, 3, 1, 2, 3, 2])

/-- The decoder `lock_tpz_example` after `tp2_clear()` and a second TPZ block
with the same payload. -/
def second_tpz_example : Tpm2 :=
  tp2_run 1500 (tp2_clear lock_tpz_example) (block_stream 0xCA [1, 2, 3, 1, 2, 3, 2])

/-- The decoder `second_tpz_example` after a framing error, the lock on data
blocks and the data block with the payload `1 2 3 1 2 3 2`. The end byte of
the block before the error is still in the shift register and makes the first
magic with the first header, so four empty blocks are sent before the data
block. -/
def lock_data_example : Tpm2 :=
  tp2_run 1500 second_tpz_example
    ([.serial ⟨true, false, false⟩ 0 false] ++ lock_stream 4 0xDA ++
      block_body [1, 2, 3, 1, 2, 3, 2])


/-! ## Coordinator server, `src/src/server.c` -/

/-- The macro `mm` of `base64decode`. -/
def mm : Nat := 0xFF

/-- The table `d` of `base64decode`. -/
def base64_d : List Nat :=
  [mm, mm, mm, mm, mm, mm, mm, mm, mm, mm, mm, mm, mm, mm, mm, mm,
   mm, mm, mm, mm, mm, mm, mm, mm, mm, mm, mm, mm, mm, mm, mm, mm,
   mm, mm, mm, mm, mm, mm, mm, mm, mm, mm, mm, 62, mm, mm, mm, 63,
   52, 53, 54, 55, 56, 57, 58, 59, 60, 61, mm, mm, mm, mm, mm, mm,
   mm,  0,  1,  2,  3,  4,  5,  6,  7,  8,  9, 10, 11, 12, 13, 14,
   15, 16, 17, 18, 19, 20, 21, 22, 23, 24, 25, mm, mm, mm, mm, mm,
   mm, 26, 27, 28, 29, 30, 31, 32, 33, 34, 35, 36, 37, 38, 39, 40,
   41, 42, 43, 44, 45, 46, 47, 48, 49, 50, 51, mm, mm, mm, mm, mm,
   mm, mm, mm, mm, mm, mm, mm, mm, mm, mm, mm, mm, mm, mm, mm, mm,
   mm, mm, mm, mm, mm, mm, mm, mm, mm, mm, mm, mm, mm, mm, mm, mm,
   mm, mm, mm, mm, mm, mm, mm, mm, mm, mm, mm, mm, mm, mm, mm, mm,
   mm, mm, mm, mm, mm, mm, mm, mm, mm, mm, mm, mm, mm, mm, mm, mm,
   mm, mm, mm, mm, mm, mm, mm, mm, mm, mm, mm, mm, mm, mm, mm, mm,
   mm, mm, mm, mm, mm, mm, mm, mm, mm, mm, mm, mm, mm, mm, mm, mm,
   mm, mm, mm, mm, mm, mm, mm, mm, mm, mm, mm, mm, mm, mm, mm, mm,
   mm, mm, mm, mm, mm, mm, mm, mm, mm, mm, mm, mm, mm, mm, mm, mm]

/-- The variables of `base64decode` when its loop is left: whether the
function goes on (it does not after `return false`), the buffer, the offsets
`in - buf` and `out - buf`, `triplet`, `round` and `*length`. -/
structure b64_state where
  ok : Bool
  buf : Nat → Nat
  inp : Nat
  out : Nat
  triplet : Nat
  round : Nat
  length : Nat

/-- The loop `while ((*length)--) { ... }` of `base64decode`, by recursion on
`*length`. -/
def base64_loop : Nat → (Nat → Nat) → Nat → Nat → Nat → Nat → b64_state
  | 0, buf, inp, out, triplet, round => ⟨true, buf, inp, out, triplet, round, 0xFFFF⟩
  | length + 1, buf, inp, out, triplet, round =>
    let ch := buf inp % 256
    if isspace (ch : Int) then base64_loop length buf (inp + 1) out triplet round
    else if ch = 61 ∨ ch = 0 then ⟨true, buf, inp + 1, out, triplet, round, length⟩  -- '='
    else if base64_d.getD ch 0 = 0xFF then ⟨false, buf, inp + 1, out, triplet, round, length⟩
    else
      let triplet := ((triplet <<< 6) % 2 ^ 32) ||| base64_d.getD ch 0
      let round := round + 1
      if round = 4 then
        let buf := store buf out ((triplet >>> 16) &&& 0xFF)
        let buf := store buf (out + 1) ((triplet >>> 8) &&& 0xFF)
        let buf := store buf (out + 2) ((triplet >>> 0) &&& 0xFF)
        base64_loop length buf (inp + 1) (out + 3) triplet 0
      else base64_loop length buf (inp + 1) out triplet round

/-- The function `base64decode(buf, length)`: its result, the buffer and
`*length` afterwards. -/
def base64decode (buf : Nat → Nat) (length : Nat) : Bool × (Nat → Nat) × Nat :=
  let s := base64_loop length buf 0 0 0 0
  if !s.ok then (false, s.buf, s.length)
  else if s.round = 3 then
    let buf := store s.buf s.out ((s.triplet >>> (2 + 8)) &&& 0xFF)
    let buf := store buf (s.out + 1) ((s.triplet >>> (2 + 0)) &&& 0xFF)
    (true, buf, (s.out + 2) % 65536)
  else if s.round = 2 then
    (true, store s.buf s.out ((s.triplet >>> (4 + 0)) &&& 0xFF), (s.out + 1) % 65536)
  else (true, s.buf, s.out % 65536)

/-! ### Base64 as RFC 4648 words it

"Each 6-bit group is used as an index into an array of 64 printable
characters"; three bytes make four characters, and a final group of one or two
bytes is padded with `=` to four characters. -/

/-- The alphabet of RFC 4648, table 1. -/
def base64_alphabet : List Nat :=
  bytes "ABCDEFGHIJKLMNOPQRSTUVWXYZabcdefghijklmnopqrstuvwxyz0123456789+/"

/-- The character for a 6-bit group. -/
def base64_char (v : Nat) : Nat := base64_alphabet.getD v 0

/-- The Base64 encoding of a byte sequence, with padding. -/
def base64_encode : List Nat → List Nat
  | [] => []
  | [x] => [base64_char (x / 4), base64_char (x % 4 * 16), 61, 61]
  | [x, y] => [base64_char (x / 4), base64_char (x % 4 * 16 + y / 16),
      base64_char (y % 16 * 4), 61]
  | x :: y :: z :: rest =>
    base64_char (x / 4) :: base64_char (x % 4 * 16 + y / 16) ::
      base64_char (y % 16 * 4 + z / 64) :: base64_char (z % 64) :: base64_encode rest

/-- The characters that are not white space, which an encoded text may have
anywhere. -/
def not_space (c : Nat) : Bool := !isspace (c : Int)

/-- A buffer that holds the text `t` from offset 0 on. -/
def buffer_of (t : List Nat) : Nat → Nat := fun i => t.getD i 0

/-! ### Proof vocabulary for `base64decode` -/

/-- The loop of `base64decode` on the characters that are not white space,
with the bytes written so far as a list: `none` when the function returns
false. -/
def b64_scan : List Nat → Nat → Nat → List Nat → Option (Nat × Nat × List Nat)
  | [], triplet, round, o => some (triplet, round, o)
  | c :: cs, triplet, round, o =>
    if c = 61 ∨ c = 0 then some (triplet, round, o)
    else if base64_d.getD c 0 = 0xFF then none
    else if round + 1 = 4 then
      b64_scan cs (((triplet <<< 6) % 2 ^ 32) ||| base64_d.getD c 0) 0
        (o ++ [((((triplet <<< 6) % 2 ^ 32) ||| base64_d.getD c 0) >>> 16) &&& 0xFF,
          ((((triplet <<< 6) % 2 ^ 32) ||| base64_d.getD c 0) >>> 8) &&& 0xFF,
          ((((triplet <<< 6) % 2 ^ 32) ||| base64_d.getD c 0) >>> 0) &&& 0xFF])
    else b64_scan cs (((triplet <<< 6) % 2 ^ 32) ||| base64_d.getD c 0) (round + 1) o

/-- The bytes after the part "Decode rest" of `base64decode`. -/
def b64_finish (r : Nat × Nat × List Nat) : List Nat :=
  if r.2.1 = 3 then r.2.2 ++ [(r.1 >>> (2 + 8)) &&& 0xFF, (r.1 >>> (2 + 0)) &&& 0xFF]
  else if r.2.1 = 2 then r.2.2 ++ [(r.1 >>> (4 + 0)) &&& 0xFF]
  else r.2.2


/-! ## Task queue of the coordinator dialog, `src/nodes/dialog.cpp`

The widgets, the serial port and the texts of the requests are not modelled.
A node item is referred to by its id, a task by a number that stands for its
address. -/

/-- The members `m_asleep` and `m_qos` of `Dialog::NodeItem`. -/
structure NodeItem where
  asleep : Bool
  qos : Int
  deriving DecidableEq

/-- The method `NodeItem::goodQos()`. -/
def NodeItem.goodQos (n : NodeItem) : NodeItem := { n with qos := min (n.qos + 1) 100 }

/-- The method `NodeItem::badQos()`. -/
def NodeItem.badQos (n : NodeItem) : NodeItem := { n with qos := max (n.qos - 10) 0 }

/-- The classes derived from `Dialog::Task`. -/
inductive task_kind
  | ping
  | scene
  | sleep
  | wake
  | dim
  | frame
  deriving DecidableEq

/-- An object of a class derived from `Dialog::Task`: its address, its class,
the id of its node and `m_ttl`. -/
structure Task where
  id : Nat
  kind : task_kind
  node : Nat
  ttl : Int
  deriving DecidableEq

/-- The value of `m_ttl` that the constructor of a class sets: `Task(node)` has
the default `ttl = 4`, `PingTask` calls `Task(node, 1)`. -/
def task_ttl (kind : task_kind) : Int := if kind = .ping then 1 else 4

/-- The members of `Dialog` that the task queue works on: whether the port is
open, the node ids of the top level items of the tree widget, the node items,
`tasks`, `currentTask`, `idleIndex` and the interval of `timeoutTimer` while it
runs. `fresh` is the address the next `new` returns and `sent` lists the tasks
whose request has been written to the port. -/
structure Dialog where
  opened : Bool
  nodes : List Nat
  items : Nat → NodeItem
  tasks : List Task
  currentTask : Option Task
  idleIndex : Nat
  timer : Option Nat
  fresh : Nat
  sent : List Task

/-- Applying a method to the node item with the id `node`. -/
def Dialog.update (d : Dialog) (node : Nat) (f : NodeItem → NodeItem) : Dialog :=
  { d with items := fun k => if k = node then f (d.items k) else d.items k }

/-- The method `Dialog::postTask(task)`. -/
def Dialog.postTask (d : Dialog) (task : Task) : Dialog :=
  { d with tasks := d.tasks ++ [task] }

/-- The method `Task::timeout()`: `node()->badQos(); if (m_ttl) m_ttl--;`, with
the task afterwards. No derived class overrides it. -/
def Task.timeout (t : Task) (d : Dialog) : Task × Dialog :=
  (if t.ttl ≠ 0 then { t with ttl := t.ttl - 1 } else t, d.update t.node NodeItem.badQos)

/-- The methods `response(stream)` of the task classes; `ok` tells whether the
response starts with `100`. -/
def Task.response (t : Task) (ok : Bool) (d : Dialog) : Dialog :=
  if ok then
    if t.kind = .sleep then
      d.update t.node (fun n => { n.goodQos with asleep := true })
    else if t.kind = .wake then
      d.update t.node (fun n => { n.goodQos with asleep := false })
    else d.update t.node NodeItem.goodQos
  else d.update t.node NodeItem.badQos

/-- The slot `Dialog::timeout()`; the timer is a single shot timer. -/
def Dialog.timeout (d : Dialog) : Dialog :=
  let d := { d with timer := none }
  match d.currentTask with
  | some t =>
    let r := t.timeout d
    let d := if r.1.ttl > 0 then r.2.postTask r.1 else r.2
    { d with currentTask := none }
  | none => d

/-- The part of the slot `Dialog::readReady()` that runs when a whole response
has been read. -/
def Dialog.readReady (d : Dialog) (ok : Bool) : Dialog :=
  match d.currentTask with
  | some t => { t.response ok d with currentTask := none, timer := none }
  | none => d

/-- The slot `Dialog::idle()`. -/
def Dialog.idle (d : Dialog) : Dialog :=
  if !d.opened then d
  else if d.nodes.length = 0 then d
  else if d.currentTask.isSome then d
  else
    let d :=
      if d.tasks.isEmpty then
        let idleIndex := if d.idleIndex ≥ d.nodes.length then 0 else d.idleIndex
        Dialog.postTask { d with idleIndex := idleIndex + 1, fresh := d.fresh + 1 }
          ⟨d.fresh, .ping, d.nodes.getD idleIndex 0, task_ttl .ping⟩
      else d
    match d.tasks with
    | [] => d
    | t :: rest =>
      let d := { d with tasks := rest }
      if (d.items t.node).asleep && t.kind ≠ .wake then { d with currentTask := none }
      else
        { d with currentTask := some t, sent := d.sent ++ [t],
                 timer := some (if t.kind = .wake then 5000 else 1000) }

/-- What happens to the dialog: the idle timer fires, the timeout timer fires,
a response arrives, or a task of some class is made for a node and posted (as
`sleepTask()`, `wakeTask()`, `startScene()` and the other slots do). Opening
and closing the port and `removeNode()` are not among the events. -/
inductive dialog_event
  | idle
  | timeout
  | response (ok : Bool)
  | post (kind : task_kind) (node : Nat)
  deriving DecidableEq

/-- One event. -/
def Dialog.step (d : Dialog) : dialog_event → Dialog
  | .idle => d.idle
  | .timeout => d.timeout
  | .response ok => d.readReady ok
  | .post kind node =>
    Dialog.postTask { d with fresh := d.fresh + 1 } ⟨d.fresh, kind, node, task_ttl kind⟩

/-- A sequence of events. -/
def Dialog.run (d : Dialog) (evs : List dialog_event) : Dialog := evs.foldl Dialog.step d

/-! ### Proof vocabulary for the task queue -/

/-- The number of times the request of the task with the address `i` has been
written to the port. -/
def sent_count (i : Nat) (d : Dialog) : Nat := (d.sent.filter (fun t => t.id = i)).length

/-- The entries of the queue for the task with the address `i`. -/
def queued (i : Nat) (d : Dialog) : List Task := d.tasks.filter (fun t => t.id = i)

/-- Every transmission of the task `i` times out, and the task is not
discarded for a sleeping node: no response arrives while the task is the
current one, and when the idle timer takes it from the queue (the port is open,
there is a node in the list, no task is the current one and the task is the
head of the queue), its node is not asleep or it is a wake task. -/
def times_out (i : Nat) : Dialog → List dialog_event → Prop
  | _, [] => True
  | d, e :: es =>
    (∀ ok t, e = .response ok → d.currentTask = some t → t.id ≠ i) ∧
    (∀ t, e = .idle → d.opened = true → d.nodes.length ≠ 0 → d.currentTask = none →
      d.tasks.head? = some t → t.id = i →
      ¬ ((d.items t.node).asleep = true ∧ t.kind ≠ .wake)) ∧
    times_out i (d.step e) es

/-- The schedule in which the idle timer and the timeout timer fire in turn
`n` times and no response arrives. -/
def rounds : Nat → List dialog_event
  | 0 => []
  | n + 1 => .idle :: .timeout :: rounds n

/-- The sum of the times to live of the tasks of a queue. -/
def ttl_sum (ts : List Task) : Nat := (ts.map (fun t => t.ttl.toNat)).sum

/-- The addresses in use lie below `fresh`. -/
def Dialog.wf (d : Dialog) : Prop :=
  (∀ t ∈ d.tasks, t.id < d.fresh) ∧ (∀ t, d.currentTask = some t → t.id < d.fresh)

/-- Where the task `i` with the initial time to live `T` is after `k`
transmissions: in the queue once with `T - k` left, or the current task with
`T - (k - 1)` left, or gone after `T` transmissions. -/
def lifecycle (i : Nat) (T : Int) (k : Nat) (d : Dialog) : Prop :=
  ((∃ t, queued i d = [t] ∧ t.ttl = T - k) ∧ (k : Int) < T ∧
      ∀ u, d.currentTask = some u → u.id ≠ i) ∨
  (queued i d = [] ∧ (∃ t, d.currentTask = some t ∧ t.id = i ∧ t.ttl = T - (k - 1)) ∧
      1 ≤ k ∧ (k : Int) ≤ T) ∨
  (queued i d = [] ∧ (∀ u, d.currentTask = some u → u.id ≠ i) ∧ (k : Int) = T)

/-- A dialog with the nodes 7 and 8, a scene task and a sleep task for node 7
in the queue. -/
def dialog_example : Dialog :=
  { opened := true, nodes := [7, 8], items := fun _ => ⟨false, 50⟩,
    tasks := [⟨0, .scene, 7, 4⟩, ⟨1, .sleep, 7, 4⟩], currentTask := none, idleIndex := 0,
    timer := none, fresh := 2, sent := [] }

/-- A dialog whose node 7 is marked asleep, with a wake task and a scene task
for it in the queue. -/
def dialog_wake : Dialog :=
  { opened := true, nodes := [7], items := fun _ => ⟨true, 50⟩,
    tasks := [⟨0, .wake, 7, 4⟩, ⟨1, .scene, 7, 4⟩], currentTask := none, idleIndex := 0,
    timer := none, fresh := 2, sent := [] }

/-- A dialog with the node 7 and one scene task in the queue. -/
def dialog_single : Dialog :=
  { opened := true, nodes := [7], items := fun _ => ⟨false, 50⟩,
    tasks := [⟨0, .scene, 7, 4⟩], currentTask := none, idleIndex := 0,
    timer := none, fresh := 1, sent := [] }


/-! # Theorems -/

/-! ## Pixel scaling -/

theorem scale_channel_le (c s : Nat) (hc : c ≤ 255) (hs : s ≤ 255) : scale_channel c s ≤ 255 := by
  unfold scale_channel
  rw [Nat.shiftRight_eq_div_pow]
  have h1 : c + (if c > 0 then 1 else 0) ≤ 256 := by split_ifs <;> omega
  have h2 : (c + (if c > 0 then 1 else 0)) * s ≤ 256 * 255 := Nat.mul_le_mul h1 hs
  omega

/-- C8: for all `c, s` in `[0, 255]` the per-channel dim scaling
`((c + [c > 0]) * s) >> 8` lies in `[0, 255]`, and `scale(c, 255) = c`,
`scale(0, s) = 0`, `scale(255, s) = s`. -/
theorem scale_channel_range_and_fixpoints (c s : Nat) (hc : c ≤ 255) (hs : s ≤ 255) :
    (0 ≤ scale_channel c s ∧ scale_channel c s ≤ 255) ∧ scale_channel c 255 = c ∧
      scale_channel 0 s = 0 ∧ scale_channel 255 s = s := by
  refine ⟨⟨Nat.zero_le _, scale_channel_le c s hc hs⟩, ?_, ?_, ?_⟩
  · unfold scale_channel
    rw [Nat.shiftRight_eq_div_pow]
    split_ifs <;> omega
  · simp [scale_channel]
  · unfold scale_channel
    rw [Nat.shiftRight_eq_div_pow]
    simp only [gt_iff_lt, Nat.lt_add_one, ↓reduceIte, Nat.zero_lt_succ]
    omega

/-- Witness of C8 at `c = 200`, `s = 100`. -/
theorem scale_channel_range_and_fixpoints_witness :
    (200 ≤ 255 ∧ 100 ≤ 255) ∧
      ((0 ≤ scale_channel 200 100 ∧ scale_channel 200 100 ≤ 255) ∧ scale_channel 200 255 = 200 ∧
        scale_channel 0 100 = 0 ∧ scale_channel 255 100 = 100) :=
  ⟨⟨by decide, by decide⟩, scale_channel_range_and_fixpoints 200 100 (by decide) (by decide)⟩

/-! ## DMX receiver -/

namespace dmx

theorem digester_index (MAXDMX : Nat) (s : Dmx) (status : usart_sr) (ch : Nat)
    (h : s.index = 0 ∨ MAXDMX ≤ s.index) :
    (digester MAXDMX s status ch).index = 0 ∨ MAXDMX ≤ (digester MAXDMX s status ch).index := by
  unfold digester
  cases ht : s.trip <;> split_ifs <;> simp_all

theorem digester_upper (MAXDMX : Nat) (s : Dmx) (status : usart_sr) (ch : Nat)
    (h : s.index = 0 ∨ MAXDMX ≤ s.index) (i : Nat) :
    (digester MAXDMX s status ch).buffer (MAXDMX + i) = s.buffer (MAXDMX + i) := by
  unfold digester
  split_ifs with h1 h2 h3 h4
  · rfl
  · simp only []
    split_ifs
    · simp [memcpy]
    · rfl
  · rfl
  · omega
  · rfl

theorem run_upper (MAXDMX : Nat) (evs : List (usart_sr × Nat)) (s : Dmx)
    (h : s.index = 0 ∨ MAXDMX ≤ s.index) (i : Nat) :
    (run MAXDMX s evs).buffer (MAXDMX + i) = s.buffer (MAXDMX + i) := by
  induction evs generalizing s with
  | nil => rfl
  | cons e evs ih =>
    simp only [run, List.foldl_cons]
    have := ih (digester MAXDMX s e.1 e.2) (digester_index MAXDMX s e.1 e.2 h)
    simp only [run] at this
    rw [this, digester_upper MAXDMX s e.1 e.2 h]

/-- C6 (the code departs from it): `index` is only ever set to `0` or to
`MAXDMX` and never incremented, so the store `buffer[MAXDMX + index] = ch` is
never reached. Whatever interrupts arrive after `dmx_enable`, no byte of the
second half of the working buffer changes; in particular after a break, a zero
start code and the slot byte `0x11` the byte `buffer[MAXDMX + 1]` is still `0`
and the slot byte was taken for a non-zero start code (`index = MAXDMX`). -/
theorem dmx_slots_never_stored :
    (∀ (MAXDMX : Nat) (s : Dmx) (evs : List (usart_sr × Nat)) (i : Nat),
      (run MAXDMX (dmx_enable MAXDMX s) evs).buffer (MAXDMX + i) = s.buffer (MAXDMX + i)) ∧
    (run 512 (dmx_enable 512 ⟨0, false, false, fun _ => 0⟩)
        [(⟨true, false, false⟩, 0), (⟨false, false, true⟩, 0), (⟨false, false, true⟩, 0x11)]).buffer (512 + 1) = 0 ∧
    (run 512 (dmx_enable 512 ⟨0, false, false, fun _ => 0⟩)
        [(⟨true, false, false⟩, 0), (⟨false, false, true⟩, 0), (⟨false, false, true⟩, 0x11)]).index = 512 := by
  refine ⟨?_, ?_, ?_⟩
  · intro MAXDMX s evs i
    exact run_upper MAXDMX evs (dmx_enable MAXDMX s) (Or.inr (Nat.le_refl _)) i
  · decide
  · decide

end dmx

/-! ## Bit-plane transposition -/

theorem wr32_frame (bits : Nat → Nat) (a v j : Nat) (h : j < a ∨ a + 4 ≤ j) :
    wr32 bits a v j = bits j := by
  unfold wr32
  split_ifs <;> omega

theorem transpose_word_frame (bits : Nat → Nat) (a mask port t hi j : Nat)
    (h : j < a ∨ a + 4 ≤ j) : transpose_word bits a mask port t hi j = bits j := by
  unfold transpose_word
  exact wr32_frame _ _ _ _ h

theorem wr32_at (bits : Nat → Nat) (a v m : Nat) (hm : m < 4) :
    wr32 bits a v (a + m) = (v >>> (8 * m)) % 256 := by
  unfold wr32
  interval_cases m <;> simp

theorem testBit_byte (x p : Nat) (hp : p < 8) : (x % 256).testBit p = x.testBit p := by
  have := Nat.testBit_mod_two_pow x 8 p
  simpa [hp] using this

theorem testBit_one_eq (k : Nat) : Nat.testBit 1 k = decide (k = 0) := by
  have := @Nat.testBit_two_pow 0 k
  simp only [pow_zero] at this
  rw [this]
  by_cases h : k = 0 <;> simp [h, eq_comm]

theorem testBit_TRANSPOSE (t sb d j : Nat) :
    (TRANSPOSE t sb d).testBit j = (decide (j = d * 8) && t.testBit sb) := by
  unfold TRANSPOSE
  rw [Nat.testBit_shiftLeft, Nat.testBit_and, Nat.testBit_shiftRight, testBit_one_eq]
  by_cases h : j = d * 8
  · subst h; simp
  · have : ¬ (j - d * 8 = 0 ∧ j ≥ d * 8) := by omega
    by_cases h2 : j ≥ d * 8
    · have h3 : ¬ (j - d * 8 = 0) := by omega
      simp [h, h3]
    · simp [h, h2]

theorem testBit_planes (m : Nat) (hm : m < 4) :
    Nat.testBit 0x01010101 (8 * m) = true := by
  interval_cases m <;> decide

theorem testBit_mask (port m : Nat) (hp : port < 8) (hm : m < 4) :
    ((0x01010101 <<< port) % 2 ^ 32).testBit (8 * m + port) = true := by
  rw [Nat.testBit_mod_two_pow, Nat.testBit_shiftLeft]
  have h1 : 8 * m + port < 32 := by omega
  have h2 : 8 * m + port ≥ port := by omega
  have h3 : 8 * m + port - port = 8 * m := by omega
  simp only [h1, h2, h3, decide_True, Bool.true_and]
  exact testBit_planes m hm

theorem testBit_not32 (x i : Nat) (hi : i < 32) :
    (0xFFFFFFFF ^^^ x).testBit i = !x.testBit i := by
  rw [Nat.testBit_xor]
  have := Nat.testBit_two_pow_sub_one 32 i
  have h2 : (0xFFFFFFFF : Nat) = 2 ^ 32 - 1 := by norm_num
  rw [h2, this]
  simp [hi]

/-- The bit of the own port after one word of `transpose`. -/
theorem transpose_word_own (bits : Nat → Nat) (a port t hi m : Nat) (hp : port < 8)
    (hm : m < 4) :
    (transpose_word bits a ((0x01010101 <<< port) % 2 ^ 32) port t hi (a + m)).testBit port
      = t.testBit (hi - m) := by
  unfold transpose_word
  simp only [wr32_at _ _ _ _ hm]
  have h1 : 8 * m + port < 32 := by omega
  have h2 : 8 * m + port ≥ port := by omega
  have h3 : 8 * m + port - port = 8 * m := by omega
  rw [testBit_byte _ _ hp, Nat.testBit_shiftRight, Nat.testBit_or, Nat.testBit_and,
    testBit_not32 _ _ h1, testBit_mask port m hp hm, Nat.testBit_mod_two_pow,
    Nat.testBit_shiftLeft]
  simp only [h1, h2, h3, decide_True, Bool.true_and, Bool.not_true, Bool.and_false,
    Bool.false_or, Nat.testBit_or, testBit_TRANSPOSE]
  interval_cases m <;> simp

theorem transpose_word_own_at (bits : Nat → Nat) (a port t hi j : Nat) (hp : port < 8)
    (h1 : a ≤ j) (h2 : j < a + 4) :
    (transpose_word bits a ((0x01010101 <<< port) % 2 ^ 32) port t hi j).testBit port
      = t.testBit (hi - (j - a)) := by
  have := transpose_word_own bits a port t hi (j - a) hp (by omega)
  rwa [show a + (j - a) = j by omega] at this

/-- The samples of the own string after `transpose`. -/
theorem transpose_own (bits : Nat → Nat) (offset string t k : Nat) (hs : string ≤ 5)
    (hk : k < 24) : sample (transpose bits offset string t) offset string k = t.testBit (23 - k) := by
  unfold sample transpose
  have hport : (2 + string) % 256 = 2 + string := by omega
  simp only [hport]
  have hp : 2 + string < 8 := by omega
  by_cases c1 : k < 4
  · repeat (rw [transpose_word_frame _ _ _ _ _ _ _ (by omega)])
    rw [transpose_word_own_at _ _ _ _ _ _ hp (by omega) (by omega)]
    congr 1; omega
  by_cases c2 : k < 8
  · repeat (rw [transpose_word_frame _ _ _ _ _ _ _ (by omega)])
    rw [transpose_word_own_at _ _ _ _ _ _ hp (by omega) (by omega)]
    congr 1; omega
  by_cases c3 : k < 12
  · repeat (rw [transpose_word_frame _ _ _ _ _ _ _ (by omega)])
    rw [transpose_word_own_at _ _ _ _ _ _ hp (by omega) (by omega)]
    congr 1; omega
  by_cases c4 : k < 16
  · repeat (rw [transpose_word_frame _ _ _ _ _ _ _ (by omega)])
    rw [transpose_word_own_at _ _ _ _ _ _ hp (by omega) (by omega)]
    congr 1; omega
  by_cases c5 : k < 20
  · repeat (rw [transpose_word_frame _ _ _ _ _ _ _ (by omega)])
    rw [transpose_word_own_at _ _ _ _ _ _ hp (by omega) (by omega)]
    congr 1; omega
  · rw [transpose_word_own_at _ _ _ _ _ _ hp (by omega) (by omega)]
    congr 1; omega

/-- C9: after `led_rgb(p, s, r, g, b)` with `p < MAXLEDS` and `s ≤ 5` the 24
bit-time samples of the line of string `s` in `bits[24p .. 24p + 23]` are the
bits of the word `G' << 16 | R' << 8 | B'` of the dim-scaled components, most
significant bit first and inverted: sample `i` is the complement of bit
`23 - i`, so the pixel goes out in G R B order. -/
theorem led_rgb_wire_order (l : Leds) (p s r g b i : Nat) (hp : p < MAXLEDS) (hs : s ≤ 5)
    (hi : i < 24) :
    sample (led_rgb l p s r g b).bits p s i =
      !(((scale_channel g l.sgreen <<< 16) ||| (scale_channel r l.sred <<< 8) |||
          scale_channel b l.sblue).testBit (23 - i)) := by
  have h1 : ¬ s > 5 := by omega
  have h2 : ¬ p ≥ MAXLEDS := by omega
  simp only [led_rgb, h1, h2, if_false]
  rw [transpose_own _ _ _ _ _ hs hi]
  unfold scale
  rw [testBit_not32 _ _ (by omega)]
  simp

/-- Witness of C9: pixel 0 of string 0, first sample. -/
theorem led_rgb_wire_order_witness :
    (0 < MAXLEDS ∧ 0 ≤ 5 ∧ 0 < 24) ∧
      sample (led_rgb ⟨fun _ => 0xFF, 255, 255, 255⟩ 0 0 1 2 3).bits 0 0 0 =
        !(((scale_channel 2 255 <<< 16) ||| (scale_channel 1 255 <<< 8) |||
          scale_channel 3 255).testBit (23 - 0)) :=
  ⟨⟨by decide, by decide, by decide⟩,
    led_rgb_wire_order ⟨fun _ => 0xFF, 255, 255, 255⟩ 0 0 1 2 3 0 (by decide) (by decide)
      (by decide)⟩

/-! ## TPM2 decoder: steps of digest and the simulation by the expander -/

theorem shl8_or (x ch : Nat) (h : ch < 256) : x <<< 8 ||| ch = x * 256 + ch := by
  have h2 := Nat.mul_add_lt_is_or (i := 8) (b := ch) (by simpa using h) x
  rw [Nat.shiftLeft_eq, Nat.mul_comm x (2 ^ 8), ← h2]

theorem and_ff (x : Nat) : x &&& 0xFF = x % 256 := Nat.and_pow_two_sub_one_eq_mod x 8
theorem and_ffff (x : Nat) : x &&& 0xFFFF = x % 65536 := Nat.and_pow_two_sub_one_eq_mod x 16
theorem and_ffffff (x : Nat) : x &&& 0xFFFFFF = x % 16777216 :=
  Nat.and_pow_two_sub_one_eq_mod x 24
theorem shr24 (x : Nat) : x >>> (3 * 8) = x / 16777216 := Nat.shiftRight_eq_div_pow x 24
theorem shr8 (x : Nat) : x >>> 8 = x / 256 := Nat.shiftRight_eq_div_pow x 8

theorem digest_shift (s : Tpm2) (ch : Nat) (hch : ch < 256) :
    ((s.ch0 <<< 8 ||| ch) % 2 ^ 32 = sh0 s ch) ∧
    ((s.ch1 <<< 8 ||| (sh0 s ch) >>> (3 * 8)) % 2 ^ 32 = sh1 s ch) := by
  have h0 : (s.ch0 <<< 8 ||| ch) % 2 ^ 32 = sh0 s ch := by
    rw [shl8_or _ _ hch]; rfl
  refine ⟨h0, ?_⟩
  rw [shr24, shl8_or]
  · rfl
  · unfold sh0; omega

theorem sh0_low (s : Tpm2) (ch : Nat) (hch : ch < 256) : sh0 s ch % 256 = ch := by
  unfold sh0; omega

theorem digest_data (M : Nat) (s : Tpm2) (ch : Nat) (hch : ch < 256) (hst : s.state = data_state) :
    (digest M s ch).1 =
      { s with
        ch0 := sh0 s ch
        ch1 := sh1 s ch
        buffer := store s.buffer s.index ch
        index := (s.index + 1) % 65536
        length := dec16 s.length
        trip := if dec16 s.length = 0 ∨ M ≤ (s.index + 1) % 65536 then true else s.trip
        state :=
          if dec16 s.length = 0 then end_state
          else if M ≤ (s.index + 1) % 65536 then skip_state
          else if s.repeat_flag = true ∧ 6 ≤ (s.index + 1) % 65536 ∧
              sh0 s ch % 16777216 = sh1 s ch % 16777216 then repeat_state
          else data_state } := by
  obtain ⟨h0, h1⟩ := digest_shift s ch hch
  have h2 := sh0_low s ch hch
  simp only [digest, hst, h0, h1, and_ff, and_ffff, and_ffffff, h2]
  split_ifs <;> simp_all <;> omega

theorem digest_repeat (M : Nat) (s : Tpm2) (ch : Nat) (hch : ch < 256)
    (hst : s.state = repeat_state) :
    (digest M s ch).1 =
      { s with
        ch0 := sh0 s ch / 256
        ch1 := sh0 s ch / 256
        buffer := unroll_loop
          ((if M ≤ (s.index + ch * 3) % 65536 then M else (s.index + ch * 3) % 65536) - s.index)
          s.buffer (s.index - 3) s.index
        index := if M ≤ (s.index + ch * 3) % 65536 then M else (s.index + ch * 3) % 65536
        length := dec16 s.length
        trip := if dec16 s.length = 0 ∨ M ≤ (s.index + ch * 3) % 65536 then true else s.trip
        state :=
          if dec16 s.length = 0 then end_state
          else if M ≤ (s.index + ch * 3) % 65536 then skip_state
          else data_state } := by
  obtain ⟨h0, h1⟩ := digest_shift s ch hch
  have h2 := sh0_low s ch hch
  simp only [digest, hst, h0, h1, and_ff, h2]
  rw [shr8]
  unfold unroll
  by_cases hl : dec16 s.length = 0 <;> by_cases hn : M ≤ (s.index + ch * 3) % 65536 <;>
    simp [hl, hn]

theorem digest_skip (M : Nat) (s : Tpm2) (ch : Nat) (hch : ch < 256)
    (hst : s.state = skip_state) :
    (digest M s ch).1 =
      { s with
        ch0 := sh0 s ch
        ch1 := sh1 s ch
        length := dec16 s.length
        state := if dec16 s.length = 0 then end_state else skip_state } := by
  obtain ⟨h0, h1⟩ := digest_shift s ch hch
  simp only [digest, hst, h0, h1]
  split_ifs <;> simp_all

theorem digest_ret (M : Nat) (s : Tpm2) (ch : Nat) (hst : s.state ≠ end_state) :
    (digest M s ch).2 = false := by
  unfold digest
  simp only []
  split <;> (try split_ifs) <;> simp_all

theorem digest_end (M : Nat) (s : Tpm2) (ch : Nat) (hch : ch < 256) (hst : s.state = end_state) :
    digest M s ch =
      ({ s with
          ch0 := sh0 s ch
          ch1 := sh1 s ch
          state := start_state
          trap := if ch = 0x36 then true else s.trap }, decide (ch = 0x36)) := by
  obtain ⟨h0, h1⟩ := digest_shift s ch hch
  simp only [digest, hst, h0, h1, TPM2_BLOCK_END_BYTE]
  split_ifs <;> simp_all

theorem digest_start (M : Nat) (s : Tpm2) (ch : Nat) (hch : ch < 256) (hst : waiting s) :
    (digest M s ch).1 =
      { s with
        ch0 := sh0 s ch
        ch1 := sh1 s ch
        state := if ch = 0xC9 then type_state else s.state } := by
  obtain ⟨h0, h1⟩ := digest_shift s ch hch
  rcases hst with hst | hst <;>
    (simp only [digest, hst, h0, h1, TPM2_SER_BLOCK_START_BYTE]; split_ifs <;> simp_all)

theorem digest_type (M : Nat) (s : Tpm2) (ch : Nat) (hch : ch < 256) (hst : s.state = type_state) :
    (digest M s ch).1 =
      { s with
        ch0 := sh0 s ch
        ch1 := sh1 s ch
        repeat_flag := decide (ch = 0xCA)
        state := if ch = 0xCA ∨ ch = 0xDA then length0_state else start_state } := by
  obtain ⟨h0, h1⟩ := digest_shift s ch hch
  simp only [digest, hst, h0, h1, TPM2_BLOCK_TYPE_ZDATA, TPM2_BLOCK_TYPE_DATA]
  split_ifs <;> simp_all

theorem digest_length0 (M : Nat) (s : Tpm2) (ch : Nat) (hch : ch < 256)
    (hst : s.state = length0_state) :
    (digest M s ch).1 = { s with ch0 := sh0 s ch, ch1 := sh1 s ch, state := length1_state } := by
  obtain ⟨h0, h1⟩ := digest_shift s ch hch
  simp only [digest, hst, h0, h1]

theorem digest_length1 (M : Nat) (s : Tpm2) (ch : Nat) (hch : ch < 256)
    (hst : s.state = length1_state) :
    (digest M s ch).1 =
      { s with
        ch0 := sh0 s ch
        ch1 := sh1 s ch
        index := 0
        length := sh0 s ch % 65536
        state :=
          if sh0 s ch % 65536 = 0 then end_state
          else if s.trip = true ∨ M = 0 then skip_state
          else data_state } := by
  obtain ⟨h0, h1⟩ := digest_shift s ch hch
  simp only [digest, hst, h0, h1, and_ffff]
  split_ifs <;> simp_all

/-- What `unroll_loop` leaves in the buffer. -/
theorem unroll_loop_spec (k : Nat) : ∀ (buf : Nat → Nat) (q : Nat), 3 ≤ q →
    (∀ j, j < q → unroll_loop k buf (q - 3) q j = buf j) ∧
    (∀ j, q + k ≤ j → unroll_loop k buf (q - 3) q j = buf j) ∧
    (∀ j, q ≤ j → j < q + k →
      unroll_loop k buf (q - 3) q j = unroll_loop k buf (q - 3) q (j - 3)) := by
  induction k with
  | zero =>
    intro buf q _
    refine ⟨fun j _ => rfl, fun j _ => rfl, fun j h1 h2 => by omega⟩
  | succ k ih =>
    intro buf q hq
    have e : q - 3 + 1 = q + 1 - 3 := by omega
    obtain ⟨i1, i2, i3⟩ := ih (store buf q (buf (q - 3))) (q + 1) (by omega)
    simp only [unroll_loop, e]
    refine ⟨fun j hj => ?_, fun j hj => ?_, fun j h1 h2 => ?_⟩
    · rw [i1 j (by omega)]
      simp [store, Nat.ne_of_lt hj]
    · rw [i2 j (by omega)]
      have : j ≠ q := by omega
      simp [store, this]
    · by_cases hjq : j = q
      · subst hjq
        rw [i1 j (by omega), i1 (j - 3) (by omega)]
        have : j - 3 ≠ j := by omega
        simp [store, this]
      · exact i3 j (by omega) (by omega)

/-- A buffer that repeats with period three from `n` on, read `3 * c` further. -/
theorem per_shift (r : Nat → Nat) (n : Nat) : ∀ (c : Nat),
    (∀ j, n ≤ j → j < n + 3 * c → r j = r (j - 3)) →
    ∀ i, n ≤ i + 3 → i < n → r (i + 3 * c) = r i := by
  intro c
  induction c with
  | zero => intro _ i _ _; rfl
  | succ c ih =>
    intro h i h1 h2
    have := h (i + 3 * (c + 1)) (by omega) (by omega)
    rw [this, show i + 3 * (c + 1) - 3 = i + 3 * c by omega]
    exact ih (fun j a b => h j a (by omega)) i h1 h2

theorem coh_push (ch0 ch1 : Nat) (f : Nat → Nat) (n ch : Nat) (hch : ch < 256)
    (h : Coh ch0 ch1 f n) :
    Coh ((ch0 * 256 + ch) % 4294967296)
      ((ch1 * 256 + (ch0 * 256 + ch) % 4294967296 / 16777216) % 4294967296)
      (store f n ch) (n + 1) := by
  obtain ⟨c1, c2, c3, c4, c5, c6⟩ := h
  unfold Coh store
  refine ⟨fun _ => ?_, fun _ => ?_, fun _ => ?_, fun _ => ?_, fun _ => ?_, fun _ => ?_⟩
  · simp; omega
  · rw [if_neg (by omega), show n + 1 - 2 = n - 1 by omega, ← c1 (by omega)]; omega
  · rw [if_neg (by omega), show n + 1 - 3 = n - 2 by omega, ← c2 (by omega)]; omega
  · rw [if_neg (by omega), show n + 1 - 4 = n - 3 by omega, ← c3 (by omega)]; omega
  · rw [if_neg (by omega), show n + 1 - 5 = n - 4 by omega, ← c4 (by omega)]; omega
  · rw [if_neg (by omega), show n + 1 - 6 = n - 5 by omega, ← c5 (by omega)]; omega

theorem coh_match (ch0 ch1 : Nat) (f : Nat → Nat) (n : Nat) (h : Coh ch0 ch1 f n) (hn : 6 ≤ n) :
    ch0 % 16777216 = ch1 % 16777216 ↔ Per f n := by
  obtain ⟨c1, c2, c3, c4, c5, c6⟩ := h
  unfold Per
  rw [← c1 (by omega), ← c2 (by omega), ← c3 (by omega), ← c4 (by omega), ← c5 (by omega),
    ← c6 (by omega)]
  constructor
  · intro h; refine ⟨hn, ?_, ?_, ?_⟩ <;> omega
  · rintro ⟨_, h1, h2, h3⟩; omega


theorem nth_append_left (o p : List Nat) (k : Nat) (h : k < o.length) :
    nth (o ++ p) k = nth o k := by
  unfold nth; exact List.getD_append o p 0 k h

theorem nth_append_right (o p : List Nat) (k : Nat) (h : o.length ≤ k) :
    nth (o ++ p) k = nth p (k - o.length) := by
  unfold nth; exact List.getD_append_right o p 0 k h

theorem nth_push (o : List Nat) (b k : Nat) :
    nth (o ++ [b]) k = if k < o.length then nth o k else if k = o.length then b else 0 := by
  split_ifs with h1 h2
  · exact nth_append_left o [b] k h1
  · rw [nth_append_right o [b] k (by omega), h2]; simp [nth]
  · rw [nth_append_right o [b] k (by omega)]
    have : 1 ≤ k - o.length := by omega
    unfold nth
    exact List.getD_eq_default _ _ (by simpa using this)

theorem nth_drop (o : List Nat) (i k : Nat) : nth (o.drop i) k = nth o (i + k) := by
  unfold nth
  simp [List.getElem?_drop]

theorem nth_take (o : List Nat) (i k : Nat) (h : k < i) : nth (o.take i) k = nth o k := by
  unfold nth
  simp [List.getElem?_take_of_lt h]

/-- Three bytes from position `i`. -/
theorem mid_three (o : List Nat) (i : Nat) (h : i + 3 ≤ o.length) :
    mid o i 3 = [nth o i, nth o (i + 1), nth o (i + 2)] := by
  unfold mid
  apply List.ext_getElem
  · simp; omega
  · intro k h1 h2
    have hk : k < 3 := by simpa using h2
    have e1 : ((o.drop i).take 3)[k] = nth ((o.drop i).take 3) k := by
      unfold nth; rw [List.getD_eq_getElem _ _ h1]
    rw [e1, nth_take _ _ _ hk, nth_drop]
    interval_cases k <;> simp

theorem last3_eq (o : List Nat) (h : 3 ≤ o.length) :
    last3 o = [nth o (o.length - 3), nth o (o.length - 2), nth o (o.length - 1)] := by
  have := mid_three o (o.length - 3) (by omega)
  unfold mid at this
  rw [List.take_of_length_le (by simp; omega)] at this
  unfold last3
  rw [this, show o.length - 3 + 1 = o.length - 2 by omega,
    show o.length - 3 + 2 = o.length - 1 by omega]

theorem prev3_eq (o : List Nat) (h : 6 ≤ o.length) :
    prev3 o = [nth o (o.length - 6), nth o (o.length - 5), nth o (o.length - 4)] := by
  have := mid_three o (o.length - 6) (by omega)
  unfold mid at this
  unfold prev3
  rw [this, show o.length - 6 + 1 = o.length - 5 by omega,
    show o.length - 6 + 2 = o.length - 4 by omega]

theorem last3_eq_prev3 (o : List Nat) (h : 6 ≤ o.length) :
    last3 o = prev3 o ↔ Per (nth o) o.length := by
  rw [last3_eq o (by omega), prev3_eq o h]
  unfold Per
  simp only [List.cons.injEq, and_true]
  constructor
  · rintro ⟨a, b, c⟩; exact ⟨h, c, b, a⟩
  · rintro ⟨_, a, b, c⟩; exact ⟨c, b, a⟩

theorem rep3_length (t : List Nat) (ht : t.length = 3) (c : Nat) : (rep3 c t).length = 3 * c := by
  induction c with
  | zero => rfl
  | succ c ih => simp [rep3, ih, ht]; omega

theorem rep3_nth (t : List Nat) (ht : t.length = 3) (c : Nat) :
    ∀ j, j < 3 * c → nth (rep3 c t) j = nth t (j % 3) := by
  induction c with
  | zero => intro j hj; omega
  | succ c ih =>
    intro j hj
    simp only [rep3]
    by_cases h : j < 3
    · rw [nth_append_left _ _ _ (by omega), Nat.mod_eq_of_lt h]
    · rw [nth_append_right _ _ _ (by omega), ht, ih (j - 3) (by omega)]
      congr 1; omega

theorem last3_length (o : List Nat) (h : 3 ≤ o.length) : (last3 o).length = 3 := by
  rw [last3_eq o h]; rfl

/-- The bytes appended by a repeat count continue the buffer with period three. -/
theorem nth_rep (o : List Nat) (c : Nat) (h : 3 ≤ o.length) (k : Nat) (h1 : o.length ≤ k)
    (h2 : k < o.length + 3 * c) :
    nth (o ++ rep3 c (last3 o)) k = nth (o ++ rep3 c (last3 o)) (k - 3) := by
  have ht := last3_length o h
  rw [nth_append_right _ _ _ h1, rep3_nth _ ht _ _ (by omega)]
  by_cases h3 : o.length ≤ k - 3
  · rw [nth_append_right _ _ _ h3, rep3_nth _ ht _ _ (by omega)]
    congr 1; omega
  · rw [nth_append_left _ _ _ (by omega), Nat.mod_eq_of_lt (by omega)]
    unfold last3
    rw [nth_drop]
    congr 1; omega


theorem dec16_pos (x : Nat) (h1 : 1 ≤ x) (h2 : x < 65536) : dec16 x = x - 1 := by
  unfold dec16; omega

theorem rle_step_length_le (z : Bool) (r : Rle) (b : Nat) :
    r.out.length ≤ (rle_step z r b).out.length := by
  unfold rle_step
  split_ifs <;> simp

theorem rle_step_keeps (z : Bool) (r : Rle) (b k : Nat) (h : k < r.out.length) :
    nth (rle_step z r b).out k = nth r.out k := by
  unfold rle_step
  split_ifs <;> exact nth_append_left _ _ _ h

theorem coh_unroll (ch0 ch1 x : Nat) (f r : Nat → Nat) (n c : Nat) (hx : x = ch0 % 16777216)
    (h : Coh ch0 ch1 f n) (hp : Per f n) (h1 : ∀ j, j < n → r j = f j)
    (h2 : ∀ j, n ≤ j → j < n + 3 * c → r j = r (j - 3)) :
    Coh x x r (n + 3 * c) := by
  obtain ⟨c1, c2, c3, _, _, _⟩ := h
  obtain ⟨p0, p1, p2, p3⟩ := hp
  have a1 := per_shift r n c h2
  have h2' : ∀ j, n - 3 ≤ j → j < n - 3 + 3 * c → r j = r (j - 3) := by
    intro j ha hb
    by_cases hj : n ≤ j
    · exact h2 j hj (by omega)
    · rw [h1 j (by omega), h1 (j - 3) (by omega)]
      have e : j = n - 1 ∨ j = n - 2 ∨ j = n - 3 := by omega
      rcases e with e | e | e
      · rw [e, p1]; congr 1
      · rw [e, p2]; congr 1
      · rw [e, p3]; congr 1
  have a2 := per_shift r (n - 3) c h2'
  unfold Coh
  refine ⟨fun _ => ?_, fun _ => ?_, fun _ => ?_, fun _ => ?_, fun _ => ?_, fun _ => ?_⟩
  · rw [show n + 3 * c - 1 = (n - 1) + 3 * c by omega, a1 _ (by omega) (by omega),
      h1 _ (by omega), ← c1 (by omega)]; omega
  · rw [show n + 3 * c - 2 = (n - 2) + 3 * c by omega, a1 _ (by omega) (by omega),
      h1 _ (by omega), ← c2 (by omega)]; omega
  · rw [show n + 3 * c - 3 = (n - 3) + 3 * c by omega, a1 _ (by omega) (by omega),
      h1 _ (by omega), ← c3 (by omega)]; omega
  · rw [show n + 3 * c - 4 = (n - 4) + 3 * c by omega, a2 _ (by omega) (by omega),
      h1 _ (by omega), ← p1, ← c1 (by omega)]; omega
  · rw [show n + 3 * c - 5 = (n - 5) + 3 * c by omega, a2 _ (by omega) (by omega),
      h1 _ (by omega), ← p2, ← c2 (by omega)]; omega
  · rw [show n + 3 * c - 6 = (n - 6) + 3 * c by omega, a2 _ (by omega) (by omega),
      h1 _ (by omega), ← p3, ← c3 (by omega)]; omega

/-- The buffer after `unroll` agrees with the expander's output. -/
theorem unroll_agree (f r : Nat → Nat) (o : List Nat) (c m : Nat) (ho : 3 ≤ o.length)
    (hm : m ≤ o.length + 3 * c)
    (hf : ∀ k, k < o.length → f k = nth o k)
    (h1 : ∀ j, j < o.length → r j = f j)
    (h2 : ∀ j, o.length ≤ j → j < m → r j = r (j - 3)) :
    ∀ k, k < m → r k = nth (o ++ rep3 c (last3 o)) k := by
  intro k
  induction k using Nat.strong_induction_on with
  | _ k ih =>
    intro hk
    by_cases h : k < o.length
    · rw [h1 k h, hf k h, nth_append_left _ _ _ h]
    · rw [h2 k (by omega) hk, ih (k - 3) (by omega) (by omega),
        ← nth_rep o c ho k (by omega) (by omega)]


theorem per_congr (f g : Nat → Nat) (n : Nat) (h : ∀ k, k < n → f k = g k) :
    Per f n ↔ Per g n := by
  unfold Per
  constructor
  · rintro ⟨a, b1, b2, b3⟩
    refine ⟨a, ?_, ?_, ?_⟩
    · rw [← h (n - 1) (by omega), ← h (n - 4) (by omega)]; exact b1
    · rw [← h (n - 2) (by omega), ← h (n - 5) (by omega)]; exact b2
    · rw [← h (n - 3) (by omega), ← h (n - 6) (by omega)]; exact b3
  · rintro ⟨a, b1, b2, b3⟩
    refine ⟨a, ?_, ?_, ?_⟩
    · rw [h (n - 1) (by omega), h (n - 4) (by omega)]; exact b1
    · rw [h (n - 2) (by omega), h (n - 5) (by omega)]; exact b2
    · rw [h (n - 3) (by omega), h (n - 6) (by omega)]; exact b3

theorem sim_step_data (M : Nat) (hM : M + 765 < 65536) (z : Bool) (s : Tpm2) (r : Rle)
    (rem b : Nat) (hb : b < 256) (h : Active M z s r rem) (hc : r.count = false) :
    Sim M z (digest M s b).1 (rle_step z r b) (rem - 1) := by
  obtain ⟨hz, htrip, hlen, hr1, hr2, hidx, hlt, hbuf, hst, hcoh, _⟩ := h
  simp only [hc, Bool.false_eq_true, if_false] at hst
  rw [digest_data M s b hb hst]
  have hd : dec16 s.length = rem - 1 := by rw [hlen]; exact dec16_pos rem hr1 hr2
  have hi : (s.index + 1) % 65536 = r.out.length + 1 := by rw [hidx]; omega
  have hout : (rle_step z r b).out = r.out ++ [b] := by simp [rle_step, hc]
  have hlen' : (rle_step z r b).out.length = r.out.length + 1 := by simp [hout]
  have hbuf' : ∀ k, k < r.out.length + 1 →
      store s.buffer s.index b k = nth (r.out ++ [b]) k := by
    intro k hk
    rw [nth_push, hidx]
    unfold store
    by_cases e : k = r.out.length
    · simp [e]
    · rw [if_neg e, if_pos (by omega)]
      exact hbuf k (by omega)
  by_cases h0 : rem - 1 = 0
  · right
    refine ⟨?_, ?_, ?_, ?_, ?_, ?_, ?_⟩
    · simp [hd, h0]
    · simp [hd]
    · omega
    · simp [hd, h0]
    · simp only [hi, hlen']; omega
    · intro k _ hk; rw [hout]; exact hbuf' k (by omega)
    · intro hne; exact absurd h0 hne
  by_cases h1 : M ≤ r.out.length + 1
  · right
    refine ⟨?_, ?_, ?_, ?_, ?_, ?_, ?_⟩
    · simp [hd, h0, hi, h1]
    · simp [hd]
    · omega
    · simp [hd, h0, hi, h1]
    · simp only [hi, hlen']; omega
    · intro k _ hk; rw [hout]; exact hbuf' k (by omega)
    · intro _; omega
  · left
    have hcoh' : Coh (sh0 s b) (sh1 s b) (store s.buffer s.index b) (r.out.length + 1) := by
      have := coh_push s.ch0 s.ch1 s.buffer s.index b hb hcoh
      rw [hidx] at this ⊢
      exact this
    have hper : ∀ (_ : 6 ≤ r.out.length + 1),
        (sh0 s b % 16777216 = sh1 s b % 16777216 ↔
          last3 (r.out ++ [b]) = prev3 (r.out ++ [b])) := by
      intro h6
      have e1 := coh_match _ _ _ _ hcoh' (by omega)
      have e2 := last3_eq_prev3 (r.out ++ [b]) (by simp; omega)
      have hl : (r.out ++ [b]).length = r.out.length + 1 := by simp
      rw [e1, e2, hl]
      exact per_congr _ _ _ hbuf'
    have hcount : (rle_step z r b).count = true ↔
        (s.repeat_flag = true ∧ 6 ≤ r.out.length + 1 ∧
          sh0 s b % 16777216 = sh1 s b % 16777216) := by
      simp only [rle_step, hc, Bool.false_eq_true, if_false, Bool.and_eq_true, decide_eq_true_eq,
        hz]
      simp only [List.length_append, List.length_singleton]
      constructor
      · rintro ⟨⟨a, b1⟩, c⟩; exact ⟨a, b1, (hper b1).2 c⟩
      · rintro ⟨a, b1, c⟩; exact ⟨⟨a, b1⟩, (hper b1).1 c⟩
    refine ⟨hz, ?_, ?_, ?_, ?_, ?_, ?_, ?_, ?_, ?_, ?_⟩
    · simp only [hd, h0, hi, h1, or_self, if_false]; exact htrip
    · simp [hd]
    · omega
    · omega
    · simp only [hi, hlen']
    · rw [hlen']; omega
    · rw [hlen', hout]; exact hbuf'
    · simp only [hd, h0, hi, h1, if_false]
      by_cases hcnt : (rle_step z r b).count = true
      · rw [if_pos (hcount.1 hcnt), if_pos hcnt]
      · rw [if_neg (fun hh => hcnt (hcount.2 hh)), if_neg hcnt]
    · simp only [hi]
      exact hcoh'
    · intro hcnt
      have := hcount.1 hcnt
      refine ⟨by rw [← hz]; exact this.1, ?_⟩
      simp only [hi]
      exact (coh_match _ _ _ _ hcoh' (by omega)).1 this.2.2


theorem sim_step_repeat (M : Nat) (hM : M + 765 < 65536) (z : Bool) (s : Tpm2) (r : Rle)
    (rem b : Nat) (hb : b < 256) (h : Active M z s r rem) (hc : r.count = true) :
    Sim M z (digest M s b).1 (rle_step z r b) (rem - 1) := by
  obtain ⟨hz, htrip, hlen, hr1, hr2, hidx, hlt, hbuf, hst, hcoh, hcnt⟩ := h
  obtain ⟨hz1, hper⟩ := hcnt hc
  simp only [hc, if_true] at hst
  rw [digest_repeat M s b hb hst]
  have hd : dec16 s.length = rem - 1 := by rw [hlen]; exact dec16_pos rem hr1 hr2
  have h6 : 6 ≤ r.out.length := by rw [← hidx]; exact hper.1
  have hn0 : (s.index + b * 3) % 65536 = r.out.length + 3 * b := by rw [hidx]; omega
  have hout : (rle_step z r b).out = r.out ++ rep3 b (last3 r.out) := by simp [rle_step, hc]
  have hcount : (rle_step z r b).count = false := by simp [rle_step, hc]
  have hlen' : (rle_step z r b).out.length = r.out.length + 3 * b := by
    rw [hout, List.length_append, rep3_length _ (last3_length _ (by omega))]
  simp only [hn0]
  by_cases h1 : M ≤ r.out.length + 3 * b
  · simp only [h1, if_true]
    obtain ⟨u1, _, u3⟩ := unroll_loop_spec (M - s.index) s.buffer s.index (by omega)
    have hagree := unroll_agree s.buffer _ r.out b M (by omega) h1 hbuf
      (by rw [← hidx]; exact u1)
      (by
        intro j hj1 hj2
        exact u3 j (by omega) (by omega))
    right
    refine ⟨?_, ?_, ?_, ?_, ?_, ?_, ?_⟩
    · simp
    · simp [hd]
    · omega
    · by_cases h0 : rem - 1 = 0 <;> simp [hd, h0]
    · show M = min M _
      rw [hlen']; omega
    · intro k hk _; rw [hout]; exact hagree k hk
    · intro _; omega
  simp only [h1, if_false]
  obtain ⟨u1, _, u3⟩ := unroll_loop_spec (r.out.length + 3 * b - s.index) s.buffer s.index
    (by omega)
  have hagree := unroll_agree s.buffer _ r.out b (r.out.length + 3 * b) (by omega)
    (Nat.le_refl _) hbuf (by rw [← hidx]; exact u1)
    (by
      intro j hj1 hj2
      exact u3 j (by omega) (by omega))
  by_cases h0 : rem - 1 = 0
  · right
    refine ⟨?_, ?_, ?_, ?_, ?_, ?_, ?_⟩
    · simp [hd, h0]
    · simp [hd]
    · omega
    · simp [hd, h0]
    · show r.out.length + 3 * b = min M _
      rw [hlen']; omega
    · intro k _ hk; rw [hout]; exact hagree k (by omega)
    · intro hne; exact absurd h0 hne
  · left
    refine ⟨hz, ?_, ?_, ?_, ?_, ?_, ?_, ?_, ?_, ?_, ?_⟩
    · simp only [hd, h0, or_self, if_false]; exact htrip
    · simp [hd]
    · omega
    · omega
    · simp only [hlen']
    · rw [hlen']; omega
    · intro k hk; rw [hout]; exact hagree k (by omega)
    · simp [hd, h0, hcount]
    · have hx : sh0 s b / 256 = s.ch0 % 16777216 := by unfold sh0; omega
      have := coh_unroll s.ch0 s.ch1 (sh0 s b / 256) s.buffer _ s.index b hx hcoh hper u1
        (by
          intro j hj1 hj2
          exact u3 j hj1 (by omega))
      rw [hidx] at this
      show Coh (sh0 s b / 256) (sh0 s b / 256) _ (r.out.length + 3 * b)
      rw [hidx]
      exact this
    · intro hcnt'; rw [hcount] at hcnt'; exact absurd hcnt' (by simp)

theorem sim_step_frozen (M : Nat) (z : Bool) (s : Tpm2) (r : Rle)
    (rem b : Nat) (hb : b < 256) (h : Frozen M s r rem) (hrem : 1 ≤ rem) :
    Sim M z (digest M s b).1 (rle_step z r b) (rem - 1) := by
  obtain ⟨htrip, hlen, hr2, hst, hidx, hbuf, hfull⟩ := h
  have hne : rem ≠ 0 := by omega
  simp only [hne, if_false] at hst
  rw [digest_skip M s b hb hst]
  have hd : dec16 s.length = rem - 1 := by rw [hlen]; exact dec16_pos rem hrem hr2
  have hle := rle_step_length_le z r b
  have hM := hfull hne
  right
  refine ⟨htrip, ?_, ?_, ?_, ?_, ?_, ?_⟩
  · simp [hd]
  · omega
  · simp [hd]
  · simp only [hidx]; omega
  · intro k hk _
    rw [rle_step_keeps z r b k (by omega)]
    exact hbuf k hk (by omega)
  · intro _; omega

/-- One payload byte keeps the decoder and the expander in step. -/
theorem sim_step (M : Nat) (hM : M + 765 < 65536) (z : Bool) (s : Tpm2) (r : Rle)
    (rem b : Nat) (hb : b < 256) (h : Sim M z s r rem) (hrem : 1 ≤ rem) :
    Sim M z (digest M s b).1 (rle_step z r b) (rem - 1) ∧ s.state ≠ end_state := by
  rcases h with h | h
  · refine ⟨?_, ?_⟩
    · cases hc : r.count
      · exact sim_step_data M hM z s r rem b hb h hc
      · exact sim_step_repeat M hM z s r rem b hb h hc
    · have := h.2.2.2.2.2.2.2.2.1
      rw [this]; split_ifs <;> simp
  · refine ⟨sim_step_frozen M z s r rem b hb h hrem, ?_⟩
    have := h.2.2.2.1
    rw [this, if_neg (by omega)]; simp

/-! ## TPM2 decoder: blocks -/

theorem feed_nil (M : Nat) (s : Tpm2) : feed M s [] = s := rfl

theorem feed_cons (M : Nat) (s : Tpm2) (ch : Nat) (w : List Nat) :
    feed M s (ch :: w) = feed M (digest M s ch).1 w := rfl

theorem feed_append (M : Nat) (s : Tpm2) (a b : List Nat) :
    feed M s (a ++ b) = feed M (feed M s a) b := by
  unfold feed; exact List.foldl_append _ _ _ _

theorem quiet_append (M : Nat) (a b : List Nat) : ∀ (s : Tpm2),
    quiet M s (a ++ b) ↔ quiet M s a ∧ quiet M (feed M s a) b := by
  induction a with
  | nil => intro s; simp [quiet, feed]
  | cons ch a ih =>
    intro s
    show (s.state ≠ end_state ∧ quiet M (digest M s ch).1 (a ++ b)) ↔ _
    rw [ih]
    simp only [quiet, feed_cons, and_assoc]

/-- While the decoder is quiet, `tp2_digest` consumes byte after byte. -/
theorem tp2_digest_quiet (M : Nat) (w rest : List Nat) : ∀ (s : Tpm2), quiet M s w →
    tp2_digest M s (w ++ rest) =
      ((tp2_digest M (feed M s w) rest).1, (tp2_digest M (feed M s w) rest).2 + w.length) := by
  induction w with
  | nil => intro s _; simp [feed]
  | cons ch w ih =>
    intro s hq
    obtain ⟨h1, h2⟩ := hq
    have hr := digest_ret M s ch h1
    have e : tp2_digest M s (ch :: (w ++ rest)) =
        ((tp2_digest M (digest M s ch).1 (w ++ rest)).1,
          (tp2_digest M (digest M s ch).1 (w ++ rest)).2 + 1) := by
      simp [tp2_digest, hr]
    rw [List.cons_append, e, ih _ h2, feed_cons, List.length_cons]
    simp only [Nat.add_assoc]

theorem rle_run_nil (z : Bool) (r : Rle) : rle_run z r [] = r := rfl

theorem rle_run_cons (z : Bool) (r : Rle) (b : Nat) (p : List Nat) :
    rle_run z r (b :: p) = rle_run z (rle_step z r b) p := rfl

theorem rle_run_append (z : Bool) (r : Rle) (p q : List Nat) :
    rle_run z r (p ++ q) = rle_run z (rle_run z r p) q := by
  unfold rle_run; exact List.foldl_append _ _ _ _

/-- The payload of a block keeps the decoder and the expander in step. -/
theorem sim_run (M : Nat) (hM : M + 765 < 65536) (z : Bool) (p : List Nat) :
    ∀ (s : Tpm2) (r : Rle) (rem : Nat), Sim M z s r rem → p.length ≤ rem →
      (∀ x ∈ p, x < 256) →
      Sim M z (feed M s p) (rle_run z r p) (rem - p.length) ∧ quiet M s p := by
  induction p with
  | nil => intro s r rem h _ _; exact ⟨h, trivial⟩
  | cons b p ih =>
    intro s r rem h hl hp
    have hb : b < 256 := hp b (List.mem_cons_self _ _)
    have hl' : p.length + 1 ≤ rem := by simpa using hl
    obtain ⟨h1, h2⟩ := sim_step M hM z s r rem b hb h (by omega)
    obtain ⟨h3, h4⟩ := ih _ _ _ h1 (by omega) (fun x hx => hp x (List.mem_cons_of_mem _ hx))
    refine ⟨?_, h2, h4⟩
    rw [feed_cons, rle_run_cons, List.length_cons, show rem - (p.length + 1) = rem - 1 - p.length by omega]
    exact h3

/-- The four header bytes of a block, fed to a waiting decoder. -/
theorem feed_header (M : Nat) (s : Tpm2) (t hi lo : Nat) (hs : waiting s)
    (ht : t = 0xCA ∨ t = 0xDA) (hhi : hi < 256) (hlo : lo < 256) :
    (feed M s [0xC9, t, hi, lo]).index = 0 ∧
    (feed M s [0xC9, t, hi, lo]).length = hi * 256 + lo ∧
    (feed M s [0xC9, t, hi, lo]).repeat_flag = decide (t = 0xCA) ∧
    (feed M s [0xC9, t, hi, lo]).buffer = s.buffer ∧
    (feed M s [0xC9, t, hi, lo]).state =
      (if hi * 256 + lo = 0 then end_state
        else if s.trip = true ∨ M = 0 then skip_state else data_state) ∧
    quiet M s [0xC9, t, hi, lo] ∧
    (∀ k, k ≤ 4 → (feed M s ([0xC9, t, hi, lo].take k)).trip = s.trip) := by
  have ht' : t < 256 := by rcases ht with h | h <;> omega
  have e1 := digest_start M s 0xC9 (by norm_num) hs
  have st1 : (digest M s 0xC9).1.state = type_state := by rw [e1]; simp
  have e2 := digest_type M _ t ht' st1
  have st2 : (digest M (digest M s 0xC9).1 t).1.state = length0_state := by
    rw [e2]; simp [ht]
  have e3 := digest_length0 M _ hi hhi st2
  have st3 : (digest M (digest M (digest M s 0xC9).1 t).1 hi).1.state = length1_state := by
    rw [e3]
  have e4 := digest_length1 M _ lo hlo st3
  have hlen : sh0 (digest M (digest M (digest M s 0xC9).1 t).1 hi).1 lo % 65536 = hi * 256 + lo := by
    unfold sh0
    rw [e3]
    simp only [sh0]
    omega
  have tr1 : (digest M s 0xC9).1.trip = s.trip := by rw [e1]
  have tr2 : (digest M (digest M s 0xC9).1 t).1.trip = s.trip := by rw [e2]; exact tr1
  have tr3 : (digest M (digest M (digest M s 0xC9).1 t).1 hi).1.trip = s.trip := by
    rw [e3]; exact tr2
  have bf1 : (digest M s 0xC9).1.buffer = s.buffer := by rw [e1]
  have bf2 : (digest M (digest M s 0xC9).1 t).1.buffer = s.buffer := by rw [e2]; exact bf1
  have bf3 : (digest M (digest M (digest M s 0xC9).1 t).1 hi).1.buffer = s.buffer := by
    rw [e3]; exact bf2
  simp only [feed_cons, feed_nil]
  refine ⟨?_, ?_, ?_, ?_, ?_, ?_, ?_⟩
  · rw [e4]
  · rw [e4]; exact hlen
  · rw [e4, e3, e2]
  · rw [e4]; exact bf3
  · rw [e4]; simp only [hlen, tr3]
  · refine ⟨?_, ?_, ?_, ?_, trivial⟩
    · rcases hs with h | h <;> rw [h] <;> simp
    · rw [st1]; simp
    · rw [st2]; simp
    · rw [st3]; simp
  · intro k hk
    interval_cases k
    · rfl
    · exact tr1
    · exact tr2
    · exact tr3
    · show (digest M _ lo).1.trip = s.trip
      rw [e4]; exact tr3


theorem coh_zero (ch0 ch1 : Nat) (f : Nat → Nat) : Coh ch0 ch1 f 0 := by
  unfold Coh
  refine ⟨?_, ?_, ?_, ?_, ?_, ?_⟩ <;> intro h <;> omega

/-- A block header and the first `m` bytes of the payload `p`, fed to a waiting
decoder with `trip` clear: the decoder is in step with the expander. -/
theorem block_run (M : Nat) (hM : M + 765 < 65536) (hM1 : 1 ≤ M) (z : Bool) (s : Tpm2)
    (hs : waiting s) (htrip : s.trip = false) (p : List Nat) (hp : ∀ x ∈ p, x < 256)
    (h1 : 1 ≤ p.length) (h2 : p.length < 65536) (m : Nat) (hm : m ≤ p.length) :
    Sim M z (feed M s ([0xC9, if z then 0xCA else 0xDA, p.length / 256, p.length % 256]
        ++ p.take m)) (rle_run z ⟨[], false⟩ (p.take m)) (p.length - m) ∧
      quiet M s ([0xC9, if z then 0xCA else 0xDA, p.length / 256, p.length % 256] ++ p.take m) ∧
      (feed M s [0xC9, if z then 0xCA else 0xDA, p.length / 256, p.length % 256]).buffer
        = s.buffer := by
  have ht : (if z then 0xCA else 0xDA) = 0xCA ∨ (if z then 0xCA else 0xDA) = 0xDA := by
    cases z <;> simp
  obtain ⟨a1, a2, a3, a4, a5, a6, _⟩ := feed_header M s (if z then 0xCA else 0xDA)
    (p.length / 256) (p.length % 256) hs ht (by omega) (by omega)
  have hlen : p.length / 256 * 256 + p.length % 256 = p.length := by omega
  rw [hlen] at a2 a5
  have hne : ¬ p.length = 0 := by omega
  have hne2 : ¬ (false = true ∨ M = 0) := by simp; omega
  rw [if_neg hne, htrip, if_neg hne2] at a5
  have hz : decide ((if z then 0xCA else 0xDA) = 0xCA) = z := by cases z <;> simp
  rw [hz] at a3
  have hact : Active M z (feed M s [0xC9, if z then 0xCA else 0xDA, p.length / 256,
      p.length % 256]) ⟨[], false⟩ p.length := by
    refine ⟨a3, ?_, a2, h1, h2, a1, ?_, ?_, ?_, ?_, ?_⟩
    · have := (feed_header M s (if z then 0xCA else 0xDA)
        (p.length / 256) (p.length % 256) hs ht (by omega) (by omega)).2.2.2.2.2.2 4
        (Nat.le_refl _)
      rw [← htrip, ← this]; rfl
    · simpa using hM1
    · intro k hk; simp at hk
    · exact a5
    · rw [a1]; exact coh_zero _ _ _
    · intro h; simp at h
  have hsim := sim_run M hM z (p.take m) _ _ _ (Or.inl hact) (by simp)
    (fun x hx => hp x (List.mem_of_mem_take hx))
  rw [List.length_take, Nat.min_eq_left hm] at hsim
  refine ⟨?_, ?_, a4⟩
  · rw [feed_append]; exact hsim.1
  · rw [quiet_append]; exact ⟨a6, hsim.2⟩

/-- The end byte after a block, with anything behind it: `tp2_digest` returns
at the end byte. -/
theorem block_end (M : Nat) (s : Tpm2) (r : Rle) (extra : List Nat) (h : Frozen M s r 0) :
    tp2_digest M s (0x36 :: extra) = ((digest M s 0x36).1, 1) ∧
      (digest M s 0x36).1.buffer = s.buffer ∧ (digest M s 0x36).1.trip = true ∧
      (digest M s 0x36).1.index = s.index ∧ (digest M s 0x36).1.state = start_state := by
  have hst : s.state = end_state := by have := h.2.2.2.1; simpa using this
  have e := digest_end M s 0x36 (by norm_num) hst
  refine ⟨?_, ?_, ?_, ?_, ?_⟩
  · simp [tp2_digest, e]
  · rw [e]
  · rw [e]; exact h.1
  · rw [e]
  · rw [e]

theorem rle_run_raw (p : List Nat) : ∀ (o : List Nat),
    rle_run false ⟨o, false⟩ p = ⟨o ++ p, false⟩ := by
  induction p with
  | nil => intro o; simp [rle_run]
  | cons b p ih =>
    intro o
    rw [rle_run_cons]
    have : rle_step false ⟨o, false⟩ b = ⟨o ++ [b], false⟩ := by simp [rle_step]
    rw [this, ih]
    simp

/-- C1: for every payload `d` of length `L` with `1 ≤ L ≤ MAXBUFF`, fed as
`C9 DA (L >> 8) (L & 0xFF) d 36` to a decoder that waits for a block start with
`trip` clear, `tp2_digest` stores `d` in `buffer[0 .. L - 1]`, consumes all
`L + 5` bytes and returns at the end byte (bytes behind it are not touched),
and `trip` is raised exactly once, by the last payload byte: it is clear after
every shorter prefix and set from then on. -/
theorem tp2_data_block (M : Nat) (hM : M + 765 < 65536) (s : Tpm2) (d : List Nat)
    (hs : waiting s) (htrip : s.trip = false) (hd : ∀ x ∈ d, x < 256)
    (h1 : 1 ≤ d.length) (h2 : d.length ≤ M) :
    (∀ k, k < d.length →
      (tp2_digest M s ([0xC9, 0xDA, d.length >>> 8, d.length &&& 0xFF] ++ d ++ [0x36])).1.buffer k
        = nth d k) ∧
    (tp2_digest M s ([0xC9, 0xDA, d.length >>> 8, d.length &&& 0xFF] ++ d ++ [0x36])).2
      = d.length + 5 ∧
    (∀ extra : List Nat,
      tp2_digest M s ([0xC9, 0xDA, d.length >>> 8, d.length &&& 0xFF] ++ d ++ [0x36] ++ extra)
        = tp2_digest M s ([0xC9, 0xDA, d.length >>> 8, d.length &&& 0xFF] ++ d ++ [0x36])) ∧
    (∀ k, k ≤ d.length + 5 →
      (feed M s (([0xC9, 0xDA, d.length >>> 8, d.length &&& 0xFF] ++ d ++ [0x36]).take k)).trip
        = decide (d.length + 4 ≤ k)) := by
  rw [shr8, and_ff]
  have hb := fun m hm => block_run M hM (by omega) false s hs htrip d hd h1 (by omega) m hm
  simp only [Bool.false_eq_true, if_false] at hb
  -- the state after header and payload
  obtain ⟨b1, b2, b3⟩ := hb d.length (Nat.le_refl _)
  rw [List.take_length, rle_run_raw, Nat.sub_self] at b1
  have hfro : Frozen M (feed M s ([0xC9, 0xDA, d.length / 256, d.length % 256] ++ d))
      ⟨[] ++ d, false⟩ 0 := by
    rcases b1 with h | h
    · exact absurd h.2.2.2.1 (by omega)
    · exact h
  rw [List.take_length] at b2
  have hdig : ∀ extra : List Nat,
      tp2_digest M s ([0xC9, 0xDA, d.length / 256, d.length % 256] ++ d ++ [0x36] ++ extra)
        = ((digest M (feed M s ([0xC9, 0xDA, d.length / 256, d.length % 256] ++ d)) 0x36).1,
            d.length + 5) := by
    intro extra
    rw [List.append_assoc, tp2_digest_quiet M _ _ s b2]
    obtain ⟨e1, -⟩ := block_end M _ _ extra hfro
    have e1' : tp2_digest M (feed M s ([0xC9, 0xDA, d.length / 256, d.length % 256] ++ d))
        ([0x36] ++ extra) = ((digest M (feed M s ([0xC9, 0xDA, d.length / 256,
          d.length % 256] ++ d)) 0x36).1, 1) := e1
    rw [e1']
    simp
    omega
  have hdig0 := hdig []
  rw [List.append_nil] at hdig0
  obtain ⟨-, e2, e3, -, -⟩ := block_end M _ _ [] hfro
  refine ⟨?_, ?_, ?_, ?_⟩
  · intro k hk
    rw [hdig0]
    show (digest M _ 0x36).1.buffer k = _
    rw [e2]
    have := hfro.2.2.2.2.2.1 k (by omega) (by simpa using hk)
    simpa using this
  · rw [hdig0]
  · intro extra; rw [hdig extra, hdig0]
  · intro k hk
    by_cases c1 : k ≤ 4
    · have e : ([0xC9, 0xDA, d.length / 256, d.length % 256] ++ d ++ [0x36]).take k
          = [0xC9, 0xDA, d.length / 256, d.length % 256].take k := by
        rw [List.append_assoc, List.take_append_of_le_length (by simpa using c1)]
      rw [e]
      have := (feed_header M s 0xDA (d.length / 256) (d.length % 256) hs (Or.inr rfl)
        (by omega) (by omega)).2.2.2.2.2.2 k c1
      rw [this, htrip]
      simp; omega
    by_cases c2 : k ≤ d.length + 4
    · have e : ([0xC9, 0xDA, d.length / 256, d.length % 256] ++ d ++ [0x36]).take k
          = [0xC9, 0xDA, d.length / 256, d.length % 256] ++ d.take (k - 4) := by
        rw [List.take_append_of_le_length (by simp; omega), List.take_append_eq_append_take]
        have e0 : List.take k [0xC9, 0xDA, d.length / 256, d.length % 256]
            = [0xC9, 0xDA, d.length / 256, d.length % 256] :=
          List.take_of_length_le (by simp; omega)
        rw [e0]
        rfl
      rw [e]
      obtain ⟨g1, -, -⟩ := hb (k - 4) (by omega)
      rcases g1 with g | g
      · rw [g.2.1]
        have : ¬ d.length + 4 ≤ k := by have := g.2.2.2.1; omega
        simp [this]
      · rw [g.1]
        have : d.length + 4 ≤ k := by
          by_contra hc
          have h3 := g.2.2.2.2.2.2 (by omega)
          rw [rle_run_raw] at h3
          simp at h3
          omega
        simp [this]
    · have hk' : k = d.length + 5 := by omega
      have e : ([0xC9, 0xDA, d.length / 256, d.length % 256] ++ d ++ [0x36]).take k
          = [0xC9, 0xDA, d.length / 256, d.length % 256] ++ d ++ [0x36] := by
        apply List.take_of_length_le
        simp; omega
      rw [e, feed_append]
      show (digest M _ 0x36).1.trip = _
      rw [e3]
      simp; omega


/-- Witness of C1: the block `C9 DA 00 03 11 22 33 36` of the specification. -/
theorem tp2_data_block_witness :
    (1500 + 765 < 65536 ∧ waiting tp2_init ∧ tp2_init.trip = false ∧
        (∀ x ∈ [0x11, 0x22, 0x33], x < 256) ∧ 1 ≤ [0x11, 0x22, 0x33].length ∧
        [0x11, 0x22, 0x33].length ≤ 1500) ∧
      ((∀ k, k < 3 →
        (tp2_digest 1500 tp2_init ([0xC9, 0xDA, 3 >>> 8, 3 &&& 0xFF] ++ [0x11, 0x22, 0x33]
          ++ [0x36])).1.buffer k = nth [0x11, 0x22, 0x33] k) ∧
      (tp2_digest 1500 tp2_init ([0xC9, 0xDA, 3 >>> 8, 3 &&& 0xFF] ++ [0x11, 0x22, 0x33]
          ++ [0x36])).2 = 3 + 5) :=
  ⟨⟨by decide, Or.inr rfl, rfl, by decide, by decide, by decide⟩,
    (tp2_data_block 1500 (by decide) tp2_init [0x11, 0x22, 0x33] (Or.inr rfl) rfl (by decide)
      (by decide) (by decide)).1,
    (tp2_data_block 1500 (by decide) tp2_init [0x11, 0x22, 0x33] (Or.inr rfl) rfl (by decide)
      (by decide) (by decide)).2.1⟩

/-! ## TPM2 decoder: invariants, trip latch, bounds and the repeat rule -/

theorem unroll_loop_frame (k : Nat) : ∀ (buf : Nat → Nat) (p q j : Nat),
    (j < q ∨ q + k ≤ j) → unroll_loop k buf p q j = buf j := by
  induction k with
  | zero => intro buf p q j _; rfl
  | succ k ih =>
    intro buf p q j h
    simp only [unroll_loop]
    rw [ih _ _ _ _ (by omega)]
    have : j ≠ q := by omega
    simp [store, this]

/-- The fields that matter for memory safety after a byte in `repeat_state`,
for an arbitrary input value. -/
theorem digest_repeat_raw (M : Nat) (s : Tpm2) (ch : Nat) (hst : s.state = repeat_state) :
    ∃ c : Nat,
      (digest M s ch).1.index
          = (if M ≤ (s.index + c * 3) % 65536 then M else (s.index + c * 3) % 65536) ∧
      (digest M s ch).1.buffer
          = unroll_loop ((if M ≤ (s.index + c * 3) % 65536 then M
              else (s.index + c * 3) % 65536) - s.index) s.buffer (s.index - 3) s.index ∧
      ((digest M s ch).1.state = data_state → ¬ M ≤ (s.index + c * 3) % 65536) ∧
      (digest M s ch).1.state ≠ repeat_state ∧
      (digest M s ch).1.trip = (if (digest M s ch).1.state = data_state then s.trip else true) := by
  refine ⟨((s.ch0 <<< 8 ||| ch) % 2 ^ 32) &&& 0xFF, ?_⟩
  simp only [digest, hst]
  unfold unroll
  generalize (((s.ch0 <<< 8 ||| ch) % 2 ^ 32) &&& 0xFF) = c
  generalize ((s.ch0 <<< 8 ||| ch) % 2 ^ 32) = x
  by_cases hl : dec16 s.length = 0 <;> by_cases hn : M ≤ (s.index + c * 3) % 65536 <;>
    simp [hl, hn]

theorem digest_data_raw (M : Nat) (s : Tpm2) (ch : Nat) (hst : s.state = data_state) :
    ∃ c : Nat,
      (digest M s ch).1.index = (s.index + 1) % 65536 ∧
      (digest M s ch).1.buffer = store s.buffer s.index c ∧
      (((digest M s ch).1.state = data_state ∨ (digest M s ch).1.state = repeat_state) →
        ¬ M ≤ (s.index + 1) % 65536) ∧
      (digest M s ch).1.trip =
        (if (digest M s ch).1.state = data_state ∨ (digest M s ch).1.state = repeat_state
          then s.trip else true) := by
  refine ⟨((s.ch0 <<< 8 ||| ch) % 2 ^ 32) &&& 0xFF, ?_⟩
  simp only [digest, hst]
  generalize (((s.ch0 <<< 8 ||| ch) % 2 ^ 32) &&& 0xFF) = c
  generalize ((s.ch0 <<< 8 ||| ch) % 2 ^ 32) = x
  generalize ((s.ch1 <<< 8 ||| x >>> (3 * 8)) % 2 ^ 32) = y
  split_ifs <;> simp_all

/-- Outside the two storing states `digest` leaves buffer and `trip` alone and
enters `data_state` only with `index = 0 < MAXBUFF` and `trip` clear. -/
theorem digest_other (M : Nat) (s : Tpm2) (ch : Nat) (h1 : s.state ≠ data_state)
    (h2 : s.state ≠ repeat_state) :
    (digest M s ch).1.buffer = s.buffer ∧ (digest M s ch).1.trip = s.trip ∧
      (digest M s ch).1.state ≠ repeat_state ∧
      ((digest M s ch).1.state = data_state →
        (digest M s ch).1.index = 0 ∧ 0 < M ∧ s.trip = false) := by
  cases hst : s.state
  case data_state => exact absurd hst h1
  case repeat_state => exact absurd hst h2
  all_goals
    simp only [digest, hst]
    generalize ((s.ch0 <<< 8 ||| ch) % 2 ^ 32) = x
    generalize ((s.ch1 <<< 8 ||| x >>> (3 * 8)) % 2 ^ 32) = y
    (try split_ifs) <;> simp_all <;> (try omega)

theorem digest_inb (M : Nat) (s : Tpm2) (ch : Nat) (h : InB M s) :
    InB M (digest M s ch).1 ∧ ∀ j, M ≤ j → (digest M s ch).1.buffer j = s.buffer j := by
  unfold InB at *
  by_cases hd : s.state = data_state
  · obtain ⟨c, e1, e2, e3, -⟩ := digest_data_raw M s ch hd
    refine ⟨fun hs => ?_, fun j hj => ?_⟩
    · have := e3 hs; omega
    · have := h (Or.inl hd)
      rw [e2]; unfold store; rw [if_neg (by omega)]
  by_cases hr : s.state = repeat_state
  · obtain ⟨c, e1, e2, e3, e4, -⟩ := digest_repeat_raw M s ch hr
    refine ⟨fun hs => ?_, fun j hj => ?_⟩
    · rcases hs with hs | hs
      · have := e3 hs
        rw [e1, if_neg this]; omega
      · exact absurd hs e4
    · have := h (Or.inr hr)
      rw [e2]
      apply unroll_loop_frame
      right
      split_ifs <;> omega
  · obtain ⟨e1, -, e3, e4⟩ := digest_other M s ch hd hr
    refine ⟨fun hs => ?_, fun j _ => by rw [e1]⟩
    rcases hs with hs | hs
    · have := e4 hs; omega
    · exact absurd hs e3

theorem digest_tripinv (M : Nat) (s : Tpm2) (ch : Nat) (h : TripInv s) :
    TripInv (digest M s ch).1 ∧
      (s.trip = true → (digest M s ch).1.buffer = s.buffer ∧ (digest M s ch).1.trip = true) := by
  unfold TripInv at *
  by_cases hd : s.state = data_state
  · obtain ⟨c, -, -, -, e4⟩ := digest_data_raw M s ch hd
    refine ⟨fun ht => ?_, fun ht => absurd hd (h ht).1⟩
    rw [e4] at ht
    by_contra hc
    have hc' : (digest M s ch).1.state = data_state ∨ (digest M s ch).1.state = repeat_state := by
      by_contra hn
      exact hc ⟨fun a => hn (Or.inl a), fun a => hn (Or.inr a)⟩
    rw [if_pos hc'] at ht
    exact (h ht).1 hd
  by_cases hr : s.state = repeat_state
  · obtain ⟨c, -, -, -, e4, e5⟩ := digest_repeat_raw M s ch hr
    refine ⟨fun ht => ⟨fun hs => ?_, e4⟩, fun ht => absurd hr (h ht).2⟩
    rw [e5, if_pos hs] at ht
    exact (h ht).2 hr
  · obtain ⟨e1, e2, e3, e4⟩ := digest_other M s ch hd hr
    refine ⟨fun ht => ⟨fun hs => ?_, e3⟩, fun ht => ⟨e1, by rw [e2]; exact ht⟩⟩
    rw [e2] at ht
    have := (e4 hs).2.2
    rw [ht] at this
    exact absurd this (by simp)


/-- The three branches of `digester`. -/
theorem digester_cases (M : Nat) (s : Tpm2) (status : usart_sr) (ch : Nat) (x : Bool) :
    ((status.FE || status.NE) = true ∧
      digester M s status ch x = { s with
        length := 0
        state := detect_state
        shift := if s.shift < SHIFT_THRESHOLD then s.shift + 1 else s.shift }) ∨
    ((status.FE || status.NE) = false ∧ s.state = detect_state ∧
      ∃ c0 len : Nat,
        digester M s status ch x = { s with ch0 := c0, length := len } ∨
        digester M s status ch x =
          { s with ch0 := c0, length := len, state := length0_state, trip := false,
                   trap := false }) ∨
    ((status.FE || status.NE) = false ∧ s.state ≠ detect_state ∧
      ∃ s' : Tpm2, (s' = s ∨ s' = { s with state := start_state }) ∧
        (digester M s status ch x = (digest M s' ch).1 ∨ digester M s status ch x = s')) := by
  unfold digester
  by_cases h1 : (status.FE || status.NE) = true
  · left; exact ⟨h1, by rw [if_pos h1]⟩
  · right
    rw [if_neg h1]
    have h1' : (status.FE || status.NE) = false := by simpa using h1
    by_cases h2 : s.state = detect_state
    · left
      refine ⟨h1', h2, (s.ch0 <<< 8 ||| ch) % 2 ^ 32, ?_⟩
      rw [if_pos h2]
      simp only []
      split_ifs
      · exact ⟨_, Or.inr rfl⟩
      · exact ⟨_, Or.inl rfl⟩
      · exact ⟨s.length, Or.inl rfl⟩
    · right
      refine ⟨h1', h2, if x then { s with state := start_state } else s, ?_, ?_⟩
      · cases x <;> simp
      · rw [if_neg h2]
        simp only []
        split_ifs <;> simp

theorem digester_inb (M : Nat) (s : Tpm2) (status : usart_sr) (ch : Nat) (x : Bool)
    (h : InB M s) :
    InB M (digester M s status ch x) ∧
      ∀ j, M ≤ j → (digester M s status ch x).buffer j = s.buffer j := by
  rcases digester_cases M s status ch x with ⟨-, e⟩ | ⟨-, h2, c0, len, e | e⟩ | ⟨-, -, s', hs', e | e⟩
  · rw [e]; exact ⟨fun hs => by simp at hs, fun _ _ => rfl⟩
  · rw [e]; exact ⟨fun hs => by simp [h2] at hs, fun _ _ => rfl⟩
  · rw [e]; exact ⟨fun hs => by simp at hs, fun _ _ => rfl⟩
  · rw [e]
    rcases hs' with hs' | hs'
    · rw [hs']; exact digest_inb M s ch h
    · have hi : InB M s' := fun hs => by rw [hs'] at hs; simp at hs
      have := digest_inb M s' ch hi
      refine ⟨this.1, fun j hj => ?_⟩
      rw [this.2 j hj, hs']
  · rw [e]
    rcases hs' with hs' | hs'
    · rw [hs']; exact ⟨h, fun _ _ => rfl⟩
    · rw [hs']; exact ⟨fun hs => by simp at hs, fun _ _ => rfl⟩

theorem digester_tripinv (M : Nat) (s : Tpm2) (status : usart_sr) (ch : Nat) (x : Bool)
    (h : TripInv s) :
    TripInv (digester M s status ch x) ∧
      (s.trip = true → (digester M s status ch x).buffer = s.buffer ∧
        ((digester M s status ch x).trip = true ∨
          ((status.FE || status.NE) = false ∧ s.state = detect_state ∧
            (digester M s status ch x).state = length0_state))) := by
  rcases digester_cases M s status ch x with
    ⟨-, e⟩ | ⟨h1, h2, c0, len, e | e⟩ | ⟨-, -, s', hs', e | e⟩
  · rw [e]; exact ⟨fun _ => by simp, fun ht => ⟨rfl, Or.inl ht⟩⟩
  · rw [e]; exact ⟨fun _ => by simp [h2], fun ht => ⟨rfl, Or.inl ht⟩⟩
  · rw [e]; exact ⟨fun _ => by simp, fun ht => ⟨rfl, Or.inr ⟨h1, h2, rfl⟩⟩⟩
  · rw [e]
    have hi : TripInv s' := by
      rcases hs' with hs' | hs'
      · rw [hs']; exact h
      · rw [hs']; exact fun _ => by simp
    have hb : s'.buffer = s.buffer ∧ s'.trip = s.trip := by
      rcases hs' with hs' | hs' <;> rw [hs'] <;> exact ⟨rfl, rfl⟩
    obtain ⟨a, b⟩ := digest_tripinv M s' ch hi
    refine ⟨a, fun ht => ?_⟩
    obtain ⟨b1, b2⟩ := b (by rw [hb.2]; exact ht)
    exact ⟨by rw [b1, hb.1], Or.inl b2⟩
  · rw [e]
    rcases hs' with hs' | hs'
    · rw [hs']; exact ⟨h, fun ht => ⟨rfl, Or.inl ht⟩⟩
    · rw [hs']; exact ⟨fun _ => by simp, fun ht => ⟨rfl, Or.inl ht⟩⟩

theorem tp2_step_inb (M : Nat) (s : Tpm2) (e : tp2_event) (h : InB M s) :
    InB M (tp2_step M s e) ∧ ∀ j, M ≤ j → (tp2_step M s e).buffer j = s.buffer j := by
  cases e with
  | byte ch => exact digest_inb M s ch h
  | serial status ch x => exact digester_inb M s status ch x h

theorem tp2_step_tripinv (M : Nat) (s : Tpm2) (e : tp2_event) (h : TripInv s) :
    TripInv (tp2_step M s e) ∧
      (s.trip = true → (tp2_step M s e).buffer = s.buffer ∧
        ((tp2_step M s e).trip = true ∨
          ∃ status ch x, e = .serial status ch x ∧
            (status.FE || status.NE) = false ∧ s.state = detect_state ∧
            (tp2_step M s e).state = length0_state)) := by
  cases e with
  | byte ch =>
    obtain ⟨a, b⟩ := digest_tripinv M s ch h
    exact ⟨a, fun ht => ⟨(b ht).1, Or.inl (b ht).2⟩⟩
  | serial status ch x =>
    obtain ⟨a, b⟩ := digester_tripinv M s status ch x h
    refine ⟨a, fun ht => ⟨(b ht).1, ?_⟩⟩
    rcases (b ht).2 with c | c
    · exact Or.inl c
    · exact Or.inr ⟨status, ch, x, rfl, c⟩

theorem reachable_inv (M : Nat) (s : Tpm2) (h : Reachable M s) : InB M s ∧ TripInv s := by
  induction h with
  | reset s => exact ⟨fun hs => by simp [tp2_reset] at hs, fun ht => by simp [tp2_reset] at ht⟩
  | step s e _ ih => exact ⟨(tp2_step_inb M s e ih.1).1, (tp2_step_tripinv M s e ih.2).1⟩
  | clear s _ ih =>
    exact ⟨fun hs => ih.1 (by simpa [tp2_clear] using hs), fun ht => by simp [tp2_clear] at ht⟩

theorem tp2_run_reachable (M : Nat) (evs : List tp2_event) : ∀ (s : Tpm2), Reachable M s →
    Reachable M (tp2_run M s evs) := by
  induction evs with
  | nil => intro s h; exact h
  | cons e evs ih => intro s h; exact ih _ (Reachable.step s e h)

theorem tp2_run_cons (M : Nat) (s : Tpm2) (e : tp2_event) (evs : List tp2_event) :
    tp2_run M s (e :: evs) = tp2_run M (tp2_step M s e) evs := rfl

theorem tp2_run_frame (M : Nat) (evs : List tp2_event) : ∀ (s : Tpm2), InB M s →
    ∀ j, M ≤ j → (tp2_run M s evs).buffer j = s.buffer j := by
  induction evs with
  | nil => intro s _ j _; rfl
  | cons e evs ih =>
    intro s h j hj
    rw [tp2_run_cons, ih _ (tp2_step_inb M s e h).1 j hj, (tp2_step_inb M s e h).2 j hj]

theorem tp2_digest_tripped (M : Nat) (w : List Nat) : ∀ (s : Tpm2), TripInv s → s.trip = true →
    (tp2_digest M s w).1.buffer = s.buffer ∧ (tp2_digest M s w).1.trip = true := by
  induction w with
  | nil => intro s _ ht; exact ⟨rfl, ht⟩
  | cons ch w ih =>
    intro s hi ht
    obtain ⟨a, b⟩ := digest_tripinv M s ch hi
    obtain ⟨b1, b2⟩ := b ht
    simp only [tp2_digest]
    split_ifs
    · exact ⟨b1, b2⟩
    · obtain ⟨c1, c2⟩ := ih _ a b2
      exact ⟨by rw [c1, b1], c2⟩

theorem tp2_run_tripped (M : Nat) (evs : List tp2_event) : ∀ (s : Tpm2), TripInv s →
    (∀ k, k < evs.length → (tp2_run M s (evs.take k)).trip = true) →
    (tp2_run M s evs).buffer = s.buffer := by
  induction evs with
  | nil => intro s _ _; rfl
  | cons e evs ih =>
    intro s hi h
    have h0 : s.trip = true := h 0 (by simp)
    obtain ⟨a, b⟩ := tp2_step_tripinv M s e hi
    rw [tp2_run_cons, ih _ a, (b h0).1]
    intro k hk
    have := h (k + 1) (by simpa using hk)
    simpa [tp2_run_cons] using this

/-- C4 fails as stated: after `tp2_reset()` the serial input `relock_input.1`
leaves `trip` set with `buffer[0] = 0x55`; the further serial input
`relock_input.2` (a framing error and five block starts, then a block), with no
call of `tp2_clear()`, has cleared `trip` after its first 16 events and has
overwritten `buffer[0]` with `0x77` at its end. -/
theorem tp2_relock_clears_trip :
    (tp2_run 1500 (tp2_reset tp2_init) relock_input.1).trip = true ∧
    (tp2_run 1500 (tp2_reset tp2_init) relock_input.1).buffer 0 = 0x55 ∧
    (tp2_run 1500 (tp2_run 1500 (tp2_reset tp2_init) relock_input.1) relock_input.2).trip = true ∧
    (tp2_run 1500 (tp2_run 1500 (tp2_reset tp2_init) relock_input.1)
      (relock_input.2.take 16)).trip = false ∧
    (tp2_run 1500 (tp2_run 1500 (tp2_reset tp2_init) relock_input.1) relock_input.2).buffer 0
      = 0x77 := by
  decide

/-- C4, amended: in every reachable decoder state with `trip` set, bytes digested
through `tp2_digest` change neither the buffer nor `trip`; serial events change
no buffer byte as long as `trip` is set before each of them; and the only input
that clears `trip` is an event without framing error that takes the hook from
`detect_state` to `length0_state`, the re-acquired lock. -/
theorem tp2_trip_latch (M : Nat) (s : Tpm2) (hr : Reachable M s) (ht : s.trip = true) :
    (∀ w : List Nat,
      (tp2_digest M s w).1.buffer = s.buffer ∧ (tp2_digest M s w).1.trip = true) ∧
    (∀ evs : List tp2_event,
      (∀ k, k < evs.length → (tp2_run M s (evs.take k)).trip = true) →
        (tp2_run M s evs).buffer = s.buffer) ∧
    (∀ e : tp2_event, (tp2_step M s e).trip = false →
      ∃ status ch x, e = .serial status ch x ∧
        (status.FE || status.NE) = false ∧ s.state = detect_state ∧
        (tp2_step M s e).state = length0_state) := by
  have hi := (reachable_inv M s hr).2
  refine ⟨fun w => tp2_digest_tripped M w s hi ht, fun evs h => tp2_run_tripped M evs s hi h,
    fun e he => ?_⟩
  rcases ((tp2_step_tripinv M s e hi).2 ht).2 with c | c
  · rw [he] at c; exact absurd c (by simp)
  · exact c

/-- Witness of C4, amended: the tripped state of the counterexample. -/
theorem tp2_trip_latch_witness :
    (Reachable 1500 (tp2_run 1500 (tp2_reset tp2_init) relock_input.1) ∧
        (tp2_run 1500 (tp2_reset tp2_init) relock_input.1).trip = true) ∧
      ∀ w : List Nat,
        (tp2_digest 1500 (tp2_run 1500 (tp2_reset tp2_init) relock_input.1) w).1.buffer
          = (tp2_run 1500 (tp2_reset tp2_init) relock_input.1).buffer ∧
        (tp2_digest 1500 (tp2_run 1500 (tp2_reset tp2_init) relock_input.1) w).1.trip = true :=
  ⟨⟨tp2_run_reachable 1500 _ _ (Reachable.reset tp2_init), by decide⟩,
    (tp2_trip_latch 1500 _ (tp2_run_reachable 1500 _ _ (Reachable.reset tp2_init))
      (by decide)).1⟩

theorem feed_eq_run (M : Nat) (w : List Nat) : ∀ (s : Tpm2),
    feed M s w = tp2_run M s (w.map tp2_event.byte) := by
  induction w with
  | nil => intro s; rfl
  | cons ch w ih => intro s; rw [feed_cons, ih]; rfl

theorem waiting_inb (M : Nat) (s : Tpm2) (h : waiting s) : InB M s := by
  intro hs
  rcases h with h | h <;> rw [h] at hs <;> simp at hs

/-- C5: every buffer write of the decoder is at an index `< MAXBUFF`: in every
reachable state the write index of the two storing states is `< MAXBUFF`, and no
input changes memory at an offset `≥ MAXBUFF`. A block (raw, or run-length
coded with the expansion `tpz_expand`) whose expanded payload is longer than
`MAXBUFF` leaves exactly its first `MAXBUFF` bytes in the buffer (write index
`MAXBUFF`, nothing behind the buffer touched), is consumed up to its end byte,
and raises `trip`. -/
theorem tp2_buffer_bounds (M : Nat) (hM : M + 765 < 65536) (hM1 : 1 ≤ M) :
    (∀ (s : Tpm2), Reachable M s →
      ((s.state = data_state ∨ s.state = repeat_state) → s.index < M) ∧
      (∀ (evs : List tp2_event) (j : Nat), M ≤ j → (tp2_run M s evs).buffer j = s.buffer j)) ∧
    (∀ (z : Bool) (s : Tpm2) (p : List Nat), waiting s → s.trip = false →
      (∀ x ∈ p, x < 256) → 1 ≤ p.length → p.length < 65536 →
      M < (tpz_expand z p).length →
      (∀ k, k < M →
        (tp2_digest M s ([0xC9, if z then 0xCA else 0xDA, p.length >>> 8, p.length &&& 0xFF]
          ++ p ++ [0x36])).1.buffer k = nth (tpz_expand z p) k) ∧
      (∀ j, M ≤ j →
        (tp2_digest M s ([0xC9, if z then 0xCA else 0xDA, p.length >>> 8, p.length &&& 0xFF]
          ++ p ++ [0x36])).1.buffer j = s.buffer j) ∧
      (tp2_digest M s ([0xC9, if z then 0xCA else 0xDA, p.length >>> 8, p.length &&& 0xFF]
          ++ p ++ [0x36])).1.index = M ∧
      (tp2_digest M s ([0xC9, if z then 0xCA else 0xDA, p.length >>> 8, p.length &&& 0xFF]
          ++ p ++ [0x36])).1.trip = true ∧
      (tp2_digest M s ([0xC9, if z then 0xCA else 0xDA, p.length >>> 8, p.length &&& 0xFF]
          ++ p ++ [0x36])).1.state = start_state ∧
      (tp2_digest M s ([0xC9, if z then 0xCA else 0xDA, p.length >>> 8, p.length &&& 0xFF]
          ++ p ++ [0x36])).2 = p.length + 5) := by
  refine ⟨fun s hr => ⟨(reachable_inv M s hr).1,
    fun evs j hj => tp2_run_frame M evs s (reachable_inv M s hr).1 j hj⟩, ?_⟩
  intro z s p hs htrip hp h1 h2 hlong
  rw [shr8, and_ff]
  obtain ⟨b1, b2, -⟩ := block_run M hM hM1 z s hs htrip p hp h1 h2 p.length (Nat.le_refl _)
  rw [List.take_length, Nat.sub_self] at b1
  rw [List.take_length] at b2
  have hfro : Frozen M (feed M s ([0xC9, if z then 0xCA else 0xDA, p.length / 256,
      p.length % 256] ++ p)) (rle_run z ⟨[], false⟩ p) 0 := by
    rcases b1 with h | h
    · exact absurd h.2.2.2.1 (by omega)
    · exact h
  obtain ⟨e1, e2, e3, e4, e5⟩ := block_end M _ _ [] hfro
  have hdig : tp2_digest M s ([0xC9, if z then 0xCA else 0xDA, p.length / 256,
      p.length % 256] ++ p ++ [0x36]) =
      ((digest M (feed M s ([0xC9, if z then 0xCA else 0xDA, p.length / 256,
        p.length % 256] ++ p)) 0x36).1, p.length + 5) := by
    rw [tp2_digest_quiet M _ _ s b2, e1]
    simp
    omega
  rw [hdig]
  have hlen : M < (rle_run z ⟨[], false⟩ p).out.length := hlong
  refine ⟨fun k hk => ?_, fun j hj => ?_, ?_, e3, e5, rfl⟩
  · show (digest M _ 0x36).1.buffer k = _
    rw [e2]
    exact hfro.2.2.2.2.2.1 k hk (by omega)
  · show (digest M _ 0x36).1.buffer j = _
    rw [e2, feed_eq_run]
    exact tp2_run_frame M _ s (waiting_inb M s hs) j hj
  · show (digest M _ 0x36).1.index = M
    rw [e4, hfro.2.2.2.2.1]
    omega


theorem inv_digest (M : Nat) (hM : M + 765 < 65536) (s : Tpm2) (ch : Nat) (hch : ch < 256)
    (h : Inv M s) : Inv M (digest M s ch).1 := by
  by_cases hd : s.state = data_state
  · obtain ⟨i1, i2, i3, i4⟩ := h.1 hd
    have e := digest_data M s ch hch hd
    have hi : (s.index + 1) % 65536 = s.index + 1 := by omega
    have hl : dec16 s.length = s.length - 1 := dec16_pos _ i2 i3
    have hcoh := coh_push s.ch0 s.ch1 s.buffer s.index ch hch i4
    have est : (digest M s ch).1.state =
        (if s.length - 1 = 0 then end_state
          else if M ≤ s.index + 1 then skip_state
          else if s.repeat_flag = true ∧ 6 ≤ s.index + 1 ∧
              sh0 s ch % 16777216 = sh1 s ch % 16777216 then repeat_state
          else data_state) := by rw [e, hi, hl]
    have eidx : (digest M s ch).1.index = s.index + 1 := by rw [e]; exact hi
    have elen : (digest M s ch).1.length = s.length - 1 := by rw [e]; exact hl
    have ecoh : Coh (digest M s ch).1.ch0 (digest M s ch).1.ch1 (digest M s ch).1.buffer
        (digest M s ch).1.index := by rw [eidx, e]; exact hcoh
    have erep : (digest M s ch).1.repeat_flag = s.repeat_flag := by rw [e]
    have ebuf : (digest M s ch).1.buffer = store s.buffer s.index ch := by rw [e]
    have key : ((digest M s ch).1.state = data_state ∨ (digest M s ch).1.state = repeat_state) →
        ¬ s.length - 1 = 0 ∧ ¬ M ≤ s.index + 1 := by
      intro hs
      rw [est] at hs
      by_cases c1 : s.length - 1 = 0
      · rw [if_pos c1] at hs; simp at hs
      by_cases c2 : M ≤ s.index + 1
      · rw [if_neg c1, if_pos c2] at hs; simp at hs
      · exact ⟨c1, c2⟩
    refine ⟨fun hs => ?_, fun hs => ?_⟩
    · obtain ⟨c1, c2⟩ := key (Or.inl hs)
      exact ⟨by rw [eidx]; omega, by rw [elen]; omega, by rw [elen]; omega, ecoh⟩
    · obtain ⟨c1, c2⟩ := key (Or.inr hs)
      rw [est, if_neg c1, if_neg c2] at hs
      by_cases c3 : s.repeat_flag = true ∧ 6 ≤ s.index + 1 ∧
          sh0 s ch % 16777216 = sh1 s ch % 16777216
      · refine ⟨by rw [eidx]; omega, by rw [elen]; omega, by rw [elen]; omega, ecoh, ?_,
          by rw [erep]; exact c3.1⟩
        rw [ebuf, eidx]
        exact (coh_match _ _ _ _ hcoh c3.2.1).1 c3.2.2
      · rw [if_neg c3] at hs; simp at hs
  by_cases hr : s.state = repeat_state
  · obtain ⟨i1, i2, i3, i4, i5, i6⟩ := h.2 hr
    have e := digest_repeat M s ch hch hr
    have hn : (s.index + ch * 3) % 65536 = s.index + 3 * ch := by omega
    have hl : dec16 s.length = s.length - 1 := dec16_pos _ i2 i3
    have est : (digest M s ch).1.state =
        (if s.length - 1 = 0 then end_state
          else if M ≤ s.index + 3 * ch then skip_state else data_state) := by rw [e, hn, hl]
    have elen : (digest M s ch).1.length = s.length - 1 := by rw [e]; exact hl
    refine ⟨fun hs => ?_, fun hs => ?_⟩
    · rw [est] at hs
      by_cases c1 : s.length - 1 = 0
      · rw [if_pos c1] at hs; simp at hs
      by_cases c2 : M ≤ s.index + 3 * ch
      · rw [if_neg c1, if_pos c2] at hs; simp at hs
      have eidx : (digest M s ch).1.index = s.index + 3 * ch := by
        rw [e, hn]; exact if_neg c2
      have ebuf : (digest M s ch).1.buffer =
          unroll_loop (s.index + 3 * ch - s.index) s.buffer (s.index - 3) s.index := by
        rw [e, hn]; simp only [if_neg c2]
      have ech0 : (digest M s ch).1.ch0 = sh0 s ch / 256 := by rw [e]
      have ech1 : (digest M s ch).1.ch1 = sh0 s ch / 256 := by rw [e]
      obtain ⟨u1, -, u3⟩ := unroll_loop_spec (s.index + 3 * ch - s.index) s.buffer s.index
        (by have := i5.1; omega)
      have hx : sh0 s ch / 256 = s.ch0 % 16777216 := by unfold sh0; omega
      refine ⟨by rw [eidx]; omega, by rw [elen]; omega, by rw [elen]; omega, ?_⟩
      rw [ech0, ech1, ebuf, eidx]
      exact coh_unroll s.ch0 s.ch1 _ s.buffer _ s.index ch hx i4 i5 u1
        (fun j a b => u3 j a (by omega))
    · rw [est] at hs
      split_ifs at hs
  · obtain ⟨-, -, e3, e4⟩ := digest_other M s ch hd hr
    refine ⟨fun hs => ?_, fun hs => absurd hs e3⟩
    obtain ⟨a1, a2, -⟩ := e4 hs
    have hlen : 1 ≤ (digest M s ch).1.length ∧ (digest M s ch).1.length < 65536 := by
      cases hst : s.state
      case data_state => exact absurd hst hd
      case repeat_state => exact absurd hst hr
      all_goals
        have hh := hs
        simp only [digest, hst] at hh ⊢
        generalize ((s.ch0 <<< 8 ||| ch) % 2 ^ 32) = x at hh ⊢
        generalize ((s.ch1 <<< 8 ||| x >>> (3 * 8)) % 2 ^ 32) = y at hh ⊢
        (try rw [and_ffff] at hh ⊢)
        (try split_ifs at hh ⊢) <;> simp_all <;> (try omega)
    rw [a1]
    exact ⟨a2, hlen.1, hlen.2, coh_zero _ _ _⟩

theorem inv_feed (M : Nat) (hM : M + 765 < 65536) (w : List Nat) : ∀ (s : Tpm2),
    (∀ x ∈ w, x < 256) → Inv M s → Inv M (feed M s w) := by
  induction w with
  | nil => intro s _ h; exact h
  | cons ch w ih =>
    intro s hw h
    rw [feed_cons]
    exact ih _ (fun x hx => hw x (List.mem_cons_of_mem _ hx))
      (inv_digest M hM s ch (hw ch (List.mem_cons_self _ _)) h)

theorem waiting_inv (M : Nat) (s : Tpm2) (h : waiting s) : Inv M s := by
  refine ⟨fun hs => ?_, fun hs => ?_⟩ <;> rcases h with h | h <;> rw [h] at hs <;> simp at hs

/-- The bytes `unroll` writes repeat the three bytes before them. -/
theorem unroll_periodic (r f : Nat → Nat) (n c : Nat) (hn : 3 ≤ n)
    (h1 : ∀ j, j < n → r j = f j) (h2 : ∀ j, n ≤ j → j < n + 3 * c → r j = r (j - 3)) :
    ∀ i, i < 3 * c → r (n + i) = f (n - 3 + i % 3) := by
  intro i
  induction i using Nat.strong_induction_on with
  | _ i ih =>
    intro hi
    rw [h2 (n + i) (by omega) (by omega)]
    by_cases c3 : i < 3
    · rw [h1 _ (by omega), Nat.mod_eq_of_lt c3]
      congr 1; omega
    · rw [show n + i - 3 = n + (i - 3) by omega, ih (i - 3) (by omega) (by omega)]
      congr 2; omega


/-- C3: in a TPZ block (the decoder stores payload with `repeat` set), when a
payload byte `b` has been stored so that at least six bytes are stored and the
last three equal the three before them, and the block goes on and the buffer
has room, the decoder is in `repeat_state`; the next byte `n` is then a repeat
count: the write index advances by `3 * n`, the bytes stored so far stay, the
new bytes repeat the last three, and the decoder is back in `data_state` (in
`end_state` when the count was the last byte of the block). The block
`C9 CA 00 07 AA BB CC AA BB CC 02 36`, fed to a decoder that waits for a block
start, yields the 12 bytes `AA BB CC` four times and sets `trip`. -/
theorem tp2_tpz_repeat (M : Nat) (hM : M + 765 < 65536) :
    (∀ (s0 s1 s2 s3 : Tpm2) (w : List Nat) (b n : Nat),
      waiting s0 → (∀ x ∈ w, x < 256) → b < 256 → n < 256 →
      s1 = feed M s0 w → s2 = (digest M s1 b).1 → s3 = (digest M s2 n).1 →
      s1.state = data_state → s1.repeat_flag = true → 2 ≤ s1.length →
      6 ≤ s2.index → s2.index + 3 * n < M →
      s2.buffer (s2.index - 1) = s2.buffer (s2.index - 4) →
      s2.buffer (s2.index - 2) = s2.buffer (s2.index - 5) →
      s2.buffer (s2.index - 3) = s2.buffer (s2.index - 6) →
      s2.state = repeat_state ∧ s2.index = s1.index + 1 ∧ s2.buffer s1.index = b ∧
      s3.index = s2.index + 3 * n ∧
      (∀ k, k < s2.index → s3.buffer k = s2.buffer k) ∧
      (∀ i, i < 3 * n → s3.buffer (s2.index + i) = s2.buffer (s2.index - 3 + i % 3)) ∧
      s3.state = (if s1.length = 2 then end_state else data_state)) ∧
    (∀ (s : Tpm2), waiting s → s.trip = false → 13 ≤ M →
      (∀ k, k < 12 →
        (tp2_digest M s [0xC9, 0xCA, 0x00, 0x07, 0xAA, 0xBB, 0xCC, 0xAA, 0xBB, 0xCC, 0x02,
            0x36]).1.buffer k
          = nth [0xAA, 0xBB, 0xCC, 0xAA, 0xBB, 0xCC, 0xAA, 0xBB, 0xCC, 0xAA, 0xBB, 0xCC] k) ∧
      (tp2_digest M s [0xC9, 0xCA, 0x00, 0x07, 0xAA, 0xBB, 0xCC, 0xAA, 0xBB, 0xCC, 0x02,
            0x36]).1.index = 12 ∧
      (tp2_digest M s [0xC9, 0xCA, 0x00, 0x07, 0xAA, 0xBB, 0xCC, 0xAA, 0xBB, 0xCC, 0x02,
            0x36]).1.trip = true) := by
  refine ⟨?_, ?_⟩
  · intro s0 s1 s2 s3 w b n hs hw hb hn e1 e2 e3 hst hrep hlen h6 hroom p1 p2 p3
    have hinv : Inv M s1 := by rw [e1]; exact inv_feed M hM w s0 hw (waiting_inv M s0 hs)
    obtain ⟨i1, i2, i3, i4⟩ := hinv.1 hst
    have hinv2 : Inv M s2 := by rw [e2]; exact inv_digest M hM s1 b hb hinv
    have ed := digest_data M s1 b hb hst
    have hi : (s1.index + 1) % 65536 = s1.index + 1 := by omega
    have hl : dec16 s1.length = s1.length - 1 := dec16_pos _ i2 i3
    have hidx2 : s2.index = s1.index + 1 := by rw [e2, ed]; exact hi
    have hbuf2 : s2.buffer = store s1.buffer s1.index b := by rw [e2, ed]
    have hlen2 : s2.length = s1.length - 1 := by rw [e2, ed]; exact hl
    have hcoh := coh_push s1.ch0 s1.ch1 s1.buffer s1.index b hb i4
    have hper : Per s2.buffer s2.index := ⟨h6, p1, p2, p3⟩
    have hmatch : sh0 s1 b % 16777216 = sh1 s1 b % 16777216 := by
      rw [hbuf2, hidx2] at hper
      exact (coh_match _ _ _ _ hcoh (by omega)).2 hper
    have hst2 : s2.state = repeat_state := by
      rw [e2, ed, hi, hl]
      show (if s1.length - 1 = 0 then end_state
          else if M ≤ s1.index + 1 then skip_state
          else if s1.repeat_flag = true ∧ 6 ≤ s1.index + 1 ∧
              sh0 s1 b % 16777216 = sh1 s1 b % 16777216 then repeat_state
          else data_state) = repeat_state
      rw [if_neg (by omega), if_neg (by omega), if_pos ⟨hrep, by omega, hmatch⟩]
    have er := digest_repeat M s2 n hn hst2
    have hn0 : (s2.index + n * 3) % 65536 = s2.index + 3 * n := by omega
    have hl2 : dec16 s2.length = s2.length - 1 := dec16_pos _ (by omega) (by omega)
    have hnm : ¬ M ≤ s2.index + 3 * n := by omega
    have hidx3 : s3.index = s2.index + 3 * n := by rw [e3, er, hn0]; exact if_neg hnm
    have hbuf3 : s3.buffer = unroll_loop (s2.index + 3 * n - s2.index) s2.buffer (s2.index - 3)
        s2.index := by
      rw [e3, er, hn0]; simp only [if_neg hnm]
    have hst3 : s3.state = (if s1.length = 2 then end_state else data_state) := by
      rw [e3, er, hn0, hl2, hlen2]
      show (if s1.length - 1 - 1 = 0 then end_state
          else if M ≤ s2.index + 3 * n then skip_state else data_state) = _
      by_cases c : s1.length = 2
      · rw [if_pos (by omega), if_pos c]
      · rw [if_neg (by omega), if_neg hnm, if_neg c]
    obtain ⟨u1, -, u3⟩ := unroll_loop_spec (s2.index + 3 * n - s2.index) s2.buffer s2.index
      (by omega)
    refine ⟨hst2, hidx2, by rw [hbuf2]; simp [store], hidx3, ?_, ?_, hst3⟩
    · intro k hk; rw [hbuf3]; exact u1 k hk
    · rw [hbuf3]
      exact unroll_periodic _ s2.buffer s2.index n (by omega) u1 (fun j a b => u3 j a (by omega))
  · intro s hs htrip hM13
    have hp : ∀ x ∈ [0xAA, 0xBB, 0xCC, 0xAA, 0xBB, 0xCC, 0x02], x < 256 := by decide
    obtain ⟨b1, b2, -⟩ := block_run M hM (by omega) true s hs htrip
      [0xAA, 0xBB, 0xCC, 0xAA, 0xBB, 0xCC, 0x02] hp (by decide) (by decide) 7 (by decide)
    have hout : (rle_run true ⟨[], false⟩ [0xAA, 0xBB, 0xCC, 0xAA, 0xBB, 0xCC, 0x02]).out
        = [0xAA, 0xBB, 0xCC, 0xAA, 0xBB, 0xCC, 0xAA, 0xBB, 0xCC, 0xAA, 0xBB, 0xCC] := by
      decide
    have hfro : Frozen M (feed M s [0xC9, 0xCA, 0x00, 0x07, 0xAA, 0xBB, 0xCC, 0xAA, 0xBB, 0xCC,
        0x02]) (rle_run true ⟨[], false⟩ [0xAA, 0xBB, 0xCC, 0xAA, 0xBB, 0xCC, 0x02]) 0 := by
      rcases b1 with h | h
      · exact absurd h.2.2.2.1 (by decide)
      · exact h
    have hq : quiet M s [0xC9, 0xCA, 0x00, 0x07, 0xAA, 0xBB, 0xCC, 0xAA, 0xBB, 0xCC, 0x02] := b2
    obtain ⟨e1, e2, e3, e4, -⟩ := block_end M _ _ [] hfro
    have hdig : tp2_digest M s [0xC9, 0xCA, 0x00, 0x07, 0xAA, 0xBB, 0xCC, 0xAA, 0xBB, 0xCC, 0x02,
        0x36] = ((digest M (feed M s [0xC9, 0xCA, 0x00, 0x07, 0xAA, 0xBB, 0xCC, 0xAA, 0xBB, 0xCC,
          0x02]) 0x36).1, 12) := by
      have := tp2_digest_quiet M _ [0x36] s hq
      rw [e1] at this
      exact this
    rw [hdig]
    refine ⟨fun k hk => ?_, ?_, e3⟩
    · show (digest M _ 0x36).1.buffer k = _
      rw [e2, ← hout]
      exact hfro.2.2.2.2.2.1 k (by omega) (by rw [hout]; simpa using hk)
    · show (digest M _ 0x36).1.index = 12
      rw [e4, hfro.2.2.2.2.1, hout]
      simp
      omega

/-- Witness of C3 for `MAXBUFF = 1500` and the decoder after `tp2_reset`: the
rule at the sixth payload byte of the block of the specification, and the
whole block. -/
theorem tp2_tpz_repeat_witness :
    (1500 + 765 < 65536 ∧ waiting tp2_init ∧ tp2_init.trip = false ∧ 13 ≤ 1500 ∧
      (feed 1500 tp2_init [0xC9, 0xCA, 0x00, 0x07, 0xAA, 0xBB, 0xCC, 0xAA, 0xBB]).state
        = data_state ∧
      6 ≤ (digest 1500 (feed 1500 tp2_init [0xC9, 0xCA, 0x00, 0x07, 0xAA, 0xBB, 0xCC, 0xAA,
        0xBB]) 0xCC).1.index) ∧
      (digest 1500 (digest 1500 (feed 1500 tp2_init [0xC9, 0xCA, 0x00, 0x07, 0xAA, 0xBB, 0xCC,
        0xAA, 0xBB]) 0xCC).1 2).1.index
        = (digest 1500 (feed 1500 tp2_init [0xC9, 0xCA, 0x00, 0x07, 0xAA, 0xBB, 0xCC, 0xAA,
          0xBB]) 0xCC).1.index + 3 * 2 ∧
      (tp2_digest 1500 tp2_init [0xC9, 0xCA, 0x00, 0x07, 0xAA, 0xBB, 0xCC, 0xAA, 0xBB, 0xCC,
        0x02, 0x36]).1.index = 12 :=
  ⟨⟨by decide, Or.inr rfl, rfl, by decide, by decide, by decide⟩,
    ((tp2_tpz_repeat 1500 (by decide)).1 tp2_init _ _ _
      [0xC9, 0xCA, 0x00, 0x07, 0xAA, 0xBB, 0xCC, 0xAA, 0xBB] 0xCC 2 (Or.inr rfl) (by decide)
      (by decide) (by decide) rfl rfl rfl (by decide) (by decide) (by decide) (by decide)
      (by decide) (by decide) (by decide) (by decide)).2.2.2.1,
    ((tp2_tpz_repeat 1500 (by decide)).2 tp2_init (Or.inr rfl) rfl (by decide)).2.1⟩

set_option maxRecDepth 100000 in
/-- Witness of C5 for `MAXBUFF = 1500`: the run-length coded block with the
payload `07 07 07 07 07 07 FA 07 FA` expands to 1507 bytes. -/
theorem tp2_buffer_bounds_witness :
    (1500 + 765 < 65536 ∧ 1 ≤ 1500 ∧ waiting tp2_init ∧ tp2_init.trip = false ∧
      (∀ x ∈ [7, 7, 7, 7, 7, 7, 250, 7, 250], x < 256) ∧
      1500 < (tpz_expand true [7, 7, 7, 7, 7, 7, 250, 7, 250]).length) ∧
      (tp2_digest 1500 tp2_init ([0xC9, if true then 0xCA else 0xDA,
          [7, 7, 7, 7, 7, 7, 250, 7, 250].length >>> 8,
          [7, 7, 7, 7, 7, 7, 250, 7, 250].length &&& 0xFF]
        ++ [7, 7, 7, 7, 7, 7, 250, 7, 250] ++ [0x36])).1.index = 1500 :=
  ⟨⟨by decide, by decide, Or.inr rfl, rfl, by decide, by decide⟩,
    ((tp2_buffer_bounds 1500 (by decide) (by decide)).2 true tp2_init
      [7, 7, 7, 7, 7, 7, 250, 7, 250] (Or.inr rfl) rfl (by decide) (by decide) (by decide)
      (by decide)).2.2.1⟩

/-! ## TPZ encoder and decoder round trip -/

theorem rep3_snoc (t : List Nat) (n : Nat) : rep3 n t ++ t = rep3 (n + 1) t := by
  induction n with
  | zero => simp [rep3]
  | succ n ih => simp only [rep3, List.append_assoc] at ih ⊢; rw [ih]

theorem compress_run_inv (a : List Nat) (i : Nat) (fuel : Nat) : ∀ (j n : Nat),
    RunInv a i j n → n + fuel ≤ 250 →
    RunInv a i (compress_run a i fuel j n).1 (compress_run a i fuel j n).2 := by
  induction fuel with
  | zero => intro j n h _; exact h
  | succ fuel ih =>
    intro j n h hf
    simp only [compress_run]
    by_cases c1 : j < a.length
    · rw [if_pos c1]
      by_cases c2 : mid a (i - 3) 3 ≠ mid a (j - 3) 3
      · rw [if_pos c2]; exact h
      · rw [if_neg c2]
        have c2' : mid a (i - 3) 3 = mid a (j - 3) 3 := by simpa using c2
        obtain ⟨h1, h2, h3, h4⟩ := h
        have hnext : RunInv a i (j + 3) (n + 1) := by
          refine ⟨by omega, by omega, by omega, ?_⟩
          rw [show i + 3 * (n + 1) = (i + 3 * n) + 3 by omega, List.take_add, h4,
            List.append_assoc, ← rep3_snoc, c2']
          congr 2
          unfold mid
          congr 2
          omega
        by_cases c3 : n + 1 = 250
        · rw [if_pos c3]; exact hnext
        · rw [if_neg c3]; exact ih _ _ hnext (by omega)
    · rw [if_neg c1]; exact h

theorem take_snoc_nth (a : List Nat) (i : Nat) (h : i < a.length) :
    a.take i ++ [nth a i] = a.take (i + 1) := by
  rw [List.take_succ, List.getElem?_eq_getElem h]
  unfold nth
  rw [List.getD_eq_getElem _ _ h]
  rfl

theorem last3_take (a : List Nat) (i : Nat) (h : i ≤ a.length) (h3 : 3 ≤ i) :
    last3 (a.take i) = mid a (i - 3) 3 := by
  unfold last3 mid
  rw [List.length_take, Nat.min_eq_left h, List.drop_take, show i - (i - 3) = 3 by omega]

theorem prev3_take (a : List Nat) (i : Nat) (h : i ≤ a.length) (h6 : 6 ≤ i) :
    prev3 (a.take i) = mid a (i - 6) 3 := by
  unfold prev3 mid
  rw [List.length_take, Nat.min_eq_left h, List.drop_take, List.take_take]
  congr 1
  omega

/-- The expander undoes the encoder, at the level of byte strings. -/
theorem compress_loop_expand (a : List Nat) (fuel : Nat) : ∀ (i : Nat) (out : List Nat),
    a.length - i ≤ fuel → i ≤ a.length →
    rle_run true ⟨[], false⟩ out = ⟨a.take i, false⟩ →
    rle_run true ⟨[], false⟩ (compress_loop a fuel i out) = ⟨a, false⟩ := by
  induction fuel with
  | zero =>
    intro i out hf hi h
    simp only [compress_loop]
    rw [h, List.take_of_length_le (by omega)]
  | succ fuel ih =>
    intro i out hf hi h
    simp only [compress_loop]
    by_cases c1 : i < a.length
    · rw [if_pos c1]
      have hstep : rle_run true ⟨[], false⟩ (out ++ [nth a i]) =
          ⟨a.take (i + 1), decide (6 ≤ i + 1) &&
            decide (last3 (a.take (i + 1)) = prev3 (a.take (i + 1)))⟩ := by
        rw [rle_run_append, h]
        simp only [rle_run, List.foldl_cons, List.foldl_nil, rle_step, Bool.false_eq_true,
          if_false, take_snoc_nth a i c1, Bool.true_and]
        congr 2
        simp
        omega
      by_cases c2 : i + 1 < 6
      · rw [if_pos c2]
        apply ih _ _ (by omega) (by omega)
        rw [hstep]
        have : ¬ 6 ≤ i + 1 := by omega
        simp [this]
      · rw [if_neg c2]
        have h6 : 6 ≤ i + 1 := by omega
        have e1 := last3_take a (i + 1) (by omega) (by omega)
        have e2 := prev3_take a (i + 1) (by omega) h6
        rw [e1, e2] at hstep
        by_cases c3 : mid a (i + 1 - 6) 3 = mid a (i + 1 - 3) 3
        · rw [if_pos c3]
          have hinv := compress_run_inv a (i + 1) 250 (i + 1 + 3) 0
            ⟨by omega, by omega, by omega, by simp [rep3]⟩ (by omega)
          obtain ⟨r1, r2, r3, r4⟩ := hinv
          apply ih _ _ (by omega) (by omega)
          rw [rle_run_append, hstep]
          simp only [h6, c3, decide_True, Bool.and_self, rle_run, List.foldl_cons,
            List.foldl_nil, rle_step, if_true, e1]
          congr 1
          rw [r1, show i + 1 + 3 + 3 * (compress_run a (i + 1) 250 (i + 1 + 3) 0).2 - 3
            = i + 1 + 3 * (compress_run a (i + 1) 250 (i + 1 + 3) 0).2 by omega, r4]
        · rw [if_neg c3]
          apply ih _ _ (by omega) (by omega)
          rw [hstep]
          have : ¬ mid a (i + 1 - 3) 3 = mid a (i + 1 - 6) 3 := fun hh => c3 hh.symm
          rw [decide_eq_false this, Bool.and_false]
    · rw [if_neg c1, h, List.take_of_length_le (by omega)]

theorem nth_lt (a : List Nat) (h : ∀ x ∈ a, x < 256) (i : Nat) : nth a i < 256 := by
  unfold nth
  by_cases c : i < a.length
  · rw [List.getD_eq_getElem _ _ c]; exact h _ (List.getElem_mem _)
  · rw [List.getD_eq_default _ _ (by omega)]; omega

theorem compress_loop_bytes (a : List Nat) (h : ∀ x ∈ a, x < 256) (fuel : Nat) :
    ∀ (i : Nat) (out : List Nat), (∀ x ∈ out, x < 256) →
      ∀ x ∈ compress_loop a fuel i out, x < 256 := by
  induction fuel with
  | zero => intro i out ho; exact ho
  | succ fuel ih =>
    intro i out ho
    simp only [compress_loop]
    have ho1 : ∀ x ∈ out ++ [nth a i], x < 256 := by
      intro x hx
      rcases List.mem_append.1 hx with hx | hx
      · exact ho x hx
      · rw [List.mem_singleton.1 hx]; exact nth_lt a h i
    split_ifs
    · exact ih _ _ ho1
    · apply ih
      intro x hx
      rcases List.mem_append.1 hx with hx | hx
      · exact ho1 x hx
      · rw [List.mem_singleton.1 hx]
        have := (compress_run_inv a (i + 1) 250 (i + 1 + 3) 0
          ⟨by omega, by omega, by omega, by simp [rep3]⟩ (by omega)).2.1
        omega
    · exact ih _ _ ho1
    · exact ho


/-- The inner loop of `compress` leaves through one of its `break`s or its
condition: more fuel than the 250 passes it can make changes nothing. -/
theorem compress_run_fuel (a : List Nat) (i : Nat) (fuel : Nat) : ∀ (j n : Nat),
    250 ≤ n + fuel → n < 250 →
    compress_run a i fuel j n = compress_run a i (250 - n) j n := by
  induction fuel with
  | zero => intro j n h1 h2; omega
  | succ fuel ih =>
    intro j n h1 h2
    rw [show 250 - n = (249 - n) + 1 by omega]
    simp only [compress_run]
    by_cases c1 : j < a.length
    · rw [if_pos c1, if_pos c1]
      by_cases c2 : mid a (i - 3) 3 ≠ mid a (j - 3) 3
      · rw [if_pos c2, if_pos c2]
      · rw [if_neg c2, if_neg c2]
        by_cases c3 : n + 1 = 250
        · rw [if_pos c3, if_pos c3]
        · rw [if_neg c3, if_neg c3, ih _ _ (by omega) (by omega)]
          congr 1
          omega
    · rw [if_neg c1, if_neg c1]

/-- The outer loop of `compress` leaves through its condition: any fuel of at
least `a.length - i` gives the same output. -/
theorem compress_loop_fuel (a : List Nat) (f1 : Nat) : ∀ (f2 i : Nat) (out : List Nat),
    a.length - i ≤ f1 → a.length - i ≤ f2 →
    compress_loop a f1 i out = compress_loop a f2 i out := by
  induction f1 with
  | zero =>
    intro f2 i out h1 h2
    cases f2 with
    | zero => rfl
    | succ f2 =>
      simp only [compress_loop]
      rw [if_neg (by omega)]
  | succ f1 ih =>
    intro f2 i out h1 h2
    cases f2 with
    | zero =>
      simp only [compress_loop]
      rw [if_neg (by omega)]
    | succ f2 =>
      simp only [compress_loop]
      by_cases c1 : i < a.length
      · rw [if_pos c1, if_pos c1]
        have hj := (compress_run_inv a (i + 1) 250 (i + 1 + 3) 0
          ⟨by omega, by omega, by omega, by simp [rep3]⟩ (by omega)).1
        split_ifs
        · exact ih _ _ _ (by omega) (by omega)
        · exact ih _ _ _ (by omega) (by omega)
        · exact ih _ _ _ (by omega) (by omega)
      · rw [if_neg c1, if_neg c1]

/-- C2: decoding undoes the TPZ encoder `compress` (`frame.cpp`; `compr` of
`dialog.cpp` is the same text). For every frame `a` with
`1 ≤ |a| ≤ MAXBUFF` whose compressed form `c = compress a` has `|c| ≤ 65535`,
the block `envelope(0xCA, compress(a))` the host sends is
`C9 CA (|c| >> 8) (|c| & 0xFF) c 36`, and feeding it to a decoder that waits
for a block start with `trip` clear leaves `buffer[0 .. |a| - 1] = a`, the write
index at `|a|` and `trip` set, all `|c| + 5` bytes being consumed. The loop of
the encoder ends by its own condition: more fuel than `|a|` gives the same
`c`. -/
theorem tp2_compress_roundtrip (M : Nat) (hM : M + 765 < 65536) (s : Tpm2) (a : List Nat)
    (hs : waiting s) (htrip : s.trip = false) (ha : ∀ x ∈ a, x < 256)
    (h1 : 1 ≤ a.length) (h2 : a.length ≤ M) (hc : (compress a).length ≤ 65535) :
    envelope 0xCA (compress a) =
      [0xC9, 0xCA, (compress a).length >>> 8, (compress a).length &&& 0xFF]
        ++ compress a ++ [0x36] ∧
    (∀ k, k < a.length →
      (tp2_digest M s (envelope 0xCA (compress a))).1.buffer k = nth a k) ∧
    (tp2_digest M s (envelope 0xCA (compress a))).1.index = a.length ∧
    (tp2_digest M s (envelope 0xCA (compress a))).1.trip = true ∧
    (tp2_digest M s (envelope 0xCA (compress a))).2 = (compress a).length + 5 ∧
    (∀ fuel, a.length ≤ fuel → compress_loop a fuel 0 [] = compress a) := by
  have henv : envelope 0xCA (compress a) =
      [0xC9, 0xCA, (compress a).length >>> 8, (compress a).length &&& 0xFF]
        ++ compress a ++ [0x36] := by
    have e1 : (compress a).length % 65536 = (compress a).length :=
      Nat.mod_eq_of_lt (by omega)
    have e2 : ((compress a).length >>> 8) % 256 = (compress a).length >>> 8 := by
      rw [shr8]
      exact Nat.mod_eq_of_lt (by omega)
    have e3 : ((compress a).length >>> 0) % 256 = (compress a).length &&& 0xFF := by
      rw [and_ff, Nat.shiftRight_zero]
    unfold envelope
    rw [e1, e2, e3]
  refine ⟨henv, ?_⟩
  rw [henv]
  have hexp : rle_run true ⟨[], false⟩ (compress a) = ⟨a, false⟩ :=
    compress_loop_expand a a.length 0 [] (by omega) (by omega) (by simp [rle_run])
  have hbytes : ∀ x ∈ compress a, x < 256 :=
    compress_loop_bytes a ha a.length 0 [] (by simp)
  have hc1 : 1 ≤ (compress a).length := by
    by_contra hcon
    have hnil : compress a = [] := List.length_eq_zero.1 (by omega)
    rw [hnil] at hexp
    have : a = [] := by
      have := congrArg Rle.out hexp
      simpa [rle_run] using this.symm
    rw [this] at h1
    simp at h1
  rw [shr8, and_ff]
  obtain ⟨b1, b2, -⟩ := block_run M hM (by omega) true s hs htrip (compress a) hbytes hc1
    (by omega) (compress a).length (Nat.le_refl _)
  simp only [if_true] at b1 b2
  rw [List.take_length, Nat.sub_self, hexp] at b1
  rw [List.take_length] at b2
  have hfro : Frozen M (feed M s ([0xC9, 0xCA, (compress a).length / 256,
      (compress a).length % 256] ++ compress a)) ⟨a, false⟩ 0 := by
    rcases b1 with h | h
    · exact absurd h.2.2.2.1 (by omega)
    · exact h
  obtain ⟨e1, e2, e3, e4, -⟩ := block_end M _ _ [] hfro
  have hdig : tp2_digest M s ([0xC9, 0xCA, (compress a).length / 256,
      (compress a).length % 256] ++ compress a ++ [0x36]) =
      ((digest M (feed M s ([0xC9, 0xCA, (compress a).length / 256,
        (compress a).length % 256] ++ compress a)) 0x36).1, (compress a).length + 5) := by
    rw [tp2_digest_quiet M _ _ s b2, e1]
    simp
    omega
  rw [hdig]
  refine ⟨fun k hk => ?_, ?_, e3, rfl, fun fuel hf => ?_⟩
  · show (digest M _ 0x36).1.buffer k = _
    rw [e2]
    exact hfro.2.2.2.2.2.1 k (by omega) hk
  · show (digest M _ 0x36).1.index = a.length
    rw [e4, hfro.2.2.2.2.1]
    exact Nat.min_eq_right h2
  · exact compress_loop_fuel a fuel a.length 0 [] (by omega) (by omega)

/-- Witness of C2 for `MAXBUFF = 1500`: a frame of four equal pixels. -/
theorem tp2_compress_roundtrip_witness :
    (1500 + 765 < 65536 ∧ waiting tp2_init ∧ tp2_init.trip = false ∧
      (∀ x ∈ [1, 2, 3, 1, 2, 3, 1, 2, 3, 1, 2, 3], x < 256) ∧
      1 ≤ [1, 2, 3, 1, 2, 3, 1, 2, 3, 1, 2, 3].length ∧
      [1, 2, 3, 1, 2, 3, 1, 2, 3, 1, 2, 3].length ≤ 1500 ∧
      (compress [1, 2, 3, 1, 2, 3, 1, 2, 3, 1, 2, 3]).length ≤ 65535) ∧
      (tp2_digest 1500 tp2_init
          (envelope 0xCA (compress [1, 2, 3, 1, 2, 3, 1, 2, 3, 1, 2, 3]))).1.index
        = [1, 2, 3, 1, 2, 3, 1, 2, 3, 1, 2, 3].length :=
  ⟨⟨by decide, Or.inr rfl, rfl, by decide, by decide, by decide, by decide⟩,
    (tp2_compress_roundtrip 1500 (by decide) tp2_init [1, 2, 3, 1, 2, 3, 1, 2, 3, 1, 2, 3]
      (Or.inr rfl) rfl (by decide) (by decide) (by decide) (by decide)).2.2.1⟩

/-! ## LED maps -/

theorem transpose_frame (bits : Nat → Nat) (offset string t a : Nat)
    (h : a < offset * 3 * 8 ∨ offset * 3 * 8 + 24 ≤ a) :
    transpose bits offset string t a = bits a := by
  unfold transpose
  repeat (rw [transpose_word_frame _ _ _ _ _ _ _ (by omega)])

theorem wr32_lt (bits : Nat → Nat) (a v : Nat) (h : ∀ j, bits j < 256) :
    ∀ j, wr32 bits a v j < 256 := by
  intro j
  unfold wr32
  split_ifs <;> first | exact h j | omega

theorem transpose_lt (bits : Nat → Nat) (offset string t : Nat) (h : ∀ j, bits j < 256) :
    ∀ j, transpose bits offset string t j < 256 := by
  unfold transpose transpose_word
  simp only []
  exact wr32_lt _ _ _ (wr32_lt _ _ _ (wr32_lt _ _ _ (wr32_lt _ _ _ (wr32_lt _ _ _
    (wr32_lt _ _ _ h)))))

theorem testBit_high (x i : Nat) (hx : x < 256) (hi : 8 ≤ i) : x.testBit i = false := by
  apply Nat.testBit_lt_two_pow
  calc x < 256 := hx
    _ = 2 ^ 8 := by norm_num
    _ ≤ 2 ^ i := Nat.pow_le_pow_right (by norm_num) hi

theorem testBit_planes_off (k : Nat) (h : k % 8 ≠ 0) : Nat.testBit 0x01010101 k = false := by
  by_cases c : k < 32
  · interval_cases k <;> first | omega | decide
  · apply Nat.testBit_lt_two_pow
    calc 0x01010101 < 2 ^ 32 := by norm_num
      _ ≤ 2 ^ k := Nat.pow_le_pow_right (by norm_num) (by omega)

theorem rd32_testBit (bits : Nat → Nat) (a m q : Nat) (h : ∀ j, bits j < 256) (hm : m < 4)
    (hq : q < 8) : (rd32 bits a).testBit (8 * m + q) = (bits (a + m)).testBit q := by
  unfold rd32
  simp only [Nat.testBit_or, Nat.testBit_shiftLeft]
  interval_cases m
  · have e1 : ¬ (8 ≤ q) := by omega
    have e2 : ¬ (16 ≤ q) := by omega
    have e3 : ¬ (24 ≤ q) := by omega
    simp [e1, e2, e3]
  · have e1 : (8 * 1 + q ≥ 8) := by omega
    have e2 : ¬ (8 * 1 + q ≥ 16) := by omega
    have e3 : ¬ (8 * 1 + q ≥ 24) := by omega
    simp only [e1, e2, e3, decide_True, decide_False, Bool.true_and, Bool.false_and,
      Bool.or_false, testBit_high _ _ (h a) (show 8 ≤ 8 * 1 + q by omega), Bool.false_or]
    congr 1; omega
  · have e1 : (8 * 2 + q ≥ 8) := by omega
    have e2 : (8 * 2 + q ≥ 16) := by omega
    have e3 : ¬ (8 * 2 + q ≥ 24) := by omega
    simp only [e1, e2, e3, decide_True, decide_False, Bool.true_and, Bool.false_and,
      Bool.or_false, testBit_high _ _ (h a) (show 8 ≤ 8 * 2 + q by omega), Bool.false_or,
      testBit_high _ _ (h (a + 1)) (show 8 ≤ 8 * 2 + q - 8 by omega)]
    congr 1; omega
  · have e1 : (8 * 3 + q ≥ 8) := by omega
    have e2 : (8 * 3 + q ≥ 16) := by omega
    have e3 : (8 * 3 + q ≥ 24) := by omega
    simp only [e1, e2, e3, decide_True, Bool.true_and,
      testBit_high _ _ (h a) (show 8 ≤ 8 * 3 + q by omega), Bool.false_or,
      testBit_high _ _ (h (a + 1)) (show 8 ≤ 8 * 3 + q - 8 by omega),
      testBit_high _ _ (h (a + 2)) (show 8 ≤ 8 * 3 + q - 16 by omega)]
    congr 1; omega

/-- The bits of the other ports after one word of `transpose`. -/
theorem transpose_word_other (bits : Nat → Nat) (a port t hi m q : Nat)
    (h : ∀ j, bits j < 256) (hp : port < 8) (hq : q < 8) (hne : q ≠ port) (hm : m < 4) :
    (transpose_word bits a ((0x01010101 <<< port) % 2 ^ 32) port t hi (a + m)).testBit q
      = (bits (a + m)).testBit q := by
  unfold transpose_word
  simp only [wr32_at _ _ _ _ hm]
  have h1 : 8 * m + q < 32 := by omega
  rw [testBit_byte _ _ hq, Nat.testBit_shiftRight, Nat.testBit_or, Nat.testBit_and,
    testBit_not32 _ _ h1, rd32_testBit bits a m q h hm hq]
  have hmask : ((0x01010101 <<< port) % 2 ^ 32).testBit (8 * m + q) = false := by
    rw [Nat.testBit_mod_two_pow, Nat.testBit_shiftLeft]
    by_cases c : 8 * m + q ≥ port
    · rw [testBit_planes_off _ (by omega)]; simp
    · simp [c]
  have hT : (((TRANSPOSE t hi 0 ||| TRANSPOSE t (hi - 1) 1 ||| TRANSPOSE t (hi - 2) 2 |||
      TRANSPOSE t (hi - 3) 3) <<< port) % 2 ^ 32).testBit (8 * m + q) = false := by
    rw [Nat.testBit_mod_two_pow, Nat.testBit_shiftLeft]
    by_cases c : 8 * m + q ≥ port
    · simp only [Nat.testBit_or, testBit_TRANSPOSE]
      have n0 : ¬ (8 * m + q - port = 0) := by omega
      have n1 : ¬ (8 * m + q - port = 8) := by omega
      have n2 : ¬ (8 * m + q - port = 16) := by omega
      have n3 : ¬ (8 * m + q - port = 24) := by omega
      simp [n0, n1, n2, n3]
    · simp [c]
  rw [hmask, hT]
  simp


theorem transpose_word_lt (bits : Nat → Nat) (a mask port t hi : Nat) (h : ∀ j, bits j < 256) :
    ∀ j, transpose_word bits a mask port t hi j < 256 := by
  unfold transpose_word
  exact wr32_lt _ _ _ h

theorem transpose_word_other_at (bits : Nat → Nat) (a port t hi j q : Nat)
    (h : ∀ j, bits j < 256) (hp : port < 8) (hq : q < 8) (hne : q ≠ port)
    (h1 : a ≤ j) (h2 : j < a + 4) :
    (transpose_word bits a ((0x01010101 <<< port) % 2 ^ 32) port t hi j).testBit q
      = (bits j).testBit q := by
  have := transpose_word_other bits a port t hi (j - a) q h hp hq hne (by omega)
  rwa [show a + (j - a) = j by omega] at this

/-- What `transpose` leaves alone: every byte outside the 24 bytes of the LED,
and inside them every bit but that of the own string. -/
theorem transpose_other (bits : Nat → Nat) (offset string t a q : Nat)
    (h : ∀ j, bits j < 256) (hs : string ≤ 5) (hq : q < 8)
    (hne : (a < offset * 3 * 8 ∨ offset * 3 * 8 + 24 ≤ a) ∨ q ≠ 2 + string) :
    (transpose bits offset string t a).testBit q = (bits a).testBit q := by
  by_cases hout : a < offset * 3 * 8 ∨ offset * 3 * 8 + 24 ≤ a
  · rw [transpose_frame _ _ _ _ _ hout]
  have hq' : q ≠ 2 + string := by
    rcases hne with h' | h'
    · exact absurd h' hout
    · exact h'
  unfold transpose
  have hport : (2 + string) % 256 = 2 + string := by omega
  simp only [hport]
  have hp : 2 + string < 8 := by omega
  have l1 := transpose_word_lt bits (offset * 3 * 8) ((0x01010101 <<< (2 + string)) % 2 ^ 32)
    (2 + string) t 23 h
  have l2 := transpose_word_lt _ (offset * 3 * 8 + 4) ((0x01010101 <<< (2 + string)) % 2 ^ 32)
    (2 + string) t 19 l1
  have l3 := transpose_word_lt _ (offset * 3 * 8 + 8) ((0x01010101 <<< (2 + string)) % 2 ^ 32)
    (2 + string) t 15 l2
  have l4 := transpose_word_lt _ (offset * 3 * 8 + 12) ((0x01010101 <<< (2 + string)) % 2 ^ 32)
    (2 + string) t 11 l3
  have l5 := transpose_word_lt _ (offset * 3 * 8 + 16) ((0x01010101 <<< (2 + string)) % 2 ^ 32)
    (2 + string) t 7 l4
  by_cases c1 : a < offset * 3 * 8 + 4
  · repeat (rw [transpose_word_frame _ _ _ _ _ _ _ (by omega)])
    exact transpose_word_other_at _ _ _ _ _ _ _ h hp hq hq' (by omega) (by omega)
  by_cases c2 : a < offset * 3 * 8 + 8
  · repeat (rw [transpose_word_frame _ _ _ _ _ _ _ (by omega)])
    rw [transpose_word_other_at _ _ _ _ _ _ _ l1 hp hq hq' (by omega) (by omega)]
    rw [transpose_word_frame _ _ _ _ _ _ _ (by omega)]
  by_cases c3 : a < offset * 3 * 8 + 12
  · repeat (rw [transpose_word_frame _ _ _ _ _ _ _ (by omega)])
    rw [transpose_word_other_at _ _ _ _ _ _ _ l2 hp hq hq' (by omega) (by omega)]
    repeat (rw [transpose_word_frame _ _ _ _ _ _ _ (by omega)])
  by_cases c4 : a < offset * 3 * 8 + 16
  · repeat (rw [transpose_word_frame _ _ _ _ _ _ _ (by omega)])
    rw [transpose_word_other_at _ _ _ _ _ _ _ l3 hp hq hq' (by omega) (by omega)]
    repeat (rw [transpose_word_frame _ _ _ _ _ _ _ (by omega)])
  by_cases c5 : a < offset * 3 * 8 + 20
  · repeat (rw [transpose_word_frame _ _ _ _ _ _ _ (by omega)])
    rw [transpose_word_other_at _ _ _ _ _ _ _ l4 hp hq hq' (by omega) (by omega)]
    repeat (rw [transpose_word_frame _ _ _ _ _ _ _ (by omega)])
  · rw [transpose_word_other_at _ _ _ _ _ _ _ l5 hp hq hq' (by omega) (by omega)]
    repeat (rw [transpose_word_frame _ _ _ _ _ _ _ (by omega)])


theorem range_count_zero (b e : Nat) : range_count b e 0 = 0 := by
  simp [range_count]

/-- A position `b + m * step` on the way from `b` to `b + c * step`, both below
`max`, is below `max` as well. -/
theorem pos_bounds (b c m max : Nat) (step : Int) (hb : b < max)
    (he : (0 : Int) ≤ b + c * step) (he2 : (b : Int) + c * step < max) (hm : m ≤ c) :
    (0 : Int) ≤ b + m * step ∧ (b : Int) + m * step < max := by
  have hmc : (m : Int) ≤ c := by exact_mod_cast hm
  have hm0 : (0 : Int) ≤ m := by positivity
  rcases le_or_lt 0 step with hs | hs
  · have h1 : (m : Int) * step ≤ c * step := mul_le_mul_of_nonneg_right hmc hs
    have h2 : (0 : Int) ≤ m * step := mul_nonneg hm0 hs
    constructor <;> omega
  · have h1 : (c : Int) * step ≤ m * step := mul_le_mul_of_nonpos_right hmc (le_of_lt hs)
    have h2 : (m : Int) * step ≤ 0 := mul_nonpos_of_nonneg_of_nonpos hm0 (le_of_lt hs)
    constructor <;> omega

/-- On a well formed range the position `b + m * step` is the end only for
`m = count`. -/
theorem pos_inj (b e max : Nat) (step : Int) (h : range_ok max b e step) (m : Nat)
    (hm : m ≤ range_count b e step) (heq : (b : Int) + m * step = e) :
    m = range_count b e step := by
  obtain ⟨-, -, h3⟩ := h
  by_cases hs : step = 0
  · rw [hs, range_count_zero] at hm; rw [hs, range_count_zero]; omega
  · rw [h3] at heq
    have : (m : Int) * step = range_count b e step * step := by omega
    have := mul_right_cancel₀ hs this
    exact_mod_cast this

theorem mod_succ_of_lt (j k : Nat) (h : j % k + 1 < k) : (j + 1) % k = j % k + 1 := by
  have hk : 0 < k := by omega
  conv_lhs => rw [← Nat.div_add_mod j k]
  rw [Nat.add_assoc, Nat.mul_add_mod, Nat.mod_eq_of_lt h]

theorem mod_succ_of_eq (j k : Nat) (h : j % k + 1 = k) : (j + 1) % k = 0 := by
  conv_lhs => rw [← Nat.div_add_mod j k]
  rw [Nat.add_assoc, Nat.mul_add_mod, h, Nat.mod_self]

theorem chan_ptr_zero (flags flag : Nat) (c : led_chan_t) :
    chan_ptr flags flag c 0 = chan_begin flags flag c := by
  unfold chan_ptr chan_begin chan_offset
  split_ifs
  · rfl
  · simp

theorem chan_offset_bounds (MAXBUFF : Nat) (c : led_chan_t)
    (h : range_ok MAXBUFF c.begin c.end_ c.step) (j : Nat) :
    0 ≤ chan_offset c j ∧ chan_offset c j < MAXBUFF := by
  obtain ⟨h1, h2, h3⟩ := h
  unfold chan_offset
  apply pos_bounds c.begin (range_count c.begin c.end_ c.step) _ MAXBUFF c.step h1
  · rw [← h3]; positivity
  · rw [← h3]; exact_mod_cast h2
  · have := Nat.mod_lt j (show 0 < range_count c.begin c.end_ c.step + 1 by omega)
    omega

theorem chan_deref (MAXBUFF flags flag : Nat) (c : led_chan_t) (buf : Nat → Nat)
    (h : chan_ok MAXBUFF flags flag c) (j : Nat) :
    (chan_ptr flags flag c j).deref MAXBUFF c.value buf = some (map_value buf flags flag c j) := by
  unfold chan_ok at h
  unfold chan_ptr map_value
  by_cases hs : flags &&& flag ≠ 0
  · rw [if_pos hs, if_pos hs]; simp [srcptr.deref]
  · rw [if_neg hs] at h
    rw [if_neg hs, if_neg hs]
    have := chan_offset_bounds MAXBUFF c h j
    simp [srcptr.deref, this]

theorem chan_step (MAXBUFF flags flag : Nat) (c : led_chan_t)
    (h : chan_ok MAXBUFF flags flag c) (j : Nat) :
    chan_next (chan_ptr flags flag c j) (chan_begin flags flag c) (chan_end flags flag c) c.step
      = chan_ptr flags flag c (j + 1) := by
  unfold chan_ok at h
  unfold chan_next chan_ptr chan_begin chan_end
  by_cases hs : flags &&& flag ≠ 0
  · rw [if_pos hs] at h
    simp only [if_pos hs, h]
    simp [srcptr.add]
  · rw [if_neg hs] at h
    simp only [if_neg hs]
    have hlt := Nat.mod_lt j (show 0 < range_count c.begin c.end_ c.step + 1 by omega)
    by_cases he : srcptr.buf (chan_offset c j) = srcptr.buf ↑c.end_
    · rw [if_pos he]
      have he' : chan_offset c j = c.end_ := by simpa using he
      have := pos_inj c.begin c.end_ MAXBUFF c.step h _ (by omega) he'
      unfold chan_offset
      rw [mod_succ_of_eq j _ (by omega)]
      simp
    · rw [if_neg he]
      have hne : j % (range_count c.begin c.end_ c.step + 1) ≠ range_count c.begin c.end_ c.step := by
        intro heq
        apply he
        unfold chan_offset
        rw [heq, ← h.2.2]
      unfold chan_offset
      rw [mod_succ_of_lt j _ (by omega)]
      simp only [srcptr.add]
      congr 1
      push_cast
      ring

theorem map_led_bounds (map : led_map_t) (h : range_ok MAXLEDS map.begin map.end_ map.step)
    (j : Nat) (hj : j ≤ range_count map.begin map.end_ map.step) :
    (0 : Int) ≤ map.begin + j * map.step ∧ (map.begin : Int) + j * map.step < MAXLEDS := by
  obtain ⟨h1, h2, h3⟩ := h
  apply pos_bounds map.begin (range_count map.begin map.end_ map.step) _ MAXLEDS map.step h1
  · rw [← h3]; positivity
  · rw [← h3]; exact_mod_cast h2
  · exact hj

theorem map_led_lt (map : led_map_t) (h : range_ok MAXLEDS map.begin map.end_ map.step)
    (j : Nat) (hj : j ≤ range_count map.begin map.end_ map.step) : map_led map j < MAXLEDS := by
  have := map_led_bounds map h j hj
  unfold map_led
  omega

theorem map_led_end (map : led_map_t) (h : range_ok MAXLEDS map.begin map.end_ map.step)
    (j : Nat) (hj : j ≤ range_count map.begin map.end_ map.step) :
    map_led map j = map.end_ ↔ j = range_count map.begin map.end_ map.step := by
  have hb := map_led_bounds map h j hj
  unfold map_led
  constructor
  · intro he
    exact pos_inj map.begin map.end_ MAXLEDS map.step h j hj (by omega)
  · intro he
    rw [he, ← h.2.2]
    simp

theorem map_led_inj (map : led_map_t) (h : range_ok MAXLEDS map.begin map.end_ map.step)
    (i j : Nat) (hi : i ≤ range_count map.begin map.end_ map.step)
    (hj : j ≤ range_count map.begin map.end_ map.step) (he : map_led map i = map_led map j) :
    i = j := by
  have b1 := map_led_bounds map h i hi
  have b2 := map_led_bounds map h j hj
  unfold map_led at he
  by_cases hs : map.step = 0
  · rw [hs, range_count_zero] at hi hj; omega
  · have : (i : Int) * map.step = j * map.step := by omega
    have := mul_right_cancel₀ hs this
    exact_mod_cast this

theorem map_led_next (map : led_map_t) (h : range_ok MAXLEDS map.begin map.end_ map.step)
    (j : Nat) (hj : j + 1 ≤ range_count map.begin map.end_ map.step) :
    (((map_led map j : Nat) : Int) + map.step) % 65536 = ((map_led map (j + 1) : Nat) : Int) := by
  have b1 := map_led_bounds map h j (by omega)
  have b2 := map_led_bounds map h (j + 1) hj
  have hM : (MAXLEDS : Int) = 500 := rfl
  unfold map_led
  push_cast at b2 ⊢
  rw [Int.toNat_of_nonneg b1.1, Int.toNat_of_nonneg (by linarith)]
  have e : (map.begin : Int) + j * map.step + map.step = map.begin + (j + 1) * map.step := by ring
  rw [e]
  apply Int.emod_eq_of_lt
  · linarith
  · linarith


/-- On a well formed map the loop of `map2`, entered for the `j0`-th LED, leaves
through its `break` after the last LED and has painted the LEDs from `j0` on. -/
theorem map2_loop_run (MAXBUFF : Nat) (l : Leds) (map : led_map_t) (buf : Nat → Nat)
    (hdst : range_ok MAXLEDS map.begin map.end_ map.step)
    (hr : chan_ok MAXBUFF map.flags MAP_STATIC_RED map.red)
    (hg : chan_ok MAXBUFF map.flags MAP_STATIC_GREEN map.green)
    (hb : chan_ok MAXBUFF map.flags MAP_STATIC_BLUE map.blue) (m : Nat) :
    ∀ (j0 fuel : Nat) (bits : Nat → Nat) (log : List access),
      j0 + m = range_count map.begin map.end_ map.step → m + 1 ≤ fuel →
      (map2_loop MAXBUFF l map buf fuel (map_led map j0)
          (chan_ptr map.flags MAP_STATIC_RED map.red j0)
          (chan_ptr map.flags MAP_STATIC_GREEN map.green j0)
          (chan_ptr map.flags MAP_STATIC_BLUE map.blue j0) bits log).status = .done ∧
      (map2_loop MAXBUFF l map buf fuel (map_led map j0)
          (chan_ptr map.flags MAP_STATIC_RED map.red j0)
          (chan_ptr map.flags MAP_STATIC_GREEN map.green j0)
          (chan_ptr map.flags MAP_STATIC_BLUE map.blue j0) bits log).bits
        = paint l map buf (m + 1) j0 bits := by
  induction m with
  | zero =>
    intro j0 fuel bits log hj hf
    obtain ⟨f, rfl⟩ : ∃ f, fuel = f + 1 := ⟨fuel - 1, by omega⟩
    have hlt := map_led_lt map hdst j0 (by omega)
    have hend := (map_led_end map hdst j0 (by omega)).2 (by omega)
    simp only [map2_loop, if_pos hlt, chan_deref MAXBUFF _ _ _ buf hr,
      chan_deref MAXBUFF _ _ _ buf hg, chan_deref MAXBUFF _ _ _ buf hb, if_pos hend]
    exact ⟨trivial, rfl⟩
  | succ m ih =>
    intro j0 fuel bits log hj hf
    obtain ⟨f, rfl⟩ : ∃ f, fuel = f + 1 := ⟨fuel - 1, by omega⟩
    have hlt := map_led_lt map hdst j0 (by omega)
    have hend : ¬ map_led map j0 = map.end_ := by
      intro he
      have := (map_led_end map hdst j0 (by omega)).1 he
      omega
    have hnext := map_led_next map hdst j0 (by omega)
    simp only [map2_loop, if_pos hlt, chan_deref MAXBUFF _ _ _ buf hr,
      chan_deref MAXBUFF _ _ _ buf hg, chan_deref MAXBUFF _ _ _ buf hb, if_neg hend,
      chan_step MAXBUFF _ _ _ hr, chan_step MAXBUFF _ _ _ hg, chan_step MAXBUFF _ _ _ hb,
      hnext, Int.toNat_ofNat]
    exact ih (j0 + 1) f _ _ (by omega) (by omega)

theorem paint_lt (l : Leds) (map : led_map_t) (buf : Nat → Nat) (m : Nat) :
    ∀ (j0 : Nat) (bits : Nat → Nat), (∀ a, bits a < 256) →
      ∀ a, paint l map buf m j0 bits a < 256 := by
  induction m with
  | zero => intro j0 bits h; exact h
  | succ m ih =>
    intro j0 bits h
    exact ih _ _ (transpose_lt _ _ _ _ h)

/-- What `paint` leaves alone. -/
theorem paint_other (l : Leds) (map : led_map_t) (buf : Nat → Nat) (hs : map.string ≤ 5)
    (m : Nat) : ∀ (j0 : Nat) (bits : Nat → Nat), (∀ a, bits a < 256) →
      ∀ a q, q < 8 →
        ((∀ j, j0 ≤ j → j < j0 + m →
            (a < map_led map j * 3 * 8 ∨ map_led map j * 3 * 8 + 24 ≤ a)) ∨
          q ≠ 2 + map.string) →
        (paint l map buf m j0 bits a).testBit q = (bits a).testBit q := by
  induction m with
  | zero => intro j0 bits _ a q _ _; rfl
  | succ m ih =>
    intro j0 bits h a q hq hne
    simp only [paint]
    rw [ih (j0 + 1) _ (transpose_lt _ _ _ _ h) a q hq]
    · apply transpose_other _ _ _ _ _ _ h hs hq
      rcases hne with h' | h'
      · exact Or.inl (h' j0 (Nat.le_refl _) (by omega))
      · exact Or.inr h'
    · rcases hne with h' | h'
      · exact Or.inl (fun j a1 a2 => h' j (by omega) (by omega))
      · exact Or.inr h'

/-- The pixels `paint` has written. -/
theorem paint_own (l : Leds) (map : led_map_t) (buf : Nat → Nat) (hs : map.string ≤ 5)
    (hdst : range_ok MAXLEDS map.begin map.end_ map.step) (m : Nat) :
    ∀ (j0 : Nat) (bits : Nat → Nat), (∀ a, bits a < 256) →
      j0 + m ≤ range_count map.begin map.end_ map.step + 1 →
      ∀ j, j0 ≤ j → j < j0 + m → ∀ k, k < 24 →
        sample (paint l map buf m j0 bits) (map_led map j) map.string k
          = (map_pixel l map buf j).testBit (23 - k) := by
  induction m with
  | zero => intro j0 bits _ _ j h1 h2; omega
  | succ m ih =>
    intro j0 bits h hm j h1 h2 k hk
    simp only [paint]
    by_cases hj : j = j0
    · subst hj
      unfold sample
      rw [paint_other l map buf hs m (j + 1) _ (transpose_lt _ _ _ _ h) _ _ (by omega)]
      · exact transpose_own _ _ _ _ _ hs hk
      · left
        intro j' a1 a2
        have hne : map_led map j' ≠ map_led map j := by
          intro he
          have := map_led_inj map hdst j' j (by omega) (by omega) he
          omega
        omega
    · exact ih (j0 + 1) _ (transpose_lt _ _ _ _ h) (by omega) j (by omega) (by omega) k hk


theorem map_led_zero (map : led_map_t) : map_led map 0 = map.begin := by
  simp [map_led]

/-- C7, amended: `led_map` implements the map evaluation of the specification
for a map whose destination range and channels are well formed, where a static
channel is well formed when its step is `0` (as the parser and the built-in
maps set it). Given enough passes the loop is left, the `j`-th destination LED
`begin + j * step`, `j = 0 .. (end - begin) / step`, of the string holds the
dim-scaled pixel `map_pixel` (the literal of a static channel, else the buffer
byte at `begin + (j mod k) * step` of the channel, inverted under the CMY flag)
in the encoding of `transpose`, and no other bit of the bit buffer changes. -/
theorem led_map_pixels (MAXBUFF : Nat) (l : Leds) (map : led_map_t) (buffer : Nat → Nat)
    (fuel : Nat) (hbits : ∀ a, l.bits a < 256) (hs : map.string ≤ 5)
    (hdst : range_ok MAXLEDS map.begin map.end_ map.step)
    (hr : chan_ok MAXBUFF map.flags MAP_STATIC_RED map.red)
    (hg : chan_ok MAXBUFF map.flags MAP_STATIC_GREEN map.green)
    (hb : chan_ok MAXBUFF map.flags MAP_STATIC_BLUE map.blue)
    (hfuel : range_count map.begin map.end_ map.step + 1 ≤ fuel) :
    (led_map MAXBUFF l map buffer fuel).status = .done ∧
    (∀ j, j ≤ range_count map.begin map.end_ map.step → ∀ k, k < 24 →
      sample (led_map MAXBUFF l map buffer fuel).bits (map_led map j) map.string k
        = (map_pixel l map buffer j).testBit (23 - k)) ∧
    (∀ a q, q < 8 →
      ((∀ j, j ≤ range_count map.begin map.end_ map.step →
          (a < map_led map j * 3 * 8 ∨ map_led map j * 3 * 8 + 24 ≤ a)) ∨
        q ≠ 2 + map.string) →
      ((led_map MAXBUFF l map buffer fuel).bits a).testBit q = (l.bits a).testBit q) := by
  have h1 : ¬ map.string > 5 := by omega
  have h2 : ¬ map.begin ≥ MAXLEDS := by have := hdst.1; omega
  have hrun := map2_loop_run MAXBUFF l map buffer hdst hr hg hb
    (range_count map.begin map.end_ map.step) 0 fuel l.bits [] (by omega) hfuel
  rw [map_led_zero, chan_ptr_zero, chan_ptr_zero, chan_ptr_zero] at hrun
  have e : led_map MAXBUFF l map buffer fuel =
      map2_loop MAXBUFF l map buffer fuel map.begin
        (chan_begin map.flags MAP_STATIC_RED map.red)
        (chan_begin map.flags MAP_STATIC_GREEN map.green)
        (chan_begin map.flags MAP_STATIC_BLUE map.blue) l.bits [] := by
    simp only [led_map, map2, if_neg h1, if_neg h2]
  rw [e, hrun.2]
  refine ⟨hrun.1, fun j hj k hk => ?_, fun a q hq hne => ?_⟩
  · exact paint_own l map buffer hs hdst _ 0 l.bits hbits (by omega) j (by omega) (by omega) k hk
  · apply paint_other l map buffer hs _ 0 l.bits hbits a q hq
    rcases hne with h' | h'
    · exact Or.inl (fun j _ a2 => h' j (by omega))
    · exact Or.inr h'


/-- C7 fails as stated: in `static_step_map` the destination range is well
formed and every channel is static, but the red channel has step `1`; `map2`
then advances the pointer into its local copy of the literal (the end pointer
of a static channel is null), so for the second LED it dereferences a pointer
one byte behind the literal instead of the literal. -/
theorem led_map_static_step :
    (static_step_map.string ≤ 5 ∧
      range_ok MAXLEDS static_step_map.begin static_step_map.end_ static_step_map.step ∧
      static_step_map.flags &&& MAP_STATIC_RED ≠ 0 ∧
      static_step_map.flags &&& MAP_STATIC_GREEN ≠ 0 ∧
      static_step_map.flags &&& MAP_STATIC_BLUE ≠ 0) ∧
    (led_map 1500 leds_init static_step_map (fun _ => 0) 10).status = .fault ∧
    access.read (.lit 1) ∈ (led_map 1500 leds_init static_step_map (fun _ => 0) 10).log ∧
    sample (led_map 1500 leds_init static_step_map (fun _ => 0) 10).bits
        (map_led static_step_map 1) static_step_map.string 22
      ≠ (map_pixel leds_init static_step_map (fun _ => 0) 1).testBit (23 - 22) := by
  refine ⟨⟨by decide, ⟨by decide, by decide, by decide⟩, by decide, by decide, by decide⟩,
    by decide, by decide, by decide⟩

/-- Witness of C7, amended: the well formed map `ramp_map`. -/
theorem led_map_pixels_witness :
    ((∀ a, leds_init.bits a < 256) ∧ ramp_map.string ≤ 5 ∧
      range_ok MAXLEDS ramp_map.begin ramp_map.end_ ramp_map.step ∧
      chan_ok 1500 ramp_map.flags MAP_STATIC_RED ramp_map.red ∧
      chan_ok 1500 ramp_map.flags MAP_STATIC_GREEN ramp_map.green ∧
      chan_ok 1500 ramp_map.flags MAP_STATIC_BLUE ramp_map.blue ∧
      range_count ramp_map.begin ramp_map.end_ ramp_map.step + 1 ≤ 4) ∧
    (led_map 1500 leds_init ramp_map (fun k => k) 4).status = .done :=
  ⟨⟨fun _ => (by decide : (0xFF : Nat) < 256), by decide, ⟨by decide, by decide, by decide⟩,
      by simp [chan_ok, range_ok, range_count, ramp_map, MAP_STATIC_RED],
      by simp [chan_ok, range_ok, range_count, ramp_map, MAP_STATIC_GREEN],
      by simp [chan_ok, range_ok, range_count, ramp_map, MAP_STATIC_BLUE], by decide⟩,
    (led_map_pixels 1500 leds_init ramp_map (fun k => k) 4 (fun _ => (by decide : (0xFF : Nat) < 256)) (by decide)
      ⟨by decide, by decide, by decide⟩
      (by simp [chan_ok, range_ok, range_count, ramp_map, MAP_STATIC_RED])
      (by simp [chan_ok, range_ok, range_count, ramp_map, MAP_STATIC_GREEN])
      (by simp [chan_ok, range_ok, range_count, ramp_map, MAP_STATIC_BLUE]) (by decide)).1⟩


/-- The writes of the loop of `map2`, for any map: LED indices below `MAXLEDS`,
the string of the map, no byte behind the bit buffer. -/
theorem map2_loop_writes (MAXBUFF : Nat) (l : Leds) (map : led_map_t) (buf : Nat → Nat)
    (fuel : Nat) : ∀ (i : Nat) (pr pg pb : srcptr) (bits : Nat → Nat) (log : List access),
    (∀ led s, access.write led s ∈ log → led < MAXLEDS ∧ s = map.string) →
    (∀ led s, access.write led s ∈ (map2_loop MAXBUFF l map buf fuel i pr pg pb bits log).log →
      led < MAXLEDS ∧ s = map.string) ∧
    (∀ a, MAXLEDS * 3 * 8 ≤ a →
      (map2_loop MAXBUFF l map buf fuel i pr pg pb bits log).bits a = bits a) := by
  induction fuel with
  | zero => intro i pr pg pb bits log h; exact ⟨h, fun _ _ => rfl⟩
  | succ fuel ih =>
    intro i pr pg pb bits log h
    have hreads : ∀ led s, access.write led s ∈ log ++ [access.read pr, access.read pg,
        access.read pb] → led < MAXLEDS ∧ s = map.string := by
      intro led s hm
      rcases List.mem_append.1 hm with hm | hm
      · exact h led s hm
      · simp at hm
    simp only [map2_loop]
    by_cases c1 : i < MAXLEDS
    · rw [if_pos c1]
      split
      · rename_i r g b _ _ _
        have hw : ∀ led s, access.write led s ∈ log ++ [access.read pr, access.read pg,
            access.read pb] ++ [access.write i map.string] →
            led < MAXLEDS ∧ s = map.string := by
          intro led s hm
          rcases List.mem_append.1 hm with hm | hm
          · exact hreads led s hm
          · simp at hm
            rw [hm.1, hm.2]; exact ⟨c1, rfl⟩
        have hf : ∀ a, MAXLEDS * 3 * 8 ≤ a → ∀ t, transpose bits i map.string t a = bits a := by
          intro a ha t
          apply transpose_frame
          right
          have : i * 3 * 8 + 24 ≤ MAXLEDS * 3 * 8 := by omega
          omega
        by_cases c2 : i = map.end_
        · rw [if_pos c2]
          exact ⟨hw, fun a ha => hf a ha _⟩
        · rw [if_neg c2]
          obtain ⟨i1, i2⟩ := ih _ _ _ _ _ _ hw
          exact ⟨i1, fun a ha => by rw [i2 a ha]; exact hf a ha _⟩
      · exact ⟨hreads, fun _ _ => rfl⟩
    · rw [if_neg c1]
      exact ⟨h, fun _ _ => rfl⟩

theorem chan_ptr_inside (MAXBUFF flags flag : Nat) (c : led_chan_t)
    (h : chan_ok MAXBUFF flags flag c) (j : Nat) : inside MAXBUFF (chan_ptr flags flag c j) := by
  unfold chan_ok at h
  unfold chan_ptr inside
  by_cases hs : flags &&& flag ≠ 0
  · rw [if_pos hs]; exact Or.inl rfl
  · rw [if_neg hs] at h
    rw [if_neg hs]
    right
    obtain ⟨h1, h2⟩ := chan_offset_bounds MAXBUFF c h j
    refine ⟨(chan_offset c j).toNat, by omega, ?_⟩
    rw [Int.toNat_of_nonneg h1]

/-- The reads of the loop of `map2` when the channels are well formed, for any
destination range. -/
theorem map2_loop_reads (MAXBUFF : Nat) (l : Leds) (map : led_map_t) (buf : Nat → Nat)
    (hr : chan_ok MAXBUFF map.flags MAP_STATIC_RED map.red)
    (hg : chan_ok MAXBUFF map.flags MAP_STATIC_GREEN map.green)
    (hb : chan_ok MAXBUFF map.flags MAP_STATIC_BLUE map.blue)
    (fuel : Nat) : ∀ (i j : Nat) (bits : Nat → Nat) (log : List access),
    (∀ p, access.read p ∈ log → inside MAXBUFF p) →
    (∀ p, access.read p ∈ (map2_loop MAXBUFF l map buf fuel i
        (chan_ptr map.flags MAP_STATIC_RED map.red j)
        (chan_ptr map.flags MAP_STATIC_GREEN map.green j)
        (chan_ptr map.flags MAP_STATIC_BLUE map.blue j) bits log).log → inside MAXBUFF p) ∧
    (map2_loop MAXBUFF l map buf fuel i
        (chan_ptr map.flags MAP_STATIC_RED map.red j)
        (chan_ptr map.flags MAP_STATIC_GREEN map.green j)
        (chan_ptr map.flags MAP_STATIC_BLUE map.blue j) bits log).status ≠ .fault := by
  induction fuel with
  | zero => intro i j bits log h; exact ⟨h, by simp [map2_loop]⟩
  | succ fuel ih =>
    intro i j bits log h
    have hreads : ∀ p, access.read p ∈ log ++
        [access.read (chan_ptr map.flags MAP_STATIC_RED map.red j),
          access.read (chan_ptr map.flags MAP_STATIC_GREEN map.green j),
          access.read (chan_ptr map.flags MAP_STATIC_BLUE map.blue j)] → inside MAXBUFF p := by
      intro p hm
      rcases List.mem_append.1 hm with hm | hm
      · exact h p hm
      · simp at hm
        rcases hm with hm | hm | hm <;> rw [hm]
        · exact chan_ptr_inside MAXBUFF _ _ _ hr j
        · exact chan_ptr_inside MAXBUFF _ _ _ hg j
        · exact chan_ptr_inside MAXBUFF _ _ _ hb j
    simp only [map2_loop, chan_deref MAXBUFF _ _ _ buf hr, chan_deref MAXBUFF _ _ _ buf hg,
      chan_deref MAXBUFF _ _ _ buf hb, chan_step MAXBUFF _ _ _ hr, chan_step MAXBUFF _ _ _ hg,
      chan_step MAXBUFF _ _ _ hb]
    by_cases c1 : i < MAXLEDS
    · rw [if_pos c1]
      have hw : ∀ p, access.read p ∈ log ++
          [access.read (chan_ptr map.flags MAP_STATIC_RED map.red j),
            access.read (chan_ptr map.flags MAP_STATIC_GREEN map.green j),
            access.read (chan_ptr map.flags MAP_STATIC_BLUE map.blue j)] ++
          [access.write i map.string] → inside MAXBUFF p := by
        intro p hm
        rcases List.mem_append.1 hm with hm | hm
        · exact hreads p hm
        · simp at hm
      by_cases c2 : i = map.end_
      · rw [if_pos c2]
        exact ⟨hw, by simp⟩
      · rw [if_neg c2]
        exact ih _ (j + 1) _ _ hw
    · rw [if_neg c1]
      exact ⟨h, by simp⟩

/-- C10 fails as stated: `led_map` does not clip the source pointers. For the
map `outside_map`, whose red channel starts at buffer offset `1500`, and
`MAXBUFF = 1500` it reads the byte at offset `1500`, behind the buffer. -/
theorem led_map_reads_outside :
    access.read (.buf 1500) ∈ (led_map 1500 leds_init outside_map (fun _ => 0) 1).log ∧
      (led_map 1500 leds_init outside_map (fun _ => 0) 1).status = .fault := by
  decide

/-- C10, amended: for every map, every buffer and every number of passes,
`led_map` writes only LED indices in `[0, MAXLEDS)` on a string in `0..5` and
changes nothing behind the bit buffer; when every channel is well formed (a
static channel has step `0`, any other has its range inside `[0, MAXBUFF)` with
the end reachable from the begin in whole steps), as the configuration parser
leaves them, it reads only the literals and buffer offsets in `[0, MAXBUFF)`,
whatever the destination range. -/
theorem led_map_accesses (MAXBUFF : Nat) (l : Leds) (map : led_map_t) (buffer : Nat → Nat)
    (fuel : Nat) :
    (∀ led s, access.write led s ∈ (led_map MAXBUFF l map buffer fuel).log →
      led < MAXLEDS ∧ s ≤ 5) ∧
    (∀ a, MAXLEDS * 3 * 8 ≤ a → (led_map MAXBUFF l map buffer fuel).bits a = l.bits a) ∧
    (chan_ok MAXBUFF map.flags MAP_STATIC_RED map.red →
      chan_ok MAXBUFF map.flags MAP_STATIC_GREEN map.green →
      chan_ok MAXBUFF map.flags MAP_STATIC_BLUE map.blue →
      (∀ p, access.read p ∈ (led_map MAXBUFF l map buffer fuel).log → inside MAXBUFF p) ∧
      (led_map MAXBUFF l map buffer fuel).status ≠ .fault) := by
  unfold led_map map2
  simp only []
  generalize hm1 : (if map.string > 5 then { map with string := 5 } else map) = m1
  generalize hm2 : (if m1.begin ≥ MAXLEDS then { m1 with begin := MAXLEDS - 1 } else m1) = m2
  have e1 : m1.flags = map.flags ∧ m1.red = map.red ∧ m1.green = map.green ∧
      m1.blue = map.blue ∧ m1.string ≤ 5 := by
    rw [← hm1]; split_ifs with h <;> simp <;> omega
  have e2 : m2.flags = map.flags ∧ m2.red = map.red ∧ m2.green = map.green ∧
      m2.blue = map.blue ∧ m2.string ≤ 5 := by
    rw [← hm2]; split_ifs with h <;> simp [e1]
  obtain ⟨w1, w2⟩ := map2_loop_writes MAXBUFF l m2 buffer fuel m2.begin
    (chan_begin m2.flags MAP_STATIC_RED m2.red) (chan_begin m2.flags MAP_STATIC_GREEN m2.green)
    (chan_begin m2.flags MAP_STATIC_BLUE m2.blue) l.bits [] (by simp)
  refine ⟨fun led s h => ?_, w2, fun hr hg hb => ?_⟩
  · obtain ⟨a, b⟩ := w1 led s h
    exact ⟨a, by rw [b]; exact e2.2.2.2.2⟩
  · rw [← e2.1, ← e2.2.1] at hr
    rw [← e2.1, ← e2.2.2.1] at hg
    rw [← e2.1, ← e2.2.2.2.1] at hb
    have := map2_loop_reads MAXBUFF l m2 buffer hr hg hb fuel m2.begin 0 l.bits [] (by simp)
    rw [chan_ptr_zero, chan_ptr_zero, chan_ptr_zero] at this
    exact this

/-- Witness of C10, amended: the well formed map `ramp_map`. -/
theorem led_map_accesses_witness :
    (chan_ok 1500 ramp_map.flags MAP_STATIC_RED ramp_map.red ∧
      chan_ok 1500 ramp_map.flags MAP_STATIC_GREEN ramp_map.green ∧
      chan_ok 1500 ramp_map.flags MAP_STATIC_BLUE ramp_map.blue) ∧
    (led_map 1500 leds_init ramp_map (fun k => k) 4).status ≠ .fault :=
  ⟨⟨by simp [chan_ok, range_ok, range_count, ramp_map, MAP_STATIC_RED],
      by simp [chan_ok, range_ok, range_count, ramp_map, MAP_STATIC_GREEN],
      by simp [chan_ok, range_ok, range_count, ramp_map, MAP_STATIC_BLUE]⟩,
    ((led_map_accesses 1500 leds_init ramp_map (fun k => k) 4).2.2
      (by simp [chan_ok, range_ok, range_count, ramp_map, MAP_STATIC_RED])
      (by simp [chan_ok, range_ok, range_count, ramp_map, MAP_STATIC_GREEN])
      (by simp [chan_ok, range_ok, range_count, ramp_map, MAP_STATIC_BLUE])).2⟩


/-! ## Timeout service -/

theorem elapse_eq (e timeout : Nat) (h : timeout < 2 ^ 32) :
    elapse e timeout = (timeout + e) % 2 ^ 32 := by
  induction e generalizing timeout with
  | zero =>
    simp only [elapse, Function.iterate_zero, id, Nat.add_zero]
    exact (Nat.mod_eq_of_lt h).symm
  | succ n ih =>
    have hlt : (timeout + 1) % 2 ^ 32 < 2 ^ 32 := Nat.mod_lt _ (by norm_num)
    have := ih ((timeout + 1) % 2 ^ 32) hlt
    simp only [elapse, Function.iterate_succ, Function.comp, SysTick_Handler] at this ⊢
    rw [this]
    omega

/-- C11: deadline algebra of `tot_set` and `tot_expired` under 32-bit
wrap-around. For every counter value `now` and every `delta ≤ 2^31 - 1`, the
deadline `tot_set(delta)` taken at `now` tests as not expired after `e`
milliseconds when `e = 0` or `e < delta`, and as expired when
`delta < e ≤ delta + 2^31`. -/
theorem tot_deadline_algebra (now delta e : Nat) (hnow : now < 2 ^ 32)
    (hdelta : delta ≤ 2 ^ 31 - 1) :
    ((e = 0 ∨ e < delta) → tot_expired (elapse e now) (tot_set now delta) = false) ∧
    ((delta < e ∧ e ≤ delta + 2 ^ 31) → tot_expired (elapse e now) (tot_set now delta) = true) := by
  rw [elapse_eq e now hnow]
  simp only [tot_expired, tot_set, UINT32_MAX]
  constructor
  · intro h
    rw [decide_eq_false_iff_not]
    split_ifs <;> omega
  · intro h
    rw [decide_eq_true_iff]
    split_ifs <;> omega

/-- Witness of C11: a deadline of 1000 ms set just before the counter wraps,
tested after 999 ms and after 1001 ms. -/
theorem tot_deadline_algebra_witness :
    (4294967000 < 2 ^ 32 ∧ 1000 ≤ 2 ^ 31 - 1) ∧
    tot_expired (elapse 999 4294967000) (tot_set 4294967000 1000) = false ∧
    tot_expired (elapse 1001 4294967000) (tot_set 4294967000 1000) = true :=
  ⟨⟨by decide, by decide⟩,
    (tot_deadline_algebra 4294967000 1000 999 (by decide) (by decide)).1 (Or.inr (by decide)),
    (tot_deadline_algebra 4294967000 1000 1001 (by decide) (by decide)).2
      ⟨by decide, by decide⟩⟩


/-! ## Configuration parser: the example of the specification -/

set_option maxRecDepth 1000000 in
/-- C12: the example configuration `rf { node: 7; mesh: 0xABCD; } leds
{ length: 16; framerate: 20; } mode "scene" { scene 3 { pause: 500; dim: &
rgb(255,0,0); } }` is accepted by `parse()`, which leaves
node 7, mesh 0xABCD, length 16, framerate 20 and `scene_mode`; `cfg_scene(3)`
then returns the offset 90 of the first statement of the scene, and fetching
commands from there as `sc_play` does (`pos = cfg_command(pos)`) issues
`sc_do_pause(500)`, then `sc_do_dim(255, 0, 0)`, then reaches the end of the
scene (offset 0); no loop of the model is cut and nothing undefined happens.
The example has no map, so the value of `MAXBUFF`, here 1500, is not looked
at. -/
theorem cfg_example :
    (parse 1500 (world_init example_text)).1 = true ∧
    (parse 1500 (world_init example_text)).2.config.rf.node = 7 ∧
    (parse 1500 (world_init example_text)).2.config.rf.mesh = 0xABCD ∧
    (parse 1500 (world_init example_text)).2.config.leds.length = 16 ∧
    (parse 1500 (world_init example_text)).2.config.leds.framerate = 20 ∧
    (parse 1500 (world_init example_text)).2.config.mode.mode = scene_mode ∧
    (cfg_scene 1500 3 (parse 1500 (world_init example_text)).2).1 = 90 ∧
    (cfg_command 1500 90
      (cfg_scene 1500 3 (parse 1500 (world_init example_text)).2).2).1 = 102 ∧
    (cfg_command 1500 102 (cfg_command 1500 90
      (cfg_scene 1500 3 (parse 1500 (world_init example_text)).2).2).2).1 = 123 ∧
    (cfg_command 1500 123 (cfg_command 1500 102 (cfg_command 1500 90
      (cfg_scene 1500 3 (parse 1500 (world_init example_text)).2).2).2).2).1 = 0 ∧
    (cfg_command 1500 123 (cfg_command 1500 102 (cfg_command 1500 90
      (cfg_scene 1500 3 (parse 1500 (world_init example_text)).2).2).2).2).2.calls =
      [.rf_configure, .led_configure, .sc_do_pause 500, .sc_do_dim 255 0 0] ∧
    (cfg_command 1500 102 (cfg_command 1500 90
      (cfg_scene 1500 3 (parse 1500 (world_init example_text)).2).2).2).2.command =
      dim_command ∧
    (cfg_command 1500 123 (cfg_command 1500 102 (cfg_command 1500 90
      (cfg_scene 1500 3 (parse 1500 (world_init example_text)).2).2).2).2).2.cut = false ∧
    (cfg_command 1500 123 (cfg_command 1500 102 (cfg_command 1500 90
      (cfg_scene 1500 3 (parse 1500 (world_init example_text)).2).2).2).2).2.undefined =
      false :=
  by decide


/-! ## Configuration parser: scene offsets and parse failures -/

set_option maxRecDepth 1000000 in
/-- C15: the offset `cfg_scene` hands out depends on the blank before the
opening brace. The configuration `mode "scene" { scene 3{ pause: 500; } scene
12{ pause: 7; } }` is accepted by `parse()` without a diagnostic, but
`cfg_scene(3)` returns 0 for it: `mode_statement` stores `tell()` while the
brace is pushed back in `ch0`, so the stored offset 23 lies behind the brace
and `token()` finds `pause` there. The scene 12, which is found by scanning,
gets the offset 47 of its first statement, and with a blank before the brace
`cfg_scene(3)` returns the offset 24 of the first statement. -/
theorem cfg_scene_tight_brace :
    (parse 1500 (world_init tight_text)).1 = true ∧
    (parse 1500 (world_init tight_text)).2.calls = [] ∧
    (parse 1500 (world_init tight_text)).2.cut = false ∧
    (parse 1500 (world_init tight_text)).2.config.mode.scenes_.getD 3 0 = 23 ∧
    (cfg_scene 1500 3 (parse 1500 (world_init tight_text)).2).1 = 0 ∧
    (cfg_scene 1500 3 (parse 1500 (world_init tight_text)).2).2.tok = tok_keyword_pause ∧
    (cfg_scene 1500 12 (parse 1500 (world_init tight_text)).2).1 = 47 ∧
    (parse 1500 (world_init spaced_text)).1 = true ∧
    (cfg_scene 1500 3 (parse 1500 (world_init spaced_text)).2).1 = 24 := by
  decide

set_option maxRecDepth 1000000 in
/-- Counterexample to C17 as stated: with the scenes `scene 3 { pause: 500;
dim: & 10; }` and `scene 4 { framerate: 25; pause: 100; }`, after
`sc_start(3)` and `sc_pause()` the call `sc_start(4)` leaves `pos` at 74, the
offset behind `framerate: 25;`, with `framerate_command` active; the first
statement of scene 4 is at offset 59, which is what `cfg_scene(4)` returns. -/
theorem sc_start_other_scene_position :
    (parse 1500 (world_init two_scenes_text)).1 = true ∧
    (sc_start 1500 3 (parse 1500 (world_init two_scenes_text)).2).1 = true ∧
    (cfg_scene 1500 4 (sc_pause
      (sc_start 1500 3 (parse 1500 (world_init two_scenes_text)).2).2)).1 = 59 ∧
    (sc_start 1500 4 (sc_pause
      (sc_start 1500 3 (parse 1500 (world_init two_scenes_text)).2).2)).2.pos = 74 ∧
    (sc_start 1500 4 (sc_pause
      (sc_start 1500 3 (parse 1500 (world_init two_scenes_text)).2).2)).2.command =
      framerate_command ∧
    (sc_start 1500 4 (sc_pause
      (sc_start 1500 3 (parse 1500 (world_init two_scenes_text)).2).2)).2.calls =
      [.sc_do_pause 500, .sc_do_framerate 25] := by
  decide

theorem natAbs_neg_cast (c : Int) (h : 0 ≤ c) : ((-c).natAbs : Int) = c := by
  rw [Int.natAbs_neg]
  exact Int.natAbs_of_nonneg h

theorem natAbs_cast (c : Int) (h : 0 ≤ c) : (c.natAbs : Int) = c :=
  Int.natAbs_of_nonneg h

/-- The calls of the stop procedure of command `c`. -/
theorem sc_skip_spec (w : World) :
    (sc_skip w).command = 0 ∧
    (sc_skip w).calls = w.calls ++
      (if (w.command.natAbs : Int) = tpm2_command then [.led_enable false, .f_close_tpm2]
       else if (w.command.natAbs : Int) = map_command then [.led_enable false] else []) ∧
    (sc_skip w).config = w.config ∧ (sc_skip w).file = w.file ∧
    (sc_skip w).scene = w.scene ∧ (sc_skip w).pos = w.pos := by
  unfold sc_skip
  by_cases h : w.command ≠ 0
  · rw [if_pos h]
    dsimp only
    by_cases h1 : (w.command.natAbs : Int) = tpm2_command
    · rw [if_pos h1, if_pos h1]
      exact ⟨rfl, by simp [stop_tpm2, call], rfl, rfl, rfl, rfl⟩
    · rw [if_neg h1, if_neg h1]
      by_cases h2 : (w.command.natAbs : Int) = map_command
      · rw [if_pos h2, if_pos h2]
        exact ⟨rfl, by simp [stop_map, call], rfl, rfl, rfl, rfl⟩
      · rw [if_neg h2, if_neg h2]
        exact ⟨rfl, by simp, rfl, rfl, rfl, rfl⟩
  · rw [if_neg h]
    have h0 : w.command = 0 := by
      by_contra hh
      exact h hh
    refine ⟨h0, ?_, rfl, rfl, rfl, rfl⟩
    rw [h0]
    simp [tpm2_command, map_command]

/-- Pausing and starting again from a running state: a state with `scene = S`,
a saved position `pos ≠ 0` and `command ≥ 0` (a negative command means
paused). -/
theorem sc_resume_running (MAXBUFF S : Nat) (w : World)
    (hs : w.scene = S) (hp : w.pos ≠ 0) (hc : 0 ≤ w.command) :
    ((sc_start MAXBUFF S (sc_pause w)).1 = true ∧
      (sc_start MAXBUFF S (sc_pause w)).2.pos = w.pos ∧
      (sc_start MAXBUFF S (sc_pause w)).2.command = w.command ∧
      (sc_start MAXBUFF S (sc_pause w)).2.scene = S ∧
      (sc_start MAXBUFF S (sc_pause w)).2.config = w.config ∧
      (sc_start MAXBUFF S (sc_pause w)).2.calls = w.calls) ∧
    (∀ T, T ≠ S → ∃ ws : World,
      ws.command = 0 ∧ ws.scene = T ∧ ws.config = w.config ∧ ws.file = w.file ∧
      ws.calls = w.calls ++
        (if w.command = tpm2_command then [.led_enable false, .f_close_tpm2]
         else if w.command = map_command then [.led_enable false] else []) ∧
      (sc_start MAXBUFF T (sc_pause w)).2.pos =
        (cfg_command MAXBUFF (cfg_scene MAXBUFF T ws).1
          { (cfg_scene MAXBUFF T ws).2 with pos := (cfg_scene MAXBUFF T ws).1 }).1 ∧
      (sc_start MAXBUFF T (sc_pause w)).2.command =
        (cfg_command MAXBUFF (cfg_scene MAXBUFF T ws).1
          { (cfg_scene MAXBUFF T ws).2 with pos := (cfg_scene MAXBUFF T ws).1 }).2.command ∧
      (sc_start MAXBUFF T (sc_pause w)).2.calls =
        (cfg_command MAXBUFF (cfg_scene MAXBUFF T ws).1
          { (cfg_scene MAXBUFF T ws).2 with pos := (cfg_scene MAXBUFF T ws).1 }).2.calls) := by
  have hpause : (sc_pause w).scene = w.scene ∧ (sc_pause w).pos = w.pos ∧
      (((sc_pause w).command.natAbs : Int) = w.command) ∧
      (sc_pause w).config = w.config ∧ (sc_pause w).calls = w.calls ∧
      (sc_pause w).file = w.file ∧ ((sc_pause w).command ≠ 0 ↔ w.command ≠ 0) := by
    unfold sc_pause
    by_cases h : w.command > 0
    · rw [if_pos h]
      refine ⟨rfl, rfl, natAbs_neg_cast _ hc, rfl, rfl, rfl, ?_⟩
      show -w.command ≠ 0 ↔ w.command ≠ 0
      omega
    · rw [if_neg h]
      exact ⟨rfl, rfl, natAbs_cast _ hc, rfl, rfl, rfl, Iff.rfl⟩
  obtain ⟨p1, p2, p3, p4, p5, p6, p7⟩ := hpause
  constructor
  · have hsc : ¬ (sc_pause w).scene ≠ S := by rw [p1, hs]; simp
    have hpos : ¬ (sc_pause w).pos = 0 := by rw [p2]; exact hp
    unfold sc_start
    rw [if_neg hsc, if_neg hpos]
    unfold sc_continue
    rw [p3]
    by_cases h : w.command = pause_command
    · rw [if_pos h]
      dsimp only
      rw [p2, p1, p4, p5]
      exact ⟨by simp [hp], rfl, rfl, hs, rfl, rfl⟩
    · rw [if_neg h]
      dsimp only
      rw [p2, p1, p4, p5]
      exact ⟨by simp [hp], rfl, rfl, hs, rfl, rfl⟩
  · intro T hT
    have hsc : (sc_pause w).scene ≠ T := by rw [p1, hs]; exact fun h => hT h.symm
    obtain ⟨k1, k2, k3, k4, -, -⟩ := sc_skip_spec { sc_pause w with pos := 0 }
    refine ⟨{ sc_skip { sc_pause w with pos := 0 } with scene := T }, k1, rfl, ?_, ?_, ?_, ?_⟩
    · show (sc_skip { sc_pause w with pos := 0 }).config = w.config
      rw [k3]
      exact p4
    · show (sc_skip { sc_pause w with pos := 0 }).file = w.file
      rw [k4]
      exact p6
    · show (sc_skip { sc_pause w with pos := 0 }).calls = _
      rw [k2]
      dsimp only
      rw [p3, p5]
    · unfold sc_start
      rw [if_pos hsc]
      dsimp only
      unfold sc_start_scene
      dsimp only
      by_cases hz : (cfg_scene MAXBUFF T
          { sc_skip { sc_pause w with pos := 0 } with scene := T }).1 = 0
      · have hn : ¬ (cfg_scene MAXBUFF T
          { sc_skip { sc_pause w with pos := 0 } with scene := T }).1 ≠ 0 := by simp [hz]
        rw [if_neg hn, hz]
        simp [cfg_command]
      · rw [if_pos hz]
        exact ⟨rfl, rfl, rfl⟩


/-! ## Configuration parser: what it keeps of the scene engine -/

theorem keep_refl (w : World) : Keep w w := ⟨rfl, id⟩

theorem keep_trans {a b c : World} (h1 : Keep a b) (h2 : Keep b c) : Keep a c :=
  ⟨h2.1.trans h1.1, fun h => h2.2 (h1.2 h)⟩

theorem keep_of_eq {w w2 : World} (h1 : w2.scene = w.scene) (h2 : w2.command = w.command) :
    Keep w w2 := ⟨h1, fun h => by rw [h2]; exact h⟩

theorem keep_getch (w : World) : Keep w (getch w).2 := by
  unfold getch
  split_ifs
  · exact keep_of_eq rfl rfl
  · split
    · exact keep_of_eq rfl rfl
    · exact keep_refl w
  · exact keep_refl w

theorem keep_ungetch (ch : Int) (w : World) : Keep w (ungetch ch w) := by
  unfold ungetch
  split_ifs
  · exact keep_of_eq rfl rfl
  · exact keep_refl w

theorem keep_fail (s : String) (w : World) : Keep w (fail s w) := keep_of_eq rfl rfl

theorem keep_call (c : call_t) (w : World) : Keep w (call c w) := keep_of_eq rfl rfl

theorem keep_seek (p : Nat) (w : World) : Keep w (seek p w) := by
  unfold seek
  dsimp only
  split_ifs
  · exact keep_of_eq rfl rfl
  · exact keep_of_eq rfl rfl

theorem keep_tok (t : Nat) (w : World) : Keep w { w with tok := t } := keep_of_eq rfl rfl

theorem keep_cut (w : World) : Keep w { w with cut := true } := keep_of_eq rfl rfl

theorem keep_skip_line : ∀ (fuel : Nat) (w : World), Keep w (skip_line fuel w) := by
  intro fuel
  induction fuel with
  | zero => intro w; exact keep_cut w
  | succ n ih =>
    intro w
    rw [skip_line]
    split_ifs
    · exact keep_trans (keep_getch w) (ih _)
    · exact keep_getch w

theorem keep_skip_star : ∀ (fuel : Nat) (w : World), Keep w (skip_star fuel w) := by
  intro fuel
  induction fuel with
  | zero => intro w; exact keep_cut w
  | succ n ih =>
    intro w
    rw [skip_star]
    split_ifs
    · exact keep_trans (keep_getch w) (ih _)
    · exact keep_getch w

theorem keep_skip_block : ∀ (fuel : Nat) (w : World), Keep w (skip_block fuel w) := by
  intro fuel
  induction fuel with
  | zero => intro w; exact keep_cut w
  | succ n ih =>
    intro w
    rw [skip_block]
    split_ifs
    · exact keep_trans (keep_trans (keep_skip_star _ w) (keep_getch _)) (ih _)
    · exact keep_trans (keep_skip_star _ w) (keep_getch _)

theorem keep_ite {α : Type} (c : Prop) [Decidable c] (a b : α × World) (w : World)
    (ha : Keep w a.2) (hb : Keep w b.2) : Keep w (if c then a else b).2 := by
  split_ifs
  · exact ha
  · exact hb

theorem keep_read_word : ∀ (fuel : Nat) (kw : List Nat) (ch : Int) (w : World),
    Keep w (read_word fuel kw ch w).2 := by
  intro fuel
  induction fuel with
  | zero => intro kw ch w; exact keep_cut w
  | succ n ih =>
    intro kw ch w
    rw [read_word]
    with_reducible apply keep_ite
    · exact keep_trans (keep_getch w) (ih _ _ _)
    · exact keep_trans (keep_getch w) (keep_ungetch _ _)

theorem keep_ite3 {α β : Type} (c : Prop) [Decidable c] (a b : α × β × World) (w : World)
    (ha : Keep w a.2.2) (hb : Keep w b.2.2) : Keep w (if c then a else b).2.2 := by
  split_ifs
  · exact ha
  · exact hb

theorem keep_token_char (ch : Int) (w : World) : Keep w (token_char ch w).2 := by
  unfold token_char
  repeat' first
    | with_reducible exact keep_refl w
    | with_reducible exact keep_ungetch _ _
    | with_reducible exact keep_fail _ _
    | with_reducible exact keep_read_word _ _ _ _
    | with_reducible exact keep_trans (keep_read_word _ _ _ _) (keep_fail _ _)
    | with_reducible apply keep_ite

theorem keep_token_loop : ∀ (fuel : Nat) (w : World), Keep w (token_loop fuel w).2 := by
  intro fuel
  induction fuel with
  | zero => intro w; exact keep_cut w
  | succ n ih =>
    intro w
    rw [token_loop]
    dsimp only
    split_ifs
    · exact keep_getch w
    · exact keep_trans (keep_getch w) (ih _)
    · exact keep_trans (keep_trans (keep_trans (keep_getch w) (keep_getch _))
        (keep_skip_line _ _)) (ih _)
    · exact keep_trans (keep_trans (keep_trans (keep_getch w) (keep_getch _))
        (keep_skip_block _ _)) (ih _)
    · exact keep_trans (keep_trans (keep_trans (keep_getch w) (keep_getch _))
        (keep_ungetch _ _)) (keep_token_char _ _)
    · exact keep_trans (keep_getch w) (keep_token_char _ _)

theorem keep_token (w : World) : Keep w (token w).2 := keep_token_loop _ w

theorem keep_EXPECT (x : Nat) (name : String) (w : World) : Keep w (EXPECT x name w).2 := by
  unfold EXPECT
  dsimp only
  split_ifs
  · exact keep_trans (keep_token w) (keep_fail _ _)
  · exact keep_token w

theorem keep_andThen (r : Bool × World) (k : World → Bool × World) (w : World)
    (h1 : Keep w r.2) (h2 : ∀ x, Keep x (k x).2) : Keep w (andThen r k).2 := by
  unfold andThen
  split_ifs
  · exact keep_trans h1 (h2 _)
  · exact h1


theorem keep_ite_world (c : Prop) [Decidable c] (a b : World) (w : World)
    (ha : Keep w a) (hb : Keep w b) : Keep w (if c then a else b) := by
  split_ifs
  · exact ha
  · exact hb

theorem keep_undefined (w : World) : Keep w { w with undefined := true } :=
  keep_of_eq rfl rfl

theorem keep_ite_digits (c : Prop) [Decidable c] (a b : digits_t) (w : World)
    (ha : Keep w a.w) (hb : Keep w b.w) : Keep w (if c then a else b).w := by
  split_ifs
  · exact ha
  · exact hb

theorem keep_ite_range (c : Prop) [Decidable c] (a b : range_t) (w : World)
    (ha : Keep w a.w) (hb : Keep w b.w) : Keep w (if c then a else b).w := by
  split_ifs
  · exact ha
  · exact hb

theorem keep_int32 (x : Int) (w : World) : Keep w (int32 x w).2 := by
  unfold int32
  with_reducible apply keep_ite_world
  · exact keep_refl w
  · exact keep_undefined w

theorem keep_read_string_loop (buf : Bool) : ∀ (fuel : Nat) (out : List Nat) (buflen : Nat)
    (w : World), Keep w (read_string_loop buf fuel out buflen w).2.2 := by
  intro fuel
  induction fuel with
  | zero => intro out buflen w; exact keep_cut w
  | succ n ih =>
    intro out buflen w
    rw [read_string_loop]
    by_cases h1 : (getch w).1 < 0
    · rw [if_pos h1]; exact keep_getch w
    rw [if_neg h1]
    by_cases h2 : (getch w).1 = 34
    · rw [if_pos h2]; exact keep_getch w
    rw [if_neg h2]
    have tail : ∀ (ch : Int) (x : World), Keep w x → Keep w
        (if buf = true then
          if buflen = 0 then (false, out, fail "String too long" x)
          else read_string_loop buf n (out ++ [ch.toNat]) (buflen - 1) x
        else read_string_loop buf n out buflen x).2.2 := by
      intro ch x hx
      split_ifs
      · exact keep_trans hx (keep_fail _ _)
      · exact keep_trans hx (ih _ _ _)
      · exact keep_trans hx (ih _ _ _)
    have g2 : Keep w (getch (getch w).2).2 := keep_trans (keep_getch w) (keep_getch _)
    by_cases c1 : (getch w).1 = 92
    · simp only [if_pos c1]
      by_cases c2 : (getch (getch w).2).1 < 0
      · simp only [if_pos c2]
        exact keep_trans (keep_getch w) (keep_getch _)
      simp only [if_neg c2]
      by_cases c3 : (getch (getch w).2).1 = 116
      · simp only [if_pos c3]
        exact tail _ _ g2
      simp only [if_neg c3]
      by_cases c4 : (getch (getch w).2).1 = 114
      · simp only [if_pos c4]
        exact tail _ _ g2
      simp only [if_neg c4]
      by_cases c5 : (getch (getch w).2).1 = 110
      · simp only [if_pos c5]
        exact tail _ _ g2
      simp only [if_neg c5]
      by_cases c6 : (getch (getch w).2).1 = 34 ∨ (getch (getch w).2).1 = 92
      · simp only [if_pos c6]
        exact tail _ _ g2
      simp only [if_neg c6]
      exact tail _ _ (keep_trans g2 (keep_ungetch _ _))
    · simp only [if_neg c1]
      exact tail _ _ (keep_getch w)

theorem keep_read_string (buflen : Nat) (w : World) :
    Keep w (read_string buflen w).2.2 := by
  unfold read_string
  repeat' first
    | with_reducible exact keep_refl _
    | with_reducible apply keep_ite3
    | with_reducible refine keep_trans ?_ (keep_read_string_loop _ _ _ _ _)
    | with_reducible refine keep_trans ?_ (keep_fail _ _)
    | with_reducible refine keep_trans ?_ (keep_getch _)

theorem keep_skip_space  :
    ∀ (fuel : Nat) (ch : Int) (w : World), Keep w (skip_space fuel ch w).2 := by
  intro fuel
  induction fuel with
  | zero => intro ch w; exact keep_cut w
  | succ n ih =>
    intro ch w
    rw [skip_space]
    repeat' first
      | with_reducible exact keep_refl _
      | with_reducible refine keep_trans ?_ (ih _ _)
      | with_reducible apply keep_ite
      | with_reducible refine keep_trans ?_ (keep_getch _)

theorem keep_next_char (w : World) :
    Keep w (next_char w).2 := by
  unfold next_char
  repeat' first
    | with_reducible exact keep_refl _
    | with_reducible apply keep_ite
    | with_reducible refine keep_trans ?_ (keep_skip_space _ _ _)
    | with_reducible refine keep_trans ?_ (keep_getch _)

theorem keep_read_digits (base : Int) (sign : Bool) :
    ∀ (fuel : Nat) (value ch : Int) (w : World), Keep w (read_digits base sign fuel value ch w).w := by
  intro fuel
  induction fuel with
  | zero => intro value ch w; exact keep_cut w
  | succ n ih =>
    intro value ch w
    rw [read_digits]
    repeat' first
      | with_reducible exact keep_refl _
      | with_reducible refine keep_trans ?_ (ih _ _ _)
      | with_reducible apply keep_ite_digits
      | with_reducible refine keep_trans ?_ (keep_int32 _ _)
      | with_reducible refine keep_trans ?_ (keep_fail _ _)
      | with_reducible refine keep_trans ?_ (keep_getch _)

theorem keep_read_int_clip (min max value ch : Int) (w : World) :
    Keep w (read_int_clip min max value ch w).2.2 := by
  unfold read_int_clip
  repeat' first
    | with_reducible exact keep_refl _
    | with_reducible apply keep_ite3
    | with_reducible refine keep_trans ?_ (keep_fail _ _)
    | with_reducible refine keep_trans ?_ (keep_ungetch _ _)

theorem keep_read_int_digits (min max base : Int) (sign : Bool) (ch : Int) (w : World) :
    Keep w (read_int_digits min max base sign ch w).2.2 := by
  unfold read_int_digits
  repeat' first
    | with_reducible exact keep_refl _
    | with_reducible apply keep_ite3
    | with_reducible refine keep_trans ?_ (keep_read_int_clip _ _ _ _ _)
    | with_reducible refine keep_trans ?_ (keep_read_digits _ _ _ _ _ _)
    | with_reducible refine keep_trans ?_ (keep_fail _ _)

theorem keep_read_int_base (min max : Int) (sign : Bool) (ch : Int) (w : World) :
    Keep w (read_int_base min max sign ch w).2.2 := by
  unfold read_int_base
  repeat' first
    | with_reducible exact keep_refl _
    | with_reducible apply keep_ite3
    | with_reducible refine keep_trans ?_ (keep_read_int_digits _ _ _ _ _ _)
    | with_reducible refine keep_trans ?_ (keep_read_int_clip _ _ _ _ _)
    | with_reducible refine keep_trans ?_ (keep_skip_space _ _ _)
    | with_reducible refine keep_trans ?_ (keep_getch _)

theorem keep_read_int (min max : Int) (w : World) :
    Keep w (read_int min max w).2.2 := by
  unfold read_int
  repeat' first
    | with_reducible exact keep_refl _
    | with_reducible apply keep_ite3
    | with_reducible refine keep_trans ?_ (keep_read_int_base _ _ _ _ _)
    | with_reducible refine keep_trans ?_ (keep_getch _)

theorem keep_read_color_comp (w : World) :
    Keep w (read_color_comp w).2.2 := by
  unfold read_color_comp
  repeat' first
    | with_reducible exact keep_refl _
    | with_reducible apply keep_ite3
    | with_reducible refine keep_trans ?_ (keep_read_int _ _ _)
    | with_reducible refine keep_trans ?_ (keep_next_char _)
    | with_reducible refine keep_trans ?_ (keep_fail _ _)
    | with_reducible refine keep_trans ?_ (keep_ungetch _ _)

theorem keep_read_color_arg (i : Nat) (w : World) :
    Keep w (read_color_arg i w).2.2 := by
  unfold read_color_arg
  repeat' first
    | with_reducible exact keep_refl _
    | with_reducible apply keep_ite
    | with_reducible apply keep_ite3
    | with_reducible apply keep_ite_world
    | with_reducible refine keep_trans ?_ (keep_read_color_comp _)
    | with_reducible refine keep_trans ?_ (keep_EXPECT _ _ _)
    | with_reducible refine keep_trans ?_ (keep_fail _ _)

theorem keep_read_color (w : World) :
    Keep w (read_color w).2.2 := by
  unfold read_color
  repeat' first
    | with_reducible exact keep_refl _
    | with_reducible apply keep_ite3
    | with_reducible refine keep_trans ?_ (keep_read_color_arg _ _)
    | with_reducible refine keep_trans ?_ (keep_read_color_comp _)
    | with_reducible refine keep_trans ?_ (keep_EXPECT _ _ _)
    | with_reducible refine keep_trans ?_ (keep_token _)
    | with_reducible refine keep_trans ?_ (keep_fail _ _)
    | with_reducible refine keep_trans ?_ (keep_getch _)

theorem keep_read_range_begin (max : Nat) (w : World) :
    Keep w (read_range_begin max w).2.2 := by
  unfold read_range_begin
  repeat' first
    | with_reducible exact keep_refl _
    | with_reducible apply keep_ite3
    | with_reducible refine keep_trans ?_ (keep_read_int _ _ _)
    | with_reducible refine keep_trans ?_ (keep_next_char _)
    | with_reducible refine keep_trans ?_ (keep_EXPECT _ _ _)
    | with_reducible refine keep_trans ?_ (keep_fail _ _)
    | with_reducible refine keep_trans ?_ (keep_ungetch _ _)

theorem keep_read_range_end (max : Nat) (w : World) :
    Keep w (read_range_end max w).2.2 := by
  unfold read_range_end
  repeat' first
    | with_reducible exact keep_refl _
    | with_reducible apply keep_ite3
    | with_reducible refine keep_trans ?_ (keep_read_int _ _ _)
    | with_reducible refine keep_trans ?_ (keep_next_char _)
    | with_reducible refine keep_trans ?_ (keep_EXPECT _ _ _)
    | with_reducible refine keep_trans ?_ (keep_fail _ _)
    | with_reducible refine keep_trans ?_ (keep_ungetch _ _)

theorem keep_ite4 {α β γ : Type} (c : Prop) [Decidable c] (a b : α × β × γ × World) (w : World)
    (ha : Keep w a.2.2.2) (hb : Keep w b.2.2.2) : Keep w (if c then a else b).2.2.2 := by
  split_ifs
  · exact ha
  · exact hb

theorem keep_read_range_step (w : World) :
    Keep w (read_range_step w).2.2.2 := by
  unfold read_range_step
  repeat' first
    | with_reducible exact keep_refl _
    | with_reducible apply keep_ite4
    | with_reducible refine keep_trans ?_ (keep_read_int _ _ _)
    | with_reducible refine keep_trans ?_ (keep_next_char _)
    | with_reducible refine keep_trans ?_ (keep_EXPECT _ _ _)
    | with_reducible refine keep_trans ?_ (keep_fail _ _)

theorem keep_read_range (max : Nat) (w : World) :
    Keep w (read_range max w).w := by
  unfold read_range
  repeat' first
    | with_reducible exact keep_refl _
    | with_reducible apply keep_ite_world
    | with_reducible apply keep_ite_range
    | with_reducible refine keep_trans ?_ (keep_read_range_step _)
    | with_reducible refine keep_trans ?_ (keep_read_range_end _ _)
    | with_reducible refine keep_trans ?_ (keep_read_range_begin _ _)
    | with_reducible refine keep_trans ?_ (keep_next_char _)
    | with_reducible refine keep_trans ?_ (keep_fail _ _)
    | with_reducible refine keep_trans ?_ (keep_getch _)


theorem keep_set_mode (f : config_mode_t → config_mode_t) (w : World) :
    Keep w (set_mode f w) :=
  keep_of_eq rfl rfl

theorem keep_pos (p : Nat) (w : World) : Keep w { w with pos := p } :=
  keep_of_eq rfl rfl

theorem keep_andThen_EXPECT (a : Nat) (b : String) (c : Nat) (d : String) (w : World) :
    Keep w (andThen (EXPECT a b w) (EXPECT c d)).2 :=
  keep_andThen _ _ _ (keep_EXPECT _ _ _) (fun x => keep_EXPECT _ _ x)

theorem keep_read_block_loop {α : Type} (proc : α → World → Bool × α × World)
    (hp : ∀ p w, Keep w (proc p w).2.2) :
    ∀ (fuel : Nat) (p : α) (w : World), Keep w (read_block_loop proc fuel p w).2.2 := by
  intro fuel
  induction fuel with
  | zero => intro p w; exact keep_cut w
  | succ n ih =>
    intro p w
    rw [read_block_loop]
    repeat' first
      | with_reducible exact keep_refl _
      | with_reducible refine keep_trans ?_ (ih _ _)
      | with_reducible refine keep_trans ?_ (hp _ _)
      | with_reducible apply keep_ite3
      | with_reducible refine keep_trans ?_ (keep_token _)

theorem keep_read_block {α : Type} (proc : α → World → Bool × α × World)
    (hp : ∀ p w, Keep w (proc p w).2.2) (p : α) (w : World) :
    Keep w (read_block proc p w).2.2 := by
  unfold read_block
  with_reducible apply keep_ite3
  · exact keep_trans (keep_trans (keep_token w) (keep_tok _ _)) (keep_read_block_loop proc hp _ _ _)
  · exact keep_trans (keep_trans (keep_token w) (keep_tok _ _)) (hp _ _)

theorem keep_map_channel (MAXBUFF flag : Nat) (name : String) (c : led_chan_t) (flags : Nat)
    (w : World) :
    Keep w (map_channel MAXBUFF flag name c flags w).2.2 := by
  unfold map_channel
  repeat' first
    | with_reducible exact keep_refl _
    | with_reducible apply keep_ite3
    | with_reducible refine keep_trans ?_ (keep_read_range _ _)
    | with_reducible refine keep_trans ?_ (keep_read_color_comp _)
    | with_reducible refine keep_trans ?_ (keep_token _)
    | with_reducible refine keep_trans ?_ (keep_fail _ _)

theorem keep_map_source (MAXBUFF : Nat) (map : led_map_t) (w : World) :
    Keep w (map_source MAXBUFF map w).2.2 := by
  unfold map_source
  repeat' first
    | with_reducible exact keep_refl _
    | with_reducible apply keep_ite3
    | with_reducible apply keep_ite_world
    | with_reducible refine keep_trans ?_ (keep_map_channel _ _ _ _ _ _)
    | with_reducible refine keep_trans ?_ (keep_read_color _)
    | with_reducible refine keep_trans ?_ (keep_EXPECT _ _ _)
    | with_reducible refine keep_trans ?_ (keep_token _)
    | with_reducible refine keep_trans ?_ (keep_fail _ _)

theorem keep_map_statement (MAXBUFF : Nat) (p : Option Nat) (w : World) :
    Keep w (map_statement MAXBUFF p w).2.2 := by
  unfold map_statement
  cases p with
  | none =>
    dsimp only
    repeat' first
      | with_reducible exact keep_refl _
      | with_reducible apply keep_ite
      | with_reducible apply keep_ite3
      | with_reducible apply keep_ite_world
      | with_reducible apply keep_ite_digits
      | with_reducible apply keep_ite_range
      | with_reducible apply keep_ite4
      | with_reducible refine keep_trans ?_ (keep_map_source _ _ _)
      | with_reducible refine keep_trans ?_ (keep_andThen_EXPECT _ _ _ _ _)
      | with_reducible refine keep_trans ?_ (keep_read_range _ _)
      | with_reducible refine keep_trans ?_ (keep_read_int _ _ _)
      | with_reducible refine keep_trans ?_ (keep_EXPECT _ _ _)
      | with_reducible refine keep_trans ?_ (keep_call _ _)
      | with_reducible refine keep_trans ?_ (keep_fail _ _)
  | some n =>
    dsimp only
    repeat' first
      | with_reducible exact keep_refl _
      | with_reducible apply keep_ite
      | with_reducible apply keep_ite3
      | with_reducible apply keep_ite_world
      | with_reducible apply keep_ite_digits
      | with_reducible apply keep_ite_range
      | with_reducible apply keep_ite4
      | with_reducible refine keep_trans ?_ (keep_map_source _ _ _)
      | with_reducible refine keep_trans ?_ (keep_andThen_EXPECT _ _ _ _ _)
      | with_reducible refine keep_trans ?_ (keep_read_range _ _)
      | with_reducible refine keep_trans ?_ (keep_read_int _ _ _)
      | with_reducible refine keep_trans ?_ (keep_EXPECT _ _ _)
      | with_reducible refine keep_trans ?_ (keep_call _ _)
      | with_reducible refine keep_trans ?_ (keep_fail _ _)

theorem keep_read_block_map (MAXBUFF : Nat) (p : Option Nat) (w : World) :
    Keep w (read_block (map_statement MAXBUFF) p w).2.2 :=
  keep_read_block _ (keep_map_statement MAXBUFF) p w

theorem keep_int_value (min max : Int) (msg : String) (w : World) :
    Keep w (int_value min max msg w).2.2 := by
  unfold int_value
  repeat' first
    | with_reducible exact keep_refl _
    | with_reducible apply keep_ite3
    | with_reducible refine keep_trans ?_ (keep_andThen_EXPECT _ _ _ _ _)
    | with_reducible refine keep_trans ?_ (keep_read_int _ _ _)
    | with_reducible refine keep_trans ?_ (keep_EXPECT _ _ _)
    | with_reducible refine keep_trans ?_ (keep_fail _ _)

theorem keep_color_value (msg : String) (w : World) :
    Keep w (color_value msg w).2.2 := by
  unfold color_value
  repeat' first
    | with_reducible exact keep_refl _
    | with_reducible apply keep_ite3
    | with_reducible refine keep_trans ?_ (keep_andThen_EXPECT _ _ _ _ _)
    | with_reducible refine keep_trans ?_ (keep_read_color _)
    | with_reducible refine keep_trans ?_ (keep_EXPECT _ _ _)
    | with_reducible refine keep_trans ?_ (keep_fail _ _)

theorem sc_skip_keep (w : World) : (sc_skip w).scene = w.scene ∧ (sc_skip w).command = 0 :=
  ⟨(sc_skip_spec w).2.2.2.2.1, (sc_skip_spec w).1⟩

theorem keep_sc_do_tpm2 (file : List Nat) (w : World) : Keep w (sc_do_tpm2 file w) := by
  unfold sc_do_tpm2
  dsimp only
  split_ifs
  · exact ⟨(sc_skip_keep _).1, fun _ => (by decide : (0 : Int) ≤ tpm2_command)⟩
  · exact ⟨(sc_skip_keep _).1, fun _ => le_of_eq (sc_skip_keep _).2.symm⟩

theorem keep_sc_do_pause (t : Nat) (w : World) : Keep w (sc_do_pause t w) :=
  ⟨(sc_skip_keep _).1, fun _ => (by decide : (0 : Int) ≤ pause_command)⟩

theorem keep_sc_do_map (map_ : Nat) (w : World) : Keep w (sc_do_map map_ w) :=
  ⟨(sc_skip_keep _).1, fun _ => (by decide : (0 : Int) ≤ map_command)⟩

theorem keep_sc_do_framerate (fps : Nat) (w : World) : Keep w (sc_do_framerate fps w) :=
  ⟨(sc_skip_keep _).1, fun _ => (by decide : (0 : Int) ≤ framerate_command)⟩

theorem keep_sc_do_dim (red green blue : Nat) (w : World) :
    Keep w (sc_do_dim red green blue w) :=
  ⟨(sc_skip_keep _).1, fun _ => (by decide : (0 : Int) ≤ dim_command)⟩

theorem keep_scene_statement (MAXBUFF : Nat) (run : Bool) (w : World) :
    Keep w (scene_statement MAXBUFF run w).2.2 := by
  unfold scene_statement
  repeat' first
    | with_reducible exact keep_refl _
    | with_reducible apply keep_ite3
    | with_reducible apply keep_ite_world
    | with_reducible refine keep_trans ?_ (keep_sc_do_dim _ _ _ _)
    | with_reducible refine keep_trans ?_ (keep_sc_do_framerate _ _)
    | with_reducible refine keep_trans ?_ (keep_sc_do_map _ _)
    | with_reducible refine keep_trans ?_ (keep_sc_do_pause _ _)
    | with_reducible refine keep_trans ?_ (keep_sc_do_tpm2 _ _)
    | with_reducible refine keep_trans ?_ (keep_color_value _ _)
    | with_reducible refine keep_trans ?_ (keep_int_value _ _ _ _)
    | with_reducible refine keep_trans ?_ (keep_read_block_map _ _ _)
    | with_reducible refine keep_trans ?_ (keep_map_statement _ _ _)
    | with_reducible refine keep_trans ?_ (keep_read_string _ _)
    | with_reducible refine keep_trans ?_ (keep_EXPECT _ _ _)
    | with_reducible refine keep_trans ?_ (keep_fail _ _)

theorem keep_read_block_scene (MAXBUFF : Nat) (run : Bool) (w : World) :
    Keep w (read_block (scene_statement MAXBUFF) run w).2.2 :=
  keep_read_block _ (keep_scene_statement MAXBUFF) run w

theorem keep_mode_statement (MAXBUFF : Nat) (p : Option Nat) (w : World) :
    Keep w (mode_statement MAXBUFF p w).2.2 := by
  unfold mode_statement
  cases p with
  | none =>
    dsimp only
    repeat' first
      | with_reducible exact keep_refl _
      | with_reducible apply keep_ite
      | with_reducible apply keep_ite3
      | with_reducible apply keep_ite_world
      | with_reducible apply keep_ite_digits
      | with_reducible apply keep_ite_range
      | with_reducible apply keep_ite4
      | with_reducible refine keep_trans ?_ (keep_read_block_scene _ _ _)
      | with_reducible refine keep_trans ?_ (keep_scene_statement _ _ _)
      | with_reducible refine keep_trans ?_ (keep_int_value _ _ _ _)
      | with_reducible refine keep_trans ?_ (keep_set_mode _ _)
      | with_reducible refine keep_trans ?_ (keep_read_int _ _ _)
      | with_reducible refine keep_trans ?_ (keep_EXPECT _ _ _)
      | with_reducible refine keep_trans ?_ (keep_fail _ _)
  | some n =>
    dsimp only
    repeat' first
      | with_reducible exact keep_refl _
      | with_reducible apply keep_ite
      | with_reducible apply keep_ite3
      | with_reducible apply keep_ite_world
      | with_reducible apply keep_ite_digits
      | with_reducible apply keep_ite_range
      | with_reducible apply keep_ite4
      | with_reducible refine keep_trans ?_ (keep_read_block_scene _ _ _)
      | with_reducible refine keep_trans ?_ (keep_scene_statement _ _ _)
      | with_reducible refine keep_trans ?_ (keep_int_value _ _ _ _)
      | with_reducible refine keep_trans ?_ (keep_set_mode _ _)
      | with_reducible refine keep_trans ?_ (keep_read_int _ _ _)
      | with_reducible refine keep_trans ?_ (keep_EXPECT _ _ _)
      | with_reducible refine keep_trans ?_ (keep_fail _ _)

theorem keep_read_block_mode (MAXBUFF : Nat) (p : Option Nat) (w : World) :
    Keep w (read_block (mode_statement MAXBUFF) p w).2.2 :=
  keep_read_block _ (keep_mode_statement MAXBUFF) p w

theorem keep_cfg_scene (MAXBUFF scene : Nat) (w : World) :
    Keep w (cfg_scene MAXBUFF scene w).2 := by
  unfold cfg_scene
  repeat' first
    | with_reducible exact keep_refl _
    | with_reducible apply keep_ite
    | with_reducible apply keep_ite_world
    | with_reducible refine keep_trans ?_ (keep_read_block_mode _ _ _)
    | with_reducible refine keep_trans ?_ (keep_mode_statement _ _ _)
    | with_reducible refine keep_trans ?_ (keep_token _)
    | with_reducible refine keep_trans ?_ (keep_seek _ _)

theorem keep_cfg_command (MAXBUFF s : Nat) (w : World) :
    Keep w (cfg_command MAXBUFF s w).2 := by
  unfold cfg_command
  repeat' first
    | with_reducible exact keep_refl _
    | with_reducible apply keep_ite
    | with_reducible refine keep_trans ?_ (keep_scene_statement _ _ _)
    | with_reducible refine keep_trans ?_ (keep_token _)
    | with_reducible refine keep_trans ?_ (keep_seek _ _)


/-! ## Scene engine: continuity -/

/-- The state that a successful `sc_start(S)` leaves is a running one. -/
theorem sc_start_running (MAXBUFF S : Nat) (w : World) (h : (sc_start MAXBUFF S w).1 = true) :
    (sc_start MAXBUFF S w).2.scene = S ∧ (sc_start MAXBUFF S w).2.pos ≠ 0 ∧
    0 ≤ (sc_start MAXBUFF S w).2.command := by
  have hscene : ∀ x : World, (sc_start_scene MAXBUFF S x).scene = S ∧
      0 ≤ (sc_start_scene MAXBUFF S x).command := by
    intro x
    have hk : Keep { sc_skip x with scene := S } (sc_start_scene MAXBUFF S x) := by
      unfold sc_start_scene
      with_reducible apply keep_ite_world
      · exact keep_trans (keep_trans (keep_trans (keep_cfg_scene _ _ _) (keep_pos _ _))
          (keep_cfg_command _ _ _)) (keep_pos _ _)
      · exact keep_trans (keep_cfg_scene _ _ _) (keep_pos _ _)
    exact ⟨hk.1, hk.2 (le_of_eq (sc_skip_keep x).2.symm)⟩
  unfold sc_start at h ⊢
  by_cases h1 : w.scene ≠ S
  · rw [if_pos h1] at h ⊢
    exact ⟨(hscene _).1, of_decide_eq_true h, (hscene _).2⟩
  · rw [if_neg h1] at h ⊢
    by_cases h2 : w.pos = 0
    · rw [if_pos h2] at h ⊢
      exact ⟨(hscene _).1, of_decide_eq_true h, (hscene _).2⟩
    · rw [if_neg h2] at h ⊢
      refine ⟨?_, of_decide_eq_true h, ?_⟩
      · have hs : w.scene = S := not_not.mp h1
        unfold sc_continue
        split_ifs
        · exact hs
        · exact hs
      · unfold sc_continue
        split_ifs
        · exact Int.natCast_nonneg _
        · exact Int.natCast_nonneg _

/-! ## Reading characters -/

theorem stream_nonneg (w : World) : ∀ c ∈ stream w, 0 ≤ c := by
  intro c hc
  unfold stream at hc
  rcases List.mem_append.1 hc with h | h
  · by_cases h0 : w.ch0 ≥ 0
    · rw [if_pos h0] at h
      simp at h
      omega
    · rw [if_neg h0] at h
      simp at h
  · by_cases ho : w.opened = true
    · rw [if_pos ho] at h
      obtain ⟨n, -, rfl⟩ := List.mem_map.1 h
      exact Int.ofNat_nonneg n
    · rw [if_neg ho] at h
      simp at h

/-- What `getch()` does to the input. -/
theorem getch_stream (w : World) (l : List Int) (h : stream w = l) :
    Ahead (getch w).1 (getch w).2 l ∧
    (getch w).2.undefined = w.undefined ∧ (getch w).2.cut = w.cut ∧
    (getch w).2.file = w.file ∧ (getch w).2.calls = w.calls ∧
    (getch w).2.config = w.config := by
  subst h
  unfold getch
  by_cases h0 : w.ch0 ≥ 0
  · rw [if_pos h0]
    refine ⟨⟨by simp, Or.inl ⟨h0, ?_⟩⟩, rfl, rfl, rfl, rfl, rfl⟩
    simp [stream, h0]
  · rw [if_neg h0]
    by_cases ho : w.opened = true
    · rw [if_pos ho]
      cases hf : w.file[w.fptr]? with
      | none =>
        have hlen : w.file.length ≤ w.fptr := by
          rw [List.getElem?_eq_none_iff] at hf
          exact hf
        refine ⟨⟨by show w.ch0 < 0; omega, Or.inr ⟨rfl, ?_, ?_⟩⟩, rfl, rfl, rfl, rfl, rfl⟩ <;>
          simp [stream, h0, ho, List.drop_eq_nil_of_le hlen]
      | some ch =>
        have hlt : w.fptr < w.file.length := by
          by_contra hcon
          rw [List.getElem?_eq_none (by omega)] at hf
          cases hf
        have hget : w.file[w.fptr] = ch := by
          rw [List.getElem?_eq_getElem hlt] at hf
          exact Option.some.inj hf
        refine ⟨⟨by show w.ch0 < 0; omega, Or.inl ⟨Int.ofNat_nonneg ch, ?_⟩⟩,
          rfl, rfl, rfl, rfl, rfl⟩
        have hd : w.file.drop w.fptr = ch :: w.file.drop (w.fptr + 1) := by
          rw [← hget]
          exact (List.drop_eq_getElem_cons hlt)
        simp [stream, h0, ho, hd]
    · rw [if_neg ho]
      refine ⟨⟨by show w.ch0 < 0; omega, Or.inr ⟨rfl, ?_, ?_⟩⟩, rfl, rfl, rfl, rfl, rfl⟩ <;>
        simp [stream, h0, ho]

/-- What `ungetch(ch)` does to the input. -/
theorem ungetch_stream (ch : Int) (w : World) (l : List Int) (h : Ahead ch w l) :
    stream (ungetch ch w) = l ∧
    (ungetch ch w).undefined = w.undefined ∧ (ungetch ch w).cut = w.cut := by
  obtain ⟨h0, h1⟩ := h
  unfold ungetch
  rcases h1 with ⟨hc, hl⟩ | ⟨hc, hl, hs⟩
  · rw [if_pos hc]
    refine ⟨?_, rfl, rfl⟩
    rw [hl]
    have hn : ¬ w.ch0 ≥ 0 := by omega
    simp [stream, hc, hn]
  · have hn : ¬ ch ≥ 0 := by omega
    rw [if_neg hn]
    exact ⟨by rw [hs, hl], rfl, rfl⟩

theorem ahead_cons (ch : Int) (w : World) (c : Int) (t : List Int) (h : Ahead ch w (c :: t)) :
    ch = c ∧ 0 ≤ c ∧ w.ch0 < 0 ∧ stream w = t := by
  obtain ⟨h0, h1⟩ := h
  rcases h1 with ⟨hc, hl⟩ | ⟨-, hl, -⟩
  · injection hl with e1 e2
    exact ⟨e1.symm, by omega, h0, e2.symm⟩
  · cases hl

theorem ahead_nil (ch : Int) (w : World) (h : Ahead ch w []) : ch = -1 := by
  obtain ⟨-, h1⟩ := h
  rcases h1 with ⟨-, hl⟩ | ⟨hc, -, -⟩
  · cases hl
  · exact hc


/-! ## Integer literals -/

theorem int32_fit (x : Int) (w : World) (h1 : INT32_MIN ≤ x) (h2 : x ≤ INT32_MAX) :
    int32 x w = (x, w) := by
  unfold int32
  rw [if_pos ⟨h1, h2⟩]
  unfold INT32_MIN at h1
  unfold INT32_MAX at h2
  congr 1
  omega

theorem isxdigit_eof : isxdigit (-1) = false := by decide

theorem ahead_end (ch : Int) (w : World) (rest : List Int) (h : Ahead ch w rest)
    (hrest : ∀ c t, rest = c :: t → isxdigit c = false) : isxdigit ch = false := by
  cases rest with
  | nil => rw [ahead_nil ch w h]; exact isxdigit_eof
  | cons c t =>
    rw [(ahead_cons ch w c t h).1]
    exact hrest c t rfl

theorem foldl_add_mono (base : Int) (hb : 1 ≤ base) (ds : List Int)
    (hds : ∀ c ∈ ds, 0 ≤ digit c) :
    ∀ v : Int, 0 ≤ v → v ≤ ds.foldl (fun v c => v * base + digit c) v := by
  induction ds with
  | nil => intro v _; exact le_refl v
  | cons c t ih =>
    intro v hv
    have hd := hds c (List.mem_cons_self c t)
    have hmul : v ≤ v * base := le_mul_of_one_le_right hv hb
    have := ih (fun x hx => hds x (List.mem_cons_of_mem c hx)) (v * base + digit c) (by omega)
    simp only [List.foldl_cons]
    omega

theorem foldl_sub_mono (base : Int) (hb : 1 ≤ base) (ds : List Int)
    (hds : ∀ c ∈ ds, 0 ≤ digit c) :
    ∀ v : Int, v ≤ 0 → ds.foldl (fun v c => v * base - digit c) v ≤ v := by
  induction ds with
  | nil => intro v _; exact le_refl v
  | cons c t ih =>
    intro v hv
    have hd := hds c (List.mem_cons_self c t)
    have hmul : v * base ≤ v := by
      have := mul_le_mul_of_nonpos_left hb hv
      simpa using this
    have := ih (fun x hx => hds x (List.mem_cons_of_mem c hx)) (v * base - digit c) (by omega)
    simp only [List.foldl_cons]
    omega

theorem foldl_sub_neg (base : Int) (ds : List Int) :
    ∀ v : Int, ds.foldl (fun v c => v * base - digit c) (-v) =
      -ds.foldl (fun v c => v * base + digit c) v := by
  induction ds with
  | nil => intro v; rfl
  | cons c t ih =>
    intro v
    simp only [List.foldl_cons]
    rw [← ih]
    congr 1
    ring

theorem tdiv_max : Int.tdiv 2147483647 8 = 268435455 ∧ Int.tdiv 2147483647 10 = 214748364 ∧
    Int.tdiv 2147483647 16 = 134217727 := by decide

theorem tdiv_min : Int.tdiv (-2147483648) 8 = -268435456 ∧
    Int.tdiv (-2147483648) 10 = -214748364 ∧ Int.tdiv (-2147483648) 16 = -134217728 := by
  decide

/-- The digit loop of `read_int` on an unsigned literal: it returns the value of
the digits when that fits an `int32_t` and fails when it does not, without an
overflow on the way. -/
theorem read_digits_pos (base : Int) (hb : base = 8 ∨ base = 10 ∨ base = 16) (rest : List Int)
    (hrest : ∀ c t, rest = c :: t → isxdigit c = false) :
    ∀ (ds : List Int) (fuel : Nat) (value ch : Int) (w : World),
      (∀ c ∈ ds, isxdigit c = true ∧ 0 ≤ digit c ∧ digit c < base) →
      Ahead ch w (ds ++ rest) → 0 ≤ value → value ≤ INT32_MAX → ds.length < fuel →
      (ds.foldl (fun v c => v * base + digit c) value ≤ INT32_MAX →
        (read_digits base false fuel value ch w).ok = true ∧
        (read_digits base false fuel value ch w).value =
          ds.foldl (fun v c => v * base + digit c) value ∧
        Ahead (read_digits base false fuel value ch w).ch
          (read_digits base false fuel value ch w).w rest) ∧
      (INT32_MAX < ds.foldl (fun v c => v * base + digit c) value →
        (read_digits base false fuel value ch w).ok = false) ∧
      (read_digits base false fuel value ch w).w.undefined = w.undefined ∧
      (read_digits base false fuel value ch w).w.cut = w.cut := by
  have hb1 : (1 : Int) ≤ base := by rcases hb with h | h | h <;> omega
  intro ds
  induction ds with
  | nil =>
    intro fuel value ch w _ ha hv0 hv1 hf
    obtain ⟨f, rfl⟩ : ∃ f, fuel = f + 1 := ⟨fuel - 1, by simp at hf; omega⟩
    have hx : isxdigit ch = false := ahead_end ch w rest (by simpa using ha) hrest
    simp only [read_digits, hx, List.foldl_nil]
    refine ⟨fun _ => ⟨rfl, rfl, by simpa using ha⟩, fun h => absurd hv1 (by omega), rfl, rfl⟩
  | cons c t ih =>
    intro fuel value ch w hds ha hv0 hv1 hf
    obtain ⟨f, rfl⟩ : ∃ f, fuel = f + 1 := ⟨fuel - 1, by simp at hf; omega⟩
    obtain ⟨e1, -, e3, e4⟩ := ahead_cons ch w c (t ++ rest) (by simpa using ha)
    subst e1
    obtain ⟨hx, hd0, hd1⟩ := hds ch (List.mem_cons_self ch t)
    have hds2 : ∀ x ∈ t, isxdigit x = true ∧ 0 ≤ digit x ∧ digit x < base :=
      fun x hx => hds x (List.mem_cons_of_mem ch hx)
    have hds3 : ∀ x ∈ t, 0 ≤ digit x := fun x hx => (hds2 x hx).2.1
    have hnd : ¬ digit ch ≥ base := by omega
    simp only [List.foldl_cons]
    have hmono := foldl_add_mono base hb1 t hds3
    rw [read_digits]
    simp only [hx, if_true, if_neg hnd, Bool.false_eq_true, if_false]
    by_cases hq : value > Int.tdiv INT32_MAX base
    · rw [if_pos hq]
      have hbig : INT32_MAX < value * base + digit ch := by
        unfold INT32_MAX at *
        rcases hb with h | h | h <;> subst h
        · rw [tdiv_max.1] at hq; omega
        · rw [tdiv_max.2.1] at hq; omega
        · rw [tdiv_max.2.2] at hq; omega
      have := hmono (value * base + digit ch) (by unfold INT32_MAX at hbig; omega)
      exact ⟨fun h => absurd h (by omega), fun _ => rfl, rfl, rfl⟩
    · rw [if_neg hq]
      have hm : INT32_MIN ≤ value * base ∧ value * base ≤ INT32_MAX := by
        unfold INT32_MAX INT32_MIN at *
        rcases hb with h | h | h <;> subst h
        · rw [tdiv_max.1] at hq; omega
        · rw [tdiv_max.2.1] at hq; omega
        · rw [tdiv_max.2.2] at hq; omega
      rw [int32_fit _ w hm.1 hm.2]
      dsimp only
      by_cases hq2 : value * base > INT32_MAX - digit ch
      · rw [if_pos hq2]
        have := hmono (value * base + digit ch) (by unfold INT32_MAX at *; omega)
        exact ⟨fun h => absurd h (by omega), fun _ => rfl, rfl, rfl⟩
      · rw [if_neg hq2]
        have hm2 : INT32_MIN ≤ value * base + digit ch ∧
            value * base + digit ch ≤ INT32_MAX := by
          unfold INT32_MAX INT32_MIN at *
          omega
        rw [int32_fit _ w hm2.1 hm2.2]
        dsimp only
        obtain ⟨g1, g2, g3, -, -, -⟩ := getch_stream w (t ++ rest) e4
        have hvb : 0 ≤ value * base := Int.mul_nonneg hv0 (by omega)
        have := ih f (value * base + digit ch) (getch w).1 (getch w).2 hds2 g1
          (by omega) hm2.2 (by simp at hf; omega)
        rw [g2, g3] at this
        exact this

/-- The digit loop of `read_int` on a literal with the sign `-`. -/
theorem read_digits_neg (base : Int) (hb : base = 8 ∨ base = 10 ∨ base = 16) (rest : List Int)
    (hrest : ∀ c t, rest = c :: t → isxdigit c = false) :
    ∀ (ds : List Int) (fuel : Nat) (value ch : Int) (w : World),
      (∀ c ∈ ds, isxdigit c = true ∧ 0 ≤ digit c ∧ digit c < base) →
      Ahead ch w (ds ++ rest) → value ≤ 0 → INT32_MIN ≤ value → ds.length < fuel →
      (INT32_MIN ≤ ds.foldl (fun v c => v * base - digit c) value →
        (read_digits base true fuel value ch w).ok = true ∧
        (read_digits base true fuel value ch w).value =
          ds.foldl (fun v c => v * base - digit c) value ∧
        Ahead (read_digits base true fuel value ch w).ch
          (read_digits base true fuel value ch w).w rest) ∧
      (ds.foldl (fun v c => v * base - digit c) value < INT32_MIN →
        (read_digits base true fuel value ch w).ok = false) ∧
      (read_digits base true fuel value ch w).w.undefined = w.undefined ∧
      (read_digits base true fuel value ch w).w.cut = w.cut := by
  have hb1 : (1 : Int) ≤ base := by rcases hb with h | h | h <;> omega
  intro ds
  induction ds with
  | nil =>
    intro fuel value ch w _ ha hv0 hv1 hf
    obtain ⟨f, rfl⟩ : ∃ f, fuel = f + 1 := ⟨fuel - 1, by simp at hf; omega⟩
    have hx : isxdigit ch = false := ahead_end ch w rest (by simpa using ha) hrest
    simp only [read_digits, hx, List.foldl_nil]
    refine ⟨fun _ => ⟨rfl, rfl, by simpa using ha⟩, fun h => absurd hv1 (by omega), rfl, rfl⟩
  | cons c t ih =>
    intro fuel value ch w hds ha hv0 hv1 hf
    obtain ⟨f, rfl⟩ : ∃ f, fuel = f + 1 := ⟨fuel - 1, by simp at hf; omega⟩
    obtain ⟨e1, -, e3, e4⟩ := ahead_cons ch w c (t ++ rest) (by simpa using ha)
    subst e1
    obtain ⟨hx, hd0, hd1⟩ := hds ch (List.mem_cons_self ch t)
    have hds2 : ∀ x ∈ t, isxdigit x = true ∧ 0 ≤ digit x ∧ digit x < base :=
      fun x hx => hds x (List.mem_cons_of_mem ch hx)
    have hds3 : ∀ x ∈ t, 0 ≤ digit x := fun x hx => (hds2 x hx).2.1
    have hnd : ¬ digit ch ≥ base := by omega
    simp only [List.foldl_cons]
    have hmono := foldl_sub_mono base hb1 t hds3
    rw [read_digits]
    simp only [hx, if_true, if_neg hnd]
    by_cases hq : value < Int.tdiv INT32_MIN base
    · rw [if_pos hq]
      have hbig : value * base - digit ch < INT32_MIN := by
        unfold INT32_MIN at *
        rcases hb with h | h | h <;> subst h
        · rw [tdiv_min.1] at hq; omega
        · rw [tdiv_min.2.1] at hq; omega
        · rw [tdiv_min.2.2] at hq; omega
      have := hmono (value * base - digit ch) (by unfold INT32_MIN at hbig; omega)
      exact ⟨fun h => absurd h (by omega), fun _ => rfl, rfl, rfl⟩
    · rw [if_neg hq]
      have hm : INT32_MIN ≤ value * base ∧ value * base ≤ INT32_MAX := by
        unfold INT32_MAX INT32_MIN at *
        rcases hb with h | h | h <;> subst h
        · rw [tdiv_min.1] at hq; omega
        · rw [tdiv_min.2.1] at hq; omega
        · rw [tdiv_min.2.2] at hq; omega
      rw [int32_fit _ w hm.1 hm.2]
      dsimp only
      by_cases hq2 : value * base < INT32_MIN + digit ch
      · rw [if_pos hq2]
        have hle : value * base - digit ch ≤ 0 := by
          have : value * base ≤ 0 := by
            rcases hb with h | h | h <;> subst h <;> omega
          omega
        have := hmono (value * base - digit ch) hle
        exact ⟨fun h => absurd h (by omega), fun _ => rfl, rfl, rfl⟩
      · rw [if_neg hq2]
        have hneg : value * base ≤ 0 := by
          rcases hb with h | h | h <;> subst h <;> omega
        have hm2 : INT32_MIN ≤ value * base - digit ch ∧
            value * base - digit ch ≤ INT32_MAX := by
          unfold INT32_MAX INT32_MIN at *
          omega
        rw [int32_fit _ w hm2.1 hm2.2]
        dsimp only
        obtain ⟨g1, g2, g3, -, -, -⟩ := getch_stream w (t ++ rest) e4
        have := ih f (value * base - digit ch) (getch w).1 (getch w).2 hds2 g1
          (by omega) hm2.1 (by simp at hf; omega)
        rw [g2, g3] at this
        exact this


theorem stream_length (w : World) (h : w.ch0 < 0) : (stream w).length ≤ w.file.length := by
  unfold stream
  have hn : ¬ w.ch0 ≥ 0 := by omega
  rw [if_neg hn]
  by_cases ho : w.opened = true
  · rw [if_pos ho]
    simp
  · rw [if_neg ho]
    simp

theorem isxdigit_facts (c : Int) (h : isxdigit c = true) :
    isspace c = false ∧ c ≠ 45 ∧ c ≠ 43 ∧ c ≠ 88 ∧ c ≠ 120 ∧ tolower c ≠ 120 ∧ 0 ≤ c := by
  simp only [isxdigit, isdigit, Bool.or_eq_true, Bool.and_eq_true, decide_eq_true_eq] at h
  refine ⟨?_, by omega, by omega, by omega, by omega, ?_, by omega⟩
  · simp only [isspace, Bool.or_eq_false_iff, Bool.and_eq_false_iff, decide_eq_false_iff_not]
    omega
  · unfold tolower
    split_ifs <;> omega

theorem skip_space_none (fuel : Nat) (ch : Int) (w : World) (h : isspace ch = false) :
    skip_space (fuel + 1) ch w = (ch, w) := by
  simp [skip_space, h]

theorem fail_flags (s : String) (w : World) :
    (fail s w).undefined = w.undefined ∧ (fail s w).cut = w.cut := ⟨rfl, rfl⟩

/-- The end of `read_int`: the range check, with the character behind the
literal pushed back. -/
theorem read_int_clip_spec (min max value ch : Int) (w : World) (rest : List Int)
    (h : Ahead ch w rest) :
    ((read_int_clip min max value ch w).1 = true ↔ min ≤ value ∧ value ≤ max) ∧
    ((read_int_clip min max value ch w).1 = true →
      (read_int_clip min max value ch w).2.1 = value ∧
      stream (read_int_clip min max value ch w).2.2 = rest) ∧
    (read_int_clip min max value ch w).2.2.undefined = w.undefined ∧
    (read_int_clip min max value ch w).2.2.cut = w.cut := by
  obtain ⟨u1, u2, u3⟩ := ungetch_stream ch w rest h
  unfold read_int_clip
  dsimp only
  by_cases h1 : value > max
  · rw [if_pos h1]
    refine ⟨⟨fun hh => (by cases hh), fun hh => absurd hh.2 (by omega)⟩,
      fun hh => (by cases hh), u2, u3⟩
  · rw [if_neg h1]
    by_cases h2 : value < min
    · rw [if_pos h2]
      refine ⟨⟨fun hh => (by cases hh), fun hh => absurd hh.1 (by omega)⟩,
        fun hh => (by cases hh), u2, u3⟩
    · rw [if_neg h2]
      exact ⟨⟨fun _ => ⟨by omega, by omega⟩, fun _ => rfl⟩, fun _ => ⟨rfl, u1⟩, u2, u3⟩

/-- The digits of a literal, read by `read_int` in the base found. -/
theorem read_int_digits_spec (base : Int) (hb : base = 8 ∨ base = 10 ∨ base = 16) (s : Bool)
    (ds : List Int) (hne : ds ≠ [])
    (hds : ∀ c ∈ ds, isxdigit c = true ∧ 0 ≤ digit c ∧ digit c < base)
    (rest : List Int) (hrest : ∀ c t, rest = c :: t → isxdigit c = false)
    (min max ch : Int) (w : World) (ha : Ahead ch w (ds ++ rest)) :
    ((read_int_digits min max base s ch w).1 = true ↔
      (min ≤ (if s then -digits_value base ds else digits_value base ds) ∧
       (if s then -digits_value base ds else digits_value base ds) ≤ max ∧
       INT32_MIN ≤ (if s then -digits_value base ds else digits_value base ds) ∧
       (if s then -digits_value base ds else digits_value base ds) ≤ INT32_MAX)) ∧
    ((read_int_digits min max base s ch w).1 = true →
      (read_int_digits min max base s ch w).2.1 =
        (if s then -digits_value base ds else digits_value base ds) ∧
      stream (read_int_digits min max base s ch w).2.2 = rest) ∧
    (read_int_digits min max base s ch w).2.2.undefined = w.undefined ∧
    (read_int_digits min max base s ch w).2.2.cut = w.cut := by
  obtain ⟨c, t, rfl⟩ : ∃ c t, ds = c :: t := by
    cases ds with
    | nil => exact absurd rfl hne
    | cons c t => exact ⟨c, t, rfl⟩
  obtain ⟨e1, -, e3, e4⟩ := ahead_cons ch w c (t ++ rest) (by simpa using ha)
  subst e1
  have hx := (hds ch (List.mem_cons_self ch t)).1
  have hfuel : (ch :: t).length < bound w := by
    have := stream_length w e3
    rw [e4] at this
    simp at this
    simp [bound]
    omega
  have hb1 : (1 : Int) ≤ base := by rcases hb with h | h | h <;> omega
  have hnn : 0 ≤ digits_value base (ch :: t) :=
    foldl_add_mono base hb1 (ch :: t) (fun x hx => (hds x hx).2.1) 0 (le_refl 0)
  unfold read_int_digits
  simp only [hx, Bool.not_true, Bool.false_eq_true, if_false]
  cases s with
  | false =>
    simp only [Bool.false_eq_true, if_false]
    obtain ⟨p1, p2, p3, p4⟩ := read_digits_pos base hb rest hrest (ch :: t) (bound w) 0 ch w hds ha
      (le_refl 0) (by decide) hfuel
    have hdv : (ch :: t).foldl (fun v c => v * base + digit c) 0 =
        digits_value base (ch :: t) := rfl
    rw [hdv] at p1 p2
    by_cases hfit : digits_value base (ch :: t) ≤ INT32_MAX
    · obtain ⟨q1, q2, q3⟩ := p1 hfit
      rw [if_pos q1, q2]
      obtain ⟨k1, k2, k3, k4⟩ := read_int_clip_spec min max
        (digits_value base (ch :: t)) _ _ rest q3
      refine ⟨⟨fun h => ?_, fun h => k1.2 ⟨h.1, h.2.1⟩⟩, k2, by rw [k3, p3], by rw [k4, p4]⟩
      have := k1.1 h
      exact ⟨this.1, this.2, by unfold INT32_MIN; omega, hfit⟩
    · have q := p2 (by omega)
      have hq : ¬ (read_digits base false (bound w) 0 ch w).ok = true := by rw [q]; simp
      rw [if_neg hq]
      exact ⟨⟨fun h => (by cases h), fun h => absurd h.2.2.2 hfit⟩, fun h => (by cases h),
        p3, p4⟩
  | true =>
    simp only [if_true]
    obtain ⟨p1, p2, p3, p4⟩ := read_digits_neg base hb rest hrest (ch :: t) (bound w) 0 ch w hds ha
      (le_refl 0) (by decide) hfuel
    have hval : (ch :: t).foldl (fun v c => v * base - digit c) 0 =
        -digits_value base (ch :: t) := by
      have := foldl_sub_neg base (ch :: t) 0
      simpa [digits_value] using this
    rw [hval] at p1 p2
    by_cases hfit : INT32_MIN ≤ -digits_value base (ch :: t)
    · obtain ⟨q1, q2, q3⟩ := p1 hfit
      rw [if_pos q1, q2]
      obtain ⟨k1, k2, k3, k4⟩ := read_int_clip_spec min max
        (-digits_value base (ch :: t)) _ _ rest q3
      refine ⟨⟨fun h => ?_, fun h => k1.2 ⟨h.1, h.2.1⟩⟩, k2, by rw [k3, p3], by rw [k4, p4]⟩
      have := k1.1 h
      exact ⟨this.1, this.2, hfit, by unfold INT32_MAX; omega⟩
    · have q := p2 (by omega)
      have hq : ¬ (read_digits base true (bound w) 0 ch w).ok = true := by rw [q]; simp
      rw [if_neg hq]
      exact ⟨⟨fun h => (by cases h), fun h => absurd h.2.2.1 hfit⟩, fun h => (by cases h),
        p3, p4⟩


/-- The characters of a literal behind its sign. -/
theorem literal_chars (l : literal) :
    l.chars = (match l.sign with
      | none => []
      | some true => [45]
      | some false => [43]) ++
      ((match l.form with
        | .dec => []
        | .oct => [48]
        | .hex => [48, if l.upper then 88 else 120]) ++ l.digits) := by
  unfold literal.chars
  rw [List.append_assoc]

/-- The part of `read_int` behind the sign reads the literal exactly. -/
theorem read_int_base_spec (l : literal) (hl : l.wf) (rest : List Int) (hrest : l.ends rest)
    (s : Bool) (min max ch : Int) (w : World)
    (ha : Ahead ch w (((match l.form with
        | .dec => []
        | .oct => [48]
        | .hex => [48, if l.upper then 88 else 120]) ++ l.digits) ++ rest)) :
    ((read_int_base min max s ch w).1 = true ↔
      (min ≤ (if s then -digits_value l.form.base l.digits
          else digits_value l.form.base l.digits) ∧
       (if s then -digits_value l.form.base l.digits
          else digits_value l.form.base l.digits) ≤ max ∧
       INT32_MIN ≤ (if s then -digits_value l.form.base l.digits
          else digits_value l.form.base l.digits) ∧
       (if s then -digits_value l.form.base l.digits
          else digits_value l.form.base l.digits) ≤ INT32_MAX)) ∧
    ((read_int_base min max s ch w).1 = true →
      (read_int_base min max s ch w).2.1 =
        (if s then -digits_value l.form.base l.digits
          else digits_value l.form.base l.digits) ∧
      stream (read_int_base min max s ch w).2.2 = rest) ∧
    (read_int_base min max s ch w).2.2.undefined = w.undefined ∧
    (read_int_base min max s ch w).2.2.cut = w.cut := by
  obtain ⟨hd, hdec, hhex⟩ := hl
  have hrest2 : ∀ c t, rest = c :: t → isxdigit c = false := fun c t h => (hrest c t h).1
  have hskip : ∀ c : Int, isspace c = false → skip_space (bound w) c w = (c, w) :=
    fun c h => skip_space_none (w.file.length + 1) c w h
  obtain ⟨sign, form, upper, digits⟩ := l
  dsimp only at *
  cases form with
  | dec =>
    obtain ⟨c, t, hct, hc48⟩ := hdec rfl
    subst hct
    simp only [List.nil_append] at ha
    obtain ⟨e1, -, -, -⟩ := ahead_cons ch w c (t ++ rest) (by simpa using ha)
    subst e1
    have hx := (hd ch (List.mem_cons_self ch t)).1
    unfold read_int_base
    rw [hskip ch (isxdigit_facts ch hx).1]
    dsimp only
    rw [if_neg hc48]
    exact read_int_digits_spec 10 (Or.inr (Or.inl rfl)) s (ch :: t) (by simp) hd rest hrest2
      min max ch w ha
  | oct =>
    simp only [List.cons_append, List.nil_append] at ha
    obtain ⟨e1, -, -, e4⟩ := ahead_cons ch w 48 (digits ++ rest) ha
    subst e1
    obtain ⟨g1, g2, g3, -, -, -⟩ := getch_stream w (digits ++ rest) e4
    unfold read_int_base
    rw [hskip 48 (by decide)]
    dsimp only
    rw [if_pos rfl]
    cases digits with
    | nil =>
      simp only [List.nil_append] at g1
      have hx : isxdigit (getch w).1 = false := ahead_end _ _ rest g1 hrest2
      have ht : ¬ tolower (getch w).1 = 120 := by
        cases rest with
        | nil => rw [ahead_nil _ _ g1]; decide
        | cons c t =>
          rw [(ahead_cons _ _ c t g1).1]
          exact (hrest c t rfl).2 rfl rfl
      rw [if_neg ht]
      simp only [hx, Bool.not_false, if_true]
      obtain ⟨k1, k2, k3, k4⟩ := read_int_clip_spec min max 0 _ _ rest g1
      have hv : (if s then -digits_value (radix.base .oct) [] else digits_value (radix.base .oct) [])
          = 0 := by
        cases s <;> simp [digits_value]
      rw [hv]
      refine ⟨⟨fun h => ?_, fun h => k1.2 ⟨h.1, h.2.1⟩⟩, k2, by rw [k3, g2], by rw [k4, g3]⟩
      exact ⟨(k1.1 h).1, (k1.1 h).2, by decide, by decide⟩
    | cons d t =>
      obtain ⟨e1, -, -, -⟩ := ahead_cons _ _ d (t ++ rest) (by simpa using g1)
      have hx := (hd d (List.mem_cons_self d t)).1
      have ht : ¬ tolower (getch w).1 = 120 := by
        rw [e1]
        exact (isxdigit_facts d hx).2.2.2.2.2.1
      rw [if_neg ht, e1]
      simp only [hx, Bool.not_true, Bool.false_eq_true, if_false]
      have := read_int_digits_spec 8 (Or.inl rfl) s (d :: t) (by simp) hd rest hrest2
        min max (getch w).1 (getch w).2 g1
      rw [e1, g2, g3] at this
      exact this
  | hex =>
    simp only [List.cons_append, List.nil_append] at ha
    obtain ⟨e1, -, -, e4⟩ := ahead_cons ch w 48 _ ha
    subst e1
    obtain ⟨g1, g2, g3, -, -, -⟩ := getch_stream w _ e4
    obtain ⟨f1, -, -, f4⟩ := ahead_cons _ _ _ _ g1
    obtain ⟨j1, j2, j3, -, -, -⟩ := getch_stream (getch w).2 _ f4
    unfold read_int_base
    rw [hskip 48 (by decide)]
    dsimp only
    rw [if_pos rfl]
    have ht : tolower (getch w).1 = 120 := by
      rw [f1]
      cases upper <;> decide
    rw [if_pos ht]
    have := read_int_digits_spec 16 (Or.inr (Or.inr rfl)) s digits (hhex rfl) hd rest hrest2
      min max _ _ j1
    rw [j2, j3, g2, g3] at this
    exact this

/-- C13: `read_int` reads integer literals exactly. Let the input be a well
formed literal (an optional sign, then decimal digits, or `0` and octal digits,
or `0x` and hexadecimal digits) followed by `rest`, which does not go on with a
hexadecimal digit. Then `read_int(i, min, max)` returns true exactly when the
value `v` of the literal fits an `int32_t` and `min ≤ v ≤ max`; in that case it
stores `v` and leaves `rest` as the input. In every case no signed overflow
happens on the way (`undefined` stays as it is) and the loops of the model end
by their own condition. -/
theorem read_int_exact (l : literal) (hl : l.wf) (rest : List Int) (hrest : l.ends rest)
    (min max : Int) (w : World) (hw : stream w = l.chars ++ rest) :
    ((read_int min max w).1 = true ↔
      (min ≤ l.value ∧ l.value ≤ max ∧ INT32_MIN ≤ l.value ∧ l.value ≤ INT32_MAX)) ∧
    ((read_int min max w).1 = true →
      (read_int min max w).2.1 = l.value ∧ stream (read_int min max w).2.2 = rest) ∧
    (read_int min max w).2.2.undefined = w.undefined ∧
    (read_int min max w).2.2.cut = w.cut := by
  rw [literal_chars, List.append_assoc] at hw
  obtain ⟨g1, g2, g3, -, -, -⟩ := getch_stream w _ hw
  have hfirst : ∃ (c : Int) (t : List Int), ((match l.form with
        | .dec => ([] : List Int)
        | .oct => [48]
        | .hex => [48, if l.upper then 88 else 120]) ++ l.digits) ++ rest = c :: t ∧
      c ≠ 45 ∧ c ≠ 43 := by
    obtain ⟨hd, hdec, -⟩ := hl
    obtain ⟨sign, form, upper, digits⟩ := l
    dsimp only at *
    cases form with
    | dec =>
      obtain ⟨c, t, hct, -⟩ := hdec rfl
      have hx := (hd c (by rw [hct]; exact List.mem_cons_self c t)).1
      exact ⟨c, t ++ rest, by simp [hct], (isxdigit_facts c hx).2.1, (isxdigit_facts c hx).2.2.1⟩
    | oct => exact ⟨48, digits ++ rest, by simp, by decide, by decide⟩
    | hex =>
      exact ⟨48, (if upper then 88 else 120) :: (digits ++ rest), by simp, by decide, by decide⟩
  have hbase := fun s ch w2 ha => read_int_base_spec l hl rest hrest s min max ch w2 ha
  unfold read_int literal.value
  dsimp only
  cases hs : l.sign with
  | none =>
    rw [hs] at g1
    simp only [List.nil_append] at g1
    obtain ⟨c, t, hct, hc1, hc2⟩ := hfirst
    have hc := (ahead_cons _ _ c t (by rw [← hct]; exact g1)).1
    have hn : ¬ ((getch w).1 = 45 ∨ (getch w).1 = 43) := by
      rw [hc]
      exact fun h => h.elim hc1 hc2
    rw [if_neg hn]
    have := hbase false _ _ g1
    rw [g2, g3] at this
    simpa using this
  | some b =>
    rw [hs] at g1
    cases b with
    | true =>
      simp only [List.cons_append, List.nil_append] at g1
      obtain ⟨f1, -, -, f4⟩ := ahead_cons _ _ _ _ g1
      obtain ⟨j1, j2, j3, -, -, -⟩ := getch_stream (getch w).2 _ f4
      rw [if_pos (Or.inl f1)]
      have := hbase true _ _ j1
      rw [j2, j3, g2, g3] at this
      simpa [f1] using this
    | false =>
      simp only [List.cons_append, List.nil_append] at g1
      obtain ⟨f1, -, -, f4⟩ := ahead_cons _ _ _ _ g1
      obtain ⟨j1, j2, j3, -, -, -⟩ := getch_stream (getch w).2 _ f4
      rw [if_pos (Or.inr f1)]
      have := hbase false _ _ j1
      rw [j2, j3, g2, g3] at this
      simpa [f1] using this


theorem example_literal_wf : example_literal.wf := by
  refine ⟨by decide, fun h => ?_, fun _ => by decide⟩
  cases h

theorem example_literal_ends : example_literal.ends [59] := by
  intro c t h
  injection h with h1 h2
  subst h1
  refine ⟨by decide, fun h => ?_⟩
  cases h

/-- Witness of C13: the literal `-0x7f` followed by `;` is read as -127 within
the bounds -127 and 0, and as out of range within 0 and 255. -/
theorem read_int_exact_witness :
    (example_literal.wf ∧ example_literal.ends [59] ∧
      stream (range_world "-0x7f;") = example_literal.chars ++ [59]) ∧
    (read_int (-127) 0 (range_world "-0x7f;")).1 = true ∧
    (read_int (-127) 0 (range_world "-0x7f;")).2.1 = -127 ∧
    ¬ (read_int 0 255 (range_world "-0x7f;")).1 = true :=
  ⟨⟨example_literal_wf, example_literal_ends, by decide⟩,
    (read_int_exact example_literal example_literal_wf [59] example_literal_ends (-127) 0
      (range_world "-0x7f;") (by decide)).1.2 (by decide),
    ((read_int_exact example_literal example_literal_wf [59] example_literal_ends (-127) 0
      (range_world "-0x7f;") (by decide)).2.1
        ((read_int_exact example_literal example_literal_wf [59] example_literal_ends (-127) 0
          (range_world "-0x7f;") (by decide)).1.2 (by decide))).1,
    fun h => absurd
      ((read_int_exact example_literal example_literal_wf [59] example_literal_ends 0 255
        (range_world "-0x7f;") (by decide)).1.1 h).1 (by decide)⟩


/-! ## Range literals -/

theorem read_int_clip_range (min max value ch : Int) (w : World)
    (h : (read_int_clip min max value ch w).1 = true) :
    min ≤ (read_int_clip min max value ch w).2.1 ∧
    (read_int_clip min max value ch w).2.1 ≤ max := by
  unfold read_int_clip at h ⊢
  dsimp only at h ⊢
  by_cases h1 : value > max
  · rw [if_pos h1] at h; cases h
  · rw [if_neg h1] at h ⊢
    by_cases h2 : value < min
    · rw [if_pos h2] at h; cases h
    · rw [if_neg h2]
      dsimp only
      exact ⟨by omega, by omega⟩

theorem read_int_digits_range (min max base : Int) (s : Bool) (ch : Int) (w : World)
    (h : (read_int_digits min max base s ch w).1 = true) :
    min ≤ (read_int_digits min max base s ch w).2.1 ∧
    (read_int_digits min max base s ch w).2.1 ≤ max := by
  unfold read_int_digits at h ⊢
  by_cases h1 : (!isxdigit ch) = true
  · rw [if_pos h1] at h; cases h
  · rw [if_neg h1] at h ⊢
    dsimp only at h ⊢
    by_cases h2 : (read_digits base s (bound w) 0 ch w).ok = true
    · rw [if_pos h2] at h ⊢
      exact read_int_clip_range _ _ _ _ _ h
    · rw [if_neg h2] at h; cases h

theorem read_int_base_range (min max : Int) (s : Bool) (ch : Int) (w : World)
    (h : (read_int_base min max s ch w).1 = true) :
    min ≤ (read_int_base min max s ch w).2.1 ∧
    (read_int_base min max s ch w).2.1 ≤ max := by
  unfold read_int_base at h ⊢
  dsimp only at h ⊢
  split_ifs at h ⊢
  · exact read_int_digits_range _ _ _ _ _ _ h
  · exact read_int_clip_range _ _ _ _ _ h
  · exact read_int_digits_range _ _ _ _ _ _ h
  · exact read_int_digits_range _ _ _ _ _ _ h

/-- A value `read_int` returns lies between `min` and `max`. -/
theorem read_int_range (min max : Int) (w : World) (h : (read_int min max w).1 = true) :
    min ≤ (read_int min max w).2.1 ∧ (read_int min max w).2.1 ≤ max := by
  unfold read_int at h ⊢
  dsimp only at h ⊢
  split_ifs at h ⊢
  · exact read_int_base_range _ _ _ _ _ h
  · exact read_int_base_range _ _ _ _ _ h

theorem read_range_begin_le (max : Nat) (hmax : max ≤ 65535) (w : World)
    (h : (read_range_begin max w).1 = true) : (read_range_begin max w).2.1 ≤ max := by
  unfold read_range_begin at h ⊢
  dsimp only at h ⊢
  split_ifs at h ⊢
  · exact Nat.zero_le _
  · rename_i h1 h2 h3
    have hr := read_int_range 0 max _ (by simpa using h3)
    dsimp only
    omega

theorem read_range_end_le (max : Nat) (hmax : max ≤ 65535) (w : World)
    (h : (read_range_end max w).1 = true) : (read_range_end max w).2.1 ≤ max := by
  unfold read_range_end at h ⊢
  dsimp only at h ⊢
  split_ifs at h ⊢
  · exact Nat.le_refl _
  · rename_i h1 h2 h3
    have hr := read_int_range 0 max _ (by simpa using h3)
    dsimp only
    omega

theorem read_range_step_le (w : World) (h : (read_range_step w).1 = true) :
    0 ≤ (read_range_step w).2.1 ∧ (read_range_step w).2.1 ≤ 100 := by
  unfold read_range_step at h ⊢
  dsimp only at h ⊢
  split_ifs at h ⊢
  · rename_i h1 h2 h3
    exact read_int_range 0 100 _ (by simpa using h3)
  · dsimp only
    exact ⟨by decide, by decide⟩

theorem tdiv_facts (d i : Int) (hd : 0 ≤ d) (hi : 1 ≤ i) :
    0 ≤ Int.tdiv d i ∧ Int.tdiv d i * i ≤ d ∧ d < Int.tdiv d i * i + i ∧ Int.tdiv d i ≤ d ∧
    0 ≤ Int.tdiv d i * i := by
  rw [Int.tdiv_eq_ediv hd (by omega)]
  have h1 : 0 ≤ d / i := Int.ediv_nonneg hd (by omega)
  have h2 : d / i * i ≤ d := Int.ediv_mul_le d (by omega)
  have h3 : d < (d / i + 1) * i := Int.lt_ediv_add_one_mul_self d (by omega)
  have h4 : d / i ≤ d / i * i := le_mul_of_one_le_right h1 hi
  refine ⟨h1, h2, ?_, by omega, by omega⟩
  have : (d / i + 1) * i = d / i * i + i := by ring
  omega

/-- The arithmetic of `read_range` for a written step of at least 1: the step
gets the sign that points from `b` to `e`, the new end lies between `b` and
`e`, less than a step away from `e`, and is reached from `b` in whole steps; a
range with `e = b` gets the step 1. -/
theorem range_fit_spec (b e : Nat) (i : Int) (hb : b ≤ 65535) (he : e ≤ 65535)
    (hi1 : 1 ≤ i) (hi2 : i ≤ 100) :
    (b < e → (range_fit b e i).1 = i ∧ b ≤ (range_fit b e i).2 ∧ (range_fit b e i).2 ≤ e ∧
      (e : Int) - (range_fit b e i).2 < i) ∧
    (e < b → (range_fit b e i).1 = -i ∧ e ≤ (range_fit b e i).2 ∧ (range_fit b e i).2 ≤ b ∧
      ((range_fit b e i).2 : Int) - e < i) ∧
    (e = b → range_fit b e i = (1, b)) ∧
    ∃ k : Nat, ((range_fit b e i).2 : Int) - b = k * (range_fit b e i).1 := by
  have h8 : int8 i = i := by unfold int8; omega
  have h8n : int8 (-i) = -i := by unfold int8; omega
  rcases Nat.lt_trichotomy b e with h | h | h
  · obtain ⟨q1, q2, q3, q4, q5⟩ := tdiv_facts ((e : Int) - b) i (by omega) hi1
    have hs : (range_fit b e i).1 = i := by simp [range_fit, h, h8]
    have he2 : ((range_fit b e i).2 : Int) = b + Int.tdiv ((e : Int) - b) i * i := by
      simp only [range_fit, gt_iff_lt, h, if_true, h8]
      generalize Int.tdiv ((e : Int) - b) i = q at q1 q2 q3 q4 q5 ⊢
      have hst : ((q % 65536).toNat : Int) = q := by omega
      rw [hst]
      omega
    refine ⟨fun _ => ⟨hs, by omega, by omega, by omega⟩, fun h2 => absurd h2 (by omega),
      fun h2 => absurd h2 (by omega), ⟨(Int.tdiv ((e : Int) - b) i).toNat, ?_⟩⟩
    rw [he2, hs, Int.toNat_of_nonneg q1]
    ring
  · subst h
    have hr : range_fit b b i = (1, b) := by
      simp only [range_fit, gt_iff_lt, lt_irrefl, if_false, sub_self]
      have : Int.tdiv 0 1 = 0 := by decide
      rw [this]
      have h1 : ((0 : Int) % 65536).toNat = 0 := by decide
      rw [h1]
      congr 1
      omega
    rw [hr]
    exact ⟨fun h2 => absurd h2 (by omega), fun h2 => absurd h2 (by omega), fun _ => rfl,
      ⟨0, by simp⟩⟩
  · obtain ⟨q1, q2, q3, q4, q5⟩ := tdiv_facts ((b : Int) - e) i (by omega) hi1
    have hn1 : ¬ e > b := by omega
    have hs : (range_fit b e i).1 = -i := by simp [range_fit, h, hn1, h8n]
    have hdiv : Int.tdiv ((e : Int) - b) (-i) = Int.tdiv ((b : Int) - e) i := by
      rw [← Int.neg_tdiv_neg, neg_neg]
      congr 1
      ring
    have he2 : ((range_fit b e i).2 : Int) = b - Int.tdiv ((b : Int) - e) i * i := by
      simp only [range_fit, gt_iff_lt, h, hn1, if_true, if_false, h8n, hdiv]
      generalize Int.tdiv ((b : Int) - e) i = q at q1 q2 q3 q4 q5 ⊢
      have hst : ((q % 65536).toNat : Int) = q := by omega
      rw [hst]
      have hm : q * -i = -(q * i) := by ring
      rw [hm]
      omega
    refine ⟨fun h2 => absurd h2 (by omega), fun _ => ⟨hs, by omega, by omega, by omega⟩,
      fun h2 => absurd h2 (by omega), ⟨(Int.tdiv ((b : Int) - e) i).toNat, ?_⟩⟩
    rw [he2, hs, Int.toNat_of_nonneg q1]
    ring


theorem not_not_true (b : Bool) (h : ¬ (!b) = true) : b = true := by
  cases b <;> simp at h ⊢

/-- The shape of an accepted range: a single item, or the arithmetic of
`range_fit` on bounds within `max` and a written step of 0 to 100, where the
step 0, a division by zero, sets `undefined`. -/
theorem read_range_shape (max : Nat) (hmax : max ≤ 65535) (w : World)
    (h : (read_range max w).ok = true) :
    (read_range max w).b ≤ max ∧
    (((read_range max w).e = (read_range max w).b ∧ (read_range max w).s = 1) ∨
      ∃ (e0 : Nat) (i : Int), e0 ≤ max ∧ 0 ≤ i ∧ i ≤ 100 ∧
        (read_range max w).s = (range_fit (read_range max w).b e0 i).1 ∧
        (read_range max w).e = (range_fit (read_range max w).b e0 i).2 ∧
        ((range_fit (read_range max w).b e0 i).1 = 0 →
          (read_range max w).w.undefined = true)) := by
  unfold read_range at h ⊢
  dsimp only at h ⊢
  by_cases h1 : (getch w).1 ≠ 91
  · rw [if_pos h1] at h; cases h
  rw [if_neg h1] at h ⊢
  by_cases h2 : (!(read_range_begin max (getch w).2).1) = true
  · rw [if_pos h2] at h; cases h
  rw [if_neg h2] at h ⊢
  have hb := read_range_begin_le max hmax _ (not_not_true _ h2)
  generalize read_range_begin max (getch w).2 = b at h hb ⊢
  by_cases h3 : (next_char b.2.2).1 = 46
  · rw [if_pos h3] at h ⊢
    generalize next_char b.2.2 = c at h ⊢
    by_cases h4 : (getch c.2).1 ≠ 46
    · rw [if_pos h4] at h; cases h
    rw [if_neg h4] at h ⊢
    by_cases h5 : (!(read_range_end max (getch c.2).2).1) = true
    · rw [if_pos h5] at h; cases h
    rw [if_neg h5] at h ⊢
    have he := read_range_end_le max hmax _ (not_not_true _ h5)
    generalize read_range_end max (getch c.2).2 = e at h he ⊢
    by_cases h6 : (!(read_range_step e.2.2).1) = true
    · rw [if_pos h6] at h; cases h
    rw [if_neg h6] at h ⊢
    have hi := read_range_step_le _ (not_not_true _ h6)
    generalize read_range_step e.2.2 = i at h hi ⊢
    by_cases h7 : i.2.2.1 ≠ 93
    · rw [if_pos h7] at h; cases h
    rw [if_neg h7] at h ⊢
    refine ⟨hb, Or.inr ⟨e.2.1, i.2.1, he, hi.1, hi.2, rfl, rfl, fun hz => ?_⟩⟩
    dsimp only at hz ⊢
    rw [if_pos hz]
  · rw [if_neg h3] at h ⊢
    by_cases h4 : (next_char b.2.2).1 ≠ 93
    · rw [if_pos h4] at h; cases h
    rw [if_neg h4] at h ⊢
    exact ⟨hb, Or.inl ⟨rfl, rfl⟩⟩

theorem range_fit_same (b : Nat) (i : Int) (hb : b ≤ 65535) : range_fit b b i = (1, b) := by
  simp only [range_fit, gt_iff_lt, lt_irrefl, if_false, sub_self]
  have : Int.tdiv 0 1 = 0 := by decide
  rw [this]
  have h1 : ((0 : Int) % 65536).toNat = 0 := by decide
  rw [h1]
  congr 1
  omega

theorem range_fit_zero (b e : Nat) (h : e ≠ b) : (range_fit b e 0).1 = 0 := by
  simp only [range_fit, gt_iff_lt]
  split_ifs
  · decide
  · decide
  · omega

/-- C14: what `read_range` yields. Every range literal that `read_range`
accepts for a bound `max ≤ 65535` without undefined behaviour yields
`begin ≤ max`, `end ≤ max` and a non-zero step whose sign points from `begin`
to `end`, with `end - begin` a non-negative whole multiple of the step; equal
bounds get the step 1. But the literal `[0..5%0]` is accepted as well: the
written step 0 passes `read_int(&i, 0, 100)`, the step becomes 0 and
`(e - b) / s` divides by zero, which is undefined; with the quotient 0 the
range comes back with the step 0. -/
theorem read_range_accepts :
    (∀ (max : Nat) (w : World), max ≤ 65535 → (read_range max w).ok = true →
      (read_range max w).w.undefined = false →
      (read_range max w).b ≤ max ∧ (read_range max w).e ≤ max ∧
      (read_range max w).s ≠ 0 ∧
      ((read_range max w).b < (read_range max w).e → 0 < (read_range max w).s) ∧
      ((read_range max w).e < (read_range max w).b → (read_range max w).s < 0) ∧
      (∃ k : Nat, ((read_range max w).e : Int) - (read_range max w).b =
        k * (read_range max w).s)) ∧
    (∀ (b : Nat) (i : Int), b ≤ 65535 → range_fit b b i = (1, b)) ∧
    ((range_world "[0..5%0]").undefined = false ∧
      (read_range 499 (range_world "[0..5%0]")).ok = true ∧
      (read_range 499 (range_world "[0..5%0]")).s = 0 ∧
      (read_range 499 (range_world "[0..5%0]")).w.undefined = true) := by
  refine ⟨fun max w hmax h hu => ?_, range_fit_same, by decide⟩
  obtain ⟨hb, hshape⟩ := read_range_shape max hmax w h
  rcases hshape with ⟨h1, h2⟩ | ⟨e0, i, he0, hi0, hi1, hs, he, hz⟩
  · rw [h1, h2]
    exact ⟨hb, hb, one_ne_zero, fun hh => absurd hh (by omega), fun hh => absurd hh (by omega),
      ⟨0, by simp⟩⟩
  · have hsne : (range_fit (read_range max w).b e0 i).1 ≠ 0 := by
      intro hh
      rw [hz hh] at hu
      cases hu
    rw [hs, he]
    by_cases heq : e0 = (read_range max w).b
    · rw [heq, range_fit_same _ i (by omega)]
      exact ⟨hb, hb, one_ne_zero, fun hh => absurd hh (by omega),
        fun hh => absurd hh (by omega), ⟨0, by simp⟩⟩
    · have hi : 1 ≤ i := by
        by_contra hcon
        have hi00 : i = 0 := by omega
        rw [hi00] at hsne
        exact hsne (range_fit_zero _ e0 heq)
      obtain ⟨f1, f2, -, f4⟩ := range_fit_spec (read_range max w).b e0 i (by omega) (by omega)
        hi hi1
      rcases Nat.lt_or_gt_of_ne heq with hlt | hgt
      · obtain ⟨g1, g2, g3, g4⟩ := f2 hlt
        refine ⟨hb, by omega, by omega, fun hh => absurd hh (by omega), fun _ => by omega, f4⟩
      · obtain ⟨g1, g2, g3, g4⟩ := f1 hgt
        refine ⟨hb, by omega, by omega, fun _ => by omega, fun hh => absurd hh (by omega), f4⟩

/-- Witness of C14: the range `[ 10 .. 3 % 4 ]` is read as begin 10, end 6,
step -4. -/
theorem read_range_accepts_witness :
    ((499 : Nat) ≤ 65535 ∧ (read_range 499 (range_world "[ 10 .. 3 % 4 ]")).ok = true ∧
      (read_range 499 (range_world "[ 10 .. 3 % 4 ]")).w.undefined = false) ∧
    (read_range 499 (range_world "[ 10 .. 3 % 4 ]")).b = 10 ∧
    (read_range 499 (range_world "[ 10 .. 3 % 4 ]")).e = 6 ∧
    (read_range 499 (range_world "[ 10 .. 3 % 4 ]")).s = -4 ∧
    (read_range 499 (range_world "[ 10 .. 3 % 4 ]")).e ≤ 499 :=
  ⟨⟨by decide, by decide, by decide⟩, by decide, by decide, by decide,
    (read_range_accepts.1 499 (range_world "[ 10 .. 3 % 4 ]") (by decide) (by decide)
      (by decide)).2.1⟩


/-! ## Packing and unpacking -/

theorem poke_poke (msg : Nat → Nat) (p : Nat) (a b : List Nat) :
    poke (poke msg p a) (p + a.length) b = poke msg p (a ++ b) := by
  funext j
  simp only [poke, List.length_append]
  by_cases h1 : p + a.length ≤ j ∧ j < p + a.length + b.length
  · rw [if_pos h1, if_pos ⟨by omega, by omega⟩]
    rw [List.getD_append_right _ _ _ _ (by omega)]
    congr 1
    omega
  · rw [if_neg h1]
    by_cases h2 : p ≤ j ∧ j < p + a.length
    · rw [if_pos h2, if_pos ⟨by omega, by omega⟩]
      rw [List.getD_append _ _ _ _ (by omega)]
    · rw [if_neg h2, if_neg (by omega)]

theorem poke_nil (msg : Nat → Nat) (p : Nat) : poke msg p [] = msg := by
  funext j
  simp [poke]

theorem peek_poke (msg : Nat → Nat) (p : Nat) (a : List Nat) :
    peek (poke msg p a) p a.length = a := by
  apply List.ext_getElem
  · simp [peek]
  · intro k h1 h2
    simp only [peek, List.length_map, List.length_range] at h1
    simp only [peek, List.getElem_map, List.getElem_range, poke]
    rw [if_pos ⟨by omega, by omega⟩]
    rw [List.getD_eq_getElem _ _ (by omega)]
    congr 1
    omega

theorem poke_above (msg : Nat → Nat) (p : Nat) (a : List Nat) (j : Nat)
    (h : p + a.length ≤ j) : poke msg p a j = msg j := by
  simp only [poke]
  rw [if_neg (by omega)]

theorem wire_length (f : field) (v : Int) : (f.wire v).length = f.width := by
  simp [field.wire, le_bytes]


theorem le_bytes_bool (v : Int) :
    le_bytes 1 (if v ≠ 0 then 1 else 0) = [if v ≠ 0 then 1 else 0] := by
  by_cases h : v ≠ 0
  · rw [if_pos h, if_pos h]; decide
  · rw [if_neg h, if_neg h]; decide

/-- One pass of the loop of `pack` for a field. -/
theorem pack_step (f : field) (v : Int) (fmt : List Char) (args : List pack_arg)
    (msg : Nat → Nat) (p : Nat) :
    pack_loop (f.char :: fmt) (.int v :: args) msg p =
      pack_loop fmt args (poke msg p (f.wire v)) (p + f.width) := by
  cases f
  · rw [pack_loop]
    simp only [field.char, if_true, field.wire, field.width, field.norm]
    rw [le_bytes_bool]
  all_goals
    rw [pack_loop]
    simp [field.char, field.wire, field.width, field.norm]

/-- The loop of `pack` writes the wire form of the fields at `p`. -/
theorem pack_loop_fields (fs : List (field × Int)) :
    ∀ (msg : Nat → Nat) (p : Nat),
      pack_loop (fs.map fun x => x.1.char) (fs.map fun x => .int x.2) msg p =
        some (poke msg p (wire fs), p + (wire fs).length) := by
  induction fs with
  | nil =>
    intro msg p
    simp [pack_loop, wire, poke_nil]
  | cons x fs ih =>
    intro msg p
    simp only [List.map_cons]
    rw [pack_step, ih, wire, List.length_append, wire_length]
    have := poke_poke msg p (x.1.wire x.2) (wire fs)
    rw [wire_length] at this
    rw [this, Nat.add_assoc]


theorem le_bytes_one (v : Int) : le_bytes 1 v = [(v % 256).toNat] := by
  simp [le_bytes, List.range_succ]

theorem le_bytes_two (v : Int) : le_bytes 2 v = [(v % 256).toNat, (v / 256 % 256).toNat] := by
  simp [le_bytes, List.range_succ]

theorem le_bytes_four (v : Int) :
    le_bytes 4 v = [(v % 256).toNat, (v / 256 % 256).toNat, (v / 65536 % 256).toNat,
      (v / 16777216 % 256).toNat] := by
  simp [le_bytes, List.range_succ]

theorem le_value_one (v : Int) (h0 : 0 ≤ v) (h1 : v ≤ 255) : le_value (le_bytes 1 v) = v := by
  rw [le_bytes_one]
  simp only [le_value, List.foldr]
  omega

theorem le_signed_one (v : Int) (h0 : -128 ≤ v) (h1 : v ≤ 127) :
    le_signed 1 (le_bytes 1 v) = v := by
  rw [le_bytes_one]
  simp only [le_signed, le_value, List.foldr]
  norm_num
  split_ifs <;> omega

theorem le_value_two (v : Int) (h0 : 0 ≤ v) (h1 : v ≤ 65535) : le_value (le_bytes 2 v) = v := by
  rw [le_bytes_two]
  simp only [le_value, List.foldr]
  omega

theorem le_signed_two (v : Int) (h0 : -32768 ≤ v) (h1 : v ≤ 32767) :
    le_signed 2 (le_bytes 2 v) = v := by
  rw [le_bytes_two]
  simp only [le_signed, le_value, List.foldr]
  norm_num
  split_ifs <;> omega

theorem le_value_four (v : Int) (h0 : 0 ≤ v) (h1 : v ≤ 4294967295) :
    le_value (le_bytes 4 v) = v := by
  rw [le_bytes_four]
  simp only [le_value, List.foldr]
  omega

theorem le_signed_four (v : Int) (h0 : -2147483648 ≤ v) (h1 : v ≤ 2147483647) :
    le_signed 4 (le_bytes 4 v) = v := by
  rw [le_bytes_four]
  simp only [le_signed, le_value, List.foldr]
  norm_num
  split_ifs <;> omega


theorem peek_length (msg : Nat → Nat) (p n : Nat) : (peek msg p n).length = n := by
  simp [peek]

theorem peek_add (msg : Nat → Nat) (p m n : Nat) :
    peek msg p (m + n) = peek msg p m ++ peek msg (p + m) n := by
  apply List.ext_getElem
  · simp [peek]
  · intro k h1 h2
    simp only [peek, List.length_map, List.length_range] at h1
    by_cases hk : k < m
    · rw [List.getElem_append_left (by simp [peek]; exact hk)]
      simp [peek]
    · rw [List.getElem_append_right (by simp [peek]; omega)]
      simp only [peek, List.getElem_map, List.getElem_range, List.length_map, List.length_range]
      congr 1
      omega

theorem peek_one (msg : Nat → Nat) (p : Nat) : peek msg p 1 = [msg p] := by
  simp [peek, List.range_succ]

/-- One pass of the loop of `unpack` for a field that is on the wire at `p`. -/
theorem unpack_step (f : field) (v : Int) (fmt : List Char) (msg : Nat → Nat) (p : Nat)
    (out : List Int) (hfit : f.fits v) (hpeek : peek msg p f.width = f.wire v) :
    unpack_loop (f.char :: fmt) msg p out =
      unpack_loop fmt msg (p + f.width) (out ++ [f.norm v]) := by
  cases f
  · simp only [field.width, field.wire, field.norm] at hpeek ⊢
    rw [le_bytes_bool, peek_one] at hpeek
    have hm : msg p = if v ≠ 0 then 1 else 0 := by
      injection hpeek
    rw [unpack_loop]
    simp only [field.char, if_true, hm]
    by_cases h : v ≠ 0
    · simp [h]
    · simp [h]
  · simp only [field.width, field.wire, field.norm, field.fits] at hpeek hfit ⊢
    rw [unpack_loop]
    simp [field.char, hpeek, le_signed_one v hfit.1 hfit.2]
  · simp only [field.width, field.wire, field.norm, field.fits] at hpeek hfit ⊢
    rw [unpack_loop]
    simp [field.char, hpeek, le_value_one v hfit.1 hfit.2]
  · simp only [field.width, field.wire, field.norm, field.fits] at hpeek hfit ⊢
    rw [unpack_loop]
    simp [field.char, hpeek, le_signed_two v hfit.1 hfit.2]
  · simp only [field.width, field.wire, field.norm, field.fits] at hpeek hfit ⊢
    rw [unpack_loop]
    simp [field.char, hpeek, le_value_two v hfit.1 hfit.2]
  · simp only [field.width, field.wire, field.norm, field.fits] at hpeek hfit ⊢
    rw [unpack_loop]
    simp [field.char, hpeek, le_signed_four v hfit.1 hfit.2]
  · simp only [field.width, field.wire, field.norm, field.fits] at hpeek hfit ⊢
    rw [unpack_loop]
    simp [field.char, hpeek, le_value_four v hfit.1 hfit.2]

/-- The loop of `unpack` reads back the fields that are on the wire at `p`. -/
theorem unpack_loop_fields (fs : List (field × Int)) :
    ∀ (msg : Nat → Nat) (p : Nat) (out : List Int),
      (∀ x ∈ fs, x.1.fits x.2) → peek msg p (wire fs).length = wire fs →
      unpack_loop (fs.map fun x => x.1.char) msg p out =
        (out ++ fs.map fun x => x.1.norm x.2, p + (wire fs).length) := by
  induction fs with
  | nil =>
    intro msg p out _ _
    simp [unpack_loop, wire]
  | cons x fs ih =>
    intro msg p out hfit hpeek
    rw [wire, List.length_append, peek_add] at hpeek
    have hlen : (peek msg p (x.1.wire x.2).length).length = (x.1.wire x.2).length :=
      peek_length _ _ _
    obtain ⟨h1, h2⟩ := List.append_inj hpeek hlen
    rw [wire_length] at h1 h2
    simp only [List.map_cons]
    rw [unpack_step x.1 x.2 _ msg p out (hfit x (List.mem_cons_self x fs)) h1,
      ih msg (p + x.1.width) _ (fun y hy => hfit y (List.mem_cons_of_mem x hy)) h2]
    rw [wire, List.length_append, wire_length, Nat.add_assoc, List.append_assoc]
    rfl


theorem wire_length_sum (fs : List (field × Int)) :
    (wire fs).length = (fs.map fun x => x.1.width).sum := by
  induction fs with
  | nil => rfl
  | cons x fs ih => simp [wire, wire_length, ih]

set_option maxRecDepth 100000 in
/-- Counterexample to C19 as stated: `msg` has `MAXPACK = 60` bytes, and for
the format of 61 `C` the loop of `pack` writes the byte at offset 60, behind the
array; for the format of 256 `C` the result, a `uint8_t`, is 0 and not the
total length 256. -/
theorem pack_overruns_msg :
    MAXPACK = 60 ∧
    ((pack (List.replicate 61 'C') (List.replicate 61 (.int 1)) (fun _ => 0)).map
      fun r => r.1 60) = some 1 ∧
    ((pack (List.replicate 256 'C') (List.replicate 256 (.int 1)) (fun _ => 0)).map
      fun r => r.2) = some 0 := by
  decide

/-- C19, amended: `pack` and `unpack` are inverse on packets that fit `msg`. For
every list of fields of the kinds `b, c, C, w, W, l, L` with matching values
whose widths 1, 1, 1, 2, 2, 4, 4 add up to `n ≤ MAXPACK`, `pack` with their
format and values writes the fields in order, each with the least significant
byte first, to `msg[0 .. n-1]`, changes no other byte and returns `n`; `unpack`
with the same format and the length `n` then returns true and yields the values
(a `b` as 0 or 1), and with any other length it returns false. -/
theorem pack_unpack_roundtrip (fs : List (field × Int)) (msg : Nat → Nat)
    (hfit : ∀ x ∈ fs, x.1.fits x.2) (hlen : (wire fs).length ≤ MAXPACK) :
    (wire fs).length = (fs.map fun x => x.1.width).sum ∧
    ∃ msg2 : Nat → Nat,
      pack (fs.map fun x => x.1.char) (fs.map fun x => .int x.2) msg =
        some (msg2, (wire fs).length) ∧
      peek msg2 0 (wire fs).length = wire fs ∧
      (∀ j, (wire fs).length ≤ j → msg2 j = msg j) ∧
      unpack (wire fs).length (fs.map fun x => x.1.char) msg2 =
        (true, fs.map fun x => x.1.norm x.2) ∧
      ∀ len, len ≠ (wire fs).length →
        (unpack len (fs.map fun x => x.1.char) msg2).1 = false := by
  refine ⟨wire_length_sum fs, poke msg 0 (wire fs), ?_, peek_poke msg 0 (wire fs), ?_, ?_, ?_⟩
  · unfold pack
    rw [pack_loop_fields]
    simp only [Option.map_some', Nat.zero_add]
    rw [Nat.mod_eq_of_lt (by unfold MAXPACK at hlen; omega)]
  · intro j hj
    exact poke_above msg 0 (wire fs) j (by omega)
  · unfold unpack
    rw [unpack_loop_fields fs _ 0 [] hfit (peek_poke msg 0 (wire fs))]
    simp
  · intro len hne
    unfold unpack
    rw [unpack_loop_fields fs _ 0 [] hfit (peek_poke msg 0 (wire fs))]
    simp only [Nat.zero_add, decide_eq_false_iff_not]
    exact fun h => hne h.symm

/-- Witness of C19: the reply to `PING`, format `Www`, with 3300 mV, -70 dBm
and 25 degrees. -/
theorem pack_unpack_roundtrip_witness :
    ((∀ x ∈ [(field.W, (3300 : Int)), (field.w, -70), (field.w, 25)], x.1.fits x.2) ∧
      (wire [(field.W, (3300 : Int)), (field.w, -70), (field.w, 25)]).length ≤ MAXPACK) ∧
    (wire [(field.W, (3300 : Int)), (field.w, -70), (field.w, 25)]).length = 6 ∧
    wire [(field.W, (3300 : Int)), (field.w, -70), (field.w, 25)] =
      [0xE4, 0x0C, 0xBA, 0xFF, 0x19, 0x00] :=
  ⟨⟨by decide, by decide⟩,
   (pack_unpack_roundtrip [(field.W, (3300 : Int)), (field.w, -70), (field.w, 25)] (fun _ => 0)
      (by decide) (by decide)).1.trans (by decide),
   by decide⟩


/-! ## Packet handler: replies -/

theorem sent_append (a b : List hnd_call) : sent (a ++ b) = sent a ++ sent b := by
  simp [sent, List.filterMap_append]

theorem take_min_length (l : List Nat) (n : Nat) : l.take (min l.length n) = l.take n := by
  by_cases h : l.length ≤ n
  · rw [Nat.min_eq_left h, List.take_of_length_le (le_refl _), List.take_of_length_le h]
  · rw [Nat.min_eq_right (by omega)]

/-- The test for the sleep token in `hnd_handle` holds exactly for the packet
`slp`. -/
theorem sleep_test (packet : List Nat) (s : Hnd) :
    ((rf_receive packet s).1 = 4 ∧ peek (rf_receive packet s).2.msg 0 4 = slp) ↔
      packet = slp := by
  unfold rf_receive
  dsimp only
  constructor
  · rintro ⟨h1, h2⟩
    have hl : packet.length = 4 := by
      unfold MAXPACK at h1
      omega
    rw [h1] at h2
    have : packet.take 4 = packet := List.take_of_length_le (by omega)
    rw [this] at h2
    have := peek_poke s.msg 0 packet
    rw [hl] at this
    rw [this] at h2
    exact h2
  · intro h
    subst h
    refine ⟨by decide, ?_⟩
    have : (min slp.length MAXPACK) = slp.length := by decide
    rw [this, List.take_of_length_le (le_refl _)]
    exact peek_poke s.msg 0 slp


theorem sent_call (s : Hnd) (c : hnd_call) (h : ∀ d p, c ≠ .rf_sendto d p) :
    sent (s.call c).calls = sent s.calls := by
  unfold Hnd.call
  rw [sent_append]
  cases c <;> simp [sent] at h ⊢

theorem sleep_loop_sent (env : hnd_env) :
    ∀ (wake : List (Nat × List Nat)) (s : Hnd) (r : Nat × Nat × Hnd),
      sleep_loop env wake s = some r →
      sent r.2.2.calls = sent s.calls ∧ ∃ x ∈ wake, x.1 = r.1 := by
  intro wake
  induction wake with
  | nil => intro s r h; simp [sleep_loop] at h
  | cons x rest ih =>
    intro s r h
    obtain ⟨rcpt, packet⟩ := x
    rw [sleep_loop] at h
    have hs : sent (rf_receive packet (s.call (.rf_listen env.listen 100))).2.calls
        = sent s.calls := by
      unfold rf_receive
      exact sent_call s _ (by intro d p hh; cases hh)
    split_ifs at h
    · obtain ⟨h1, y, hy, hy2⟩ := ih _ r h
      exact ⟨by rw [h1, hs], y, List.mem_cons_of_mem _ hy, hy2⟩
    · injection h with h
      subst h
      exact ⟨hs, (rcpt, packet), List.mem_cons_self _ _, rfl⟩

theorem blink_sent : ∀ (n : Nat) (s : Hnd), sent (blink n s).calls = sent s.calls := by
  intro n
  induction n with
  | zero => intro s; rfl
  | succ n ih =>
    intro s
    rw [blink, ih, sent_call _ _ (by intro d p hh; cases hh),
      sent_call _ _ (by intro d p hh; cases hh)]

/-- While the node sleeps it sends nothing if every packet that arrives is a
broadcast. -/
theorem sleep_listen_sent (env : hnd_env) (s : Hnd) (r : Bool × Hnd)
    (h : sleep_listen env s = some r) (hw : ∀ x ∈ env.wake, x.1 = 0xFF) :
    sent r.2.calls = sent s.calls := by
  unfold sleep_listen at h
  dsimp only at h
  cases hl : sleep_loop env env.wake
      (((((s.call .sc_stop).call (.tot_delay 100)).call (.led_enable false)).call
        (.ui_led false)).call .sys_hsi) with
  | none => rw [hl] at h; cases h
  | some x =>
    rw [hl] at h
    obtain ⟨rcpt, length, s2⟩ := x
    obtain ⟨k1, y, hy, hy2⟩ := sleep_loop_sent env _ _ _ hl
    have hr : rcpt = 0xFF := by
      have := hw y hy
      rw [hy2] at this
      exact this
    dsimp only at h k1
    have hn : ¬ rcpt ≠ 0xFF := by simp [hr]
    rw [if_neg hn] at h
    injection h with h
    subst h
    rw [sent_call _ _ (by intro d p hh; cases hh), sent_call _ _ (by intro d p hh; cases hh),
      sent_call _ _ (by intro d p hh; cases hh), sent_call _ _ (by intro d p hh; cases hh), k1,
      sent_call _ _ (by intro d p hh; cases hh), sent_call _ _ (by intro d p hh; cases hh),
      sent_call _ _ (by intro d p hh; cases hh), sent_call _ _ (by intro d p hh; cases hh),
      sent_call _ _ (by intro d p hh; cases hh)]

set_option maxRecDepth 100000 in
/-- C18 fails on the code: the packet `PAUSE` with the destination byte 0xFF
makes node 7 call `sc_pause()` and send the empty acknowledgement, although the
branch for the sleep token in the same function sends its acknowledgement only
`if (rcpt != 0xFF)`. -/
theorem hnd_broadcast_acknowledged :
    broadcast_pause.rcpt = 0xFF ∧
    (hnd_handle broadcast_pause hnd_init).map (fun r => (r.1, r.2.calls)) =
      some (true, [.sc_play, .sc_pause, .rf_sendto 7 []]) := by
  decide

/-- What the destination byte changes in `hnd_handle`: only the sleep token
(and the wake burst) is not answered when it is broadcast. For a received
packet other than the sleep token
`hnd_handle` does the same whatever the destination byte is, so a broadcast
command is acknowledged like a unicast one. For the sleep token with the
destination byte 0xFF `hnd_handle` goes to `sleep_listen` without an
acknowledgement, with another destination byte it sends the empty
acknowledgement first; and if all packets that arrive while the node sleeps are
broadcasts, the whole call sends nothing. -/
theorem hnd_reply_destination (env : hnd_env) (s : Hnd) :
    (env.packet ≠ slp → ∀ a b : Nat,
      hnd_handle { env with rcpt := a } s = hnd_handle { env with rcpt := b } s) ∧
    (env.packet = slp → env.received = true →
      (env.rcpt = 0xFF →
        hnd_handle env s = sleep_listen env (rf_receive slp (s.call .sc_play)).2) ∧
      (env.rcpt ≠ 0xFF →
        hnd_handle env s =
          sleep_listen env (sndack env 0 (rf_receive slp (s.call .sc_play)).2)) ∧
      (env.rcpt = 0xFF → (∀ x ∈ env.wake, x.1 = 0xFF) →
        ∀ r, hnd_handle env s = some r → sent r.2.calls = sent s.calls)) := by
  constructor
  · intro hp a b
    have hc := fun s2 : Hnd => (not_congr (sleep_test env.packet s2)).2 hp
    unfold hnd_handle
    dsimp only
    by_cases hr : (!env.received) = true
    · rw [if_pos hr, if_pos hr]
    · rw [if_neg hr, if_neg hr, if_neg (hc _), if_neg (hc _)]
      rfl
  · intro hp hr
    have hc := fun s2 : Hnd => (sleep_test env.packet s2).2 hp
    have hnr : ¬ (!env.received) = true := by simp [hr]
    have hh : hnd_handle env s = sleep_listen env
        (if env.rcpt ≠ 0xFF then sndack env 0 (rf_receive env.packet (s.call .sc_play)).2
         else (rf_receive env.packet (s.call .sc_play)).2) := by
      unfold hnd_handle
      dsimp only
      rw [if_neg hnr, if_pos (hc _)]
    rw [hp] at hh
    refine ⟨fun h1 => ?_, fun h1 => ?_, fun h1 hw r hres => ?_⟩
    · rw [hh, if_neg (by simp [h1])]
    · rw [hh, if_pos h1]
    · rw [hh, if_neg (by simp [h1])] at hres
      rw [sleep_listen_sent env _ r hres hw]
      unfold rf_receive
      exact sent_call s _ (by intro d p hx; cases hx)

set_option maxRecDepth 100000 in
/-- The `PAUSE` packet is not the sleep token, and node 7 answers it alike as a
broadcast and as a packet to itself. -/
theorem hnd_reply_destination_witness :
    broadcast_pause.packet ≠ slp ∧
    hnd_handle { broadcast_pause with rcpt := 0xFF } hnd_init =
      hnd_handle { broadcast_pause with rcpt := 7 } hnd_init :=
  ⟨by decide, (hnd_reply_destination broadcast_pause hnd_init).1 (by decide) 0xFF 7⟩


/-! ## Packet handler: TPM2 chunks -/

theorem pack_bang (s : Hnd) :
    pack_msg "!" [.int HND_TPM2] s = (1, { s with msg := poke s.msg 0 [0xDA] }) := by
  have h : pack "!".toList [.int HND_TPM2] s.msg = some (poke s.msg 0 [0xDA], 1) := by
    have hl : "!".toList = ['!'] := by decide
    rw [hl]
    simp only [pack, pack_loop]
    have hb : le_bytes 1 HND_TPM2 = [0xDA] := by decide
    simp [hb]
  unfold pack_msg
  rw [h]

theorem getD_tail (replies : List (Option (List Nat))) (k : Nat) :
    replies.tail.getD k none = replies.getD (k + 1) none := by
  cases replies with
  | nil => simp
  | cons a t => simp

theorem headD_getD (replies : List (Option (List Nat))) :
    replies.headD none = replies.getD 0 none := by
  cases replies with
  | nil => simp
  | cons a t => simp

/-- One pass of the loop of `hnd_tpm2`: a packet with the command byte and up
to 59 bytes is sent; then the loop goes on, or ends with true, if the reply is
the empty acknowledgement, and ends with false otherwise. -/
theorem tpm2_pass (id : Nat) (buf : Nat → Nat) (fuel bp L : Nat)
    (replies : List (Option (List Nat))) (s : Hnd) :
    ∃ s1 : Hnd,
      sent s1.calls = sent s.calls ++ [(id, HND_TPM2 :: peek buf bp (min 59 L))] ∧
      (replies.getD 0 none = some [] →
        hnd_tpm2_loop id buf (fuel + 1) bp L replies s =
          if L - min 59 L ≠ 0 then
            hnd_tpm2_loop id buf fuel (bp + min 59 L) (L - min 59 L) replies.tail s1
          else (some true, s1)) ∧
      (replies.getD 0 none ≠ some [] →
        (hnd_tpm2_loop id buf (fuel + 1) bp L replies s).1 = some false ∧
        sent (hnd_tpm2_loop id buf (fuel + 1) bp L replies s).2.calls =
          sent s.calls ++ [(id, HND_TPM2 :: peek buf bp (min 59 L))]) := by
  have hchunk : (if (MAXPACK - 1) % 256 > L then L else (MAXPACK - 1) % 256) = min 59 L := by
    unfold MAXPACK
    split_ifs <;> omega
  have hl : (1 + min 59 L) % 256 = 1 + min 59 L := Nat.mod_eq_of_lt (by omega)
  have hmin : min (1 + min 59 L) MAXPACK = 1 + min 59 L := by unfold MAXPACK; omega
  have hmsg : peek (poke (poke s.msg 0 [0xDA]) 1 (peek buf bp (min 59 L))) 0 (1 + min 59 L)
      = HND_TPM2 :: peek buf bp (min 59 L) := by
    have h1 := poke_poke s.msg 0 [0xDA] (peek buf bp (min 59 L))
    simp only [List.length_singleton, Nat.zero_add] at h1
    rw [h1]
    have h2 := peek_poke s.msg 0 ([0xDA] ++ peek buf bp (min 59 L))
    simp only [List.length_append, List.length_singleton, peek_length] at h2
    rw [h2]
    rfl
  have hsent : ∀ s2 : Hnd, s2.calls = s.calls →
      s2.msg = poke (poke s.msg 0 [0xDA]) 1 (peek buf bp (min 59 L)) →
      sent (rf_sendto id (1 + min 59 L) s2).calls =
        sent s.calls ++ [(id, HND_TPM2 :: peek buf bp (min 59 L))] := by
    intro s2 hc hm
    unfold rf_sendto Hnd.call
    rw [sent_append, hc, hm, hmin, hmsg]
    rfl
  have hs1 := hsent { s with msg := poke (poke s.msg 0 [0xDA]) 1 (peek buf bp (min 59 L)) }
    rfl rfl
  rw [hnd_tpm2_loop]
  simp only [pack_bang, hchunk, hl]
  cases hr : replies.getD 0 none with
  | none =>
    refine ⟨rf_sendto id (1 + min 59 L)
      { s with msg := poke (poke s.msg 0 [0xDA]) 1 (peek buf bp (min 59 L)) }, hs1,
      fun h => (by cases h), fun _ => ?_⟩
    rw [headD_getD, hr]
    simp only [rcvack, Bool.not_false, Bool.true_or, if_true]
    exact ⟨trivial, hs1⟩
  | some payload =>
    cases payload with
    | nil =>
      refine ⟨(rf_receive [] (rf_sendto id (1 + min 59 L)
        { s with msg := poke (poke s.msg 0 [0xDA]) 1 (peek buf bp (min 59 L)) })).2, hs1,
        fun _ => ?_, fun h => absurd rfl h⟩
      rw [headD_getD, hr]
      simp [rcvack, rf_receive, unpack, unpack_loop]
    | cons x t =>
      refine ⟨rf_sendto id (1 + min 59 L)
        { s with msg := poke (poke s.msg 0 [0xDA]) 1 (peek buf bp (min 59 L)) }, hs1,
        fun h => (by cases h), fun _ => ?_⟩
      rw [headD_getD, hr]
      have hlen : ¬ 0 = min (x :: t).length MAXPACK := by
        unfold MAXPACK
        simp only [List.length_cons]
        omega
      simp only [rcvack, rf_receive, unpack, unpack_loop, hlen, decide_False, Bool.not_true,
        Bool.not_false, Bool.or_true, Bool.false_or, if_true]
      exact ⟨trivial, hs1⟩


theorem tpm2_packets_pos (L : Nat) : 1 ≤ tpm2_packets L := by
  unfold tpm2_packets
  split_ifs <;> omega

theorem tpm2_packets_small (L : Nat) (h : L ≤ 59) : tpm2_packets L = 1 := by
  unfold tpm2_packets
  split_ifs <;> omega

theorem tpm2_packets_step (L : Nat) (h : 59 < L) :
    tpm2_packets L = tpm2_packets (L - 59) + 1 := by
  unfold tpm2_packets
  split_ifs <;> omega

/-- The loop of `hnd_tpm2` when every packet is acknowledged. -/
theorem tpm2_all_acked (id : Nat) (buf : Nat → Nat) :
    ∀ (fuel bp L : Nat) (replies : List (Option (List Nat))) (s : Hnd),
      tpm2_packets L ≤ fuel →
      (∀ k, k < tpm2_packets L → replies.getD k none = some []) →
      (hnd_tpm2_loop id buf fuel bp L replies s).1 = some true ∧
      ∃ chunks : List (List Nat),
        sent (hnd_tpm2_loop id buf fuel bp L replies s).2.calls =
          sent s.calls ++ chunks.map (fun c => (id, HND_TPM2 :: c)) ∧
        chunks.length = tpm2_packets L ∧ (∀ c ∈ chunks, c.length ≤ 59) ∧
        chunks.flatten = peek buf bp L := by
  intro fuel
  induction fuel with
  | zero =>
    intro bp L replies s hf
    have := tpm2_packets_pos L
    omega
  | succ fuel ih =>
    intro bp L replies s hf hr
    obtain ⟨s1, h1, h2, -⟩ := tpm2_pass id buf fuel bp L replies s
    rw [h2 (hr 0 (tpm2_packets_pos L))]
    by_cases hL : 59 < L
    · have hm : min 59 L = 59 := by omega
      rw [hm] at h1 ⊢
      rw [if_pos (by omega)]
      have hstep := tpm2_packets_step L hL
      obtain ⟨r1, chunks, r2, r3, r4, r5⟩ := ih (bp + 59) (L - 59) replies.tail s1 (by omega)
        (fun k hk => by rw [getD_tail]; exact hr (k + 1) (by omega))
      refine ⟨r1, peek buf bp 59 :: chunks, ?_, ?_, ?_, ?_⟩
      · rw [r2, h1]
        simp
      · simp [r3, hstep]
      · intro c hc
        rcases List.mem_cons.1 hc with h | h
        · rw [h, peek_length]
        · exact r4 c h
      · rw [List.flatten_cons, r5, ← peek_add]
        congr 1
        omega
    · have hm : min 59 L = L := by omega
      rw [hm] at h1 ⊢
      rw [if_neg (by omega)]
      refine ⟨rfl, [peek buf bp L], ?_, ?_, ?_, ?_⟩
      · rw [h1]
        rfl
      · simp [tpm2_packets_small L (by omega)]
      · intro c hc
        rw [List.mem_singleton.1 hc, peek_length]
        omega
      · simp

/-- The loop of `hnd_tpm2` when the acknowledgement of packet `k` is the first
that is missing. -/
theorem tpm2_missing_ack (id : Nat) (buf : Nat → Nat) :
    ∀ (fuel bp L : Nat) (replies : List (Option (List Nat))) (s : Hnd) (k : Nat),
      k < tpm2_packets L → tpm2_packets L ≤ fuel →
      (∀ j, j < k → replies.getD j none = some []) → replies.getD k none ≠ some [] →
      (hnd_tpm2_loop id buf fuel bp L replies s).1 = some false ∧
      ∃ chunks : List (List Nat),
        sent (hnd_tpm2_loop id buf fuel bp L replies s).2.calls =
          sent s.calls ++ chunks.map (fun c => (id, HND_TPM2 :: c)) ∧
        chunks.length = k + 1 ∧ chunks.flatten <+: peek buf bp L := by
  intro fuel
  induction fuel with
  | zero =>
    intro bp L replies s k _ hf
    have := tpm2_packets_pos L
    omega
  | succ fuel ih =>
    intro bp L replies s k hk hf hgood hbad
    obtain ⟨s1, h1, h2, h3⟩ := tpm2_pass id buf fuel bp L replies s
    cases k with
    | zero =>
      obtain ⟨g1, g2⟩ := h3 hbad
      refine ⟨g1, [peek buf bp (min 59 L)], ?_, rfl, ?_⟩
      · rw [g2]
        rfl
      · have : peek buf bp L = peek buf bp (min 59 L) ++ peek buf (bp + min 59 L) (L - min 59 L)
            := by
          rw [← peek_add]
          congr 1
          omega
        rw [this]
        simp
    | succ k =>
      have hL : 59 < L := by
        by_contra hcon
        rw [tpm2_packets_small L (by omega)] at hk
        omega
      have hm : min 59 L = 59 := by omega
      rw [h2 (hgood 0 (by omega))]
      rw [hm] at h1 ⊢
      rw [if_pos (by omega)]
      have hstep := tpm2_packets_step L hL
      obtain ⟨r1, chunks, r2, r3, r4⟩ := ih (bp + 59) (L - 59) replies.tail s1 k (by omega)
        (by omega) (fun j hj => by rw [getD_tail]; exact hgood (j + 1) (by omega))
        (by rw [getD_tail]; exact hbad)
      refine ⟨r1, peek buf bp 59 :: chunks, ?_, ?_, ?_⟩
      · rw [r2, h1]
        simp
      · simp [r3]
      · have : peek buf bp L = peek buf bp 59 ++ peek buf (bp + 59) (L - 59) := by
          rw [← peek_add]
          congr 1
          omega
        rw [this, List.flatten_cons]
        exact (List.prefix_append_right_inj _).2 r4

/-- C20: `hnd_tpm2(id, buf, L)` sends the `L` bytes in chunks. When every
packet is answered by the empty acknowledgement, it returns true after
`ceil(L/59)` packets (one packet for `L = 0`) to `id`, each made of the command
byte 0xDA and a chunk of at most `MAXPACK - 1 = 59` bytes, and the chunks one
after the other are `buf[0 .. L-1]`. When the acknowledgement of packet `k` is
the first that is missing (no reply from `id` in time, or a reply with a
payload), it returns false after the packets 0 to `k`, whose chunks are the
first bytes of `buf`. The loop ends by its own condition in both cases. -/
theorem hnd_tpm2_chunks (id : Nat) (buf : Nat → Nat) (L : Nat)
    (replies : List (Option (List Nat))) (s : Hnd) :
    ((∀ k, k < tpm2_packets L → replies.getD k none = some []) →
      (hnd_tpm2 id buf L replies s).1 = some true ∧
      ∃ chunks : List (List Nat),
        sent (hnd_tpm2 id buf L replies s).2.calls =
          sent s.calls ++ chunks.map (fun c => (id, HND_TPM2 :: c)) ∧
        chunks.length = tpm2_packets L ∧ (∀ c ∈ chunks, c.length ≤ MAXPACK - 1) ∧
        chunks.flatten = peek buf 0 L) ∧
    (∀ k, k < tpm2_packets L → (∀ j, j < k → replies.getD j none = some []) →
      replies.getD k none ≠ some [] →
      (hnd_tpm2 id buf L replies s).1 = some false ∧
      ∃ chunks : List (List Nat),
        sent (hnd_tpm2 id buf L replies s).2.calls =
          sent s.calls ++ chunks.map (fun c => (id, HND_TPM2 :: c)) ∧
        chunks.length = k + 1 ∧ chunks.flatten <+: peek buf 0 L) := by
  have hfuel : tpm2_packets L ≤ L + 1 := by
    unfold tpm2_packets
    split_ifs <;> omega
  constructor
  · intro h
    exact tpm2_all_acked id buf (L + 1) 0 L replies s hfuel h
  · intro k hk hgood hbad
    exact tpm2_missing_ack id buf (L + 1) 0 L replies s k hk hfuel hgood hbad

set_option maxRecDepth 100000 in
/-- Witness of C20: 100 bytes with two acknowledgements make two packets. -/
theorem hnd_tpm2_chunks_witness :
    (∀ k, k < tpm2_packets 100 → [some [], some ([] : List Nat)].getD k none = some []) ∧
    (hnd_tpm2 9 (fun k => k % 256) 100 [some [], some []] hnd_init).1 = some true ∧
    tpm2_packets 100 = 2 :=
  ⟨by decide,
   ((hnd_tpm2_chunks 9 (fun k => k % 256) 100 [some [], some []] hnd_init).1 (by decide)).1,
   by decide⟩



/-! ## Radio driver: bandwidth, bit rate and listen registers -/

theorem mant_bit (x : Nat) : (((x &&& 0xFFFFFFF7) <<< 1) % 256).testBit 4 = false := by
  have h := Nat.testBit_mod_two_pow ((x &&& 0xFFFFFFF7) <<< 1) 8 4
  have e : (2 : Nat) ^ 8 = 256 := by norm_num
  rw [e] at h
  rw [h, Nat.testBit_shiftLeft, Nat.testBit_and]
  have h1 : Nat.testBit 0xFFFFFFF7 (4 - 1) = false := by decide
  rw [h1]
  simp

/-- C23: the bandwidth flags of the default configuration. For the default
`rxbw = 10400` the function `rf_rxbw` writes 0x45 to `RegRxBw`: the DC
canceller bits 0x40, the mantissa bits `RxBw_RxBwMant_16` and the exponent 5,
which encodes `32 MHz / (16 * 2^7) = 15625 Hz` and not `32 MHz / (24 * 2^7) =
10416 Hz`; `div` is 24 there, and `(div & ~0x08) << 1` clears the bit that
tells 24 from 16. For the default `afcbw = 15600` the value written to
`RegAfcBw` is 0x45 as well, mantissa 16 and exponent 5. For no bandwidth at
all does `bwflags` set bit 4, the bit of `RxBw_RxBwMant_24`. -/
theorem bwflags_default_rxbw :
    config_init.rf.rxbw = 10400 ∧ config_init.rf.afcbw = 15600 ∧
    rf_rxbw 10400 = [.write RegRxBw 0x45] ∧
    0x45 &&& RxBw_RxBwMant = RxBw_RxBwMant_16 ∧ 0x45 &&& RxBw_RxBwExp = 5 ∧
    RF_XTAL / (16 * 2 ^ (5 + 2)) = 15625 ∧ RF_XTAL / (24 * 2 ^ (5 + 2)) = 10416 ∧
    rf_afcbw 15600 = [.write RegAfcBw 0x45] ∧
    (bwflags_loop 16 (RF_XTAL / 4 / 10400) 0).1 <<< 1 = 24 ∧
    ∀ bandwidth, (bwflags bandwidth).testBit 4 = false := by
  refine ⟨by decide, by decide, by decide, by decide, by decide, by decide, by decide,
    by decide, by decide, ?_⟩
  intro bandwidth
  unfold bwflags RxBw_RxBwExp_X RxBw_RxBwMant RxBw_RxBwExp
  dsimp only
  have h2 : Nat.testBit 0x07 4 = false := by decide
  rw [Nat.testBit_or, Nat.testBit_and, Nat.testBit_and, mant_bit, h2]
  simp

/-- C24: `sys_uid` hashes six of the twelve bytes. The loop increments `i` in
`data[i++]` and again in its header, so for every serial the result is the
one-at-a-time hash of the bytes 0, 2, 4, 6, 8 and 10 of `data` only. The
serials in which only `U_ID0` differs, 0x0100 against 0, get the same
identifier 0, whereas the hash of their twelve bytes differs. -/
theorem sys_uid_skips_bytes :
    (∀ U_ID0 U_ID1 U_ID23 U_ID45 : Nat,
      sys_uid U_ID0 U_ID1 U_ID23 U_ID45 =
        jenkins [(U_ID0 >>> 0) % 256, (U_ID1 >>> 0) % 256, (U_ID23 >>> 0) % 256,
          (U_ID23 >>> 16) % 256, (U_ID45 >>> 0) % 256, (U_ID45 >>> 16) % 256]) ∧
    sys_uid 0x0100 0 0 0 = 0 ∧ sys_uid 0 0 0 0 = 0 ∧
    jenkins (uid_data 0x0100 0 0 0) = 2892441575 ∧
    jenkins (uid_data 0 0 0 0) = 0 := by
  refine ⟨fun _ _ _ _ => rfl, by decide, by decide, by decide, by decide⟩


set_option maxRecDepth 1000000 in
/-- C27: the bit rate is stored in 16 bits. The index file `rf { bitrate:
65536; }` is accepted by `parse()`, which calls `rf_configure()`, but
`config.rf.bitrate`, a `uint16_t`, is 0 then, and `rf_bitrate(0)` divides
`RF_XTAL` by zero. For `bitrate: 100000;` the member is 34464 and the bit-rate
registers get `RF_XTAL / 34464 = 928` (0x03, 0xA0) and not
`RF_XTAL / 100000 = 320`. The default 4800 gives 0x1A0A = `RF_XTAL / 4800`.
(`MAXBUFF`, here 1500, is not looked at by these files.) -/
theorem bitrate_truncated :
    (parse 1500 (world_init bitrate_text)).1 = true ∧
    (parse 1500 (world_init bitrate_text)).2.calls = [.rf_configure] ∧
    (parse 1500 (world_init bitrate_text)).2.config.rf.bitrate = 0 ∧
    rf_bitrate (parse 1500 (world_init bitrate_text)).2.config.rf.bitrate = none ∧
    (parse 1500 (world_init bitrate_text2)).1 = true ∧
    (parse 1500 (world_init bitrate_text2)).2.config.rf.bitrate = 34464 ∧
    rf_bitrate (parse 1500 (world_init bitrate_text2)).2.config.rf.bitrate =
      some [.write RegBitrateMsb 0x03, .write RegBitrateLsb 0xA0] ∧
    RF_XTAL / 100000 = 320 ∧
    rf_bitrate config_init.rf.bitrate =
      some [.write RegBitrateMsb 0x1A, .write RegBitrateLsb 0x0A] ∧
    RF_XTAL / 4800 = 0x1A0A := by
  decide

/-- C28 fails on the code: the coefficient does not fit the `uint8_t` for
every period the `listen` statement accepts. For an idle period of 1 to
20000 ms `rf_listen` writes `idle * 16` for up to 15 ms, `idle / 4` for 17 to
1023 ms and `idle / 262` from 1050 ms on, each in 1 to 255; but for 16 ms it
writes 0 instead of 256, and for 1024 to 1049 ms it writes `idle / 4 - 256`,
that is 0 to 6, instead of 256 to 262. -/
theorem listen_idle_truncated (idle rx : Nat) (h1 : 1 ≤ idle) (h2 : idle ≤ 20000)
    (hrx : rx ≠ 0) :
    rf_listen idle rx =
      [.chmode OpMode_Mode_Stdby,
       .write RegListen1 (Listen1_ListenCriteria_Sync ||| Listen1_ListenEnd_Resume |||
         (listen_idle idle).1 ||| (listen_rx rx).1),
       .write RegListen2 (listen_idle idle).2, .write RegListen3 (listen_rx rx).2,
       .exti_enable, .afcreset, .write RegOpMode (OpMode_Mode_Stdby ||| OpMode_ListenOn)] ∧
    (idle ≤ 15 → listen_idle idle = (Listen1_ListenResolIdle_64us, idle * 16) ∧
      1 ≤ idle * 16 ∧ idle * 16 ≤ 255) ∧
    (idle = 16 → listen_idle idle = (Listen1_ListenResolIdle_64us, 0) ∧ idle * 16 = 256) ∧
    (17 ≤ idle → idle < 1024 → listen_idle idle = (Listen1_ListenResolIdle_4ms, idle / 4) ∧
      1 ≤ idle / 4 ∧ idle / 4 ≤ 255) ∧
    (1024 ≤ idle → idle < 1050 →
      listen_idle idle = (Listen1_ListenResolIdle_4ms, idle / 4 - 256) ∧
      256 ≤ idle / 4 ∧ idle / 4 - 256 ≤ 6) ∧
    (1050 ≤ idle → listen_idle idle = (Listen1_ListenResolIdle_262ms, idle / 262) ∧
      1 ≤ idle / 262 ∧ idle / 262 ≤ 255) := by
  refine ⟨?_, fun c => ⟨?_, by omega, by omega⟩, fun c => ⟨?_, by omega⟩,
    fun c c2 => ⟨?_, by omega, by omega⟩, fun c c2 => ⟨?_, by omega, by omega⟩,
    fun c => ⟨?_, by omega, by omega⟩⟩
  · unfold rf_listen
    rw [if_neg (by omega)]
  · unfold listen_idle
    rw [if_pos (by omega)]
    dsimp only
    rw [if_neg (by omega), Nat.mod_eq_of_lt (by omega)]
  · subst c
    rfl
  · unfold listen_idle
    rw [if_neg (by omega), if_pos (by omega), Nat.mod_eq_of_lt (by omega)]
  · unfold listen_idle
    rw [if_neg (by omega), if_pos (by omega),
      show idle / 4 % 256 = idle / 4 - 256 by omega]
  · unfold listen_idle
    rw [if_neg (by omega), if_neg (by omega), Nat.mod_eq_of_lt (by omega)]

/-- The statement `listen: 16;`: `rf_listen(16, 100)`, as `sleep_listen` calls
it, writes the idle coefficient 0 to `RegListen2`. -/
theorem listen_idle_truncated_witness :
    rf_listen 16 100 =
      [.chmode OpMode_Mode_Stdby, .write RegListen1 0x6C, .write RegListen2 0,
       .write RegListen3 25, .exti_enable, .afcreset, .write RegOpMode 0x44] ∧
    listen_idle 16 = (Listen1_ListenResolIdle_64us, 0) :=
  ⟨(listen_idle_truncated 16 100 (by decide) (by decide) (by decide)).1.trans (by decide),
   ((listen_idle_truncated 16 100 (by decide) (by decide) (by decide)).2.2.1 rfl).1⟩


/-! ## Scene engine: the end of a scene -/

set_option maxRecDepth 1000000 in
/-- Counterexample to C26 as stated: scene 3 of the example configuration,
`pause: 500; dim: & rgb(255,0,0);`, is started and played after the pause has
ended. The first `sc_play()` fetches the `dim` statement, the second ends it
and reaches the closing brace: no position is left and no command is active.
The third `sc_play()` returns true all the same, and so does every later
one. -/
theorem sc_play_end_of_scene :
    example_started.pos = 102 ∧ example_started.command = pause_command ∧
    (sc_play 1500 play_env_free example_started).1 = true ∧
    (sc_play 1500 play_env_free example_started).2.command = dim_command ∧
    (sc_play 1500 play_env_free (sc_play 1500 play_env_free example_started).2).1 = true ∧
    (sc_play 1500 play_env_free (sc_play 1500 play_env_free example_started).2).2.pos = 0 ∧
    (sc_play 1500 play_env_free (sc_play 1500 play_env_free example_started).2).2.command
      = stop_command ∧
    (sc_play 1500 play_env_free
      (sc_play 1500 play_env_free (sc_play 1500 play_env_free example_started).2).2).1
      = true := by
  decide

/-- C26, amended: the stop command is a dead end. When no command is active
(`command` is `stop_command`, as it is once the closing brace of the scene has
been reached, after `sc_stop()` and after `sc_skip()`), `sc_play()` returns
true whatever the position is and changes nothing: `play_stop` returns true.
While the scene is paused (`command < 0`) `sc_play()` returns false and
changes nothing. So `sc_play()` returns false only with a command other than
`stop_command`: paused, or ending with no position left. -/
theorem sc_play_dead_end (MAXBUFF : Nat) (env : play_env) (w : World) :
    (w.command = stop_command → sc_play MAXBUFF env w = (true, w)) ∧
    (w.command < 0 → sc_play MAXBUFF env w = (false, w)) ∧
    ((sc_play MAXBUFF env w).1 = false → w.command ≠ stop_command) := by
  have h0 : w.command = stop_command → sc_play MAXBUFF env w = (true, w) := by
    intro h
    unfold sc_play
    have hn : ¬ w.command < 0 := by rw [h]; decide
    rw [if_neg hn]
    unfold play_proc
    rw [if_pos h]
    rfl
  refine ⟨h0, ?_, ?_⟩
  · intro h
    unfold sc_play
    rw [if_pos h]
  · intro hf h
    rw [h0 h] at hf
    cases hf

set_option maxRecDepth 1000000 in
/-- Witness of C26: the state at the end of scene 3 of the example. -/
theorem sc_play_dead_end_witness :
    (sc_play 1500 play_env_free (sc_play 1500 play_env_free example_started).2).2.command
      = stop_command ∧
    (sc_play 1500 play_env_free
      (sc_play 1500 play_env_free (sc_play 1500 play_env_free example_started).2).2).1
      = true :=
  ⟨by decide,
   congrArg Prod.fst ((sc_play_dead_end 1500 play_env_free
      (sc_play 1500 play_env_free (sc_play 1500 play_env_free example_started).2).2).1
        (by decide))⟩


/-! ## TPM2 decoder: baud rate detection and the block that completes the lock -/

set_option maxRecDepth 1000000 in
/-- C29: `tp2_detect()` counts up the write index of the buffer. The decoder
has seen sixteen framing errors, has locked again and has stored the payload
bytes `a b` of a data block of four bytes; no block has been completed, so
`tp2_detect()` returns false, switches to 57600 baud and leaves `index` at 3
instead of 2. The bytes `c d` that follow are stored at the offsets 3 and 4 and
not at 2 and 3. In the second state the decoder is in `repeat_state` with
`index = 7`; the failing call leaves `index = 0`, and the `unroll` of the next
byte would read from `&buffer[index - 3]`, three bytes before the buffer. -/
theorem tp2_detect_moves_index :
    detect_data_example.state = data_state ∧ detect_data_example.index = 2 ∧
    detect_data_example.trap = false ∧ detect_data_example.shift = SHIFT_THRESHOLD ∧
    (tp2_detect detect_data_example false).1 = false ∧
    (tp2_detect detect_data_example false).2.1 = some 57600 ∧
    (tp2_detect detect_data_example false).2.2.state = data_state ∧
    (tp2_detect detect_data_example false).2.2.index = 3 ∧
    buffer_take (tp2_run 1500 (tp2_detect detect_data_example false).2.2
      [rx 99, rx 100, rx 0x36]) 5 = [97, 98, 0, 99, 100] ∧
    buffer_take (tp2_run 1500 detect_data_example [rx 99, rx 100, rx 0x36]) 5 =
      [97, 98, 99, 100, 0] ∧
    detect_repeat_example.state = repeat_state ∧ detect_repeat_example.index = 7 ∧
    detect_repeat_example.trap = false ∧
    (tp2_detect detect_repeat_example false).1 = false ∧
    (tp2_detect detect_repeat_example false).2.2.state = repeat_state ∧
    (tp2_detect detect_repeat_example false).2.2.index = 0 ∧
    unroll_source (tp2_detect detect_repeat_example false).2.2 = -3 := by
  decide

set_option maxRecDepth 1000000 in
/-- C30: the type byte of the header that completes the lock is not looked
at. After reset the stream of five empty TPZ blocks and the header `C9 CA`
locks the decoder, which goes to `length0_state` with the flag `repeat` of
`digest` still false: the payload `1 2 3 1 2 3 2` is stored as it is, 7 bytes,
where its expansion has 12. The same block once more, read through
`type_state`, is expanded. Then `repeat` is true, and after a framing error
and the lock on data blocks (`36 C9 DA`) the payload of the data block is
expanded to 12 bytes instead of being stored as it is. -/
theorem lock_block_type_ignored :
    (tp2_run 1500 tp2_init (lock_stream 5 0xCA)).state = length0_state ∧
    (tp2_run 1500 tp2_init (lock_stream 5 0xCA)).repeat_flag = false ∧
    lock_tpz_example.trip = true ∧ lock_tpz_example.index = 7 ∧
    buffer_take lock_tpz_example 12 = [1, 2, 3, 1, 2, 3, 2, 0, 0, 0, 0, 0] ∧
    tpz_expand true [1, 2, 3, 1, 2, 3, 2] = [1, 2, 3, 1, 2, 3, 1, 2, 3, 1, 2, 3] ∧
    second_tpz_example.trip = true ∧ second_tpz_example.index = 12 ∧
    buffer_take second_tpz_example 12 = [1, 2, 3, 1, 2, 3, 1, 2, 3, 1, 2, 3] ∧
    second_tpz_example.repeat_flag = true ∧
    tpz_expand false [1, 2, 3, 1, 2, 3, 2] = [1, 2, 3, 1, 2, 3, 2] ∧
    (tp2_run 1500 second_tpz_example
      ([.serial ⟨true, false, false⟩ 0 false] ++ lock_stream 4 0xDA)).state = length0_state ∧
    lock_data_example.trip = true ∧ lock_data_example.index = 12 ∧
    buffer_take lock_data_example 12 = [1, 2, 3, 1, 2, 3, 1, 2, 3, 1, 2, 3] := by
  decide


/-! ## Pixel engine: what a pixel write leaves alone -/

/-- C25: writing a pixel touches only that pixel of that string. For `p <
MAXLEDS`, `s ≤ 5` and a bit buffer of bytes, `led_rgb(p, s, r, g, b)` leaves
every byte outside `bits[24p .. 24p+23]` as it is, and in every byte every bit
other than bit `s + 2`; the dim values are not changed either. -/
theorem led_rgb_frame (l : Leds) (p s r g b : Nat) (hp : p < MAXLEDS) (hs : s ≤ 5)
    (hb : ∀ j, l.bits j < 256) :
    (∀ a, a < 24 * p ∨ 24 * p + 24 ≤ a → (led_rgb l p s r g b).bits a = l.bits a) ∧
    (∀ a q, q ≠ s + 2 → ((led_rgb l p s r g b).bits a).testBit q = (l.bits a).testBit q) ∧
    (∀ a, (led_rgb l p s r g b).bits a < 256) ∧
    (led_rgb l p s r g b).sred = l.sred ∧ (led_rgb l p s r g b).sgreen = l.sgreen ∧
    (led_rgb l p s r g b).sblue = l.sblue := by
  have h1 : ¬ s > 5 := by omega
  have h2 : ¬ p ≥ MAXLEDS := by omega
  simp only [led_rgb, h1, h2, if_false]
  refine ⟨fun a ha => ?_, fun a q hq => ?_, fun a => transpose_lt _ _ _ _ hb a, trivial, trivial, trivial⟩
  · exact transpose_frame _ _ _ _ _ (by omega)
  · by_cases c : q < 8
    · exact transpose_other _ _ _ _ _ _ hb hs c (Or.inr (by omega))
    · rw [testBit_high _ _ (transpose_lt _ _ _ _ hb a) (by omega),
        testBit_high _ _ (hb a) (by omega)]

/-- Witness of C25: LED 1 of string 0 is written in the cleared buffer; the
byte 0 of LED 0 and bit 3 of the first byte of LED 1 stay set. -/
theorem led_rgb_frame_witness :
    (led_rgb leds_init 1 0 0 0 0).bits 0 = 0xFF ∧
    ((led_rgb leds_init 1 0 0 0 0).bits 24).testBit 3 = true :=
  ⟨((led_rgb_frame leds_init 1 0 0 0 0 (by decide) (by decide) (fun _ => (by decide : (0xFF : Nat) < 256))).1 0
      (Or.inl (by decide))).trans rfl,
   ((led_rgb_frame leds_init 1 0 0 0 0 (by decide) (by decide) (fun _ => (by decide : (0xFF : Nat) < 256))).2.1 24 3
      (by decide)).trans (by decide)⟩



/-! ## Base64 decoding -/

theorem base64_char_spec : ∀ v, v < 64 →
    base64_d.getD (base64_char v) 0 = v ∧ base64_char v ≠ 61 ∧ base64_char v ≠ 0 ∧
    isspace (base64_char v : Int) = false ∧ base64_char v < 256 := by
  decide

theorem shl6_or (x s : Nat) (h : s < 64) : (x <<< 6) % 2 ^ 32 ||| s = x * 64 % 2 ^ 32 + s := by
  have h1 : (x <<< 6) % 2 ^ 32 = (x % 2 ^ 26) <<< 6 := by
    rw [Nat.shiftLeft_eq, Nat.shiftLeft_eq]
    omega
  rw [h1]
  have h2 := Nat.mul_add_lt_is_or (i := 6) (b := s) (by simpa using h) (x % 2 ^ 26)
  rw [Nat.shiftLeft_eq, Nat.mul_comm (x % 2 ^ 26) (2 ^ 6), ← h2]
  omega


theorem b64_scan_char (v : Nat) (hv : v < 64) (cs : List Nat) (tr r : Nat) (o : List Nat)
    (hr : r ≠ 3) :
    b64_scan (base64_char v :: cs) tr r o = b64_scan cs (tr * 64 % 2 ^ 32 + v) (r + 1) o := by
  obtain ⟨h1, h2, h3, -, -⟩ := base64_char_spec v hv
  rw [b64_scan]
  rw [if_neg (by rintro (h | h); exact h2 h; exact h3 h), h1,
    if_neg (by omega), if_neg (by omega), shl6_or _ _ hv]

theorem b64_scan_char4 (v : Nat) (hv : v < 64) (cs : List Nat) (tr : Nat) (o : List Nat) :
    b64_scan (base64_char v :: cs) tr 3 o =
      b64_scan cs (tr * 64 % 2 ^ 32 + v) 0
        (o ++ [(tr * 64 % 2 ^ 32 + v) / 65536 % 256, (tr * 64 % 2 ^ 32 + v) / 256 % 256,
          (tr * 64 % 2 ^ 32 + v) % 256]) := by
  obtain ⟨h1, h2, h3, -, -⟩ := base64_char_spec v hv
  rw [b64_scan]
  rw [if_neg (by rintro (h | h); exact h2 h; exact h3 h), h1,
    if_neg (by omega), if_pos rfl, shl6_or _ _ hv]
  simp only [and_ff, Nat.shiftRight_eq_div_pow]
  norm_num

theorem b64_scan_pad (cs : List Nat) (tr r : Nat) (o : List Nat) :
    b64_scan (61 :: cs) tr r o = some (tr, r, o) := by
  rw [b64_scan, if_pos (Or.inl rfl)]

/-- The loop on the encoding of `b`, followed by the part "Decode rest",
appends `b` to the output. -/
theorem b64_scan_encode : ∀ (b : List Nat), (∀ x ∈ b, x < 256) → ∀ (tr : Nat) (o : List Nat),
    (b64_scan (base64_encode b) tr 0 o).map b64_finish = some (o ++ b) := by
  intro b
  induction b using base64_encode.induct with
  | case1 =>
    intro _ tr o
    simp [base64_encode, b64_scan, b64_finish]
  | case2 x =>
    intro hb tr o
    have hx : x < 256 := hb x (by simp)
    rw [base64_encode, b64_scan_char _ (by omega) _ _ _ _ (by omega),
      b64_scan_char _ (by omega) _ _ _ _ (by omega), b64_scan_pad]
    simp only [Option.map_some', b64_finish, and_ff, Nat.shiftRight_eq_div_pow]
    norm_num
    omega
  | case3 x y =>
    intro hb tr o
    have hx : x < 256 := hb x (by simp)
    have hy : y < 256 := hb y (by simp)
    rw [base64_encode, b64_scan_char _ (by omega) _ _ _ _ (by omega),
      b64_scan_char _ (by omega) _ _ _ _ (by omega),
      b64_scan_char _ (by omega) _ _ _ _ (by omega), b64_scan_pad]
    simp only [Option.map_some', b64_finish, and_ff, Nat.shiftRight_eq_div_pow]
    norm_num
    constructor <;> omega
  | case4 x y z rest ih =>
    intro hb tr o
    have hx : x < 256 := hb x (by simp)
    have hy : y < 256 := hb y (by simp)
    have hz : z < 256 := hb z (by simp)
    have hrest : ∀ x ∈ rest, x < 256 := fun a ha => hb a (by simp [ha])
    rw [base64_encode, b64_scan_char _ (by omega) _ _ _ _ (by omega),
      b64_scan_char _ (by omega) _ _ _ _ (by omega),
      b64_scan_char _ (by omega) _ _ _ _ (by omega),
      b64_scan_char4 _ (by omega), ih hrest]
    have e1 : ((((tr * 64 % 2 ^ 32 + x / 4) * 64 % 2 ^ 32 + (x % 4 * 16 + y / 16)) * 64 % 2 ^ 32 +
        (y % 16 * 4 + z / 64)) * 64 % 2 ^ 32 + z % 64) / 65536 % 256 = x := by omega
    have e2 : ((((tr * 64 % 2 ^ 32 + x / 4) * 64 % 2 ^ 32 + (x % 4 * 16 + y / 16)) * 64 % 2 ^ 32 +
        (y % 16 * 4 + z / 64)) * 64 % 2 ^ 32 + z % 64) / 256 % 256 = y := by omega
    have e3 : ((((tr * 64 % 2 ^ 32 + x / 4) * 64 % 2 ^ 32 + (x % 4 * 16 + y / 16)) * 64 % 2 ^ 32 +
        (y % 16 * 4 + z / 64)) * 64 % 2 ^ 32 + z % 64) % 256 = z := by omega
    rw [e1, e2, e3]
    simp


theorem getD_snoc3 (o : List Nat) (a b c i : Nat) :
    (o ++ [a, b, c]).getD i 0 =
      if i < o.length then o.getD i 0
      else if i = o.length then a
      else if i = o.length + 1 then b
      else if i = o.length + 2 then c
      else 0 := by
  by_cases h : i < o.length
  · rw [if_pos h, List.getD_append _ _ _ _ h]
  · rw [if_neg h, List.getD_append_right _ _ _ _ (by omega)]
    obtain ⟨k, rfl⟩ : ∃ k, i = o.length + k := ⟨i - o.length, by omega⟩
    rw [Nat.add_sub_cancel_left]
    match k with
    | 0 => simp
    | 1 => simp
    | 2 => simp
    | k + 3 => simp

theorem store3 (buf : Nat → Nat) (out a b c j : Nat) :
    store (store (store buf out a) (out + 1) b) (out + 2) c j =
      if j = out then a else if j = out + 1 then b else if j = out + 2 then c else buf j := by
  unfold store
  split_ifs <;> first | rfl | omega

/-- The loop of `base64decode` on a buffer that holds the text `t` from `inp`
on does what `b64_scan` does on the characters of `t` that are not white
space; the bytes written lie before the characters still to be read. -/
theorem base64_loop_scan : ∀ (t : List Nat) (buf : Nat → Nat) (inp out tr r : Nat)
    (o : List Nat),
    (∀ i, i < t.length → buf (inp + i) = t.getD i 0) → (∀ x ∈ t, x < 256) →
    out + r ≤ inp → o.length = out → (∀ i, i < out → buf i = o.getD i 0) →
    ∀ res, b64_scan (t.filter not_space) tr r o = some res →
      (base64_loop t.length buf inp out tr r).ok = true ∧
      (base64_loop t.length buf inp out tr r).triplet = res.1 ∧
      (base64_loop t.length buf inp out tr r).round = res.2.1 ∧
      (base64_loop t.length buf inp out tr r).out = res.2.2.length ∧
      ∀ i, i < res.2.2.length → (base64_loop t.length buf inp out tr r).buf i
        = res.2.2.getD i 0 := by
  intro t
  induction t with
  | nil =>
    intro buf inp out tr r o _ _ _ ho hbuf res hres
    simp only [List.filter_nil, b64_scan, Option.some.injEq] at hres
    subst hres
    rw [List.length_nil, base64_loop]
    exact ⟨rfl, rfl, rfl, ho.symm, fun i hi => hbuf i (by rw [← ho]; exact hi)⟩
  | cons c t ih =>
    intro buf inp out tr r o ht hlt hio ho hbuf res hres
    have hc : c < 256 := hlt c (List.mem_cons_self c t)
    have hch : buf inp % 256 = c := by
      have := ht 0 (by simp)
      simp only [Nat.add_zero, List.getD_cons_zero] at this
      rw [this]
      exact Nat.mod_eq_of_lt hc
    have ht2 : ∀ i, i < t.length → buf (inp + 1 + i) = t.getD i 0 := by
      intro i hi
      have := ht (i + 1) (by simp; omega)
      rw [List.getD_cons_succ] at this
      rw [← this]
      congr 1
      omega
    have hlt2 : ∀ x ∈ t, x < 256 := fun x hx => hlt x (List.mem_cons_of_mem c hx)
    rw [List.length_cons, base64_loop]
    simp only [hch]
    by_cases hsp : isspace (c : Int) = true
    · rw [if_pos hsp]
      rw [List.filter_cons_of_neg (by simp [not_space, hsp])] at hres
      exact ih buf (inp + 1) out tr r o ht2 hlt2 (by omega) ho hbuf res hres
    rw [if_neg hsp]
    rw [List.filter_cons_of_pos (by simpa [not_space] using hsp), b64_scan] at hres
    by_cases hpad : c = 61 ∨ c = 0
    · rw [if_pos hpad] at hres ⊢
      simp only [Option.some.injEq] at hres
      subst hres
      exact ⟨rfl, rfl, rfl, ho.symm, fun i hi => hbuf i (by rw [← ho]; exact hi)⟩
    rw [if_neg hpad] at hres ⊢
    by_cases hbad : base64_d.getD c 0 = 0xFF
    · rw [if_pos hbad] at hres
      cases hres
    rw [if_neg hbad] at hres ⊢
    by_cases h4 : r + 1 = 4
    · rw [if_pos h4] at hres ⊢
      refine ih _ (inp + 1) (out + 3) _ 0 _ ?_ hlt2 (by omega) (by simp [ho]) ?_ res hres
      · intro i hi
        rw [store3, if_neg (show ¬ inp + 1 + i = out by omega),
          if_neg (show ¬ inp + 1 + i = out + 1 by omega),
          if_neg (show ¬ inp + 1 + i = out + 2 by omega)]
        exact ht2 i hi
      · intro i hi
        rw [getD_snoc3, store3, ho]
        by_cases c1 : i < out
        · rw [if_neg (show ¬ i = out by omega), if_neg (show ¬ i = out + 1 by omega),
            if_neg (show ¬ i = out + 2 by omega), if_pos c1]
          exact hbuf i c1
        · rw [if_neg c1]
          by_cases c2 : i = out
          · rw [if_pos c2, if_pos c2]
          · rw [if_neg c2, if_neg c2]
            by_cases c3 : i = out + 1
            · rw [if_pos c3, if_pos c3]
            · rw [if_neg c3, if_neg c3, if_pos (show i = out + 2 by omega),
                if_pos (show i = out + 2 by omega)]
    · rw [if_neg h4] at hres ⊢
      exact ih buf (inp + 1) out _ (r + 1) o ht2 hlt2 (by omega) ho hbuf res hres


theorem base64_encode_lt : ∀ (b : List Nat), (∀ x ∈ b, x < 256) →
    ∀ c ∈ base64_encode b, c < 256 := by
  intro b
  induction b using base64_encode.induct with
  | case1 => intro _ c hc; simp [base64_encode] at hc
  | case2 x =>
    intro hb c hc
    have hx : x < 256 := hb x (by simp)
    simp only [base64_encode, List.mem_cons, List.mem_singleton, List.not_mem_nil,
      or_false] at hc
    rcases hc with h | h | h | h
    · rw [h]; exact (base64_char_spec _ (by omega)).2.2.2.2
    · rw [h]; exact (base64_char_spec _ (by omega)).2.2.2.2
    · omega
    · omega
  | case3 x y =>
    intro hb c hc
    have hx : x < 256 := hb x (by simp)
    have hy : y < 256 := hb y (by simp)
    simp only [base64_encode, List.mem_cons, List.mem_singleton, List.not_mem_nil,
      or_false] at hc
    rcases hc with h | h | h | h
    · rw [h]; exact (base64_char_spec _ (by omega)).2.2.2.2
    · rw [h]; exact (base64_char_spec _ (by omega)).2.2.2.2
    · rw [h]; exact (base64_char_spec _ (by omega)).2.2.2.2
    · omega
  | case4 x y z rest ih =>
    intro hb c hc
    have hx : x < 256 := hb x (by simp)
    have hy : y < 256 := hb y (by simp)
    have hz : z < 256 := hb z (by simp)
    simp only [base64_encode, List.mem_cons] at hc
    rcases hc with h | h | h | h | h
    · rw [h]; exact (base64_char_spec _ (by omega)).2.2.2.2
    · rw [h]; exact (base64_char_spec _ (by omega)).2.2.2.2
    · rw [h]; exact (base64_char_spec _ (by omega)).2.2.2.2
    · rw [h]; exact (base64_char_spec _ (by omega)).2.2.2.2
    · exact ih (fun a ha => hb a (by simp [ha])) c h

theorem base64_encode_length : ∀ (b : List Nat), b.length ≤ (base64_encode b).length := by
  intro b
  induction b using base64_encode.induct with
  | case1 => simp [base64_encode]
  | case2 x => simp [base64_encode]
  | case3 x y => simp [base64_encode]
  | case4 x y z rest ih =>
    simp only [base64_encode, List.length_cons]
    omega

theorem isspace_lt (c : Nat) (h : isspace (c : Int) = true) : c < 256 := by
  unfold isspace at h
  simp only [Bool.or_eq_true, decide_eq_true_eq, Bool.and_eq_true] at h
  omega

/-- C21: `base64decode` inverts Base64. Let `b` be a sequence of bytes and `t`
a text of less than 65536 characters (the length is a `uint16_t`) that is the
encoding of `b` after RFC 4648, with padding, when its white space is left
out. Then `base64decode`, called on a buffer that holds `t` with the length of
`t`, returns true, sets `*length` to the length of `b` and leaves `b` at the
start of the buffer. -/
theorem base64decode_inverts (b t : List Nat) (buf : Nat → Nat)
    (hb : ∀ x ∈ b, x < 256)
    (ht : t.filter not_space = base64_encode b)
    (hlen : t.length < 65536) (hbuf : ∀ i, i < t.length → buf i = t.getD i 0) :
    (base64decode buf t.length).1 = true ∧ (base64decode buf t.length).2.2 = b.length ∧
    ∀ i, i < b.length → (base64decode buf t.length).2.1 i = b.getD i 0 := by
  have hbl : b.length < 65536 := by
    have h1 := base64_encode_length b
    have h2 := List.length_filter_le not_space t
    rw [ht] at h2
    omega
  have htl : ∀ x ∈ t, x < 256 := by
    intro x hx
    by_cases hs : isspace (x : Int) = true
    · exact isspace_lt x hs
    · have : x ∈ t.filter not_space := by
        rw [List.mem_filter]
        exact ⟨hx, by simpa [not_space] using hs⟩
      rw [ht] at this
      exact base64_encode_lt b hb x this
  have hscan := b64_scan_encode b hb 0 []
  rw [← ht] at hscan
  cases hres : b64_scan (t.filter not_space) 0 0 [] with
  | none => rw [hres] at hscan; cases hscan
  | some res =>
    rw [hres] at hscan
    simp only [Option.map_some', Option.some.injEq, List.nil_append] at hscan
    obtain ⟨p1, p2, p3, p4, p5⟩ := base64_loop_scan t buf 0 0 0 0 []
      (fun i hi => by rw [Nat.zero_add]; exact hbuf i hi) htl (by omega) rfl
      (fun i hi => absurd hi (by omega)) res hres
    unfold base64decode
    dsimp only
    rw [p1, p2, p3, p4]
    simp only [Bool.not_true, Bool.false_eq_true, if_false]
    unfold b64_finish at hscan
    by_cases c3 : res.2.1 = 3
    · rw [if_pos c3] at hscan ⊢
      have hl : b.length = res.2.2.length + 2 := by rw [← hscan]; simp
      refine ⟨rfl, ?_, ?_⟩
      · show (res.2.2.length + 2) % 65536 = b.length
        omega
      · intro i hi
        show store (store _ _ _) _ _ i = _
        rw [← hscan]
        unfold store
        by_cases d1 : i = res.2.2.length + 1
        · rw [if_pos d1, d1, List.getD_append_right _ _ _ _ (by omega)]
          simp
        · rw [if_neg d1]
          by_cases d2 : i = res.2.2.length
          · rw [if_pos d2, d2, List.getD_append_right _ _ _ _ (by omega)]
            simp
          · rw [if_neg d2, List.getD_append _ _ _ _ (by omega)]
            exact p5 i (by omega)
    · rw [if_neg c3] at hscan ⊢
      by_cases c2 : res.2.1 = 2
      · rw [if_pos c2] at hscan ⊢
        have hl : b.length = res.2.2.length + 1 := by rw [← hscan]; simp
        refine ⟨rfl, ?_, ?_⟩
        · show (res.2.2.length + 1) % 65536 = b.length
          omega
        · intro i hi
          show store _ _ _ i = _
          rw [← hscan]
          unfold store
          by_cases d2 : i = res.2.2.length
          · rw [if_pos d2, d2, List.getD_append_right _ _ _ _ (by omega)]
            simp
          · rw [if_neg d2, List.getD_append _ _ _ _ (by omega)]
            exact p5 i (by omega)
      · rw [if_neg c2] at hscan ⊢
        refine ⟨rfl, ?_, ?_⟩
        · show res.2.2.length % 65536 = b.length
          rw [← hscan]
          rw [← hscan] at hbl
          exact Nat.mod_eq_of_lt hbl
        · intro i hi
          rw [← hscan] at hi ⊢
          exact p5 i hi

/-- Witness of C21: the text `TWFu IA==`, with a blank in it, is the encoding
of the four bytes `Man `. -/
theorem base64decode_inverts_witness :
    (bytes "TWFu IA==").filter not_space = base64_encode (bytes "Man ") ∧
    (base64decode (buffer_of (bytes "TWFu IA==")) (bytes "TWFu IA==").length).2.2 = 4 :=
  ⟨by decide,
   (base64decode_inverts (bytes "Man ") (bytes "TWFu IA==") (buffer_of (bytes "TWFu IA=="))
      (by decide) (by decide) (by decide) (fun _ _ => rfl)).2.1⟩


/-! ## Task queue of the coordinator dialog -/

/-- Posting a task appends it to the entries of the queue for its address. -/
theorem queued_post (i : Nat) (d : Dialog) (t : Task) :
    queued i (d.postTask t) = queued i d ++ (if t.id = i then [t] else []) := by
  unfold queued Dialog.postTask
  simp only [List.filter_append]
  congr 1
  by_cases h : t.id = i
  · simp [h]
  · simp [h]

/-- A response changes neither the queue nor the record of transmissions. -/
theorem response_frame (t : Task) (ok : Bool) (d : Dialog) :
    (t.response ok d).tasks = d.tasks ∧ (t.response ok d).sent = d.sent ∧
    (t.response ok d).fresh = d.fresh := by
  unfold Task.response Dialog.update
  split_ifs <;> exact ⟨rfl, rfl, rfl⟩

/-- The idle timer with a task in the queue: the head is taken, and it is sent
unless its node is asleep and it is no wake task. -/
theorem idle_pop (d : Dialog) (t : Task) (rest : List Task) (c1 : d.opened = true)
    (c2 : d.nodes.length ≠ 0) (hc : d.currentTask = none) (htk : d.tasks = t :: rest) :
    d.idle.tasks = rest ∧ d.idle.fresh = d.fresh ∧
    (((d.items t.node).asleep = true ∧ t.kind ≠ .wake) →
      d.idle.currentTask = none ∧ d.idle.sent = d.sent) ∧
    (¬ ((d.items t.node).asleep = true ∧ t.kind ≠ .wake) →
      d.idle.currentTask = some t ∧ d.idle.sent = d.sent ++ [t]) := by
  unfold Dialog.idle
  simp only [c1, c2, hc, htk, Bool.not_true, Bool.false_eq_true, if_false, Option.isSome_none,
    List.isEmpty_cons]
  by_cases h : (d.items t.node).asleep = true ∧ t.kind ≠ .wake
  · simp [h]
  · simp only [ne_eq, not_and, Decidable.not_not] at h
    by_cases ha : (d.items t.node).asleep = true
    · simp [ha, h ha]
    · simp [ha]

/-- The idle timer with an empty queue: a new ping task is made and taken. -/
theorem idle_ping (d : Dialog) (c1 : d.opened = true) (c2 : d.nodes.length ≠ 0)
    (hc : d.currentTask = none) (htk : d.tasks = []) :
    ∃ p : Task, (p.id = d.fresh ∧ p.ttl = 1) ∧ d.idle.tasks = [] ∧
      d.idle.fresh = d.fresh + 1 ∧
      ((d.idle.currentTask = none ∧ d.idle.sent = d.sent) ∨
        (d.idle.currentTask = some p ∧ d.idle.sent = d.sent ++ [p])) := by
  refine ⟨⟨d.fresh, .ping,
    d.nodes.getD (if d.idleIndex ≥ d.nodes.length then 0 else d.idleIndex) 0,
    task_ttl .ping⟩, ⟨rfl, rfl⟩, ?_⟩
  unfold Dialog.idle
  simp only [c1, c2, hc, htk, Bool.not_true, Bool.false_eq_true, if_false, Option.isSome_none,
    List.isEmpty_nil, if_true, Dialog.postTask, List.nil_append]
  generalize d.nodes.getD (if d.idleIndex ≥ d.nodes.length then 0 else d.idleIndex) 0 = node
  cases ha : (d.items node).asleep
  · simp
  · simp

/-- One event keeps the invariant of the run. -/
theorem lifecycle_step (i : Nat) (T : Int) (base : Nat) (d : Dialog) (e : dialog_event)
    (k : Nat) (hwf : d.wf) (hi : i < d.fresh) (hs : sent_count i d = base + k)
    (hl : lifecycle i T k d)
    (h1 : ∀ ok t, e = .response ok → d.currentTask = some t → t.id ≠ i)
    (h2 : ∀ t, e = .idle → d.opened = true → d.nodes.length ≠ 0 → d.currentTask = none →
      d.tasks.head? = some t → t.id = i →
      ¬ ((d.items t.node).asleep = true ∧ t.kind ≠ .wake)) :
    ∃ k2, (d.step e).wf ∧ i < (d.step e).fresh ∧ sent_count i (d.step e) = base + k2 ∧
      lifecycle i T k2 (d.step e) := by
  cases e with
  | post kind node =>
    refine ⟨k, ?_, ?_, hs, ?_⟩
    · refine ⟨?_, ?_⟩
      · intro t ht
        simp only [Dialog.step, Dialog.postTask, List.mem_append, List.mem_singleton] at ht ⊢
        rcases ht with ht | ht
        · have := hwf.1 t ht
          omega
        · rw [ht]
          show d.fresh < d.fresh + 1
          omega
      · intro t ht
        have := hwf.2 t ht
        show t.id < d.fresh + 1
        omega
    · show i < d.fresh + 1
      omega
    · have hq : queued i (d.step (.post kind node)) = queued i d := by
        show queued i (Dialog.postTask _ _) = _
        rw [queued_post, if_neg (show ¬ d.fresh = i by omega), List.append_nil]
        rfl
      unfold lifecycle at hl ⊢
      rw [hq]
      exact hl
  | response ok =>
    cases hc : d.currentTask with
    | none =>
      have e : d.step (.response ok) = d := by
        simp only [Dialog.step, Dialog.readReady, hc]
      rw [e]
      exact ⟨k, hwf, hi, hs, hl⟩
    | some t =>
      have hne := h1 ok t rfl hc
      obtain ⟨f1, f2, f3⟩ := response_frame t ok d
      have e : d.step (.response ok) =
          { t.response ok d with currentTask := none, timer := none } := by
        simp only [Dialog.step, Dialog.readReady, hc]
      rw [e]
      refine ⟨k, ⟨fun u hu => ?_, fun u hu => by cases hu⟩, by show i < _; rw [f3]; exact hi,
        ?_, ?_⟩
      · have : u ∈ d.tasks := by rw [← f1]; exact hu
        show u.id < (t.response ok d).fresh
        rw [f3]
        exact hwf.1 u this
      · show (List.filter _ (t.response ok d).sent).length = _
        rw [f2]
        exact hs
      · have hq : queued i { t.response ok d with currentTask := none, timer := none }
            = queued i d := by
          show List.filter _ (t.response ok d).tasks = _
          rw [f1]
          rfl
        unfold lifecycle at hl ⊢
        rw [hq]
        rcases hl with ⟨a1, a2, -⟩ | ⟨-, ⟨u, b1, b2, -⟩, -⟩ | ⟨c1, -, c3⟩
        · exact Or.inl ⟨a1, a2, fun u hu => (by cases hu)⟩
        · rw [hc] at b1
          cases b1
          exact absurd b2 hne
        · exact Or.inr (Or.inr ⟨c1, fun u hu => (by cases hu), c3⟩)
  | timeout =>
    cases hc : d.currentTask with
    | none =>
      have e : d.step .timeout = { d with timer := none } := by
        simp only [Dialog.step, Dialog.timeout, hc]
      rw [e]
      exact ⟨k, hwf, hi, hs, hl⟩
    | some t =>
      have e : d.step .timeout =
          { (if (t.timeout { d with timer := none }).1.ttl > 0 then
              (t.timeout { d with timer := none }).2.postTask
                (t.timeout { d with timer := none }).1
             else (t.timeout { d with timer := none }).2) with currentTask := none } := by
        simp only [Dialog.step, Dialog.timeout, hc]
      rw [e]
      have g1 : (t.timeout { d with timer := none }).1.id = t.id := by
        unfold Task.timeout
        dsimp only
        split_ifs <;> rfl
      have g2 : (t.timeout { d with timer := none }).2.tasks = d.tasks := rfl
      have g3 : (t.timeout { d with timer := none }).2.sent = d.sent := rfl
      have g4 : (t.timeout { d with timer := none }).2.fresh = d.fresh := rfl
      have g5 : (t.timeout { d with timer := none }).1.ttl =
          if t.ttl ≠ 0 then t.ttl - 1 else t.ttl := by
        unfold Task.timeout
        dsimp only
        split_ifs <;> rfl
      have ht := hwf.2 t hc
      generalize t.timeout { d with timer := none } = r at g1 g2 g3 g4 g5
      obtain ⟨t2, d2⟩ := r
      dsimp only at g1 g2 g3 g4 g5 ⊢
      have hnone : ∀ u : Task, (none : Option Task) = some u → u.id ≠ i :=
        fun u hu => (by cases hu)
      have hq2 : queued i d2 = queued i d := by unfold queued; rw [g2]
      have hs2 : sent_count i d2 = base + k := by unfold sent_count; rw [g3]; exact hs
      by_cases hid : t.id = i
      · have hb : queued i d = [] ∧ t.ttl = T - (k - 1) ∧ 1 ≤ k ∧ (k : Int) ≤ T := by
          rcases hl with ⟨-, -, a3⟩ | ⟨b0, ⟨u, b1, -, b3⟩, b4, b5⟩ | ⟨-, c2, -⟩
          · exact absurd hid (a3 t hc)
          · rw [hc] at b1
            cases b1
            exact ⟨b0, b3, b4, b5⟩
          · exact absurd hid (c2 t hc)
        obtain ⟨b0, b3, b4, b5⟩ := hb
        have httl : t2.ttl = T - k := by
          rw [g5, if_pos (by omega)]
          omega
        by_cases hpos : t2.ttl > 0
        · rw [if_pos hpos]
          refine ⟨k, ⟨fun u hu => ?_, fun u hu => (by cases hu)⟩, by show i < d2.fresh; omega,
            hs2, Or.inl ⟨⟨t2, ?_, httl⟩, by omega, hnone⟩⟩
          · have hu2 : u ∈ d2.tasks ++ [t2] := hu
            rw [List.mem_append, List.mem_singleton, g2] at hu2
            show u.id < d2.fresh
            rcases hu2 with h | h
            · have := hwf.1 u h
              omega
            · rw [h, g1]
              omega
          · show queued i (d2.postTask t2) = [t2]
            rw [queued_post, hq2, b0, if_pos (by rw [g1]; exact hid), List.nil_append]
        · rw [if_neg hpos]
          refine ⟨k, ⟨fun u hu => ?_, fun u hu => (by cases hu)⟩, by show i < d2.fresh; omega,
            hs2, Or.inr (Or.inr ⟨by show queued i d2 = []; rw [hq2, b0], hnone, by omega⟩)⟩
          have hu2 : u ∈ d.tasks := by rw [← g2]; exact hu
          show u.id < d2.fresh
          have := hwf.1 u hu2
          omega
      · have hq3 : queued i
            { (if t2.ttl > 0 then d2.postTask t2 else d2) with currentTask := none }
            = queued i d := by
          by_cases hpos : t2.ttl > 0
          · rw [if_pos hpos]
            show queued i (d2.postTask t2) = _
            rw [queued_post, hq2, if_neg (by rw [g1]; exact hid), List.append_nil]
          · rw [if_neg hpos]
            exact hq2
        refine ⟨k, ⟨fun u hu => ?_, fun u hu => (by cases hu)⟩, ?_, ?_, ?_⟩
        · by_cases hpos : t2.ttl > 0
          · rw [if_pos hpos] at hu ⊢
            have hu2 : u ∈ d2.tasks ++ [t2] := hu
            rw [List.mem_append, List.mem_singleton, g2] at hu2
            show u.id < d2.fresh
            rcases hu2 with h | h
            · have := hwf.1 u h
              omega
            · rw [h, g1]
              omega
          · rw [if_neg hpos] at hu ⊢
            have hu2 : u ∈ d.tasks := by rw [← g2]; exact hu
            show u.id < d2.fresh
            have := hwf.1 u hu2
            omega
        · by_cases hpos : t2.ttl > 0
          · rw [if_pos hpos]
            show i < d2.fresh
            omega
          · rw [if_neg hpos]
            show i < d2.fresh
            omega
        · by_cases hpos : t2.ttl > 0
          · rw [if_pos hpos]
            exact hs2
          · rw [if_neg hpos]
            exact hs2
        · unfold lifecycle at hl ⊢
          rw [hq3]
          rcases hl with ⟨a1, a2, -⟩ | ⟨-, ⟨u, b1, b2, -⟩, -⟩ | ⟨c1, -, c3⟩
          · exact Or.inl ⟨a1, a2, hnone⟩
          · rw [hc] at b1
            cases b1
            exact absurd b2 hid
          · exact Or.inr (Or.inr ⟨c1, hnone, c3⟩)
  | idle =>
    by_cases c1 : d.opened = false
    · have e : d.step .idle = d := by simp [Dialog.step, Dialog.idle, c1]
      rw [e]
      exact ⟨k, hwf, hi, hs, hl⟩
    by_cases c2 : d.nodes.length = 0
    · have e : d.step .idle = d := by simp [Dialog.step, Dialog.idle, c2]
      rw [e]
      exact ⟨k, hwf, hi, hs, hl⟩
    cases hc : d.currentTask with
    | some u =>
      have e : d.step .idle = d := by simp [Dialog.step, Dialog.idle, hc]
      rw [e]
      exact ⟨k, hwf, hi, hs, hl⟩
    | none =>
      have hnone : ∀ u : Task, (none : Option Task) = some u → u.id ≠ i :=
        fun u hu => (by cases hu)
      have c1b : d.opened = true := by simpa using c1
      cases htk : d.tasks with
      | nil =>
        obtain ⟨p, ⟨p1, -⟩, p2, p3, p4⟩ := idle_ping d c1b c2 hc htk
        have hq0 : queued i d = [] := by unfold queued; rw [htk]; rfl
        show ∃ k2, d.idle.wf ∧ i < d.idle.fresh ∧ sent_count i d.idle = base + k2 ∧
          lifecycle i T k2 d.idle
        have hq2 : queued i d.idle = [] := by unfold queued; rw [p2]; rfl
        have hcur : ∀ u, d.idle.currentTask = some u → u.id ≠ i := by
          intro u hu
          rcases p4 with ⟨q1, -⟩ | ⟨q1, -⟩
          · rw [q1] at hu
            cases hu
          · rw [q1] at hu
            cases hu
            omega
        have hsent : sent_count i d.idle = base + k := by
          unfold sent_count at hs ⊢
          rcases p4 with ⟨-, q2⟩ | ⟨-, q2⟩
          · rw [q2]
            exact hs
          · rw [q2, List.filter_append, List.length_append, hs]
            have : List.filter (fun t => decide (t.id = i)) [p] = [] := by
              simp only [List.filter_cons, List.filter_nil]
              rw [if_neg (by simp; omega)]
            rw [this]
            rfl
        refine ⟨k, ⟨fun u hu => ?_, fun u hu => ?_⟩, by rw [p3]; omega, hsent, ?_⟩
        · rw [p2] at hu
          cases hu
        · rcases p4 with ⟨q1, -⟩ | ⟨q1, -⟩
          · rw [q1] at hu
            cases hu
          · rw [q1] at hu
            cases hu
            rw [p3, p1]
            omega
        · unfold lifecycle at hl ⊢
          rw [hq2]
          rw [hq0] at hl
          rcases hl with ⟨⟨t, a0, -⟩, -, -⟩ | ⟨-, ⟨u, b1, -, -⟩, -⟩ | ⟨-, -, c3⟩
          · cases a0
          · rw [hc] at b1
            cases b1
          · exact Or.inr (Or.inr ⟨rfl, hcur, c3⟩)
      | cons t rest =>
        obtain ⟨p1, p2, p3, p4⟩ := idle_pop d t rest c1b c2 hc htk
        show ∃ k2, d.idle.wf ∧ i < d.idle.fresh ∧ sent_count i d.idle = base + k2 ∧
          lifecycle i T k2 d.idle
        have hq : queued i d = (if t.id = i then [t] else []) ++ queued i d.idle := by
          unfold queued
          rw [htk, p1, List.filter_cons]
          by_cases h : t.id = i
          · simp [h]
          · simp [h]
        have hwf2 : d.idle.wf := by
          refine ⟨fun u hu => ?_, fun u hu => ?_⟩
          · rw [p1] at hu
            rw [p2]
            exact hwf.1 u (by rw [htk]; exact List.mem_cons_of_mem t hu)
          · rw [p2]
            by_cases ha : (d.items t.node).asleep = true ∧ t.kind ≠ .wake
            · rw [(p3 ha).1] at hu
              cases hu
            · rw [(p4 ha).1] at hu
              cases hu
              exact hwf.1 _ (by rw [htk]; exact List.mem_cons_self _ _)
        by_cases hid : t.id = i
        · have ha := h2 t rfl c1b c2 hc (by rw [htk]; rfl) hid
          obtain ⟨q1, q2⟩ := p4 ha
          rw [if_pos hid] at hq
          have hph : (∃ t0, queued i d = [t0] ∧ t0.ttl = T - k) ∧ (k : Int) < T := by
            rcases hl with ⟨a1, a2, -⟩ | ⟨b0, -, -⟩ | ⟨c1, -, -⟩
            · exact ⟨a1, a2⟩
            · rw [hq] at b0
              cases b0
            · rw [hq] at c1
              cases c1
          obtain ⟨⟨t0, a0, a1⟩, a2⟩ := hph
          rw [hq] at a0
          simp only [List.singleton_append, List.cons.injEq] at a0
          obtain ⟨a01, a02⟩ := a0
          subst a01
          refine ⟨k + 1, hwf2, by rw [p2]; exact hi, ?_, Or.inr (Or.inl ⟨a02, ⟨t, q1, hid, ?_⟩,
            by omega, by push_cast; omega⟩)⟩
          · unfold sent_count at hs ⊢
            rw [q2, List.filter_append, List.length_append, hs]
            have : List.filter (fun u => decide (u.id = i)) [t] = [t] := by
              simp only [List.filter_cons, List.filter_nil]
              rw [if_pos (by simp [hid])]
            rw [this]
            rfl
          · rw [a1]
            push_cast
            omega
        · rw [if_neg hid, List.nil_append] at hq
          have hcur : ∀ u, d.idle.currentTask = some u → u.id ≠ i := by
            intro u hu
            by_cases ha : (d.items t.node).asleep = true ∧ t.kind ≠ .wake
            · rw [(p3 ha).1] at hu
              cases hu
            · rw [(p4 ha).1] at hu
              cases hu
              exact hid
          have hsent : sent_count i d.idle = base + k := by
            unfold sent_count at hs ⊢
            by_cases ha : (d.items t.node).asleep = true ∧ t.kind ≠ .wake
            · rw [(p3 ha).2]
              exact hs
            · rw [(p4 ha).2, List.filter_append, List.length_append, hs]
              have : List.filter (fun u => decide (u.id = i)) [t] = [] := by
                simp only [List.filter_cons, List.filter_nil]
                rw [if_neg (by simp [hid])]
              rw [this]
              rfl
          refine ⟨k, hwf2, by rw [p2]; exact hi, hsent, ?_⟩
          unfold lifecycle at hl ⊢
          rw [← hq]
          rcases hl with ⟨a1, a2, -⟩ | ⟨-, ⟨u, b1, -, -⟩, -⟩ | ⟨c1, -, c3⟩
          · exact Or.inl ⟨a1, a2, hcur⟩
          · rw [hc] at b1
            cases b1
          · exact Or.inr (Or.inr ⟨c1, hcur, c3⟩)


/-- A run of events keeps the invariant. -/
theorem lifecycle_run (i : Nat) (T : Int) (base : Nat) (evs : List dialog_event) :
    ∀ (d : Dialog) (k : Nat), d.wf → i < d.fresh → sent_count i d = base + k →
      lifecycle i T k d → times_out i d evs →
      ∃ k2, sent_count i (d.run evs) = base + k2 ∧ lifecycle i T k2 (d.run evs) := by
  induction evs with
  | nil =>
    intro d k _ _ hs hl _
    exact ⟨k, hs, hl⟩
  | cons e es ih =>
    intro d k hwf hi hs hl ht
    obtain ⟨h1, h2, h3⟩ := ht
    obtain ⟨k2, a1, a2, a3, a4⟩ := lifecycle_step i T base d e k hwf hi hs hl h1 h2
    exact ih (d.step e) k2 a1 a2 a3 a4 h3

/-- The timeout timer with a current task that has time to live left. -/
theorem timeout_some (d : Dialog) (t : Task) (hc : d.currentTask = some t) (ht : 0 < t.ttl) :
    d.timeout.tasks = d.tasks ++ (if 1 < t.ttl then [{ t with ttl := t.ttl - 1 }] else []) ∧
    d.timeout.currentTask = none ∧ d.timeout.sent = d.sent ∧ d.timeout.fresh = d.fresh ∧
    d.timeout.opened = d.opened ∧ d.timeout.nodes = d.nodes ∧
    (d.timeout.items t.node).qos = max ((d.items t.node).qos - 10) 0 ∧
    ∀ n, (d.timeout.items n).asleep = (d.items n).asleep := by
  have h0 : t.ttl ≠ 0 := by omega
  unfold Dialog.timeout
  simp only [hc, Task.timeout, h0, ne_eq, not_false_eq_true, if_true]
  by_cases h1 : 1 < t.ttl
  · have h2 : t.ttl - 1 > 0 := by omega
    simp only [h1, h2, if_true, Dialog.postTask, Dialog.update, NodeItem.badQos]
    refine ⟨trivial, trivial, trivial, trivial, trivial, trivial, ?_, fun n => ?_⟩
    · simp
    · split_ifs <;> rfl
  · have h2 : ¬ t.ttl - 1 > 0 := by omega
    simp only [h1, h2, if_false, Dialog.update, NodeItem.badQos, List.append_nil]
    refine ⟨trivial, trivial, trivial, trivial, trivial, trivial, ?_, fun n => ?_⟩
    · simp
    · split_ifs <;> rfl

/-- The timeout timer without a current task. -/
theorem timeout_none (d : Dialog) (hc : d.currentTask = none) :
    d.timeout.tasks = d.tasks ∧ d.timeout.currentTask = none ∧ d.timeout.opened = d.opened ∧
    d.timeout.nodes = d.nodes ∧ d.timeout.items = d.items := by
  simp [Dialog.timeout, hc]


/-- The idle timer changes neither the port, the list of nodes nor the items. -/
theorem idle_frame (d : Dialog) :
    d.idle.opened = d.opened ∧ d.idle.nodes = d.nodes ∧ d.idle.items = d.items := by
  unfold Dialog.idle
  by_cases c1 : d.opened = true
  · by_cases c2 : d.nodes.length = 0
    · simp [c1, c2]
    · cases hc : d.currentTask with
      | some u => simp [c1, c2]
      | none =>
        cases htk : d.tasks with
        | nil =>
          simp only [c1, c2, htk, Bool.not_true, Bool.false_eq_true, if_false,
            Option.isSome_none, List.isEmpty_nil, if_true, Dialog.postTask, List.nil_append]
          generalize (if d.idleIndex ≥ d.nodes.length then 0 else d.idleIndex) = ix
          cases ha : (d.items (d.nodes.getD ix 0)).asleep <;> simp
        | cons t rest =>
          simp only [c1, c2, htk, Bool.not_true, Bool.false_eq_true, if_false,
            Option.isSome_none, List.isEmpty_cons]
          cases ha : ((d.items t.node).asleep && decide (t.kind ≠ .wake)) <;> simp
  · simp [c1]

/-- The sum of the times to live of a queue with a head. -/
theorem ttl_sum_cons (t : Task) (ts : List Task) :
    ttl_sum (t :: ts) = t.ttl.toNat + ttl_sum ts := by
  simp [ttl_sum]

/-- The sum of the times to live of two queues in a row. -/
theorem ttl_sum_append (a b : List Task) : ttl_sum (a ++ b) = ttl_sum a + ttl_sum b := by
  simp [ttl_sum]

/-- One turn of the idle timer and the timeout timer. -/
theorem round_spec (i : Nat) (d : Dialog) (c1 : d.opened = true) (c2 : d.nodes.length ≠ 0)
    (hc : d.currentTask = none) (hpos : ∀ t ∈ d.tasks, 0 < t.ttl)
    (hJ : ∀ t ∈ d.tasks, t.id = i → ¬ ((d.items t.node).asleep = true ∧ t.kind ≠ .wake)) :
    d.idle.timeout.opened = true ∧ d.idle.timeout.nodes.length ≠ 0 ∧
    d.idle.timeout.currentTask = none ∧ (∀ t ∈ d.idle.timeout.tasks, 0 < t.ttl) ∧
    (∀ t ∈ d.idle.timeout.tasks, t.id = i →
      ¬ ((d.idle.timeout.items t.node).asleep = true ∧ t.kind ≠ .wake)) ∧
    ttl_sum d.idle.timeout.tasks ≤ ttl_sum d.tasks - 1 := by
  obtain ⟨f1, f2, f3⟩ := idle_frame d
  cases htk : d.tasks with
  | nil =>
    obtain ⟨p, ⟨-, pt⟩, p2, -, p4⟩ := idle_ping d c1 c2 hc htk
    have hempty : d.idle.timeout.opened = true ∧ d.idle.timeout.nodes.length ≠ 0 ∧
        d.idle.timeout.currentTask = none ∧ d.idle.timeout.tasks = [] := by
      rcases p4 with ⟨q1, -⟩ | ⟨q1, -⟩
      · obtain ⟨g1, g2, g3, g4, -⟩ := timeout_none d.idle q1
        exact ⟨by rw [g3, f1, c1], by rw [g4, f2]; exact c2, g2, by rw [g1, p2]⟩
      · obtain ⟨g1, g2, -, -, g3, g4, -, -⟩ := timeout_some d.idle p q1 (by omega)
        refine ⟨by rw [g3, f1, c1], by rw [g4, f2]; exact c2, g2, ?_⟩
        rw [g1, p2, if_neg (by omega)]
        rfl
    obtain ⟨e1, e2, e3, e4⟩ := hempty
    refine ⟨e1, e2, e3, ?_, ?_, ?_⟩
    · rw [e4]
      intro t ht
      cases ht
    · rw [e4]
      intro t ht
      cases ht
    · rw [e4]
      exact Nat.zero_le _
  | cons t rest =>
    obtain ⟨p1, -, p3, p4⟩ := idle_pop d t rest c1 c2 hc htk
    have ht0 : 0 < t.ttl := hpos t (by rw [htk]; exact List.mem_cons_self _ _)
    have hrest : ∀ u ∈ rest, u ∈ d.tasks := fun u hu => by
      rw [htk]
      exact List.mem_cons_of_mem _ hu
    rw [ttl_sum_cons]
    by_cases ha : (d.items t.node).asleep = true ∧ t.kind ≠ .wake
    · obtain ⟨g1, g2, g3, g4, g5⟩ := timeout_none d.idle (p3 ha).1
      refine ⟨by rw [g3, f1, c1], by rw [g4, f2]; exact c2, g2, ?_, ?_, ?_⟩
      · rw [g1, p1]
        exact fun u hu => hpos u (hrest u hu)
      · rw [g1, p1, g5, f3]
        exact fun u hu => hJ u (hrest u hu)
      · rw [g1, p1]
        omega
    · obtain ⟨g1, g2, -, -, g3, g4, -, g5⟩ := timeout_some d.idle t (p4 ha).1 ht0
      refine ⟨by rw [g3, f1, c1], by rw [g4, f2]; exact c2, g2, ?_, ?_, ?_⟩
      · rw [g1, p1]
        intro u hu
        rw [List.mem_append] at hu
        rcases hu with hu | hu
        · exact hpos u (hrest u hu)
        · by_cases h1 : 1 < t.ttl
          · rw [if_pos h1, List.mem_singleton] at hu
            rw [hu]
            show 0 < t.ttl - 1
            omega
          · rw [if_neg h1] at hu
            cases hu
      · rw [g1, p1]
        intro u hu hid
        rw [g5, f3]
        rw [List.mem_append] at hu
        rcases hu with hu | hu
        · exact hJ u (hrest u hu) hid
        · by_cases h1 : 1 < t.ttl
          · rw [if_pos h1, List.mem_singleton] at hu
            rw [hu]
            rw [hu] at hid
            exact hJ t (by rw [htk]; exact List.mem_cons_self _ _) hid
          · rw [if_neg h1] at hu
            cases hu
      · rw [g1, p1, ttl_sum_append]
        by_cases h1 : 1 < t.ttl
        · rw [if_pos h1, ttl_sum_cons]
          show ttl_sum rest + ((t.ttl - 1).toNat + ttl_sum []) ≤ _
          have : ttl_sum ([] : List Task) = 0 := rfl
          omega
        · rw [if_neg h1]
          have : ttl_sum ([] : List Task) = 0 := rfl
          omega

/-- The schedule `rounds n` empties a queue whose times to live sum up to at
most `n`, and in it every transmission of the task `i` times out. -/
theorem rounds_run (i : Nat) (n : Nat) :
    ∀ d : Dialog, d.opened = true → d.nodes.length ≠ 0 → d.currentTask = none →
      (∀ t ∈ d.tasks, 0 < t.ttl) →
      (∀ t ∈ d.tasks, t.id = i → ¬ ((d.items t.node).asleep = true ∧ t.kind ≠ .wake)) →
      ttl_sum d.tasks ≤ n →
      times_out i d (rounds n) ∧ (d.run (rounds n)).tasks = [] ∧
        (d.run (rounds n)).currentTask = none := by
  induction n with
  | zero =>
    intro d _ _ hc hpos _ hn
    refine ⟨trivial, ?_, hc⟩
    show d.tasks = []
    cases htk : d.tasks with
    | nil => rfl
    | cons t rest =>
      have := hpos t (by rw [htk]; exact List.mem_cons_self _ _)
      rw [htk, ttl_sum_cons] at hn
      omega
  | succ n ih =>
    intro d c1 c2 hc hpos hJ hn
    obtain ⟨r1, r2, r3, r4, r5, r6⟩ := round_spec i d c1 c2 hc hpos hJ
    obtain ⟨a1, a2, a3⟩ := ih d.idle.timeout r1 r2 r3 r4 r5 (by omega)
    refine ⟨⟨?_, ?_, ⟨?_, ?_, a1⟩⟩, a2, a3⟩
    · intro ok t he
      cases he
    · intro t _ _ _ _ hh hid
      cases htk : d.tasks with
      | nil =>
        rw [htk] at hh
        cases hh
      | cons u rest =>
        rw [htk] at hh
        cases hh
        exact hJ t (by rw [htk]; exact List.mem_cons_self _ _) hid
    · intro ok t he
      cases he
    · intro t he
      cases he


/-- C22, as stated, fails: for the dialog `dialog_example` the scene task 0
for node 7 is transmitted and times out, is queued again behind the sleep task
1 with a time to live of 3, the sleep task is transmitted and answered with
`100`, and the next idle timer discards the scene task because its node is now
marked asleep: it has been transmitted once, not four times. -/
theorem task_dropped_asleep :
    queued 0 dialog_example = [⟨0, .scene, 7, 4⟩] ∧
    (dialog_example.run [.idle]).currentTask = some ⟨0, .scene, 7, 4⟩ ∧
    (dialog_example.run [.idle, .timeout]).tasks = [⟨1, .sleep, 7, 4⟩, ⟨0, .scene, 7, 3⟩] ∧
    (dialog_example.run [.idle, .timeout, .idle]).currentTask = some ⟨1, .sleep, 7, 4⟩ ∧
    ((dialog_example.run [.idle, .timeout, .idle, .response true]).items 7).asleep = true ∧
    queued 0 (dialog_example.run [.idle, .timeout, .idle, .response true]) =
      [⟨0, .scene, 7, 3⟩] ∧
    sent_count 0 (dialog_example.run [.idle, .timeout, .idle, .response true, .idle]) = 1 ∧
    (dialog_example.run [.idle, .timeout, .idle, .response true, .idle]).tasks = [] ∧
    (dialog_example.run [.idle, .timeout, .idle, .response true, .idle]).currentTask = none := by
  decide

/-- C22, amended: the constructors give a ping task a time to live of 1 and
every other task one of 4. A timeout of the current task with time to live
left lowers the QoS of its node by 10, not below 0, takes one from the time to
live and puts the task at the tail of the queue if the time to live is still
positive, and drops it otherwise. A task other than a wake task that the idle
timer takes from the queue while its node is marked asleep is discarded without
being transmitted. For a task `i` that is in the queue once with the time to
live `T`: along every run of events in which no response arrives while the task
is the current one and its node is not marked asleep when the idle timer takes
it from the queue (a wake task apart), the task has been transmitted `k`
further times and is in the queue with `T - k` left, or is the current task, or
is gone after exactly `T` transmissions. With the port open, a node in the
list, no current task and positive times to live in the queue, the schedule
`rounds n` with `n` at least the sum of the times to live is such a run, and
after it the task is gone and has been transmitted exactly `T` times. -/
theorem task_retry (i : Nat) (T : Int) (d : Dialog) (t : Task) (hwf : d.wf)
    (hq : queued i d = [t]) (ht : t.ttl = T) (hT : 0 < T)
    (hcur : ∀ u, d.currentTask = some u → u.id ≠ i) :
    (task_ttl .ping = 1 ∧ ∀ kind, kind ≠ .ping → task_ttl kind = 4) ∧
    (∀ (c : Dialog) (u : Task), c.currentTask = some u → 0 < u.ttl →
      (c.timeout.items u.node).qos = max ((c.items u.node).qos - 10) 0 ∧
      c.timeout.currentTask = none ∧
      c.timeout.tasks =
        c.tasks ++ (if 1 < u.ttl then [{ u with ttl := u.ttl - 1 }] else [])) ∧
    (∀ (c : Dialog) (u : Task) (rest : List Task), c.opened = true → c.nodes.length ≠ 0 →
      c.currentTask = none → c.tasks = u :: rest → (c.items u.node).asleep = true →
      u.kind ≠ .wake →
      c.idle.tasks = rest ∧ c.idle.currentTask = none ∧ c.idle.sent = c.sent) ∧
    (∀ evs, times_out i d evs →
      ∃ k : Nat, sent_count i (d.run evs) = sent_count i d + k ∧
        lifecycle i T k (d.run evs)) ∧
    (d.opened = true → d.nodes.length ≠ 0 → d.currentTask = none →
      (∀ u ∈ d.tasks, 0 < u.ttl) →
      ¬ ((d.items t.node).asleep = true ∧ t.kind ≠ .wake) →
      ∀ n, ttl_sum d.tasks ≤ n →
        times_out i d (rounds n) ∧
        (sent_count i (d.run (rounds n)) : Int) = sent_count i d + T ∧
        queued i (d.run (rounds n)) = [] ∧ (d.run (rounds n)).currentTask = none) := by
  have hmem : ∀ u ∈ d.tasks, u.id = i → u = t := by
    intro u hu hid
    have : u ∈ queued i d := by
      unfold queued
      rw [List.mem_filter]
      exact ⟨hu, by simp [hid]⟩
    rw [hq, List.mem_singleton] at this
    exact this
  have htm : t ∈ d.tasks ∧ t.id = i := by
    have : t ∈ queued i d := by rw [hq]; exact List.mem_singleton_self t
    unfold queued at this
    rw [List.mem_filter] at this
    exact ⟨this.1, by simpa using this.2⟩
  have hi : i < d.fresh := by
    have := hwf.1 t htm.1
    omega
  have hl : lifecycle i T 0 d := Or.inl ⟨⟨t, hq, by rw [ht]; simp⟩, by simpa using hT, hcur⟩
  have hrun : ∀ evs, times_out i d evs →
      ∃ k : Nat, sent_count i (d.run evs) = sent_count i d + k ∧
        lifecycle i T k (d.run evs) :=
    fun evs he => lifecycle_run i T (sent_count i d) evs d 0 hwf hi rfl hl he
  refine ⟨⟨rfl, fun kind hk => ?_⟩, fun c u hc hu => ?_,
    fun c u rest c1 c2 hc htk ha hk => ?_, hrun, ?_⟩
  · unfold task_ttl
    rw [if_neg hk]
  · obtain ⟨g1, g2, -, -, -, -, g3, -⟩ := timeout_some c u hc hu
    exact ⟨g3, g2, g1⟩
  · obtain ⟨p1, -, p3, -⟩ := idle_pop c u rest c1 c2 hc htk
    exact ⟨p1, (p3 ⟨ha, hk⟩).1, (p3 ⟨ha, hk⟩).2⟩
  · intro c1 c2 hc hpos ha n hn
    have hJ : ∀ u ∈ d.tasks, u.id = i →
        ¬ ((d.items u.node).asleep = true ∧ u.kind ≠ .wake) := by
      intro u hu hid
      rw [hmem u hu hid]
      exact ha
    obtain ⟨r1, r2, r3⟩ := rounds_run i n d c1 c2 hc hpos hJ hn
    obtain ⟨k, k1, k2⟩ := hrun (rounds n) r1
    have hq0 : queued i (d.run (rounds n)) = [] := by
      unfold queued
      rw [r2]
      rfl
    refine ⟨r1, ?_, hq0, r3⟩
    rw [k1]
    rcases k2 with ⟨⟨u, a0, -⟩, -, -⟩ | ⟨-, ⟨u, b1, -, -⟩, -⟩ | ⟨-, -, c3⟩
    · rw [hq0] at a0
      cases a0
    · rw [r3] at b1
      cases b1
    · push_cast
      omega

/-- In the run of `dialog_wake` in which the wake task is sent and answered
between two idle timers, no response arrives while the scene task 1 is the
current one, and the node is awake when the scene task is taken. -/
theorem dialog_wake_times_out :
    times_out 1 dialog_wake [.idle, .idle, .response true, .idle] := by
  refine ⟨fun ok t he => (by cases he), fun t _ _ _ _ hh hid => ?_,
    fun ok t he => (by cases he), fun t _ _ _ hc => ?_,
    fun ok t _ hc => ?_, fun t he => (by cases he),
    fun ok t he => (by cases he), fun t _ _ _ _ hh _ => ?_, trivial⟩
  · have e : dialog_wake.tasks.head? = some ⟨0, .wake, 7, 4⟩ := rfl
    rw [e] at hh
    cases hh
    cases hid
  · have e : (dialog_wake.step .idle).currentTask = some ⟨0, .wake, 7, 4⟩ := by decide
    rw [e] at hc
    cases hc
  · have e : ((dialog_wake.step .idle).step .idle).currentTask = some ⟨0, .wake, 7, 4⟩ := by
      decide
    rw [e] at hc
    cases hc
    decide
  · have e : (((dialog_wake.step .idle).step .idle).step (.response true)).tasks.head? =
        some ⟨1, .scene, 7, 4⟩ := by decide
    rw [e] at hh
    cases hh
    have e2 : ((((dialog_wake.step .idle).step .idle).step (.response true)).items 7).asleep =
        false := by decide
    show ¬ (((((dialog_wake.step .idle).step .idle).step (.response true)).items 7).asleep =
      true ∧ _)
    rw [e2]
    exact fun h => Bool.noConfusion h.1

/-- The amended C22 on two dialogs. In `dialog_single` the scene task 0 is
transmitted four times in four rounds of idle timer and timeout, and is then
gone. In `dialog_wake` the scene task 1 stays in the queue while the wake task
is sent and answered, and is then sent with the node awake. -/
theorem task_retry_witness :
    (queued 0 dialog_single = [⟨0, .scene, 7, 4⟩] ∧
      times_out 0 dialog_single (rounds 4) ∧
      (sent_count 0 (dialog_single.run (rounds 4)) : Int) = sent_count 0 dialog_single + 4 ∧
      queued 0 (dialog_single.run (rounds 4)) = [] ∧
      (dialog_single.run (rounds 4)).currentTask = none) ∧
    (times_out 1 dialog_wake [.idle, .idle, .response true, .idle] ∧
      (dialog_wake.run [.idle, .idle, .response true, .idle]).currentTask =
        some ⟨1, .scene, 7, 4⟩ ∧
      ∃ k : Nat, sent_count 1 (dialog_wake.run [.idle, .idle, .response true, .idle]) =
          sent_count 1 dialog_wake + k ∧
        lifecycle 1 4 k (dialog_wake.run [.idle, .idle, .response true, .idle])) :=
  ⟨⟨by decide,
    (task_retry 0 4 dialog_single ⟨0, .scene, 7, 4⟩
      ⟨by decide, fun u hu => by simp [dialog_single] at hu⟩ (by decide) rfl (by decide)
      (fun u hu => by simp [dialog_single] at hu)).2.2.2.2 rfl (by decide) rfl (by decide)
      (by decide) 4 (by decide)⟩,
   dialog_wake_times_out, by decide,
   (task_retry 1 4 dialog_wake ⟨1, .scene, 7, 4⟩
      ⟨by decide, fun u hu => by simp [dialog_wake] at hu⟩ (by decide) rfl (by decide)
      (fun u hu => by simp [dialog_wake] at hu)).2.2.2.1 _ dialog_wake_times_out⟩

/-! ## Configuration parser: what a step keeps -/

theorem fr_skip_line {R : World → World → Prop} (h : Closed R)
    : ∀ (fuel : Nat) (w : World), R w (skip_line fuel w) := by
  intro fuel
  induction fuel with
  | zero => intro w; exact h.cut w
  | succ n ih =>
    intro w
    rw [skip_line]
    split_ifs
    · exact h.trans (h.getch w) (ih _)
    · exact h.getch w

theorem fr_skip_star {R : World → World → Prop} (h : Closed R)
    : ∀ (fuel : Nat) (w : World), R w (skip_star fuel w) := by
  intro fuel
  induction fuel with
  | zero => intro w; exact h.cut w
  | succ n ih =>
    intro w
    rw [skip_star]
    split_ifs
    · exact h.trans (h.getch w) (ih _)
    · exact h.getch w

theorem fr_skip_block {R : World → World → Prop} (h : Closed R)
    : ∀ (fuel : Nat) (w : World), R w (skip_block fuel w) := by
  intro fuel
  induction fuel with
  | zero => intro w; exact h.cut w
  | succ n ih =>
    intro w
    rw [skip_block]
    split_ifs
    · exact h.trans (h.trans ((fr_skip_star h) _ w) (h.getch _)) (ih _)
    · exact h.trans ((fr_skip_star h) _ w) (h.getch _)

theorem fr_ite {R : World → World → Prop}
    {α : Type} (c : Prop) [Decidable c] (a b : α × World) (w : World)
    (ha : R w a.2) (hb : R w b.2) : R w (if c then a else b).2 := by
  split_ifs
  · exact ha
  · exact hb

theorem fr_read_word {R : World → World → Prop} (h : Closed R)
    : ∀ (fuel : Nat) (kw : List Nat) (ch : Int) (w : World),
    R w (read_word fuel kw ch w).2 := by
  intro fuel
  induction fuel with
  | zero => intro kw ch w; exact h.cut w
  | succ n ih =>
    intro kw ch w
    rw [read_word]
    with_reducible apply fr_ite
    · exact h.trans (h.getch w) (ih _ _ _)
    · exact h.trans (h.getch w) (h.ungetch _ _)

theorem fr_ite3 {R : World → World → Prop}
    {α β : Type} (c : Prop) [Decidable c] (a b : α × β × World) (w : World)
    (ha : R w a.2.2) (hb : R w b.2.2) : R w (if c then a else b).2.2 := by
  split_ifs
  · exact ha
  · exact hb

theorem fr_token_char {R : World → World → Prop} (h : Closed R)
    (ch : Int) (w : World) : R w (token_char ch w).2 := by
  unfold token_char
  repeat' first
    | with_reducible exact h.refl w
    | with_reducible exact h.ungetch _ _
    | with_reducible exact h.fail _ _
    | with_reducible exact (fr_read_word h) _ _ _ _
    | with_reducible exact h.trans ((fr_read_word h) _ _ _ _) (h.fail _ _)
    | with_reducible apply fr_ite

theorem fr_token_loop {R : World → World → Prop} (h : Closed R)
    : ∀ (fuel : Nat) (w : World), R w (token_loop fuel w).2 := by
  intro fuel
  induction fuel with
  | zero => intro w; exact h.cut w
  | succ n ih =>
    intro w
    rw [token_loop]
    dsimp only
    split_ifs
    · exact h.getch w
    · exact h.trans (h.getch w) (ih _)
    · exact h.trans (h.trans (h.trans (h.getch w) (h.getch _))
        ((fr_skip_line h) _ _)) (ih _)
    · exact h.trans (h.trans (h.trans (h.getch w) (h.getch _))
        ((fr_skip_block h) _ _)) (ih _)
    · exact h.trans (h.trans (h.trans (h.getch w) (h.getch _))
        (h.ungetch _ _)) ((fr_token_char h) _ _)
    · exact h.trans (h.getch w) ((fr_token_char h) _ _)

theorem fr_token {R : World → World → Prop} (h : Closed R)
    (w : World) : R w (token w).2 := (fr_token_loop h) _ w

theorem fr_EXPECT {R : World → World → Prop} (h : Closed R)
    (x : Nat) (name : String) (w : World) : R w (EXPECT x name w).2 := by
  unfold EXPECT
  dsimp only
  split_ifs
  · exact h.trans ((fr_token h) w) (h.fail _ _)
  · exact (fr_token h) w

theorem fr_andThen {R : World → World → Prop} (h : Closed R)
    (r : Bool × World) (k : World → Bool × World) (w : World)
    (h1 : R w r.2) (h2 : ∀ x, R x (k x).2) : R w (andThen r k).2 := by
  unfold andThen
  split_ifs
  · exact h.trans h1 (h2 _)
  · exact h1

theorem fr_ite_world {R : World → World → Prop} (c : Prop) [Decidable c] (a b : World) (w : World)
    (ha : R w a) (hb : R w b) : R w (if c then a else b) := by
  split_ifs
  · exact ha
  · exact hb

theorem fr_ite_digits {R : World → World → Prop}
    (c : Prop) [Decidable c] (a b : digits_t) (w : World)
    (ha : R w a.w) (hb : R w b.w) : R w (if c then a else b).w := by
  split_ifs
  · exact ha
  · exact hb

theorem fr_ite_range {R : World → World → Prop} (c : Prop) [Decidable c] (a b : range_t) (w : World)
    (ha : R w a.w) (hb : R w b.w) : R w (if c then a else b).w := by
  split_ifs
  · exact ha
  · exact hb

theorem fr_int32 {R : World → World → Prop} (h : Closed R)
    (x : Int) (w : World) : R w (int32 x w).2 := by
  unfold int32
  with_reducible apply fr_ite_world
  · exact h.refl w
  · exact h.undefined w

theorem fr_read_string_loop {R : World → World → Prop} (h : Closed R)
    (buf : Bool) : ∀ (fuel : Nat) (out : List Nat) (buflen : Nat)
    (w : World), R w (read_string_loop buf fuel out buflen w).2.2 := by
  intro fuel
  induction fuel with
  | zero => intro out buflen w; exact h.cut w
  | succ n ih =>
    intro out buflen w
    rw [read_string_loop]
    by_cases h1 : (getch w).1 < 0
    · rw [if_pos h1]; exact h.getch w
    rw [if_neg h1]
    by_cases h2 : (getch w).1 = 34
    · rw [if_pos h2]; exact h.getch w
    rw [if_neg h2]
    have tail : ∀ (ch : Int) (x : World), R w x → R w
        (if buf = true then
          if buflen = 0 then (false, out, fail "String too long" x)
          else read_string_loop buf n (out ++ [ch.toNat]) (buflen - 1) x
        else read_string_loop buf n out buflen x).2.2 := by
      intro ch x hx
      split_ifs
      · exact h.trans hx (h.fail _ _)
      · exact h.trans hx (ih _ _ _)
      · exact h.trans hx (ih _ _ _)
    have g2 : R w (getch (getch w).2).2 := h.trans (h.getch w) (h.getch _)
    by_cases c1 : (getch w).1 = 92
    · simp only [if_pos c1]
      by_cases c2 : (getch (getch w).2).1 < 0
      · simp only [if_pos c2]
        exact h.trans (h.getch w) (h.getch _)
      simp only [if_neg c2]
      by_cases c3 : (getch (getch w).2).1 = 116
      · simp only [if_pos c3]
        exact tail _ _ g2
      simp only [if_neg c3]
      by_cases c4 : (getch (getch w).2).1 = 114
      · simp only [if_pos c4]
        exact tail _ _ g2
      simp only [if_neg c4]
      by_cases c5 : (getch (getch w).2).1 = 110
      · simp only [if_pos c5]
        exact tail _ _ g2
      simp only [if_neg c5]
      by_cases c6 : (getch (getch w).2).1 = 34 ∨ (getch (getch w).2).1 = 92
      · simp only [if_pos c6]
        exact tail _ _ g2
      simp only [if_neg c6]
      exact tail _ _ (h.trans g2 (h.ungetch _ _))
    · simp only [if_neg c1]
      exact tail _ _ (h.getch w)

theorem fr_read_string {R : World → World → Prop} (h : Closed R) (buflen : Nat) (w : World) :
    R w (read_string buflen w).2.2 := by
  unfold read_string
  repeat' first
    | with_reducible exact h.refl _
    | with_reducible apply fr_ite3
    | with_reducible refine h.trans ?_ ((fr_read_string_loop h) _ _ _ _ _)
    | with_reducible refine h.trans ?_ (h.fail _ _)
    | with_reducible refine h.trans ?_ (h.getch _)

theorem fr_skip_space {R : World → World → Prop} (h : Closed R)  :
    ∀ (fuel : Nat) (ch : Int) (w : World), R w (skip_space fuel ch w).2 := by
  intro fuel
  induction fuel with
  | zero => intro ch w; exact h.cut w
  | succ n ih =>
    intro ch w
    rw [skip_space]
    repeat' first
      | with_reducible exact h.refl _
      | with_reducible refine h.trans ?_ (ih _ _)
      | with_reducible apply fr_ite
      | with_reducible refine h.trans ?_ (h.getch _)

theorem fr_next_char {R : World → World → Prop} (h : Closed R) (w : World) :
    R w (next_char w).2 := by
  unfold next_char
  repeat' first
    | with_reducible exact h.refl _
    | with_reducible apply fr_ite
    | with_reducible refine h.trans ?_ ((fr_skip_space h) _ _ _)
    | with_reducible refine h.trans ?_ (h.getch _)

theorem fr_read_digits {R : World → World → Prop} (h : Closed R) (base : Int) (sign : Bool) :
    ∀ (fuel : Nat) (value ch : Int) (w : World), R w (read_digits base sign fuel value ch w).w := by
  intro fuel
  induction fuel with
  | zero => intro value ch w; exact h.cut w
  | succ n ih =>
    intro value ch w
    rw [read_digits]
    repeat' first
      | with_reducible exact h.refl _
      | with_reducible refine h.trans ?_ (ih _ _ _)
      | with_reducible apply fr_ite_digits
      | with_reducible refine h.trans ?_ ((fr_int32 h) _ _)
      | with_reducible refine h.trans ?_ (h.fail _ _)
      | with_reducible refine h.trans ?_ (h.getch _)

theorem fr_read_int_clip {R : World → World → Prop} (h : Closed R)
    (min max value ch : Int) (w : World) :
    R w (read_int_clip min max value ch w).2.2 := by
  unfold read_int_clip
  repeat' first
    | with_reducible exact h.refl _
    | with_reducible apply fr_ite3
    | with_reducible refine h.trans ?_ (h.fail _ _)
    | with_reducible refine h.trans ?_ (h.ungetch _ _)

theorem fr_read_int_digits {R : World → World → Prop} (h : Closed R)
    (min max base : Int) (sign : Bool) (ch : Int) (w : World) :
    R w (read_int_digits min max base sign ch w).2.2 := by
  unfold read_int_digits
  repeat' first
    | with_reducible exact h.refl _
    | with_reducible apply fr_ite3
    | with_reducible refine h.trans ?_ ((fr_read_int_clip h) _ _ _ _ _)
    | with_reducible refine h.trans ?_ ((fr_read_digits h) _ _ _ _ _ _)
    | with_reducible refine h.trans ?_ (h.fail _ _)

theorem fr_read_int_base {R : World → World → Prop} (h : Closed R)
    (min max : Int) (sign : Bool) (ch : Int) (w : World) :
    R w (read_int_base min max sign ch w).2.2 := by
  unfold read_int_base
  repeat' first
    | with_reducible exact h.refl _
    | with_reducible apply fr_ite3
    | with_reducible refine h.trans ?_ ((fr_read_int_digits h) _ _ _ _ _ _)
    | with_reducible refine h.trans ?_ ((fr_read_int_clip h) _ _ _ _ _)
    | with_reducible refine h.trans ?_ ((fr_skip_space h) _ _ _)
    | with_reducible refine h.trans ?_ (h.getch _)

theorem fr_read_int {R : World → World → Prop} (h : Closed R) (min max : Int) (w : World) :
    R w (read_int min max w).2.2 := by
  unfold read_int
  repeat' first
    | with_reducible exact h.refl _
    | with_reducible apply fr_ite3
    | with_reducible refine h.trans ?_ ((fr_read_int_base h) _ _ _ _ _)
    | with_reducible refine h.trans ?_ (h.getch _)

theorem fr_read_color_comp {R : World → World → Prop} (h : Closed R) (w : World) :
    R w (read_color_comp w).2.2 := by
  unfold read_color_comp
  repeat' first
    | with_reducible exact h.refl _
    | with_reducible apply fr_ite3
    | with_reducible refine h.trans ?_ ((fr_read_int h) _ _ _)
    | with_reducible refine h.trans ?_ ((fr_next_char h) _)
    | with_reducible refine h.trans ?_ (h.fail _ _)
    | with_reducible refine h.trans ?_ (h.ungetch _ _)

theorem fr_read_color_arg {R : World → World → Prop} (h : Closed R) (i : Nat) (w : World) :
    R w (read_color_arg i w).2.2 := by
  unfold read_color_arg
  repeat' first
    | with_reducible exact h.refl _
    | with_reducible apply fr_ite
    | with_reducible apply fr_ite3
    | with_reducible apply fr_ite_world
    | with_reducible refine h.trans ?_ ((fr_read_color_comp h) _)
    | with_reducible refine h.trans ?_ ((fr_EXPECT h) _ _ _)
    | with_reducible refine h.trans ?_ (h.fail _ _)

theorem fr_read_color {R : World → World → Prop} (h : Closed R) (w : World) :
    R w (read_color w).2.2 := by
  unfold read_color
  repeat' first
    | with_reducible exact h.refl _
    | with_reducible apply fr_ite3
    | with_reducible refine h.trans ?_ ((fr_read_color_arg h) _ _)
    | with_reducible refine h.trans ?_ ((fr_read_color_comp h) _)
    | with_reducible refine h.trans ?_ ((fr_EXPECT h) _ _ _)
    | with_reducible refine h.trans ?_ ((fr_token h) _)
    | with_reducible refine h.trans ?_ (h.fail _ _)
    | with_reducible refine h.trans ?_ (h.getch _)
    | with_reducible refine h.trans ?_ (h.tok _ _)

theorem fr_read_range_begin {R : World → World → Prop} (h : Closed R) (max : Nat) (w : World) :
    R w (read_range_begin max w).2.2 := by
  unfold read_range_begin
  repeat' first
    | with_reducible exact h.refl _
    | with_reducible apply fr_ite3
    | with_reducible refine h.trans ?_ ((fr_read_int h) _ _ _)
    | with_reducible refine h.trans ?_ ((fr_next_char h) _)
    | with_reducible refine h.trans ?_ ((fr_EXPECT h) _ _ _)
    | with_reducible refine h.trans ?_ (h.fail _ _)
    | with_reducible refine h.trans ?_ (h.ungetch _ _)

theorem fr_read_range_end {R : World → World → Prop} (h : Closed R) (max : Nat) (w : World) :
    R w (read_range_end max w).2.2 := by
  unfold read_range_end
  repeat' first
    | with_reducible exact h.refl _
    | with_reducible apply fr_ite3
    | with_reducible refine h.trans ?_ ((fr_read_int h) _ _ _)
    | with_reducible refine h.trans ?_ ((fr_next_char h) _)
    | with_reducible refine h.trans ?_ ((fr_EXPECT h) _ _ _)
    | with_reducible refine h.trans ?_ (h.fail _ _)
    | with_reducible refine h.trans ?_ (h.ungetch _ _)

theorem fr_ite4 {R : World → World → Prop}
    {α β γ : Type} (c : Prop) [Decidable c] (a b : α × β × γ × World) (w : World)
    (ha : R w a.2.2.2) (hb : R w b.2.2.2) : R w (if c then a else b).2.2.2 := by
  split_ifs
  · exact ha
  · exact hb

theorem fr_read_range_step {R : World → World → Prop} (h : Closed R) (w : World) :
    R w (read_range_step w).2.2.2 := by
  unfold read_range_step
  repeat' first
    | with_reducible exact h.refl _
    | with_reducible apply fr_ite4
    | with_reducible refine h.trans ?_ ((fr_read_int h) _ _ _)
    | with_reducible refine h.trans ?_ ((fr_next_char h) _)
    | with_reducible refine h.trans ?_ ((fr_EXPECT h) _ _ _)
    | with_reducible refine h.trans ?_ (h.fail _ _)

theorem fr_read_range {R : World → World → Prop} (h : Closed R) (max : Nat) (w : World) :
    R w (read_range max w).w := by
  unfold read_range
  repeat' first
    | with_reducible exact h.refl _
    | with_reducible apply fr_ite_world
    | with_reducible apply fr_ite_range
    | with_reducible refine h.trans ?_ ((fr_read_range_step h) _)
    | with_reducible refine h.trans ?_ ((fr_read_range_end h) _ _)
    | with_reducible refine h.trans ?_ ((fr_read_range_begin h) _ _)
    | with_reducible refine h.trans ?_ ((fr_next_char h) _)
    | with_reducible refine h.trans ?_ (h.fail _ _)
    | with_reducible refine h.trans ?_ (h.getch _)
    | with_reducible refine h.trans ?_ (h.undefined _)

theorem fr_andThen_EXPECT {R : World → World → Prop} (h : Closed R)
    (a : Nat) (b : String) (c : Nat) (d : String) (w : World) :
    R w (andThen (EXPECT a b w) (EXPECT c d)).2 :=
  (fr_andThen h) _ _ _ ((fr_EXPECT h) _ _ _) (fun x => (fr_EXPECT h) _ _ x)

theorem fr_read_block_loop {R : World → World → Prop} (h : Closed R)
    {α : Type} (proc : α → World → Bool × α × World)
    (hp : ∀ p w, R w (proc p w).2.2) :
    ∀ (fuel : Nat) (p : α) (w : World), R w (read_block_loop proc fuel p w).2.2 := by
  intro fuel
  induction fuel with
  | zero => intro p w; exact h.cut w
  | succ n ih =>
    intro p w
    rw [read_block_loop]
    repeat' first
      | with_reducible exact h.refl _
      | with_reducible refine h.trans ?_ (ih _ _)
      | with_reducible refine h.trans ?_ (hp _ _)
      | with_reducible apply fr_ite3
      | with_reducible refine h.trans ?_ ((fr_token h) _)
      | with_reducible refine h.trans ?_ (h.tok _ _)

theorem fr_read_block {R : World → World → Prop} (h : Closed R)
    {α : Type} (proc : α → World → Bool × α × World)
    (hp : ∀ p w, R w (proc p w).2.2) (p : α) (w : World) :
    R w (read_block proc p w).2.2 := by
  unfold read_block
  with_reducible apply fr_ite3
  · exact h.trans (h.trans ((fr_token h) w) (h.tok _ _)) ((fr_read_block_loop h) proc hp _ _ _)
  · exact h.trans (h.trans ((fr_token h) w) (h.tok _ _)) (hp _ _)

theorem fr_map_channel {R : World → World → Prop} (h : Closed R)
    (MAXBUFF flag : Nat) (name : String) (c : led_chan_t) (flags : Nat)
    (w : World) :
    R w (map_channel MAXBUFF flag name c flags w).2.2 := by
  unfold map_channel
  repeat' first
    | with_reducible exact h.refl _
    | with_reducible apply fr_ite3
    | with_reducible refine h.trans ?_ ((fr_read_range h) _ _)
    | with_reducible refine h.trans ?_ ((fr_read_color_comp h) _)
    | with_reducible refine h.trans ?_ ((fr_token h) _)
    | with_reducible refine h.trans ?_ (h.fail _ _)
    | with_reducible refine h.trans ?_ (h.tok _ _)

theorem fr_map_source {R : World → World → Prop} (h : Closed R)
    (MAXBUFF : Nat) (map : led_map_t) (w : World) :
    R w (map_source MAXBUFF map w).2.2 := by
  unfold map_source
  repeat' first
    | with_reducible exact h.refl _
    | with_reducible apply fr_ite3
    | with_reducible apply fr_ite_world
    | with_reducible refine h.trans ?_ ((fr_map_channel h) _ _ _ _ _ _)
    | with_reducible refine h.trans ?_ ((fr_read_color h) _)
    | with_reducible refine h.trans ?_ ((fr_EXPECT h) _ _ _)
    | with_reducible refine h.trans ?_ ((fr_token h) _)
    | with_reducible refine h.trans ?_ (h.fail _ _)
    | with_reducible refine h.trans ?_ (h.tok _ _)

theorem fr_map_statement {R : World → World → Prop} (h : Closed R)
    (hl : WritesLeds R) (MAXBUFF : Nat) (p : Option Nat) (w : World) :
    R w (map_statement MAXBUFF p w).2.2 := by
  unfold map_statement
  cases p with
  | none =>
    dsimp only
    repeat' first
      | with_reducible exact h.refl _
      | with_reducible apply fr_ite
      | with_reducible apply fr_ite3
      | with_reducible apply fr_ite_world
      | with_reducible apply fr_ite_digits
      | with_reducible apply fr_ite_range
      | with_reducible apply fr_ite4
      | with_reducible refine h.trans ?_ ((fr_map_source h) _ _ _)
      | with_reducible refine h.trans ?_ ((fr_andThen_EXPECT h) _ _ _ _ _)
      | with_reducible refine h.trans ?_ ((fr_read_range h) _ _)
      | with_reducible refine h.trans ?_ ((fr_read_int h) _ _ _)
      | with_reducible refine h.trans ?_ ((fr_EXPECT h) _ _ _)
      | with_reducible refine h.trans ?_ (h.call _ _)
      | with_reducible refine h.trans ?_ (h.fail _ _)
  | some n =>
    dsimp only
    repeat' first
      | with_reducible exact h.refl _
      | with_reducible apply fr_ite
      | with_reducible apply fr_ite3
      | with_reducible apply fr_ite_world
      | with_reducible apply fr_ite_digits
      | with_reducible apply fr_ite_range
      | with_reducible apply fr_ite4
      | with_reducible refine h.trans ?_ ((fr_map_source h) _ _ _)
      | with_reducible refine h.trans ?_ ((fr_andThen_EXPECT h) _ _ _ _ _)
      | with_reducible refine h.trans ?_ ((fr_read_range h) _ _)
      | with_reducible refine h.trans ?_ ((fr_read_int h) _ _ _)
      | with_reducible refine h.trans ?_ ((fr_EXPECT h) _ _ _)
      | with_reducible refine h.trans ?_ (h.call _ _)
      | with_reducible refine h.trans ?_ (h.fail _ _)
      | with_reducible refine h.trans ?_ (hl _ _)

theorem fr_read_block_map {R : World → World → Prop} (h : Closed R)
    (hl : WritesLeds R) (MAXBUFF : Nat) (p : Option Nat) (w : World) :
    R w (read_block (map_statement MAXBUFF) p w).2.2 :=
  (fr_read_block h) _ ((fr_map_statement h hl) MAXBUFF) p w

theorem fr_int_value {R : World → World → Prop} (h : Closed R)
    (min max : Int) (msg : String) (w : World) :
    R w (int_value min max msg w).2.2 := by
  unfold int_value
  repeat' first
    | with_reducible exact h.refl _
    | with_reducible apply fr_ite3
    | with_reducible refine h.trans ?_ ((fr_andThen_EXPECT h) _ _ _ _ _)
    | with_reducible refine h.trans ?_ ((fr_read_int h) _ _ _)
    | with_reducible refine h.trans ?_ ((fr_EXPECT h) _ _ _)
    | with_reducible refine h.trans ?_ (h.fail _ _)

theorem fr_color_value {R : World → World → Prop} (h : Closed R) (msg : String) (w : World) :
    R w (color_value msg w).2.2 := by
  unfold color_value
  repeat' first
    | with_reducible exact h.refl _
    | with_reducible apply fr_ite3
    | with_reducible refine h.trans ?_ ((fr_andThen_EXPECT h) _ _ _ _ _)
    | with_reducible refine h.trans ?_ ((fr_read_color h) _)
    | with_reducible refine h.trans ?_ ((fr_EXPECT h) _ _ _)
    | with_reducible refine h.trans ?_ (h.fail _ _)

theorem fr_stop_tpm2 {R : World → World → Prop} (h : Closed R) (w : World) :
    R w (stop_tpm2 w) :=
  h.trans (h.call _ _) (h.call _ _)

theorem fr_sc_skip {R : World → World → Prop} (h : Closed R) (hs : WritesScene R)
    (w : World) : R w (sc_skip w) := by
  unfold sc_skip
  by_cases c : w.command ≠ 0
  · rw [if_pos c]
    dsimp only
    refine h.trans ?_ (hs _ 0 _)
    refine h.trans (hs w (w.command.natAbs : Int) w.arg) ?_
    split_ifs
    · exact fr_stop_tpm2 h _
    · exact h.call _ _
    · exact h.refl _
  · rw [if_neg c]
    exact h.refl w

theorem fr_sc_do_tpm2 {R : World → World → Prop} (h : Closed R) (hs : WritesScene R)
    (file : List Nat) (w : World) : R w (sc_do_tpm2 file w) := by
  unfold sc_do_tpm2
  dsimp only
  split_ifs
  · exact h.trans (h.trans (h.trans (h.trans (h.call _ _) (fr_sc_skip h hs _)) (h.call _ _))
      (h.call _ _)) (hs _ _ _)
  · exact h.trans (h.trans (h.call _ _) (fr_sc_skip h hs _)) (h.call _ _)

theorem fr_sc_do_pause {R : World → World → Prop} (h : Closed R) (hs : WritesScene R)
    (t : Nat) (w : World) : R w (sc_do_pause t w) :=
  h.trans (h.trans (h.call _ _) (fr_sc_skip h hs _)) (hs _ _ _)

theorem fr_sc_do_map {R : World → World → Prop} (h : Closed R) (hs : WritesScene R)
    (map_ : Nat) (w : World) : R w (sc_do_map map_ w) :=
  h.trans (h.trans (h.trans (h.call _ _) (fr_sc_skip h hs _)) (h.call _ _)) (hs _ _ _)

theorem fr_sc_do_framerate {R : World → World → Prop} (h : Closed R) (hs : WritesScene R)
    (fps : Nat) (w : World) : R w (sc_do_framerate fps w) :=
  h.trans (h.trans (h.call _ _) (fr_sc_skip h hs _)) (hs _ _ _)

theorem fr_sc_do_dim {R : World → World → Prop} (h : Closed R) (hs : WritesScene R)
    (red green blue : Nat) (w : World) : R w (sc_do_dim red green blue w) :=
  h.trans (h.trans (h.call _ _) (fr_sc_skip h hs _)) (hs _ _ _)

theorem fr_scene_statement {R : World → World → Prop} (h : Closed R)
    (hl : WritesLeds R)
    (hs : WritesScene R) (MAXBUFF : Nat) (run : Bool) (w : World) :
    R w (scene_statement MAXBUFF run w).2.2 := by
  unfold scene_statement
  repeat' first
    | with_reducible exact h.refl _
    | with_reducible apply fr_ite3
    | with_reducible apply fr_ite_world
    | with_reducible refine h.trans ?_ ((fr_sc_do_dim h hs) _ _ _ _)
    | with_reducible refine h.trans ?_ ((fr_sc_do_framerate h hs) _ _)
    | with_reducible refine h.trans ?_ ((fr_sc_do_map h hs) _ _)
    | with_reducible refine h.trans ?_ ((fr_sc_do_pause h hs) _ _)
    | with_reducible refine h.trans ?_ ((fr_sc_do_tpm2 h hs) _ _)
    | with_reducible refine h.trans ?_ ((fr_color_value h) _ _)
    | with_reducible refine h.trans ?_ ((fr_int_value h) _ _ _ _)
    | with_reducible refine h.trans ?_ ((fr_read_block_map h hl) _ _ _)
    | with_reducible refine h.trans ?_ ((fr_map_statement h hl) _ _ _)
    | with_reducible refine h.trans ?_ ((fr_read_string h) _ _)
    | with_reducible refine h.trans ?_ ((fr_EXPECT h) _ _ _)
    | with_reducible refine h.trans ?_ (h.fail _ _)

theorem forward_of_eq {w w2 : World} (h1 : w2.file = w.file) (h2 : w2.fptr = w.fptr)
    (h3 : w.calls <+: w2.calls) : Forward w w2 :=
  ⟨h1, le_of_eq h2.symm, fun h => by rw [h1, h2]; exact h, h3⟩

theorem closed_Forward : Closed Forward where
  refl := fun _ => forward_of_eq rfl rfl (List.prefix_refl _)
  trans := fun h1 h2 =>
    ⟨h2.1.trans h1.1, le_trans h1.2.1 h2.2.1, fun h => h2.2.2.1 (h1.2.2.1 h),
      List.IsPrefix.trans h1.2.2.2 h2.2.2.2⟩
  getch := fun w => by
    unfold getch
    split_ifs
    · exact forward_of_eq rfl rfl (List.prefix_refl _)
    · cases hf : w.file[w.fptr]? with
      | none => exact forward_of_eq rfl rfl (List.prefix_refl _)
      | some ch =>
        have hlt : w.fptr < w.file.length := by
          by_contra hcon
          rw [List.getElem?_eq_none (by omega)] at hf
          cases hf
        exact ⟨rfl, Nat.le_succ _, fun _ => hlt, List.prefix_refl _⟩
    · exact forward_of_eq rfl rfl (List.prefix_refl _)
  ungetch := fun ch w => by
    unfold ungetch
    split_ifs
    · exact forward_of_eq rfl rfl (List.prefix_refl _)
    · exact forward_of_eq rfl rfl (List.prefix_refl _)
  fail := fun _ _ => forward_of_eq rfl rfl (List.prefix_append _ _)
  call := fun _ _ => forward_of_eq rfl rfl (List.prefix_append _ _)
  tok := fun _ _ => forward_of_eq rfl rfl (List.prefix_refl _)
  cut := fun _ => forward_of_eq rfl rfl (List.prefix_refl _)
  undefined := fun _ => forward_of_eq rfl rfl (List.prefix_refl _)

/-! ## Tokens on a given input -/

/-- The recursion bound of the loops exceeds the length of the input. -/
theorem stream_bound (w : World) : (stream w).length < bound w := by
  unfold stream bound
  rw [List.length_append]
  have h1 : (if w.ch0 ≥ 0 then [w.ch0] else []).length ≤ 1 := by
    split_ifs <;> simp
  have h2 : (if w.opened = true then List.map Int.ofNat (List.drop w.fptr w.file)
      else []).length ≤ w.file.length := by
    split_ifs <;> simp
  omega

theorem isspace_nonneg (s : Int) (h : isspace s = true) : s ≠ -1 ∧ s ≠ 47 := by
  simp only [isspace, Bool.or_eq_true, Bool.and_eq_true, decide_eq_true_eq] at h
  omega

/-- The loop of `token()` skips white space and hands the first other
character to the part behind the comments. -/
theorem token_loop_skip (sp : List Int) (c : Int) (t : List Int)
    (hc : isspace c = false) (h47 : c ≠ 47) :
    ∀ (n : Nat) (w : World), (∀ s ∈ sp, isspace s = true) → stream w = sp ++ c :: t →
      sp.length < n →
      ∃ w2, token_loop n w = token_char c w2 ∧ Ahead c w2 (c :: t) ∧ w2.file = w.file := by
  induction sp with
  | nil =>
    intro n w _ hw hn
    obtain ⟨m, rfl⟩ : ∃ m, n = m + 1 := ⟨n - 1, by simp at hn; omega⟩
    obtain ⟨g1, -, -, g4, -, -⟩ := getch_stream w _ hw
    rw [List.nil_append] at g1
    obtain ⟨e1, e2, -, -⟩ := ahead_cons _ _ _ _ g1
    refine ⟨(getch w).2, ?_, by have g := g1; rw [e1] at g; exact g, g4⟩
    rw [token_loop]
    dsimp only
    rw [e1, if_neg (by omega), hc, if_neg (by simp), if_neg h47]
  | cons s sp ih =>
    intro n w hsp hw hn
    obtain ⟨m, rfl⟩ : ∃ m, n = m + 1 := ⟨n - 1, by simp at hn; omega⟩
    obtain ⟨g1, -, -, g4, -, -⟩ := getch_stream w _ hw
    rw [List.cons_append] at g1
    obtain ⟨e1, -, -, e4⟩ := ahead_cons _ _ _ _ g1
    have hs := hsp s (List.mem_cons_self _ _)
    obtain ⟨w2, k1, k2, k3⟩ := ih m (getch w).2 (fun x hx => hsp x (List.mem_cons_of_mem _ hx)) e4
      (by simp at hn; omega)
    refine ⟨w2, ?_, k2, by rw [k3, g4]⟩
    rw [token_loop]
    dsimp only
    rw [e1, if_neg (isspace_nonneg s hs).1, hs, if_pos rfl]
    exact k1

/-- The function `token()` skips white space and hands the first other
character to the part behind the comments. -/
theorem token_skip (sp : List Int) (c : Int) (t : List Int) (w : World)
    (hsp : ∀ s ∈ sp, isspace s = true) (hc : isspace c = false) (h47 : c ≠ 47)
    (hw : stream w = sp ++ c :: t) :
    ∃ w2, token w = token_char c w2 ∧ Ahead c w2 (c :: t) ∧ w2.file = w.file := by
  have hb := stream_bound w
  rw [hw, List.length_append] at hb
  exact token_loop_skip sp c t hc h47 (bound w) w hsp hw (by omega)

theorem token_char_single (c : Int) (tok : Nat) (h : (c, tok) ∈ single_tokens) (w : World) :
    token_char c w = (tok, w) ∧ isspace c = false ∧ c ≠ 47 := by
  have key : ∀ p ∈ single_tokens,
      token_char p.1 w = (p.2, w) ∧ isspace p.1 = false ∧ p.1 ≠ 47 := by
    intro p hp
    simp only [single_tokens, List.mem_cons, List.mem_singleton, List.not_mem_nil,
      or_false] at hp
    rcases hp with rfl | rfl | rfl | rfl | rfl | rfl | rfl | rfl <;>
      exact ⟨by simp [token_char, isdigit], by decide, by decide⟩
  exact key (c, tok) h

/-- A token of one character, behind white space. -/
theorem token_single (sp : List Int) (c : Int) (tok : Nat) (t : List Int) (w : World)
    (hsp : ∀ s ∈ sp, isspace s = true) (h : (c, tok) ∈ single_tokens)
    (hw : stream w = sp ++ c :: t) :
    (token w).1 = tok ∧ stream (token w).2 = t := by
  obtain ⟨w2, k1, k2, -⟩ := token_skip sp c t w hsp (token_char_single c tok h w).2.1
    (token_char_single c tok h w).2.2 hw
  rw [k1, (token_char_single c tok h w2).1]
  exact ⟨rfl, (ahead_cons _ _ _ _ k2).2.2.2⟩

/-- The token `tok_int` in front of a digit or a sign, which stays in the
input. -/
theorem token_int (sp : List Int) (c : Int) (t : List Int) (w : World)
    (hsp : ∀ s ∈ sp, isspace s = true) (h : isdigit c = true ∨ c = 45 ∨ c = 43)
    (hw : stream w = sp ++ c :: t) :
    (token w).1 = tok_int ∧ stream (token w).2 = c :: t := by
  have hc : isspace c = false ∧ c ≠ 47 ∧ c ≠ 34 := by
    simp only [isdigit, Bool.and_eq_true, decide_eq_true_eq] at h
    simp only [isspace, Bool.or_eq_false_iff, Bool.and_eq_false_iff, decide_eq_false_iff_not]
    omega
  obtain ⟨w2, k1, k2, -⟩ := token_skip sp c t w hsp hc.1 hc.2.1 hw
  have e : token_char c w2 = (tok_int, ungetch c w2) := by
    unfold token_char
    rw [if_neg hc.2.2, if_pos (by rcases h with h | h | h <;> simp [h])]
  rw [k1, e]
  exact ⟨rfl, (ungetch_stream c w2 _ k2).1⟩

theorem isalpha_facts (c : Int) (h : isalpha c = true) :
    isspace c = false ∧ c ≠ 47 ∧ c ≠ 34 ∧ isdigit c = false ∧ c ≠ 45 ∧ c ≠ 43 ∧ c ≠ 91 ∧
    c ≠ 38 ∧ c ≠ 123 ∧ c ≠ 125 ∧ c ≠ 40 ∧ c ≠ 41 ∧ c ≠ 59 ∧ c ≠ 61 ∧ c ≠ 58 ∧ c ≠ 44 := by
  simp only [isalpha, Bool.or_eq_true, Bool.and_eq_true, decide_eq_true_eq] at h
  simp only [isspace, isdigit, Bool.or_eq_false_iff, Bool.and_eq_false_iff,
    decide_eq_false_iff_not]
  omega

/-- The loop that collects the letters of a keyword. -/
theorem read_word_spec (rest : List Int) (hrest : ∀ c t, rest = c :: t → isalpha c = false) :
    ∀ (letters : List Int) (n : Nat) (kw : List Nat) (ch : Int) (w : World),
      (∀ x ∈ letters, isalpha x = true) → stream w = letters ++ rest → letters.length < n →
      kw.length + letters.length < 17 →
      (read_word n kw ch w).1 = kw ++ (ch :: letters).map Int.toNat ∧
      stream (read_word n kw ch w).2 = rest := by
  intro letters
  induction letters with
  | nil =>
    intro n kw ch w _ hw hn hk
    obtain ⟨m, rfl⟩ : ∃ m, n = m + 1 := ⟨n - 1, by simp at hn; omega⟩
    rw [List.nil_append] at hw
    obtain ⟨g1, -, -, -, -, -⟩ := getch_stream w _ hw
    have ha : isalpha (getch w).1 = false := by
      cases rest with
      | nil => rw [ahead_nil _ _ g1]; decide
      | cons c t => rw [(ahead_cons _ _ _ _ g1).1]; exact hrest c t rfl
    have hk2 : kw.length < 17 := by simpa using hk
    rw [read_word]
    simp only [ha, Bool.false_eq_true, if_false, if_pos hk2]
    exact ⟨by simp, (ungetch_stream _ _ _ g1).1⟩
  | cons a ls ih =>
    intro n kw ch w hl hw hn hk
    obtain ⟨m, rfl⟩ : ∃ m, n = m + 1 := ⟨n - 1, by simp at hn; omega⟩
    rw [List.cons_append] at hw
    obtain ⟨g1, -, -, -, -, -⟩ := getch_stream w _ hw
    obtain ⟨e1, -, -, e4⟩ := ahead_cons _ _ _ _ g1
    have ha := hl a (List.mem_cons_self _ _)
    simp only [List.length_cons] at hn hk
    obtain ⟨i1, i2⟩ := ih m (kw ++ [ch.toNat]) a (getch w).2
      (fun x hx => hl x (List.mem_cons_of_mem _ hx)) e4 (by omega)
      (by rw [List.length_append, List.length_singleton]; omega)
    have hk2 : kw.length < 17 := by omega
    rw [read_word]
    simp only [e1, ha, if_true, if_pos hk2]
    exact ⟨by rw [i1]; simp, i2⟩

/-- A keyword, behind white space and in front of a character that is no
letter. -/
theorem token_word (sp : List Int) (a : Int) (letters rest : List Int) (w : World)
    (hsp : ∀ s ∈ sp, isspace s = true) (ha : isalpha a = true)
    (hl : ∀ x ∈ letters, isalpha x = true)
    (hrest : ∀ c t, rest = c :: t → isalpha c = false) (hlen : letters.length < 17)
    (i : Nat) (hk : keywords.indexOf ((a :: letters).map Int.toNat) = i)
    (hi : i < keywords.length) (hw : stream w = sp ++ a :: (letters ++ rest)) :
    (token w).1 = tok_keyword + i + 1 ∧ stream (token w).2 = rest := by
  have f := isalpha_facts a ha
  obtain ⟨w2, k1, k2, k3⟩ := token_skip sp a (letters ++ rest) w hsp f.1 f.2.1 hw
  obtain ⟨-, -, -, e4⟩ := ahead_cons _ _ _ _ k2
  have hb := stream_bound w2
  rw [e4, List.length_append] at hb
  obtain ⟨r1, r2⟩ := read_word_spec rest hrest letters (bound w2) [] a w2 hl e4 (by omega)
    (by simpa using hlen)
  rw [List.nil_append] at r1
  have e : token_char a w2 = (tok_keyword + i + 1, (read_word (bound w2) [] a w2).2) := by
    unfold token_char
    obtain ⟨-, -, f3, f4, f5, f6, f7, f8, f9, f10, f11, f12, f13, f14, f15, f16⟩ := f
    rw [if_neg f3, f4, if_neg (by simp [f5, f6]), if_neg f7, if_neg f8, if_neg f9, if_neg f10,
      if_neg f11, if_neg f12, if_neg f13, if_neg f14, if_neg f15, if_neg f16, ha, if_pos rfl]
    dsimp only
    rw [r1, hk, if_pos hi]
  rw [k1, e]
  exact ⟨rfl, r2⟩

/-- The macro `EXPECT` on the token it asks for. -/
theorem EXPECT_ok (x : Nat) (name : String) (w : World) (h : (token w).1 = x) :
    EXPECT x name w = (true, (token w).2) := by
  unfold EXPECT
  dsimp only
  rw [if_neg (by simp [h])]

theorem closed_KeepScene : Closed KeepScene where
  refl := fun _ => ⟨rfl, rfl, rfl, rfl⟩
  trans := fun h1 h2 =>
    ⟨h2.1.trans h1.1, h2.2.1.trans h1.2.1, h2.2.2.1.trans h1.2.2.1, h2.2.2.2.trans h1.2.2.2⟩
  getch := fun w => by
    unfold getch KeepScene
    split_ifs
    · exact ⟨rfl, rfl, rfl, rfl⟩
    · split <;> exact ⟨rfl, rfl, rfl, rfl⟩
    · exact ⟨rfl, rfl, rfl, rfl⟩
  ungetch := fun ch w => by
    unfold ungetch KeepScene
    split_ifs <;> exact ⟨rfl, rfl, rfl, rfl⟩
  fail := fun _ _ => ⟨rfl, rfl, rfl, rfl⟩
  call := fun _ _ => ⟨rfl, rfl, rfl, rfl⟩
  tok := fun _ _ => ⟨rfl, rfl, rfl, rfl⟩
  cut := fun _ => ⟨rfl, rfl, rfl, rfl⟩
  undefined := fun _ => ⟨rfl, rfl, rfl, rfl⟩

/-! ## Literals in a statement -/

theorem isxdigit_digit (c : Int) (h : isxdigit c = true) (h2 : digit c < 10) :
    isdigit c = true := by
  by_contra hn
  have hd : isdigit c = false := by simpa using hn
  unfold digit at h2
  rw [hd] at h2
  simp only [isxdigit, hd, Bool.false_or, Bool.or_eq_true, Bool.and_eq_true,
    decide_eq_true_eq] at h
  simp only [Bool.false_eq_true, if_false] at h2
  unfold toupper at h2
  split_ifs at h2 <;> omega

/-- A well formed literal starts with a digit or a sign. -/
theorem literal_first (l : literal) (hl : l.wf) :
    ∃ c t, l.chars = c :: t ∧ (isdigit c = true ∨ c = 45 ∨ c = 43) := by
  obtain ⟨hd, hdec, hhex⟩ := hl
  obtain ⟨sign, form, upper, digits⟩ := l
  dsimp only at hd hdec hhex
  unfold literal.chars
  dsimp only
  cases sign with
  | some b =>
    cases b
    · exact ⟨43, _, rfl, Or.inr (Or.inr rfl)⟩
    · exact ⟨45, _, rfl, Or.inr (Or.inl rfl)⟩
  | none =>
    cases form with
    | dec =>
      obtain ⟨c, t, hct, -⟩ := hdec rfl
      have hx := hd c (by rw [hct]; exact List.mem_cons_self c t)
      refine ⟨c, t, by simp [hct], Or.inl (isxdigit_digit c hx.1 ?_)⟩
      have := hx.2.2
      simpa [radix.base] using this
    | oct => exact ⟨48, _, rfl, Or.inl (by decide)⟩
    | hex => exact ⟨48, _, rfl, Or.inl (by decide)⟩

/-- The characters of a well formed literal are bytes. -/
theorem literal_chars_nonneg (l : literal) (hl : l.wf) : ∀ c ∈ l.chars, 0 ≤ c := by
  obtain ⟨hd, -, -⟩ := hl
  intro c hc
  unfold literal.chars at hc
  simp only [List.mem_append] at hc
  rcases hc with (hc | hc) | hc
  · cases hs : l.sign with
    | none => rw [hs] at hc; cases hc
    | some b =>
      rw [hs] at hc
      cases b <;> simp at hc <;> omega
  · cases hf : l.form with
    | dec => rw [hf] at hc; cases hc
    | oct => rw [hf] at hc; simp at hc; omega
    | hex =>
      rw [hf] at hc
      simp only [List.mem_cons, List.mem_singleton, List.not_mem_nil, or_false] at hc
      rcases hc with hc | hc
      · omega
      · split_ifs at hc <;> omega
  · exact (isxdigit_facts c (hd c hc).1).2.2.2.2.2.2

theorem map_toNat_ofNat (cs : List Int) (h : ∀ c ∈ cs, 0 ≤ c) :
    (cs.map Int.toNat).map Int.ofNat = cs := by
  induction cs with
  | nil => rfl
  | cons a t ih =>
    simp only [List.map_cons]
    rw [ih (fun c hc => h c (List.mem_cons_of_mem _ hc))]
    congr 1
    exact Int.toNat_of_nonneg (h a (List.mem_cons_self _ _))

/-- The pattern of the integer statements on a colon and a literal in
range. -/
theorem int_value_spec (l : literal) (hl : l.wf) (sp1 sp2 rest : List Int)
    (hrest : l.ends rest) (hsp1 : ∀ s ∈ sp1, isspace s = true)
    (hsp2 : ∀ s ∈ sp2, isspace s = true) (min max : Int) (msg : String) (w : World)
    (hw : stream w = sp1 ++ 58 :: (sp2 ++ (l.chars ++ rest)))
    (hv : min ≤ l.value ∧ l.value ≤ max ∧ INT32_MIN ≤ l.value ∧ l.value ≤ INT32_MAX) :
    (int_value min max msg w).1 = true ∧ (int_value min max msg w).2.1 = l.value ∧
    stream (int_value min max msg w).2.2 = rest := by
  obtain ⟨a1, a2⟩ := token_single sp1 58 tok_colon _ w hsp1 (by decide) hw
  obtain ⟨c, t, hct, hc⟩ := literal_first l hl
  rw [hct, List.cons_append] at a2
  obtain ⟨b1, b2⟩ := token_int sp2 c (t ++ rest) (token w).2 hsp2 hc a2
  rw [← List.cons_append, ← hct] at b2
  obtain ⟨r1, r2, -, -⟩ := read_int_exact l hl rest hrest min max _ b2
  have e1 : andThen (EXPECT tok_colon "tok_colon" w) (EXPECT tok_int "tok_int") =
      (true, (token (token w).2).2) := by
    rw [EXPECT_ok _ _ _ a1]
    unfold andThen
    rw [if_pos rfl]
    exact EXPECT_ok _ _ _ b1
  have ok := r1.2 hv
  unfold int_value
  rw [e1]
  dsimp only
  rw [ok]
  simp only [Bool.not_true, Bool.false_eq_true, if_false]
  exact ⟨ok, (r2 ok).1, (r2 ok).2⟩

theorem stream_tok (t : Nat) (w : World) : stream { w with tok := t } = stream w := rfl

/-- A literal ends in front of a character that is no hexadecimal digit and no
`x`. -/
theorem ends_cons (l : literal) (c : Int) (t : List Int) (h1 : isxdigit c = false)
    (h2 : tolower c ≠ 120) : l.ends (c :: t) := by
  intro c2 t2 h
  injection h with e1 e2
  subst e1
  exact ⟨h1, fun _ _ => h2⟩

theorem literal_500_wf : literal_500.wf := by
  refine ⟨fun c hc => ?_, fun _ => ⟨53, [48, 48], rfl, by decide⟩, fun hh => by cases hh⟩
  simp only [literal_500, List.mem_cons, List.mem_singleton, List.not_mem_nil, or_false] at hc
  rcases hc with rfl | rfl | rfl <;> decide

/-- A token of one character leaves nothing pushed back. -/
theorem token_single_ch0 (sp : List Int) (c : Int) (tok : Nat) (t : List Int) (w : World)
    (hsp : ∀ s ∈ sp, isspace s = true) (h : (c, tok) ∈ single_tokens)
    (hw : stream w = sp ++ c :: t) : (token w).2.ch0 < 0 := by
  obtain ⟨w2, k1, k2, -⟩ := token_skip sp c t w hsp (token_char_single c tok h w).2.1
    (token_char_single c tok h w).2.2 hw
  rw [k1, (token_char_single c tok h w2).1]
  exact k2.1

/-- The read pointer, from the input that is left. -/
theorem fptr_of_stream (w : World) (pre suf : List Nat) (hf : w.file = pre ++ suf)
    (h0 : w.ch0 < 0) (hlen : w.fptr ≤ w.file.length) (hs : stream w = suf.map Int.ofNat)
    (hne : suf ≠ []) : w.fptr = pre.length ∧ w.opened = true := by
  have hn : ¬ w.ch0 ≥ 0 := by omega
  unfold stream at hs
  rw [if_neg hn, List.nil_append] at hs
  have ho : w.opened = true := by
    by_contra hc
    rw [if_neg hc] at hs
    cases suf with
    | nil => exact hne rfl
    | cons a t => cases hs
  rw [if_pos ho] at hs
  have hl := congrArg List.length hs
  rw [List.length_map, List.length_map, List.length_drop, hf, List.length_append] at hl
  rw [hf, List.length_append] at hlen
  exact ⟨by omega, ho⟩

/-- What `token()` does behind the first character it reads. -/
theorem fr_token_after_getch {R : World → World → Prop} (h : Closed R) (w : World) :
    R (getch w).2 (token w).2 := by
  unfold token
  have hb : bound w = (w.file.length + 1) + 1 := rfl
  rw [hb, token_loop]
  dsimp only
  split_ifs
  · exact h.refl _
  · exact fr_token_loop h _ _
  · exact h.trans (h.trans (h.getch _) (fr_skip_line h _ _)) (fr_token_loop h _ _)
  · exact h.trans (h.trans (h.getch _) (fr_skip_block h _ _)) (fr_token_loop h _ _)
  · exact h.trans (h.trans (h.getch _) (h.ungetch _ _)) (fr_token_char h _ _)
  · exact fr_token_char h _ _

/-- The function `sc_skip` leaves the file and the configuration alone. -/
theorem sc_skip_io (w : World) :
    (sc_skip w).opened = w.opened ∧ (sc_skip w).file = w.file ∧ (sc_skip w).fptr = w.fptr ∧
    (sc_skip w).config = w.config ∧ (sc_skip w).ch0 = w.ch0 := by
  unfold sc_skip
  by_cases h : w.command ≠ 0
  · rw [if_pos h]
    dsimp only
    split_ifs <;> exact ⟨rfl, rfl, rfl, rfl, rfl⟩
  · rw [if_neg h]
    exact ⟨rfl, rfl, rfl, rfl, rfl⟩

theorem stream_sc_do_pause (t : Nat) (w : World) : stream (sc_do_pause t w) = stream w := by
  have h := sc_skip_io (call (.sc_do_pause t) w)
  unfold stream sc_do_pause
  dsimp only
  rw [h.1, h.2.1, h.2.2.1, h.2.2.2.2]
  rfl

theorem forward_writes :
    WritesLeds Forward ∧ WritesScene Forward ∧ WritesMode Forward ∧ WritesRf Forward :=
  ⟨fun _ _ => forward_of_eq rfl rfl (List.prefix_refl _),
   fun _ _ _ => forward_of_eq rfl rfl (List.prefix_refl _),
   fun _ _ => forward_of_eq rfl rfl (List.prefix_refl _),
   fun _ _ => forward_of_eq rfl rfl (List.prefix_refl _)⟩

/-- The statement `pause: N;` of a scene, with `N` up to an hour, when the
scene is played: it succeeds and issues the pause command. -/
theorem pause_spec (MAXBUFF : Nat) (l : literal) (hl : l.wf) (h1 : 0 ≤ l.value)
    (h2 : l.value ≤ 3600000) (rest : List Int) (w : World) (htok : w.tok = tok_keyword_pause)
    (hw : stream w = 58 :: 32 :: (l.chars ++ 59 :: rest)) :
    (scene_statement MAXBUFF true w).1 = true ∧
    stream (scene_statement MAXBUFF true w).2.2 = rest ∧
    (scene_statement MAXBUFF true w).2.2.ch0 < 0 ∧
    (scene_statement MAXBUFF true w).2.2.command = pause_command ∧
    .sc_do_pause l.value.toNat ∈ (scene_statement MAXBUFF true w).2.2.calls := by
  have hv : (0 : Int) ≤ l.value ∧ l.value ≤ 60 * 60 * 1000 ∧ INT32_MIN ≤ l.value ∧
      l.value ≤ INT32_MAX := by
    unfold INT32_MIN INT32_MAX
    omega
  obtain ⟨i1, i2, i3⟩ := int_value_spec l hl [] [32] (59 :: rest)
    (ends_cons l 59 rest (by decide) (by decide)) (fun s hs => by cases hs)
    (fun s hs => by rw [List.mem_singleton.1 hs]; decide) 0 (60 * 60 * 1000) "Invalid pause" w
    hw hv
  unfold scene_statement
  rw [if_neg (by rw [htok]; decide), if_pos htok]
  generalize int_value 0 (60 * 60 * 1000) "Invalid pause" w = r at i1 i2 i3
  obtain ⟨ok, v, w1⟩ := r
  dsimp only at i1 i2 i3 ⊢
  subst i1 i2
  simp only [Bool.not_true, Bool.false_eq_true, if_false, if_true]
  rw [show l.value % 4294967296 = l.value by omega]
  have hs : stream (sc_do_pause l.value.toNat w1) = [] ++ 59 :: rest := by
    rw [stream_sc_do_pause, i3]
    rfl
  obtain ⟨a1, a2⟩ := token_single [] 59 tok_semicolon rest _ (fun s hs => by cases hs)
    (by decide) hs
  have a3 := token_single_ch0 [] 59 tok_semicolon rest _ (fun s hs => by cases hs)
    (by decide) hs
  have a4 : KeepScene (sc_do_pause l.value.toNat w1) (token (sc_do_pause l.value.toNat w1)).2 :=
    fr_token closed_KeepScene _
  have a5 : Forward (call (.sc_do_pause l.value.toNat) w1)
      (token (sc_do_pause l.value.toNat w1)).2 :=
    closed_Forward.trans
      (closed_Forward.trans (fr_sc_skip closed_Forward forward_writes.2.1 _)
        (forward_writes.2.1 _ pause_command _))
      (fr_token closed_Forward (sc_do_pause l.value.toNat w1))
  rw [EXPECT_ok _ _ _ a1]
  refine ⟨rfl, a2, a3, ?_, ?_⟩
  · show (token (sc_do_pause l.value.toNat w1)).2.command = _
    rw [a4.2.2.1]
    rfl
  · exact a5.2.2.2.subset (by simp [call])

/-- The function `seek(p)` on an open file, with `p` inside the file. -/
theorem seek_spec (p : Nat) (w : World) (ho : w.opened = true) (hp : p ≤ w.file.length) :
    stream (seek p w) = (w.file.drop p).map Int.ofNat ∧ (seek p w).fptr = p ∧
    (seek p w).file = w.file ∧ (seek p w).opened = true ∧ (seek p w).config = w.config ∧
    (seek p w).calls = w.calls ∧ KeepScene w (seek p w) := by
  unfold seek
  dsimp only
  rw [if_pos ho]
  refine ⟨?_, Nat.min_eq_left hp, rfl, ho, rfl, rfl, ⟨rfl, rfl, rfl, rfl⟩⟩
  simp [stream, ho, Nat.min_eq_left hp]

/-- Starting another scene whose first statement is `pause: N;`, with the
offset of the opening brace stored for the scene: `cfg_scene` gives the offset
behind the brace, and `sc_start` issues the pause and leaves `pos` behind the
semicolon of the statement. -/
theorem sc_start_other_pause (MAXBUFF T p : Nat) (l : literal) (rest : List Nat) (w : World)
    (hl : l.wf) (h1 : 0 ≤ l.value) (h2 : l.value ≤ 3600000) (hT : T < 10) (hs : w.scene ≠ T)
    (ho : w.opened = true) (hp : w.config.mode.scenes_.getD T 0 = p) (hp0 : p ≠ 0)
    (hf : w.file.drop p = bytes "\x7b pause: " ++ l.chars.map Int.toNat ++ 59 :: rest)
    (hr : rest ≠ []) :
    (cfg_scene MAXBUFF T { sc_skip { w with pos := 0 } with scene := T }).1 = p + 1 ∧
    (sc_start MAXBUFF T w).1 = true ∧
    (sc_start MAXBUFF T w).2.pos = p + 1 + (9 + l.chars.length) ∧
    (sc_start MAXBUFF T w).2.command = pause_command ∧
    .sc_do_pause l.value.toNat ∈ (sc_start MAXBUFF T w).2.calls := by
  have hsp : ∀ s ∈ [(32 : Int)], isspace s = true :=
    fun s hs => by rw [List.mem_singleton.1 hs]; decide
  have eA : bytes "\x7b pause: " = [123, 32, 112, 97, 117, 115, 101, 58, 32] := by decide
  rw [eA] at hf
  have hplen : p ≤ w.file.length := by
    by_contra hc
    rw [List.drop_eq_nil_of_le (by omega)] at hf
    cases hf
  have hfile : w.file = w.file.take p ++
      ([123, 32, 112, 97, 117, 115, 101, 58, 32] ++ l.chars.map Int.toNat ++ 59 :: rest) := by
    rw [← hf, List.take_append_drop]
  have hmap : (l.chars.map Int.toNat).map Int.ofNat = l.chars :=
    map_toNat_ofNat _ (literal_chars_nonneg l hl)
  have htake : (w.file.take p).length = p := by
    rw [List.length_take]
    exact Nat.min_eq_left hplen
  obtain ⟨k1, k2, k3, k4, k5⟩ := sc_skip_io { w with pos := 0 }
  -- the state in which the scene is looked up
  generalize hws : ({ sc_skip { w with pos := 0 } with scene := T } : World) = ws
  have wo : ws.opened = true := by rw [← hws]; exact k1.trans ho
  have wf : ws.file = w.file := by rw [← hws]; exact k2
  have wc : ws.config = w.config := by rw [← hws]; exact k4
  have hstart : sc_start MAXBUFF T w = (decide ((sc_start_scene MAXBUFF T { w with pos := 0 }).pos ≠ 0),
      sc_start_scene MAXBUFF T { w with pos := 0 }) := by
    unfold sc_start
    rw [if_pos hs]
  have hscene : sc_start_scene MAXBUFF T { w with pos := 0 } =
      (if (cfg_scene MAXBUFF T ws).1 ≠ 0 then
        { (cfg_command MAXBUFF (cfg_scene MAXBUFF T ws).1
            { (cfg_scene MAXBUFF T ws).2 with pos := (cfg_scene MAXBUFF T ws).1 }).2 with
          pos := (cfg_command MAXBUFF (cfg_scene MAXBUFF T ws).1
            { (cfg_scene MAXBUFF T ws).2 with pos := (cfg_scene MAXBUFF T ws).1 }).1 }
       else { (cfg_scene MAXBUFF T ws).2 with pos := (cfg_scene MAXBUFF T ws).1 }) := by
    unfold sc_start_scene
    rw [hws]
  -- cfg_scene
  obtain ⟨s1, s2, s3, s4, s5, s6, s7⟩ := seek_spec p ws wo (by rw [wf]; exact hplen)
  rw [wf, hf, List.map_append, List.map_append, hmap] at s1
  have s1b : stream (seek p ws) = [] ++ 123 :: (32 :: 112 :: 97 :: 117 :: 115 :: 101 :: 58 ::
      32 :: (l.chars ++ 59 :: rest.map Int.ofNat)) := by
    rw [s1]
    simp
  obtain ⟨a1, a2⟩ := token_single [] 123 tok_lbrace _ _ (fun s hs => by cases hs) (by decide)
    s1b
  have a3 := token_single_ch0 [] 123 tok_lbrace _ _ (fun s hs => by cases hs) (by decide) s1b
  have a4 : Forward (seek p ws) (token (seek p ws)).2 := fr_token closed_Forward _
  have a5 : (token (seek p ws)).2.file = w.file := by rw [a4.1, s3, wf]
  have a6 := fptr_of_stream (token (seek p ws)).2 (w.file.take p ++ [123])
    ([32, 112, 97, 117, 115, 101, 58, 32] ++ l.chars.map Int.toNat ++ 59 :: rest)
    (by rw [a5]; nth_rewrite 1 [hfile]; simp) a3
    (a4.2.2.1 (by rw [s2, s3, wf]; exact hplen))
    (by rw [a2, List.map_append, List.map_append, hmap]; simp) (by simp)
  rw [List.length_append, htake] at a6
  have hcs : cfg_scene MAXBUFF T ws =
      (p + 1, { (token (seek p ws)).2 with tok := tok_lbrace }) := by
    unfold cfg_scene
    rw [if_pos hT, wc, hp, if_neg hp0]
    dsimp only
    simp only [Bool.not_true, Bool.false_eq_true, if_false]
    rw [a1, if_pos rfl]
    show (_, _) = _
    unfold tell
    dsimp only
    rw [a6.1]
    rfl
  -- cfg_command
  generalize hy : ({ ({ (token (seek p ws)).2 with tok := tok_lbrace } : World) with
    pos := p + 1 } : World) = y
  have yo : y.opened = true := by rw [← hy]; exact a6.2
  have yf : y.file = w.file := by rw [← hy]; exact a5
  have hlen : w.file.length = p + (9 + l.chars.length + (1 + rest.length)) := by
    have := congrArg List.length hfile
    rw [List.length_append, htake] at this
    rw [this]
    simp
    omega
  have hdrop : w.file.drop (p + 1) =
      [32, 112, 97, 117, 115, 101, 58, 32] ++ l.chars.map Int.toNat ++ 59 :: rest := by
    have e : w.file.drop (p + 1) = List.drop 1 (w.file.drop p) := by
      rw [List.drop_drop]
    rw [e, hf]
    rfl
  obtain ⟨t1, t2, t3, t4, t5, t6, t7⟩ := seek_spec (p + 1) y yo (by rw [yf, hlen]; omega)
  rw [yf, hdrop, List.map_append, List.map_append, hmap] at t1
  have t1b : stream (seek (p + 1) y) = [32] ++ 112 :: ([97, 117, 115, 101] ++
      (58 :: 32 :: (l.chars ++ 59 :: rest.map Int.ofNat))) := by
    rw [t1]
    simp
  obtain ⟨b1, b2⟩ := token_word [32] 112 [97, 117, 115, 101] _ _ hsp (by decide) (by decide)
    (fun c t h => by injection h with e _; rw [← e]; decide) (by decide) 15 (by decide)
    (by decide) t1b
  have b3 : Forward (seek (p + 1) y) (token (seek (p + 1) y)).2 := fr_token closed_Forward _
  obtain ⟨c1, c2, c3, c4, c5⟩ := pause_spec MAXBUFF l hl h1 h2 (rest.map Int.ofNat)
    { (token (seek (p + 1) y)).2 with tok := tok_keyword_pause } rfl
    (by rw [stream_tok]; exact b2)
  have c6 : Forward { (token (seek (p + 1) y)).2 with tok := tok_keyword_pause }
      (scene_statement MAXBUFF true
        { (token (seek (p + 1) y)).2 with tok := tok_keyword_pause }).2.2 :=
    fr_scene_statement closed_Forward forward_writes.1 forward_writes.2.1 _ _ _
  have c7 : Forward (seek (p + 1) y) (scene_statement MAXBUFF true
        { (token (seek (p + 1) y)).2 with tok := tok_keyword_pause }).2.2 :=
    closed_Forward.trans (closed_Forward.trans b3 (closed_Forward.tok _ _)) c6
  have c8 := fptr_of_stream (scene_statement MAXBUFF true
        { (token (seek (p + 1) y)).2 with tok := tok_keyword_pause }).2.2
    (w.file.take p ++ ([123, 32, 112, 97, 117, 115, 101, 58, 32] ++
      l.chars.map Int.toNat ++ [59])) rest
    (by rw [c7.1, t3, yf]; nth_rewrite 1 [hfile]; simp) c3
    (c7.2.2.1 (by rw [t2, t3, yf, hlen]; omega)) c2 hr
  have hcc : cfg_command MAXBUFF (p + 1) y =
      (p + 1 + (9 + l.chars.length), (scene_statement MAXBUFF true
        { (token (seek (p + 1) y)).2 with tok := tok_keyword_pause }).2.2) := by
    unfold cfg_command
    rw [if_neg (by omega)]
    dsimp only
    have hb1 : (token (seek (p + 1) y)).1 = tok_keyword_pause := b1
    rw [hb1, if_neg (by decide)]
    unfold tell
    rw [c8.1]
    congr 1
    rw [List.length_append, htake]
    simp
    omega
  have hfin : sc_start_scene MAXBUFF T { w with pos := 0 } =
      { (scene_statement MAXBUFF true
          { (token (seek (p + 1) y)).2 with tok := tok_keyword_pause }).2.2 with
        pos := p + 1 + (9 + l.chars.length) } := by
    rw [hscene, hcs]
    dsimp only
    rw [if_pos (by omega), hy, hcc]
  refine ⟨by rw [hcs], ?_, ?_, ?_, ?_⟩
  · rw [hstart, hfin]
    exact decide_eq_true (by show p + 1 + (9 + l.chars.length) ≠ 0; omega)
  · rw [hstart, hfin]
  · rw [hstart, hfin]
    exact c4
  · rw [hstart, hfin]
    exact c5

/-- Reading a byte of the file moves the read pointer on. -/
theorem getch_advance (w : World) (h0 : w.ch0 < 0) (ho : w.opened = true)
    (hlt : w.fptr < w.file.length) : (getch w).2.fptr = w.fptr + 1 := by
  unfold getch
  rw [if_neg (by omega), if_pos ho, List.getElem?_eq_getElem hlt]

/-- Starting another scene: whenever `cfg_scene` finds the scene and something
other than the closing brace follows in the file, `sc_start` leaves `pos`
behind the offset that `cfg_scene` returns. -/
theorem sc_start_other_behind (MAXBUFF T : Nat) (w : World) (hs : w.scene ≠ T)
    (h0 : (cfg_scene MAXBUFF T { sc_skip { w with pos := 0 } with scene := T }).1 ≠ 0)
    (ho : (cfg_scene MAXBUFF T { sc_skip { w with pos := 0 } with scene := T }).2.opened = true)
    (hlt : (cfg_scene MAXBUFF T { sc_skip { w with pos := 0 } with scene := T }).1 <
      (cfg_scene MAXBUFF T { sc_skip { w with pos := 0 } with scene := T }).2.file.length)
    (hb : (token (seek (cfg_scene MAXBUFF T { sc_skip { w with pos := 0 } with scene := T }).1
      { (cfg_scene MAXBUFF T { sc_skip { w with pos := 0 } with scene := T }).2 with
        pos := (cfg_scene MAXBUFF T { sc_skip { w with pos := 0 } with scene := T }).1 })).1 ≠
      tok_rbrace) :
    (sc_start MAXBUFF T w).1 = true ∧
    (cfg_scene MAXBUFF T { sc_skip { w with pos := 0 } with scene := T }).1 <
      (sc_start MAXBUFF T w).2.pos := by
  generalize hcs : cfg_scene MAXBUFF T { sc_skip { w with pos := 0 } with scene := T } = cs
    at h0 ho hlt hb
  obtain ⟨s, x⟩ := cs
  dsimp only at h0 ho hlt hb
  have hstart : sc_start MAXBUFF T w =
      (decide ((sc_start_scene MAXBUFF T { w with pos := 0 }).pos ≠ 0),
      sc_start_scene MAXBUFF T { w with pos := 0 }) := by
    unfold sc_start
    rw [if_pos hs]
  have hscene : sc_start_scene MAXBUFF T { w with pos := 0 } =
      { (cfg_command MAXBUFF s { x with pos := s }).2 with
        pos := (cfg_command MAXBUFF s { x with pos := s }).1 } := by
    unfold sc_start_scene
    dsimp only
    rw [hcs]
    dsimp only
    rw [if_pos h0]
  obtain ⟨-, t2, t3, t4, -, -, -⟩ := seek_spec s { x with pos := s } ho (le_of_lt hlt)
  have hch : (seek s { x with pos := s }).ch0 < 0 := by
    unfold seek
    dsimp only
    rw [if_pos ho]
    exact (by decide : (-1 : Int) < 0)
  have g1 := getch_advance (seek s { x with pos := s }) hch t4 (by rw [t2, t3]; exact hlt)
  have g2 : Forward (getch (seek s { x with pos := s })).2 (token (seek s { x with pos := s })).2 :=
    fr_token_after_getch closed_Forward _
  have g3 : Forward { (token (seek s { x with pos := s })).2 with
        tok := (token (seek s { x with pos := s })).1 }
      (scene_statement MAXBUFF true { (token (seek s { x with pos := s })).2 with
        tok := (token (seek s { x with pos := s })).1 }).2.2 :=
    fr_scene_statement closed_Forward forward_writes.1 forward_writes.2.1 _ _ _
  have g4 := (closed_Forward.trans (closed_Forward.trans g2 (closed_Forward.tok _ _)) g3).2.1
  rw [g1, t2] at g4
  have hcc : (cfg_command MAXBUFF s { x with pos := s }).1 =
      (scene_statement MAXBUFF true { (token (seek s { x with pos := s })).2 with
        tok := (token (seek s { x with pos := s })).1 }).2.2.fptr := by
    unfold cfg_command
    rw [if_neg h0]
    dsimp only
    rw [if_neg hb]
    rfl
  have hpos : s < (sc_start_scene MAXBUFF T { w with pos := 0 }).pos := by
    rw [hscene]
    show s < (cfg_command MAXBUFF s { x with pos := s }).1
    rw [hcc]
    omega
  rw [hstart]
  exact ⟨decide_eq_true (by omega), hpos⟩

/-- C17, amended: scene continuity. Let `sc_start(S)` have started scene `S`,
that is, returned true. Then `sc_pause()` followed by `sc_start(S)` returns
true and leaves `pos`, the command tag, the scene, the configuration and the
calls made as they were before the pause. `sc_pause()` followed by
`sc_start(T)` with `T ≠ S` stops the current command (`sc_skip`, which runs the
stop procedure of a TPM2 or map command), makes `T` the scene, and from that
state `ws` fetches the first statement of scene `T`: the new `pos` is
`cfg_command(cfg_scene(T))`. That is behind the first statement, not at it:
whenever `cfg_scene(T)` finds the scene and the file goes on with something
other than the closing brace, `sc_start(T)` returns true with `pos` greater
than the offset `cfg_scene(T)` of the first statement; and when the offset
stored for a scene `T` below 10 is that of `{ pause: N;` followed by more text,
with `N` any literal up to an hour, `cfg_scene(T)` is the offset behind the
brace, the pause is issued, and `pos` is the offset behind the semicolon. -/
theorem sc_start_continuity (MAXBUFF S : Nat) (w0 : World)
    (h : (sc_start MAXBUFF S w0).1 = true) :
    ((sc_start MAXBUFF S (sc_pause (sc_start MAXBUFF S w0).2)).1 = true ∧
      (sc_start MAXBUFF S (sc_pause (sc_start MAXBUFF S w0).2)).2.pos =
        (sc_start MAXBUFF S w0).2.pos ∧
      (sc_start MAXBUFF S (sc_pause (sc_start MAXBUFF S w0).2)).2.command =
        (sc_start MAXBUFF S w0).2.command ∧
      (sc_start MAXBUFF S (sc_pause (sc_start MAXBUFF S w0).2)).2.scene = S ∧
      (sc_start MAXBUFF S (sc_pause (sc_start MAXBUFF S w0).2)).2.config =
        (sc_start MAXBUFF S w0).2.config ∧
      (sc_start MAXBUFF S (sc_pause (sc_start MAXBUFF S w0).2)).2.calls =
        (sc_start MAXBUFF S w0).2.calls) ∧
    (∀ T, T ≠ S → ∃ ws : World,
      ws.command = 0 ∧ ws.scene = T ∧ ws.config = (sc_start MAXBUFF S w0).2.config ∧
      ws.file = (sc_start MAXBUFF S w0).2.file ∧
      ws.calls = (sc_start MAXBUFF S w0).2.calls ++
        (if (sc_start MAXBUFF S w0).2.command = tpm2_command then
          [.led_enable false, .f_close_tpm2]
         else if (sc_start MAXBUFF S w0).2.command = map_command then [.led_enable false]
         else []) ∧
      (sc_start MAXBUFF T (sc_pause (sc_start MAXBUFF S w0).2)).2.pos =
        (cfg_command MAXBUFF (cfg_scene MAXBUFF T ws).1
          { (cfg_scene MAXBUFF T ws).2 with pos := (cfg_scene MAXBUFF T ws).1 }).1 ∧
      (sc_start MAXBUFF T (sc_pause (sc_start MAXBUFF S w0).2)).2.command =
        (cfg_command MAXBUFF (cfg_scene MAXBUFF T ws).1
          { (cfg_scene MAXBUFF T ws).2 with pos := (cfg_scene MAXBUFF T ws).1 }).2.command ∧
      (sc_start MAXBUFF T (sc_pause (sc_start MAXBUFF S w0).2)).2.calls =
        (cfg_command MAXBUFF (cfg_scene MAXBUFF T ws).1
          { (cfg_scene MAXBUFF T ws).2 with pos := (cfg_scene MAXBUFF T ws).1 }).2.calls) ∧
    (∀ (T : Nat) (wp ws : World), T ≠ S → wp = sc_pause (sc_start MAXBUFF S w0).2 →
      ws = { sc_skip { wp with pos := 0 } with scene := T } →
      (cfg_scene MAXBUFF T ws).1 ≠ 0 → (cfg_scene MAXBUFF T ws).2.opened = true →
      (cfg_scene MAXBUFF T ws).1 < (cfg_scene MAXBUFF T ws).2.file.length →
      (token (seek (cfg_scene MAXBUFF T ws).1
        { (cfg_scene MAXBUFF T ws).2 with pos := (cfg_scene MAXBUFF T ws).1 })).1 ≠ tok_rbrace →
      (sc_start MAXBUFF T wp).1 = true ∧
      (cfg_scene MAXBUFF T ws).1 < (sc_start MAXBUFF T wp).2.pos) ∧
    (∀ (T p : Nat) (l : literal) (rest : List Nat) (wp : World), T ≠ S →
      wp = sc_pause (sc_start MAXBUFF S w0).2 → l.wf → 0 ≤ l.value → l.value ≤ 3600000 →
      T < 10 → wp.opened = true → wp.config.mode.scenes_.getD T 0 = p → p ≠ 0 →
      wp.file.drop p = bytes "\x7b pause: " ++ l.chars.map Int.toNat ++ 59 :: rest →
      rest ≠ [] →
      (cfg_scene MAXBUFF T { sc_skip { wp with pos := 0 } with scene := T }).1 = p + 1 ∧
      (sc_start MAXBUFF T wp).1 = true ∧
      (sc_start MAXBUFF T wp).2.pos = p + 1 + (9 + l.chars.length) ∧
      (sc_start MAXBUFF T wp).2.command = pause_command ∧
      .sc_do_pause l.value.toNat ∈ (sc_start MAXBUFF T wp).2.calls) := by
  have hrun := sc_start_running MAXBUFF S w0 h
  have hres := sc_resume_running MAXBUFF S (sc_start MAXBUFF S w0).2 hrun.1 hrun.2.1 hrun.2.2
  have hsc : (sc_pause (sc_start MAXBUFF S w0).2).scene = S := by
    unfold sc_pause
    split_ifs
    · exact hrun.1
    · exact hrun.1
  refine ⟨hres.1, hres.2, ?_, ?_⟩
  · intro T wp ws hT hwp hws
    subst hwp hws
    exact sc_start_other_behind MAXBUFF T _ (by rw [hsc]; exact fun e => hT e.symm)
  · intro T p l rest wp hT hwp hl h1 h2 h10 ho hp hp0 hf hr
    subst hwp
    exact sc_start_other_pause MAXBUFF T p l rest _ hl h1 h2 h10
      (by rw [hsc]; exact fun e => hT e.symm) ho hp hp0 hf hr

set_option maxRecDepth 1000000 in
/-- Witness of C17 on the configuration `two_scenes_text`: scene 3 is started,
paused and started again; scene 3 is started and paused, then scene 4 is
started: `pos`
lies behind the offset that `cfg_scene(4)` returns; and scene 4 is started and
paused, then scene 3 is started, whose brace is at offset 23: `pos` becomes 36,
the offset behind `pause: 500;`, not 24. -/
theorem sc_start_continuity_witness :
    ((sc_start 1500 3 (parse 1500 (world_init two_scenes_text)).2).1 = true ∧
      (sc_start 1500 3 (sc_pause
        (sc_start 1500 3 (parse 1500 (world_init two_scenes_text)).2).2)).2.pos =
        (sc_start 1500 3 (parse 1500 (world_init two_scenes_text)).2).2.pos) ∧
    ((sc_start 1500 4 (sc_pause
        (sc_start 1500 3 (parse 1500 (world_init two_scenes_text)).2).2)).1 = true ∧
      (cfg_scene 1500 4 { sc_skip { sc_pause
        (sc_start 1500 3 (parse 1500 (world_init two_scenes_text)).2).2 with pos := 0 } with
        scene := 4 }).1 <
      (sc_start 1500 4 (sc_pause
        (sc_start 1500 3 (parse 1500 (world_init two_scenes_text)).2).2)).2.pos) ∧
    ((sc_start 1500 4 (parse 1500 (world_init two_scenes_text)).2).1 = true ∧
      (cfg_scene 1500 3 { sc_skip { sc_pause
        (sc_start 1500 4 (parse 1500 (world_init two_scenes_text)).2).2 with pos := 0 } with
        scene := 3 }).1 = 23 + 1 ∧
      (sc_start 1500 3 (sc_pause
        (sc_start 1500 4 (parse 1500 (world_init two_scenes_text)).2).2)).2.pos =
        23 + 1 + (9 + literal_500.chars.length) ∧
      (sc_start 1500 3 (sc_pause
        (sc_start 1500 4 (parse 1500 (world_init two_scenes_text)).2).2)).2.command =
        pause_command) :=
  ⟨⟨by decide,
    (sc_start_continuity 1500 3 (parse 1500 (world_init two_scenes_text)).2
      (by decide)).1.2.1⟩,
   (sc_start_continuity 1500 3 (parse 1500 (world_init two_scenes_text)).2
      (by decide)).2.2.1 4 _ _ (by decide) rfl rfl (by decide) (by decide) (by decide)
      (by decide),
   by decide,
   ((sc_start_continuity 1500 4 (parse 1500 (world_init two_scenes_text)).2
      (by decide)).2.2.2 3 23 literal_500
      (bytes " dim: & 10; \x7d scene 4 \x7b framerate: 25; pause: 100; \x7d \x7d") _
      (by decide) rfl literal_500_wf (by decide) (by decide) (by decide) (by decide)
      (by decide) (by decide) (by decide) (by decide)).1,
   ((sc_start_continuity 1500 4 (parse 1500 (world_init two_scenes_text)).2
      (by decide)).2.2.2 3 23 literal_500
      (bytes " dim: & 10; \x7d scene 4 \x7b framerate: 25; pause: 100; \x7d \x7d") _
      (by decide) rfl literal_500_wf (by decide) (by decide) (by decide) (by decide)
      (by decide) (by decide) (by decide) (by decide)).2.2.1,
   ((sc_start_continuity 1500 4 (parse 1500 (world_init two_scenes_text)).2
      (by decide)).2.2.2 3 23 literal_500
      (bytes " dim: & 10; \x7d scene 4 \x7b framerate: 25; pause: 100; \x7d \x7d") _
      (by decide) rfl literal_500_wf (by decide) (by decide) (by decide) (by decide)
      (by decide) (by decide) (by decide) (by decide)).2.2.2.1⟩

end Ipled
